import Mathlib

/-!
# libgrilio: request builder, parser and channel engine

A shallow embedding of `grilio_request.c`, `grilio_parser.c`, `grilio_queue.c`
and `grilio_channel.c`.

* Bytes are natural numbers below 256, byte buffers are lists of bytes.
* 32-bit words are natural numbers reduced modulo `2 ^ 32`.
* The RIL payload words are stored in host byte order
  (`GUINT32_TO_RIL(x)` is `x`), so every function touching them takes the
  host byte order as a parameter.
* User callbacks, signals and log lines are recorded in a trace.
-/

namespace Grilio

/-! ## Machine words and byte buffers -/

/-- Host byte order. -/
inductive Endian where
  | little
  | big
  deriving DecidableEq, Repr

/-- Store of a `guint16` in the given byte order. -/
def storeU16 (e : Endian) (v : Nat) : List Nat :=
  match e with
  | .little => [v % 256, v / 256 % 256]
  | .big => [v / 256 % 256, v % 256]

/-- Store of a `guint32` in the given byte order. -/
def storeU32 (e : Endian) (v : Nat) : List Nat :=
  match e with
  | .little => [v % 256, v / 256 % 256, v / 65536 % 256, v / 16777216 % 256]
  | .big => [v / 16777216 % 256, v / 65536 % 256, v / 256 % 256, v % 256]

/-- Load of a `guint16` at byte offset `off`. -/
def loadU16 (e : Endian) (buf : List Nat) (off : Nat) : Nat :=
  match e with
  | .little => buf.getD off 0 + 256 * buf.getD (off + 1) 0
  | .big => 256 * buf.getD off 0 + buf.getD (off + 1) 0

/-- Load of a `guint32` at byte offset `off`. -/
def loadU32 (e : Endian) (buf : List Nat) (off : Nat) : Nat :=
  match e with
  | .little =>
      buf.getD off 0 + 256 * buf.getD (off + 1) 0 + 65536 * buf.getD (off + 2) 0
        + 16777216 * buf.getD (off + 3) 0
  | .big =>
      16777216 * buf.getD off 0 + 65536 * buf.getD (off + 1) 0
        + 256 * buf.getD (off + 2) 0 + buf.getD (off + 3) 0

/-- Reinterpretation of a 32-bit word as `gint32`. -/
def toInt32 (v : Nat) : Int :=
  if v % 4294967296 < 2147483648 then (v % 4294967296 : Nat)
  else (v % 4294967296 : Nat) - 4294967296

/-- Conversion of a `gint32` to the `guint32` with the same bits. -/
def ofInt32 (x : Int) : Nat := (x % 4294967296).toNat

/-- The macro `G_ALIGN4` of `gutil_macros.h`: `(value + 3) & ~3`. -/
def G_ALIGN4 (value : Nat) : Nat := (value + 3) / 4 * 4

/-- The function `g_byte_array_set_size`: truncate, or grow the array. The
added bytes are unspecified in C and read as zero here; every caller below
overwrites them. -/
def g_byte_array_set_size (bytes : List Nat) (n : Nat) : List Nat :=
  if n ≤ bytes.length then bytes.take n else bytes ++ List.replicate (n - bytes.length) 0

/-- A `memcpy` of `src` into the array at byte offset `off`. The array owns
exactly the bytes `[0, len)`; a copy that does not fit in them is undefined in
C and is `none` here. -/
def memcpy (bytes : List Nat) (off : Nat) (src : List Nat) : Option (List Nat) :=
  if off + src.length ≤ bytes.length then
    some (bytes.take off ++ src ++ bytes.drop (off + src.length))
  else none

/-- A `memset` of `n` bytes `c` at byte offset `off`, bounded like `memcpy`. -/
def memset (bytes : List Nat) (off : Nat) (c : Nat) (n : Nat) : Option (List Nat) :=
  memcpy bytes off (List.replicate n c)

/-! ## Requests (`grilio_request.c`, `grilio_p.h`) -/

/-- The enumeration `GRILIO_REQUEST_STATUS`. -/
inductive GRILIO_REQUEST_STATUS where
  | INVALID
  | NEW
  | QUEUED
  | SENDING
  | SENT
  | CANCELLED
  | DONE
  deriving DecidableEq, Repr

def GRILIO_TIMEOUT_NONE : Int := 0
def GRILIO_TIMEOUT_DEFAULT : Int := -1
def GRILIO_REQUEST_HEADER_SIZE : Nat := 12
def GRILIO_STATUS_TIMEOUT : Int := -2
def GRILIO_STATUS_CANCELLED : Int := -1
def GRILIO_STATUS_OK : Int := 0

/-- The structure `struct grilio_request`. Requests live in a heap and are
named by their index in it; `queue` is the index of the owning queue. The
links `next` and `qnext` are carried by the lists of the channel and of the
queues. `response` and `destroy` say whether the callback is set. -/
structure GRilIoRequest where
  refcount : Int
  code : Nat
  id : Nat
  status : GRILIO_REQUEST_STATUS
  bytes : List Nat
  queue : Option Nat
  response : Bool
  destroy : Bool
  timeout : Int
  deadline : Int
  deriving DecidableEq, Repr

/-- The function `grilio_request_sized_new`; the size only reserves capacity. -/
def grilio_request_sized_new (_size : Nat) : GRilIoRequest :=
  { refcount := 1
    code := 0
    id := 0
    status := .NEW
    bytes := g_byte_array_set_size [] GRILIO_REQUEST_HEADER_SIZE
    queue := none
    response := false
    destroy := false
    timeout := GRILIO_TIMEOUT_DEFAULT
    deadline := 0 }

/-- The function `grilio_request_new`. -/
def grilio_request_new : GRilIoRequest := grilio_request_sized_new 0

/-- The function `grilio_request_append_byte`. -/
def grilio_request_append_byte (req : GRilIoRequest) (value : Nat) : GRilIoRequest :=
  let bytes := g_byte_array_set_size req.bytes (req.bytes.length + 1)
  { req with bytes := bytes.set (bytes.length - 1) (value % 256) }

/-- The function `grilio_request_append_bytes`; `data` is `none` for a null
pointer. -/
def grilio_request_append_bytes (req : GRilIoRequest) (data : Option (List Nat)) (len : Nat) :
    GRilIoRequest :=
  match data with
  | some d =>
      if 0 < len then
        let old_size := req.bytes.length
        let bytes := g_byte_array_set_size req.bytes (old_size + len)
        { req with bytes := (memcpy bytes old_size (d.take len)).getD bytes }
      else req
  | none => req

/-- The function `grilio_request_append_int32`. -/
def grilio_request_append_int32 (e : Endian) (req : GRilIoRequest) (value : Nat) :
    GRilIoRequest :=
  let bytes := g_byte_array_set_size req.bytes (req.bytes.length + 4)
  { req with bytes := (memcpy bytes (bytes.length - 4) (storeU32 e value)).getD bytes }

/-- The function `grilio_request_data`: the payload after the header room. -/
def grilio_request_data (req : GRilIoRequest) : List Nat :=
  req.bytes.drop GRILIO_REQUEST_HEADER_SIZE

/-- The function `grilio_request_size`; the array length is itself a `guint`. -/
def grilio_request_size (req : GRilIoRequest) : Nat :=
  req.bytes.length - GRILIO_REQUEST_HEADER_SIZE

/-- The function `grilio_request_status` for a non-null request. -/
def grilio_request_status (req : GRilIoRequest) : GRILIO_REQUEST_STATUS := req.status

/-- The function `grilio_request_id` for a non-null request. -/
def grilio_request_id (req : GRilIoRequest) : Nat := req.id

/-- The function `grilio_request_set_timeout`. -/
def grilio_request_set_timeout (req : GRilIoRequest) (milliseconds : Int) : GRilIoRequest :=
  { req with timeout := milliseconds }

/-! ## Parser (`grilio_parser.c`) -/

/-- The structure `GRilIoParserPriv`: `data` is the buffer the two pointers
point into, `ptr` and `endp` are byte offsets in it. -/
structure GRilIoParser where
  data : List Nat
  ptr : Nat
  endp : Nat
  deriving DecidableEq, Repr

/-- The function `grilio_parser_init`. -/
def grilio_parser_init (data : List Nat) (len : Nat) : GRilIoParser :=
  { data := data, ptr := 0, endp := 0 + len }

/-- The function `grilio_parser_at_end`. -/
def grilio_parser_at_end (p : GRilIoParser) : Bool := decide (p.ptr ≥ p.endp)

/-- The function `grilio_parser_get_byte`: the flag returned, the value stored
through the output pointer, and the parser afterwards. -/
def grilio_parser_get_byte (p : GRilIoParser) : Bool × Nat × GRilIoParser :=
  if p.ptr < p.endp then (true, p.data.getD p.ptr 0, { p with ptr := p.ptr + 1 })
  else (false, 0, p)

/-- The function `grilio_parser_get_uint32`. -/
def grilio_parser_get_uint32 (e : Endian) (p : GRilIoParser) : Bool × Nat × GRilIoParser :=
  if p.ptr + 4 ≤ p.endp then (true, loadU32 e p.data p.ptr, { p with ptr := p.ptr + 4 })
  else (false, 0, p)

/-- The function `grilio_parser_get_int32`: the same word, seen as `gint32`. -/
def grilio_parser_get_int32 (e : Endian) (p : GRilIoParser) : Bool × Int × GRilIoParser :=
  let r := grilio_parser_get_uint32 e p
  (r.1, toInt32 r.2.1, r.2.2)

/-! ## Strings

A C string (`const char*`, valid UTF-8) is a list of Unicode scalar values,
`none` for the null pointer. The GLib conversions are not part of the library;
they are modelled after their documentation. -/

/-- The UTF-16 code units of one scalar value. -/
def utf16Units (c : Char) : List Nat :=
  if c.toNat < 65536 then [c.toNat]
  else [55296 + (c.toNat - 65536) / 1024, 56320 + (c.toNat - 65536) % 1024]

/-- The function `g_utf8_strlen` on valid UTF-8: the number of characters. -/
def g_utf8_strlen (utf8 : List Char) : Nat := utf8.length

/-- The function `strlen`: the number of UTF-8 bytes. -/
def strlen (utf8 : List Char) : Nat := (utf8.map Char.utf8Size).sum

/-- The function `g_utf8_to_utf16` on valid UTF-8: the code units, without
the terminating zero that GLib adds after them. -/
def g_utf8_to_utf16 (utf8 : List Char) : Option (List Nat) :=
  some (utf8.flatMap utf16Units)

/-- The function `g_utf16_to_utf8` on the code units it is given: conversion
stops at a zero unit and fails (null) on an unpaired surrogate. -/
def g_utf16_to_utf8 : List Nat → Option (List Char)
  | [] => some []
  | [u] =>
      if u = 0 then some []
      else if 55296 ≤ u ∧ u < 57344 then none
      else some [Char.ofNat u]
  | u :: l :: rest =>
      if u = 0 then some []
      else if 55296 ≤ u ∧ u < 56320 then
        if 56320 ≤ l ∧ l < 57344 then
          (g_utf16_to_utf8 rest).map
            (fun s => Char.ofNat (65536 + (u - 55296) * 1024 + (l - 56320)) :: s)
        else none
      else if 56320 ≤ u ∧ u < 57344 then none
      else (g_utf16_to_utf8 (l :: rest)).map (fun s => Char.ofNat u :: s)

/-- The code units stored natively at byte offset `off`, `n` of them. -/
def loadU16s (e : Endian) (buf : List Nat) (off : Nat) : Nat → List Nat
  | 0 => []
  | n + 1 => loadU16 e buf off :: loadU16s e buf (off + 2) n

/-- The function `grilio_request_append_utf8_chars` called with
`num_bytes = strlen(utf8)`, which is what `grilio_request_append_utf8` does.
The result is `none` when a `memcpy` or `memset` leaves the byte array. -/
def grilio_request_append_utf8 (e : Endian) (req : GRilIoRequest) (utf8 : Option (List Char)) :
    Option GRilIoRequest :=
  let old_size := req.bytes.length
  let num_bytes := match utf8 with
    | some s => strlen s
    | none => 0
  match utf8 with
  | some s =>
      if 0 < num_bytes then
        let len := g_utf8_strlen s
        let padded_len := G_ALIGN4 ((len + 1) * 2)
        -- Preallocate space
        let bytes0 := g_byte_array_set_size req.bytes (old_size + padded_len + 4)
        let len_off := old_size
        let utf16_off := old_size + 4
        let conv : Option (Nat × Nat × List Nat) :=
          if 0 < len then
            match g_utf8_to_utf16 s with
            | some utf16 =>
                let len1 := utf16.length
                (memcpy bytes0 utf16_off ((utf16 ++ [0]).flatMap (storeU16 e))).map
                  (fun b => (len1, G_ALIGN4 ((len1 + 1) * 2), b))
            | none => some (len, padded_len, bytes0)
          else some (len, padded_len, bytes0)
        match conv with
        | none => none
        | some (len1, padded_len1, bytes1) =>
            -- Actual length
            match memcpy bytes1 len_off (storeU32 e len1) with
            | none => none
            | some bytes2 =>
                -- Zero padding
                let bytes3 :=
                  if padded_len1 - (len1 + 1) * 2 ≠ 0 then
                    memset bytes2 (utf16_off + (len1 + 1) * 2) 0 (padded_len1 - (len1 + 1) * 2)
                  else some bytes2
                -- Correct the packet size if necessary
                bytes3.map (fun b =>
                  { req with bytes := g_byte_array_set_size b (old_size + padded_len1 + 4) })
      else
        -- Empty string
        let bytes0 := g_byte_array_set_size req.bytes (old_size + 8)
        (memcpy bytes0 old_size
            (storeU16 e 0 ++ storeU16 e 0 ++ storeU16 e 0 ++ storeU16 e 65535)).map
          (fun b => { req with bytes := b })
  | none =>
      -- NULL string
      some (grilio_request_append_int32 e req (ofInt32 (-1)))

/-- The function `grilio_parser_get_utf8`: the string returned (`none` for
null) and the parser afterwards. The length word is a `gint32`; the padded
length is a `guint32`. -/
def grilio_parser_get_utf8 (e : Endian) (p : GRilIoParser) : Option (List Char) × GRilIoParser :=
  if p.ptr + 4 ≤ p.endp then
    let len := toInt32 (loadU32 e p.data p.ptr)
    if len = -1 then
      -- NULL string
      (none, { p with ptr := p.ptr + 4 })
    else if 0 ≤ len then
      let padded_len := G_ALIGN4 (((len.toNat + 1) * 2) % 4294967296) % 4294967296
      if p.ptr + padded_len + 4 ≤ p.endp then
        (g_utf16_to_utf8 (loadU16s e p.data (p.ptr + 4) len.toNat),
          { p with ptr := p.ptr + padded_len + 4 })
      else (none, p)
    else (none, p)
  else (none, p)

/-- The function `grilio_parser_skip_string`. -/
def grilio_parser_skip_string (e : Endian) (p : GRilIoParser) : Bool × GRilIoParser :=
  if p.ptr + 4 ≤ p.endp then
    let len := toInt32 (loadU32 e p.data p.ptr)
    if len = -1 then
      -- NULL string
      (true, { p with ptr := p.ptr + 4 })
    else if 0 ≤ len then
      let padded_len := G_ALIGN4 (((len.toNat + 1) * 2) % 4294967296) % 4294967296
      if p.ptr + padded_len + 4 ≤ p.endp then
        (true, { p with ptr := p.ptr + padded_len + 4 })
      else (false, p)
    else (false, p)
  else (false, p)

/-! ## Sequences of primitive values -/

/-- A primitive value handed to the request builder. -/
inductive Prim where
  | byte (v : Nat)
  | i32 (x : Int)
  | u32 (v : Nat)
  deriving DecidableEq, Repr

/-- The value has the C type of its kind (`guchar`, `gint32`, `guint32`). -/
def Prim.wf : Prim → Prop
  | .byte v => v < 256
  | .i32 x => -2147483648 ≤ x ∧ x < 2147483648
  | .u32 v => v < 4294967296

instance (x : Prim) : Decidable x.wf := by
  cases x <;> unfold Prim.wf <;> infer_instance

/-- Append one primitive: `grilio_request_append_byte` for a byte,
`grilio_request_append_int32` for both word kinds. -/
def appendPrim (e : Endian) (req : GRilIoRequest) : Prim → GRilIoRequest
  | .byte v => grilio_request_append_byte req v
  | .i32 x => grilio_request_append_int32 e req (ofInt32 x)
  | .u32 v => grilio_request_append_int32 e req v

/-- Append the primitives in order. -/
def appendPrims (e : Endian) (req : GRilIoRequest) (xs : List Prim) : GRilIoRequest :=
  xs.foldl (appendPrim e) req

/-- Parse one primitive with the getter matching the kind of `k`
(`grilio_parser_get_byte`, `grilio_parser_get_int32`,
`grilio_parser_get_uint32`); `none` when the getter returns FALSE. -/
def parsePrim (e : Endian) (p : GRilIoParser) (k : Prim) : Option (Prim × GRilIoParser) :=
  match k with
  | .byte _ =>
      let r := grilio_parser_get_byte p
      if r.1 then some (.byte r.2.1, r.2.2) else none
  | .i32 _ =>
      let r := grilio_parser_get_int32 e p
      if r.1 then some (.i32 r.2.1, r.2.2) else none
  | .u32 _ =>
      let r := grilio_parser_get_uint32 e p
      if r.1 then some (.u32 r.2.1, r.2.2) else none

/-- Parse a sequence of primitives whose kinds are those of `ks`. -/
def parsePrims (e : Endian) (p : GRilIoParser) : List Prim → Option (List Prim × GRilIoParser)
  | [] => some ([], p)
  | k :: ks =>
      match parsePrim e p k with
      | none => none
      | some (v, p1) =>
          match parsePrims e p1 ks with
          | none => none
          | some (vs, p2) => some (v :: vs, p2)

/-- The bytes one primitive adds to the payload. -/
def encodePrim (e : Endian) : Prim → List Nat
  | .byte v => [v % 256]
  | .i32 x => storeU32 e (ofInt32 x)
  | .u32 v => storeU32 e v

/-! ## Sequences of strings -/

/-- Append the strings in order with `grilio_request_append_utf8`. -/
def appendUtf8s (e : Endian) (req : GRilIoRequest) :
    List (Option (List Char)) → Option GRilIoRequest
  | [] => some req
  | s :: ss => (grilio_request_append_utf8 e req s).bind (fun r => appendUtf8s e r ss)

/-- Call `grilio_parser_get_utf8` the given number of times. -/
def getUtf8s (e : Endian) (p : GRilIoParser) : Nat → List (Option (List Char)) × GRilIoParser
  | 0 => ([], p)
  | n + 1 =>
      let r := grilio_parser_get_utf8 e p
      let rs := getUtf8s e r.2 n
      (r.1 :: rs.1, rs.2)

/-- A string the builder accepts as a C string of characters of the Basic
Multilingual Plane: no NUL, every character below U+10000, and a length that
fits the `gint32` length word with its padding. -/
def bmpString (s : Option (List Char)) : Prop :=
  match s with
  | none => True
  | some cs => (∀ c ∈ cs, c.toNat ≠ 0 ∧ c.toNat < 65536) ∧ cs.length < 1073741824

/-- The wire form of a string: the length word, the code units with their
terminator, and the padding. -/
def encodeUtf8 (e : Endian) : Option (List Char) → List Nat
  | none => storeU32 e 4294967295
  | some [] => storeU32 e 0 ++ storeU16 e 0 ++ storeU16 e 65535
  | some (c :: cs) =>
      storeU32 e (c :: cs).length
        ++ (((c :: cs).map Char.toNat) ++ [0]).flatMap (storeU16 e)
        ++ List.replicate (G_ALIGN4 (((c :: cs).length + 1) * 2) - ((c :: cs).length + 1) * 2) 0

/-! ## The channel (`grilio_channel.c`) and the queues (`grilio_queue.c`) -/

def GRILIO_MAX_PACKET_LEN : Nat := 32768
def GRILIO_SUB_LEN : Nat := 4
def RIL_UNSOL_RIL_CONNECTED : Nat := 1034

/-- The enumeration `GRILIO_PACKET_TYPE`. -/
inductive GRILIO_PACKET_TYPE where
  | REQ
  | RESP
  | UNSOL
  deriving DecidableEq, Repr

/-- The enumeration `GRILIO_ERROR_TYPE`. -/
inductive GRILIO_ERROR_TYPE where
  | READ
  | WRITE
  deriving DecidableEq, Repr

/-- What the engine does that its user can observe, in order: callbacks,
signals, calls of `grilio_channel_log`, and the debug lines about a request
(recorded with the request they are about). -/
inductive Event where
  /-- The call `req->response(self, status, data, len, req->user_data)`. -/
  | response (req : Nat) (status : Int) (data : List Nat)
  /-- The call `req->destroy(req->user_data)`. -/
  | destroy (req : Nat)
  /-- The end of `grilio_request_free`: the request is released. -/
  | freed (req : Nat)
  /-- The call `grilio_channel_log(self, type, id, code, data, len)` and the
  ids of the loggers it reaches, in order. -/
  | log (loggers : List Nat) (type : GRILIO_PACKET_TYPE) (id code : Nat) (data : List Nat)
  /-- The signal `SIGNAL_CONNECTED`. -/
  | connected
  /-- The signal `SIGNAL_UNSOL_EVENT` with its detail `code`. -/
  | unsol_event (code : Nat) (data : List Nat)
  /-- The signal `SIGNAL_ERROR`; `invalid_data` for `G_IO_ERROR_INVALID_DATA`. -/
  | error (type : GRILIO_ERROR_TYPE) (invalid_data : Bool)
  /-- The signal `SIGNAL_EOF`. -/
  | eof
  /-- The line `Queued request %u`. -/
  | queued (req : Nat)
  /-- The line `Sending request %u`. -/
  | sending (req : Nat)
  /-- The line `Cancelled request %u`. -/
  | cancelled (req : Nat)
  /-- The line `Failed to parse RIL_UNSOL_RIL_CONNECTED`. -/
  | connect_failed
  /-- The line `Invalid logger id %u`. -/
  | invalid_logger (id : Nat)
  deriving DecidableEq, Repr

/-- A pending GLib timer source: `g_idle_add` or `g_timeout_add(interval)`. -/
inductive Timer where
  | idle
  | timeout (interval : Nat)
  deriving DecidableEq, Repr

/-- The outcome of one `g_io_channel_write_chars`: an error, or the number of
bytes the socket takes at most (the call writes no more than it is given). -/
inductive IoWrite where
  | error
  | written (n : Nat)
  deriving DecidableEq, Repr

/-- The outcome of one `g_io_channel_read_chars`: an error, end of file, or
the number of bytes that have arrived so far (the call reads no more than it
asks for). -/
inductive IoRead where
  | error
  | eof
  | avail (n : Nat)
  deriving DecidableEq, Repr

/-- The structure `struct grilio_queue`; the channel is the one channel of
the world. `reqs` is the list from `first_req` to `last_req` through `qnext`. -/
structure GRilIoQueue where
  refcount : Int
  reqs : List Nat
  deriving DecidableEq, Repr

/-- The structures `struct grilio_channel` and `struct grilio_channel_priv`.
Watches and the I/O channel are flags (set or zero); `fifo` is the list from
`first_req` to `last_req` through `next`; `resp_table` is the hash table from
request id to request, in insertion order; `log_list` holds the logger ids. -/
structure GRilIoChannel where
  connected : Bool
  ril_version : Nat
  io_channel : Bool
  read_watch_id : Bool
  write_watch_id : Bool
  last_req_id : Nat
  last_logger_id : Nat
  resp_table : List (Nat × Nat)
  log_list : List Nat
  timeout : Int
  timeout_id : Option Timer
  next_deadline : Int
  sub : List Nat
  sub_pos : Nat
  fifo : List Nat
  send_pos : Nat
  send_req : Option Nat
  read_len_buf : List Nat
  read_len_pos : Nat
  read_len : Nat
  read_buf_pos : Nat
  read_buf_alloc : Nat
  read_buf : List Nat
  /-- The reference count of the object (`g_object_ref`, `g_object_unref`). -/
  refcount : Nat
  deriving DecidableEq, Repr

/-- The program state and what it has done to its environment: the heap of
requests (a request is named by its index), the queues, the channel, the
trace of events, the bytes the socket has taken (`wire`), the outcomes of the
coming socket writes, and the monotonic clock in microseconds. User callbacks
are recorded in the trace and do not call back into the engine. -/
structure World where
  reqs : List GRilIoRequest
  queues : List GRilIoQueue
  chan : GRilIoChannel
  trace : List Event
  wire : List Nat
  writes : List IoWrite
  now : Int
  deriving DecidableEq, Repr

/-- The receiving side of the socket: the bytes the peer has sent and the
channel has not read yet, and the outcomes of the coming socket reads. -/
structure Input where
  inbox : List Nat
  reads : List IoRead
  deriving DecidableEq, Repr

instance : Inhabited GRilIoRequest := ⟨grilio_request_new⟩

instance : Inhabited GRilIoQueue := ⟨{ refcount := 0, reqs := [] }⟩

/-- The request behind a handle. -/
def World.req (w : World) (h : Nat) : GRilIoRequest := w.reqs.getD h default

/-- Store into the request behind a handle. -/
def World.setReq (w : World) (h : Nat) (r : GRilIoRequest) : World :=
  { w with reqs := w.reqs.set h r }

/-- The queue behind a handle. -/
def World.queue (w : World) (q : Nat) : GRilIoQueue := w.queues.getD q default

/-- Store into the queue behind a handle. -/
def World.setQueue (w : World) (q : Nat) (x : GRilIoQueue) : World :=
  { w with queues := w.queues.set q x }

/-- Record an event. -/
def World.emit (w : World) (ev : Event) : World := { w with trace := w.trace ++ [ev] }

/-- Write into a buffer where the bytes are known to exist. -/
def poke (bytes : List Nat) (off : Nat) (src : List Nat) : List Nat :=
  (memcpy bytes off src).getD bytes

/-- The function `grilio_request_ref`. -/
def grilio_request_ref (w : World) (h : Nat) : World :=
  w.setReq h { w.req h with refcount := (w.req h).refcount + 1 }

/-- The function `grilio_request_free`. -/
def grilio_request_free (w : World) (h : Nat) : World :=
  let w1 := if (w.req h).destroy then w.emit (.destroy h) else w
  w1.emit (.freed h)

/-- The function `grilio_request_unref`. -/
def grilio_request_unref (w : World) (h : Nat) : World :=
  let w1 := w.setReq h { w.req h with refcount := (w.req h).refcount - 1 }
  if (w1.req h).refcount = 0 then grilio_request_free w1 h else w1

/-- The function `g_hash_table_lookup` on the response table. -/
def g_hash_table_lookup (t : List (Nat × Nat)) (key : Nat) : Option Nat :=
  (t.find? (fun kv => kv.1 = key)).map (fun kv => kv.2)

/-- The function `g_hash_table_steal`: drop the entry, keep the value. -/
def g_hash_table_steal (w : World) (key : Nat) : World :=
  { w with chan := { w.chan with
      resp_table := w.chan.resp_table.filter (fun kv => kv.1 ≠ key) } }

/-- The function `g_hash_table_remove`: drop the entry and release the value
with `grilio_request_unref_proc`; TRUE when the key was there. -/
def g_hash_table_remove (w : World) (key : Nat) : Bool × World :=
  match g_hash_table_lookup w.chan.resp_table key with
  | some h => (true, grilio_request_unref (g_hash_table_steal w key) h)
  | none => (false, w)

/-- The function `g_hash_table_insert`: a value already stored under the key
is released and replaced. -/
def g_hash_table_insert (w : World) (key : Nat) (value : Nat) : World :=
  match g_hash_table_lookup w.chan.resp_table key with
  | some old =>
      let w1 := { w with chan := { w.chan with
        resp_table := w.chan.resp_table.map
          (fun kv => if kv.1 = key then (key, value) else kv) } }
      grilio_request_unref w1 old
  | none =>
      { w with chan := { w.chan with resp_table := w.chan.resp_table ++ [(key, value)] } }

/-- The function `grilio_queue_add`. -/
def grilio_queue_add (w : World) (queue : Nat) (req : Nat) : World :=
  let w1 := w.setReq req { w.req req with queue := some queue }
  w1.setQueue queue { w1.queue queue with reqs := (w1.queue queue).reqs ++ [req] }

/-- The function `grilio_queue_remove`. -/
def grilio_queue_remove (w : World) (req : Nat) : World :=
  match (w.req req).queue with
  | some queue =>
      if req ∈ (w.queue queue).reqs then
        let w1 := w.setQueue queue
          { w.queue queue with reqs := (w.queue queue).reqs.erase req }
        w1.setReq req { w1.req req with queue := none }
      else w
  | none => w

/-- The function `grilio_channel_log`. -/
def grilio_channel_log (w : World) (type : GRILIO_PACKET_TYPE) (id code : Nat)
    (data : List Nat) : World :=
  w.emit (.log w.chan.log_list type id code data)

/-- The function `grilio_channel_queue_request`. -/
def grilio_channel_queue_request (w : World) (req : Nat) : World :=
  let w1 := w.setReq req { w.req req with status := .QUEUED }
  let w2 := { w1 with chan := { w1.chan with fifo := w1.chan.fifo ++ [req] } }
  w2.emit (.queued req)

/-- The function `grilio_channel_dequeue_request`. -/
def grilio_channel_dequeue_request (w : World) : Option Nat × World :=
  match w.chan.fifo with
  | req :: rest =>
      let w1 := { w with chan := { w.chan with fifo := rest } }
      let w2 := w1.setReq req { w1.req req with status := .SENDING }
      (some req, w2.emit (.sending req))
  | [] => (none, w)

/-- The function `grilio_channel_shutdown` on a non-null channel. -/
def grilio_channel_shutdown (w : World) (_flush : Bool) : World :=
  { w with chan := { w.chan with
      read_watch_id := false
      write_watch_id := false
      io_channel := false
      connected := false
      ril_version := 0 } }

/-- The function `grilio_channel_handle_error`. -/
def grilio_channel_handle_error (w : World) (type : GRILIO_ERROR_TYPE)
    (invalid_data : Bool) : World :=
  let w1 := match type with
    | .READ => { w with chan := { w.chan with read_watch_id := false } }
    | .WRITE => { w with chan := { w.chan with write_watch_id := false } }
  (grilio_channel_shutdown w1 false).emit (.error type invalid_data)

/-- The function `grilio_channel_handle_eof`. -/
def grilio_channel_handle_eof (w : World) : World :=
  (grilio_channel_shutdown w false).emit .eof

/-- The loop of `grilio_channel_reset_timeout`: the earliest non-zero
deadline in the response table, zero when there is none. -/
def earliest_deadline (w : World) : Int :=
  w.chan.resp_table.foldl
    (fun deadline kv =>
      if (w.req kv.2).deadline ≠ 0 ∧ (deadline = 0 ∨ deadline > (w.req kv.2).deadline)
      then (w.req kv.2).deadline else deadline) 0

/-- The function `grilio_channel_reset_timeout`. -/
def grilio_channel_reset_timeout (w : World) : World :=
  let now := w.now
  let deadline := earliest_deadline w
  if deadline ≠ 0 then
    if w.chan.next_deadline = 0 ∨ w.chan.next_deadline > deadline then
      let timer : Timer :=
        if deadline ≤ now then .idle
        else .timeout ((((deadline - now) + 999) / 1000) % 4294967296).toNat
      { w with chan := { w.chan with timeout_id := some timer, next_deadline := deadline } }
    else w
  else if w.chan.timeout_id.isSome then
    { w with chan := { w.chan with timeout_id := none, next_deadline := 0 } }
  else w

/-- The second loop of `grilio_channel_timeout`, over the expired requests. -/
def grilio_channel_timeout_expired (w : World) : List Nat → World
  | [] => w
  | req :: expired =>
      let r := g_hash_table_remove w (w.req req).id
      let w1 :=
        if r.1 then
          (grilio_queue_remove r.2 req).emit (.response req GRILIO_STATUS_TIMEOUT [])
        else r.2
      grilio_channel_timeout_expired (grilio_request_unref w1 req) expired

/-- The function `grilio_channel_timeout`, the timer callback. The expired
requests are chained by prepending, so they are visited in the reverse of the
table order. -/
def grilio_channel_timeout (w : World) : World :=
  let now := w.now
  let w1 := { w with chan := { w.chan with timeout_id := none, next_deadline := 0 } }
  let hit := (w1.chan.resp_table.map (fun kv => kv.2)).filter
    (fun req => decide ((w1.req req).deadline ≠ 0 ∧ (w1.req req).deadline < now))
  let w2 := hit.foldl grilio_request_ref w1
  let w3 := grilio_channel_timeout_expired w2 hit.reverse
  grilio_channel_reset_timeout w3

/-- One `g_io_channel_write_chars` of `buf`: the outcome is taken from the
environment (nothing can be written when none is left); the bytes taken go
to the wire. Returns the number of bytes written, `none` on error. -/
def g_io_channel_write_chars (w : World) (buf : List Nat) : Option Nat × World :=
  match w.writes with
  | [] => (some 0, w)
  | .error :: rest => (none, { w with writes := rest })
  | .written n :: rest =>
      (some (min n buf.length),
        { w with writes := rest, wire := w.wire ++ buf.take (min n buf.length) })

/-- The part of `grilio_channel_write` after the request has been sent. -/
def grilio_channel_write_sent (w : World) (req : Nat) : Bool × World :=
  let w1 :=
    if (w.req req).status = .SENDING then w.setReq req { w.req req with status := .SENT }
    else w
  let w2 := grilio_channel_log w1 .REQ (w1.req req).id (w1.req req).code
    ((w1.req req).bytes.drop 4)
  -- If there is no response callback, remove it from the queue as well
  let w3 :=
    if ¬ (w2.req req).response then grilio_queue_remove w2 req
    else if (w2.req req).timeout > 0 ∨
        (w2.chan.timeout > 0 ∧ (w2.req req).timeout = GRILIO_TIMEOUT_DEFAULT) then
      -- This request has a timeout
      let t := if (w2.req req).timeout = GRILIO_TIMEOUT_DEFAULT then w2.chan.timeout
        else (w2.req req).timeout
      let w2a := w2.setReq req
        { w2.req req with deadline := w2.now + toInt32 ((t * 1000) % 4294967296).toNat }
      if w2a.chan.next_deadline = 0 ∨ (w2a.req req).deadline < w2a.chan.next_deadline then
        grilio_channel_reset_timeout w2a
      else w2a
    else w2
  let w4 := grilio_request_unref w3 req
  let w5 := { w4 with chan := { w4.chan with send_req := none } }
  -- Remove the watch if there are no more requests
  (!w5.chan.fifo.isEmpty, w5)

/-- In `grilio_channel_write`, "Prepare the next request for sending": the
header goes into the first twelve bytes of the buffer, the request becomes
the one in transmission. -/
def grilio_channel_write_prepare (e : Endian) (w : World) (req : Nat) : World :=
  let bytes := (w.req req).bytes
  let b0 := poke bytes 0 (storeU32 .big ((bytes.length - 4) % 4294967296))
  let b1 := poke b0 4 (storeU32 e (w.req req).code)
  let b2 := poke b1 8 (storeU32 e (w.req req).id)
  let w1 := w.setReq req { w.req req with bytes := b2 }
  { w1 with chan := { w1.chan with send_req := some req, send_pos := 0 } }

/-- In `grilio_channel_write`, the request to work on: the one in
transmission, else the next of the send queue; `none` when there is nothing
to send. -/
def grilio_channel_write_pick (e : Endian) (w : World) : Option (Nat × World) :=
  match w.chan.send_req with
  | some req => some (req, w)
  | none =>
      match grilio_channel_dequeue_request w with
      | (some req, w1) => some (req, grilio_channel_write_prepare e w1 req)
      | (none, _) => none

/-- In `grilio_channel_write`, the write of what is left of the request. -/
def grilio_channel_write_data (w : World) (req : Nat) : Bool × World :=
  if w.chan.send_pos < (w.req req).bytes.length then
    match g_io_channel_write_chars w ((w.req req).bytes.drop w.chan.send_pos) with
    | (none, w1) => (false, grilio_channel_handle_error w1 .WRITE false)
    | (some n, w1) =>
        let w2 := { w1 with chan := { w1.chan with send_pos := w1.chan.send_pos + n } }
        if w2.chan.send_pos < (w2.req req).bytes.length then
          -- Will have to wait
          (true, w2)
        else grilio_channel_write_sent w2 req
  else grilio_channel_write_sent w req

/-- The part of `grilio_channel_write` after the subscription. -/
def grilio_channel_write_request (e : Endian) (w : World) : Bool × World :=
  match grilio_channel_write_pick e w with
  | none =>
      -- There is nothing to send, remove the watch
      (false, w)
  | some (req, w1) => grilio_channel_write_data w1 req

/-- The function `grilio_channel_write`; the flag is its return value. -/
def grilio_channel_write (e : Endian) (w : World) : Bool × World :=
  if w.chan.sub_pos < GRILIO_SUB_LEN then
    match g_io_channel_write_chars w
        ((w.chan.sub.drop w.chan.sub_pos).take (GRILIO_SUB_LEN - w.chan.sub_pos)) with
    | (none, w1) => (false, grilio_channel_handle_error w1 .WRITE false)
    | (some n, w1) =>
        let w2 := { w1 with chan := { w1.chan with sub_pos := w1.chan.sub_pos + n } }
        if w2.chan.sub_pos < GRILIO_SUB_LEN then
          -- Will have to wait
          (true, w2)
        else grilio_channel_write_request e w2
  else grilio_channel_write_request e w

/-- The function `grilio_channel_schedule_write`. -/
def grilio_channel_schedule_write (e : Endian) (w : World) : World :=
  if w.chan.connected ∧ w.chan.io_channel ∧ ¬ w.chan.write_watch_id then
    let r := grilio_channel_write e w
    if r.1 then { r.2 with chan := { r.2.chan with write_watch_id := true } } else r.2
  else w

/-- The function `grilio_channel_connected`. -/
def grilio_channel_connected (e : Endian) (w : World) : World :=
  if w.chan.read_len > 8 then
    let parser := grilio_parser_init (w.chan.read_buf.drop 8) (w.chan.read_len - 8)
    let r1 := grilio_parser_get_uint32 e parser
    if r1.1 ∧ r1.2.1 = 1 ∧ (grilio_parser_get_uint32 e r1.2.2).1 then
      let w1 := { w with chan := { w.chan with
        ril_version := (grilio_parser_get_uint32 e r1.2.2).2.1
        connected := true } }
      grilio_channel_schedule_write e (w1.emit .connected)
    else w.emit .connect_failed
  else w

/-- The function `grilio_channel_handle_packet`. -/
def grilio_channel_handle_packet (e : Endian) (w : World) : Bool × World :=
  let read_buf := w.chan.read_buf
  let read_len := w.chan.read_len
  let malformed : Bool × World := (false, grilio_channel_handle_error w .READ true)
  if read_len ≥ 8 then
    if loadU32 e read_buf 0 ≠ 0 then
      -- RIL Unsolicited Event
      let code := loadU32 e read_buf 4
      -- Loggers get the whole thing except the length
      let w1 := grilio_channel_log w .UNSOL 0 code (read_buf.take read_len)
      -- Handle RIL_UNSOL_RIL_CONNECTED
      let w2 := if code = RIL_UNSOL_RIL_CONNECTED then grilio_channel_connected e w1 else w1
      -- Event handler gets event code and the data separately
      (true, w2.emit (.unsol_event code ((read_buf.drop 8).take (read_len - 8))))
    else if read_len ≥ 12 then
      -- RIL Solicited Response
      let id := loadU32 e read_buf 4
      let status := loadU32 e read_buf 8
      let req := g_hash_table_lookup w.chan.resp_table id
      -- Logger receives everything except the length
      let w1 := grilio_channel_log w .RESP id status (read_buf.take read_len)
      match req with
      | some req =>
          -- We have a response callback
          let w2 := grilio_request_ref w1 req
          let w3 := grilio_queue_remove w2 req
          let w4 := (g_hash_table_remove w3 id).2
          let w5 := w4.emit
            (.response req (toInt32 status) ((read_buf.drop 12).take (read_len - 12)))
          (true, grilio_request_unref w5 req)
      | none => (true, w1)
    else malformed
  else malformed

/-- One `g_io_channel_read_chars` asking for `count` bytes, inside
`grilio_channel_read_chars`: the outcome is taken from the environment (no
byte has arrived when none is left); the bytes read leave the inbox. Returns
the bytes read, `none` after an error or end of file has been handled. -/
def grilio_channel_read_chars (w : World) (inp : Input) (count : Nat) :
    Option (List Nat) × World × Input :=
  match inp.reads with
  | [] => (some [], w, inp)
  | .error :: rest =>
      (none, grilio_channel_handle_error w .READ false, { inp with reads := rest })
  | .eof :: rest => (none, grilio_channel_handle_eof w, { inp with reads := rest })
  | .avail n :: rest =>
      (some (inp.inbox.take (min n count)), w,
        { reads := rest, inbox := inp.inbox.drop (min n count) })

/-- The packet body part of `grilio_channel_read`. -/
def grilio_channel_read_body (e : Endian) (w : World) (inp : Input) : Bool × World × Input :=
  if w.chan.read_buf_pos < w.chan.read_len then
    match grilio_channel_read_chars w inp (w.chan.read_len - w.chan.read_buf_pos) with
    | (none, w1, inp1) => (false, w1, inp1)
    | (some bytes, w1, inp1) =>
        let w2 := { w1 with chan := { w1.chan with
          read_buf := poke w1.chan.read_buf w1.chan.read_buf_pos bytes
          read_buf_pos := w1.chan.read_buf_pos + bytes.length } }
        if w2.chan.read_buf_pos < w2.chan.read_len then
          -- Need more bytes
          (true, w2, inp1)
        else
          -- ready to start receiving the next packet
          let r := grilio_channel_handle_packet e
            { w2 with chan := { w2.chan with read_len_pos := 0 } }
          (r.1, r.2, inp1)
  else
    -- ready to start receiving the next packet
    let r := grilio_channel_handle_packet e { w with chan := { w.chan with read_len_pos := 0 } }
    (r.1, r.2, inp)

/-- The function `grilio_channel_read`; the flag is its return value. -/
def grilio_channel_read (e : Endian) (w : World) (inp : Input) : Bool × World × Input :=
  -- Length
  if w.chan.read_len_pos < 4 then
    match grilio_channel_read_chars w inp (4 - w.chan.read_len_pos) with
    | (none, w1, inp1) => (false, w1, inp1)
    | (some bytes, w1, inp1) =>
        let w2 := { w1 with chan := { w1.chan with
          read_len_buf := poke w1.chan.read_len_buf w1.chan.read_len_pos bytes
          read_len_pos := w1.chan.read_len_pos + bytes.length } }
        if w2.chan.read_len_pos < 4 then
          -- Need more bytes
          (true, w2, inp1)
        else
          -- We have finished reading the length (in Big Endian)
          let w3 := { w2 with chan := { w2.chan with
            read_len := loadU32 .big w2.chan.read_len_buf 0 } }
          if w3.chan.read_len ≤ GRILIO_MAX_PACKET_LEN then
            -- Reset buffer read position
            let w4 := { w3 with chan := { w3.chan with read_buf_pos := 0 } }
            -- Allocate enough space for the entire packet
            let w5 :=
              if w4.chan.read_buf_alloc < w4.chan.read_len then
                { w4 with chan := { w4.chan with
                    read_buf_alloc := w4.chan.read_len
                    read_buf := List.replicate w4.chan.read_len 0 } }
              else w4
            grilio_channel_read_body e w5 inp1
          else
            -- Message is too long or stream is broken
            (false, w3, inp1)
  else grilio_channel_read_body e w inp

/-- The function `grilio_channel_read_callback` for the condition `G_IO_IN`.
GLib calls it only while the watch exists. -/
def grilio_channel_read_callback (e : Endian) (w : World) (inp : Input) : World × Input :=
  if w.chan.read_watch_id then
    let r := grilio_channel_read e w inp
    if r.1 then (r.2.1, r.2.2)
    else ({ r.2.1 with chan := { r.2.1.chan with read_watch_id := false } }, r.2.2)
  else (w, inp)

/-- The function `grilio_channel_write_callback` for the condition
`G_IO_OUT`. GLib calls it only while the watch exists. -/
def grilio_channel_write_callback (e : Endian) (w : World) : World :=
  if w.chan.write_watch_id then
    let r := grilio_channel_write e w
    if r.1 then r.2 else { r.2 with chan := { r.2.chan with write_watch_id := false } }
  else w

/-- The state set up by `grilio_channel_init`. -/
def grilio_channel_init : GRilIoChannel :=
  { connected := false
    ril_version := 0
    io_channel := false
    read_watch_id := false
    write_watch_id := false
    last_req_id := 0
    last_logger_id := 0
    resp_table := []
    log_list := []
    timeout := GRILIO_TIMEOUT_NONE
    timeout_id := none
    next_deadline := 0
    sub := List.replicate GRILIO_SUB_LEN 0
    sub_pos := 0
    fifo := []
    send_pos := 0
    send_req := none
    read_len_buf := List.replicate 4 0
    read_len_pos := 0
    read_len := 0
    read_buf_pos := 0
    read_buf_alloc := 0
    read_buf := []
    refcount := 1 }

/-- The function `grilio_channel_new_fd` for a valid descriptor; `sub` is
`none` for a null pointer. Null is returned for a subscription that is not
four bytes long. -/
def grilio_channel_new_fd (sub : Option (List Nat)) : Option GRilIoChannel :=
  if sub.isNone ∨ sub.map List.length = some GRILIO_SUB_LEN then
    let chan := { grilio_channel_init with io_channel := true, read_watch_id := true }
    match sub with
    | some s => some { chan with sub := s, write_watch_id := true }
    | none => some { chan with sub_pos := GRILIO_SUB_LEN }
  else none

/-- A world around a channel just made by `grilio_channel_new_fd`: no
request, no queue, nothing traced or written yet. -/
def World.init (chan : GRilIoChannel) (writes : List IoWrite) (now : Int) : World :=
  { reqs := [], queues := [], chan := chan, trace := [], wire := [], writes := writes,
    now := now }

/-- The caller makes a request with `grilio_request_new` and appends a
payload to it; the handle of the new request is the length of the old heap. -/
def World.alloc (w : World) (r : GRilIoRequest) : Nat × World :=
  (w.reqs.length, { w with reqs := w.reqs ++ [r] })

/-- The function `grilio_channel_set_timeout`. -/
def grilio_channel_set_timeout (w : World) (timeout : Int) : World :=
  let t := if timeout = GRILIO_TIMEOUT_DEFAULT then GRILIO_TIMEOUT_NONE else timeout
  { w with chan := { w.chan with timeout := t } }

/-- The function `grilio_channel_send_request_full`. `self` says whether the
channel handle is non-null, `req` is `none` for a null request; the number
returned is the request id, zero on rejection. -/
def grilio_channel_send_request_full (e : Endian) (w : World) (self : Bool)
    (req : Option Nat) (code : Nat) (response : Bool) (destroy : Bool) : Nat × World :=
  if self ∧ (req.isNone ∨ req.map (fun h => (w.req h).status) = some .NEW) then
    let id0 := (w.chan.last_req_id + 1) % 4294967296
    let id := if id0 = 0 then (id0 + 1) % 4294967296 else id0
    let w1 := { w with chan := { w.chan with last_req_id := id } }
    let a : Nat × World × Option Nat :=
      match req with
      | some h => (h, w1, none)
      | none => ((w1.alloc grilio_request_new).1, (w1.alloc grilio_request_new).2,
          some (w1.alloc grilio_request_new).1)
    let h := a.1
    let w2 := a.2.1
    let internal_req := a.2.2
    let w3 := w2.setReq h { w2.req h with
      id := id, code := code % 4294967296, response := response, destroy := destroy }
    let w4 := if response then g_hash_table_insert (grilio_request_ref w3 h) (w3.req h).id h
      else w3
    let w5 := grilio_request_ref w4 h
    let w6 := grilio_channel_queue_request w5 h
    let w7 := grilio_channel_schedule_write e w6
    let w8 := match internal_req with
      | some i => grilio_request_unref w7 i
      | none => w7
    (id, w8)
  else (0, w)

/-- The function `grilio_channel_send_request`. -/
def grilio_channel_send_request (e : Endian) (w : World) (self : Bool) (req : Option Nat)
    (code : Nat) : Nat × World :=
  grilio_channel_send_request_full e w self req code false false

/-- The function `grilio_channel_get_request` on a non-null channel. -/
def grilio_channel_get_request (w : World) (id : Nat) : Option Nat :=
  if id ≠ 0 then
    match w.chan.send_req with
    | some s =>
        if (w.req s).id = id then some s
        else
          match g_hash_table_lookup w.chan.resp_table id with
          | some r => some r
          | none => w.chan.fifo.find? (fun h => (w.req h).id = id)
    | none =>
        match g_hash_table_lookup w.chan.resp_table id with
        | some r => some r
        | none => w.chan.fifo.find? (fun h => (w.req h).id = id)
  else none

/-- The common tail of the three branches of
`grilio_channel_cancel_request`: leave the queue and the response table,
become CANCELLED, notify. -/
def grilio_channel_cancel_found (w : World) (req : Nat) (id : Nat) (notify : Bool) : World :=
  let w1 := grilio_queue_remove w req
  let w2 := (g_hash_table_remove w1 id).2
  let w3 := w2.setReq req { w2.req req with status := .CANCELLED }
  if notify ∧ (w3.req req).response then w3.emit (.response req GRILIO_STATUS_CANCELLED [])
  else w3

/-- In `grilio_channel_cancel_request`, the branch for the request in
transmission. -/
def grilio_channel_cancel_sending (w : World) (req : Nat) (id : Nat) (notify : Bool) : World :=
  -- Current request will be unreferenced after it is sent
  let w1 := grilio_queue_remove w req
  let w2 := (g_hash_table_remove w1 id).2
  let w3 :=
    if (w2.req req).status ≠ .CANCELLED then
      let w2a := w2.setReq req { w2.req req with status := .CANCELLED }
      if notify ∧ (w2a.req req).response then
        w2a.emit (.response req GRILIO_STATUS_CANCELLED [])
      else w2a
    else w2
  grilio_request_unref w3 req

/-- In `grilio_channel_cancel_request`, the branch for a request found in
the send queue: it is unlinked first. -/
def grilio_channel_cancel_queued (w : World) (req : Nat) (id : Nat) (notify : Bool) : World :=
  let w0 := w.emit (.cancelled req)
  let w1 := { w0 with chan := { w0.chan with fifo := w0.chan.fifo.erase req } }
  let w2 := grilio_channel_cancel_found w1 req id notify
  grilio_request_unref w2 req

/-- The function `grilio_channel_cancel_request` on a non-null channel. -/
def grilio_channel_cancel_request (w : World) (id : Nat) (notify : Bool) : Bool × World :=
  if id ≠ 0 then
    let sending : Option Nat :=
      match w.chan.send_req with
      | some s => if (w.req s).id = id then some s else none
      | none => none
    match sending with
    | some req => (true, grilio_channel_cancel_sending w req id notify)
    | none =>
        match w.chan.fifo.find? (fun h => (w.req h).id = id) with
        | some req => (true, grilio_channel_cancel_queued w req id notify)
        | none =>
            -- Request not found but it could have been already sent and be
            -- sitting in the hashtable waiting for response
            match g_hash_table_lookup w.chan.resp_table id with
            | some req =>
                let w1 := grilio_request_ref w req
                let w2 := grilio_channel_cancel_found w1 req id notify
                (true, grilio_request_unref w2 req)
            | none => (false, w)
  else (false, w)

/-- The loop of `grilio_channel_cancel_all` over the queued requests. -/
def grilio_channel_cancel_all_queued (w : World) (notify : Bool) : List Nat → World
  | [] => w
  | req :: rest =>
      let w0 := w.emit (.cancelled req)
      let w1 := grilio_queue_remove w0 req
      let w2 := (g_hash_table_remove w1 (w1.req req).id).2
      let w3 := { w2 with chan := { w2.chan with fifo := rest } }
      let w4 :=
        if notify ∧ (w3.req req).response then
          (w3.setReq req { w3.req req with status := .CANCELLED }).emit
            (.response req GRILIO_STATUS_CANCELLED [])
        else w3
      grilio_channel_cancel_all_queued (grilio_request_unref w4 req) notify rest

/-- The loop of `grilio_channel_cancel_all` over the keys of the response
table; a key that is no longer in the table is a null dereference in C and
is skipped here. -/
def grilio_channel_cancel_all_sent (w : World) : List Nat → World
  | [] => w
  | key :: ids =>
      match g_hash_table_lookup w.chan.resp_table key with
      | some req =>
          let w1 := grilio_queue_remove w req
          let w2 := g_hash_table_steal w1 key
          let w3 := w2.emit (.response req GRILIO_STATUS_CANCELLED [])
          grilio_channel_cancel_all_sent (grilio_request_unref w3 req) ids
      | none => grilio_channel_cancel_all_sent w ids

/-- In `grilio_channel_cancel_all`, the block "Cancel current request". -/
def grilio_channel_cancel_all_current (w : World) (notify : Bool) : World :=
  match w.chan.send_req with
  | some req =>
      -- Cancel current request
      if (w.req req).status ≠ .CANCELLED then
        let wa := w.setReq req { w.req req with status := .CANCELLED }
        let wb := grilio_queue_remove wa req
        if notify ∧ (wb.req req).response then
          wb.emit (.response req GRILIO_STATUS_CANCELLED [])
        else wb
      else w
  | none => w

/-- The function `grilio_channel_cancel_all` on a non-null channel. -/
def grilio_channel_cancel_all (w : World) (notify : Bool) : World :=
  let w1 := grilio_channel_cancel_all_current w notify
  -- Cancel queued requests
  let w2 := grilio_channel_cancel_all_queued w1 notify w1.chan.fifo
  -- Cancel the requests that we have sent but that have not been replied yet
  let w3 := grilio_channel_cancel_all_sent w2 (w2.chan.resp_table.map (fun kv => kv.1))
  -- We no longer need the timer
  if w3.chan.timeout_id.isSome then
    { w3 with chan := { w3.chan with timeout_id := none, next_deadline := 0 } }
  else w3

/-- The function `grilio_channel_ref` on a non-null channel. -/
def grilio_channel_ref (w : World) : World :=
  { w with chan := { w.chan with refcount := w.chan.refcount + 1 } }

/-- The function `grilio_channel_dispose`. -/
def grilio_channel_dispose (w : World) : World :=
  grilio_channel_cancel_all (grilio_channel_shutdown w false) true

/-- The function `grilio_channel_unref` on a non-null channel: the last
reference disposes of the channel. -/
def grilio_channel_unref (w : World) : World :=
  if w.chan.refcount = 1 then
    let w1 := grilio_channel_dispose w
    { w1 with chan := { w1.chan with refcount := 0 } }
  else { w with chan := { w.chan with refcount := w.chan.refcount - 1 } }

/-- The function `grilio_queue_new` on a non-null channel: the handle of the
new queue and the world with it; the queue holds a reference to the
channel. -/
def grilio_queue_new (w : World) : Nat × World :=
  let w1 := grilio_channel_ref w
  (w1.queues.length, { w1 with queues := w1.queues ++ [{ refcount := 1, reqs := [] }] })

/-- The function `grilio_queue_free`. -/
def grilio_queue_free (w : World) (queue : Nat) : World :=
  -- Remove active requests from the queue
  let w1 := (w.queue queue).reqs.foldl
    (fun w req => w.setReq req { w.req req with queue := none }) w
  let w2 := w1.setQueue queue { w1.queue queue with reqs := [] }
  grilio_channel_unref w2

/-- The function `grilio_queue_ref` on a non-null queue. -/
def grilio_queue_ref (w : World) (queue : Nat) : World :=
  w.setQueue queue { w.queue queue with refcount := (w.queue queue).refcount + 1 }

/-- The function `grilio_queue_unref` on a non-null queue. -/
def grilio_queue_unref (w : World) (queue : Nat) : World :=
  let w1 := w.setQueue queue { w.queue queue with refcount := (w.queue queue).refcount - 1 }
  if (w1.queue queue).refcount = 0 then grilio_queue_free w1 queue else w1

/-- The function `grilio_queue_send_request_full`; `queue` and `req` are
`none` for null handles. -/
def grilio_queue_send_request_full (e : Endian) (w : World) (queue : Option Nat)
    (req : Option Nat) (code : Nat) (response : Bool) (destroy : Bool) : Nat × World :=
  match queue with
  | some q =>
      if req.isNone ∨ req.map (fun h => (w.req h).status) = some .NEW then
        let a : Nat × World × Option Nat :=
          match req with
          | some h => (h, w, none)
          | none => ((w.alloc grilio_request_new).1, (w.alloc grilio_request_new).2,
              some (w.alloc grilio_request_new).1)
        let h := a.1
        let internal_req := a.2.2
        let w1 := grilio_queue_add a.2.1 q h
        let r := grilio_channel_send_request_full e w1 true (some h) code response destroy
        let w2 := match internal_req with
          | some i => grilio_request_unref r.2 i
          | none => r.2
        (r.1, w2)
      else (0, w)
  | none => (0, w)

/-- The function `grilio_queue_send_request`. -/
def grilio_queue_send_request (e : Endian) (w : World) (queue : Option Nat)
    (req : Option Nat) (code : Nat) : Nat × World :=
  grilio_queue_send_request_full e w queue req code false false

/-- The function `grilio_queue_cancel_request` on a non-null queue. -/
def grilio_queue_cancel_request (w : World) (queue : Nat) (id : Nat) (notify : Bool) :
    Bool × World :=
  if id ≠ 0 then
    match grilio_channel_get_request w id with
    | some req =>
        if (w.req req).queue = some queue then grilio_channel_cancel_request w id notify
        else (false, w)
    | none => (false, w)
  else (false, w)

/-- The loop of `grilio_queue_cancel_all`: each round takes the first member
off the queue; `n` bounds the number of rounds. -/
def grilio_queue_cancel_all_loop (w : World) (queue : Nat) (notify : Bool) : Nat → World
  | 0 => w
  | n + 1 =>
      match (w.queue queue).reqs with
      | [] => w
      | req :: rest =>
          let w1 := w.setQueue queue { w.queue queue with reqs := rest }
          let w2 := w1.setReq req { w1.req req with queue := none }
          grilio_queue_cancel_all_loop
            (grilio_channel_cancel_request w2 (w2.req req).id notify).2 queue notify n

/-- The function `grilio_queue_cancel_all` on a non-null queue; the loop
ends within as many rounds as the queue has members. -/
def grilio_queue_cancel_all (w : World) (queue : Nat) (notify : Bool) : World :=
  grilio_queue_cancel_all_loop w queue notify (w.queue queue).reqs.length

/-! ## Frames -/

/-- The frame of a request: the big-endian length of what follows, the code
and the id in host byte order, the payload. -/
def frameOf (e : Endian) (code id : Nat) (payload : List Nat) : List Nat :=
  storeU32 .big ((payload.length + 8) % 4294967296) ++ storeU32 e code ++ storeU32 e id
    ++ payload

/-! ## What the trace says about the send queue -/

/-- The requests submitted so far, in order: the lines `Queued request`. -/
def submitted (w : World) : List Nat :=
  w.trace.filterMap (fun ev => match ev with
    | .queued h => some h
    | _ => none)

/-- The requests whose transmission has started, in order: the lines
`Sending request`. -/
def started (w : World) : List Nat :=
  w.trace.filterMap (fun ev => match ev with
    | .sending h => some h
    | _ => none)

/-- The requests unlinked from the send queue by a cancellation: the lines
`Cancelled request`. -/
def unlinked (w : World) : List Nat :=
  w.trace.filterMap (fun ev => match ev with
    | .cancelled h => some h
    | _ => none)

/-- An event that is none of the three lines about the send queue. -/
def Event.quiet : Event → Bool
  | .queued _ => false
  | .sending _ => false
  | .cancelled _ => false
  | _ => true

/-- The step from `w` to `w'` leaves alone everything the bytes on the wire
depend on: the wire, the heap size, the buffer, code and id of every request,
the send queue with the request in transmission and both positions, and the
three lists read off the trace; a request that is no longer NEW stays so. -/
structure Keeps (w w' : World) : Prop where
  wire : w'.wire = w.wire
  len : w'.reqs.length = w.reqs.length
  bytes : ∀ h, (w'.req h).bytes = (w.req h).bytes
  code : ∀ h, (w'.req h).code = (w.req h).code
  id : ∀ h, (w'.req h).id = (w.req h).id
  notNew : ∀ h, (w.req h).status ≠ .NEW → (w'.req h).status ≠ .NEW
  fifo : w'.chan.fifo = w.chan.fifo
  sub : w'.chan.sub = w.chan.sub
  sub_pos : w'.chan.sub_pos = w.chan.sub_pos
  send_pos : w'.chan.send_pos = w.chan.send_pos
  send_req : w'.chan.send_req = w.chan.send_req
  submitted : submitted w' = submitted w
  started : started w' = started w
  unlinked : unlinked w' = unlinked w

/-- The bytes of the subscription that are on the wire; `sub` is the
argument the channel was made with. -/
def tagSent (sub : Option (List Nat)) (w : World) : List Nat :=
  match sub with
  | some s => s.take w.chan.sub_pos
  | none => []

/-- The requests whose transmission is complete, in order. -/
def completed (w : World) : List Nat :=
  match w.chan.send_req with
  | some _ => (started w).dropLast
  | none => started w

/-- The bytes already written of the request in transmission. -/
def partialFrame (w : World) : List Nat :=
  match w.chan.send_req with
  | some h => (w.req h).bytes.take w.chan.send_pos
  | none => []

/-- The invariant of the send side. Every submitted request is a live
request that is no longer NEW and was submitted once; the requests started
followed by the send queue are the submitted ones without those unlinked by a
cancellation, in submission order; the request in transmission is the last
one started; the buffer of a started request is its frame; no request is
started before the subscription is out; and the wire holds the subscription
bytes written so far, the whole frames of the completed requests in order,
and the part written of the frame in transmission. -/
structure WireInv (e : Endian) (sub : Option (List Nat)) (w : World) : Prop where
  valid : ∀ h ∈ submitted w, h < w.reqs.length ∧ (w.req h).status ≠ .NEW
  room : ∀ h, h < w.reqs.length → 12 ≤ (w.req h).bytes.length
  nodup : (submitted w).Nodup
  unl : ∀ h ∈ unlinked w, h ∈ submitted w
  order : started w ++ w.chan.fifo = (submitted w).filter (fun h => decide (h ∉ unlinked w))
  cur : ∀ h, w.chan.send_req = some h → (started w).getLast? = some h
  framed : ∀ h ∈ started w,
    (w.req h).bytes = frameOf e (w.req h).code (w.req h).id (grilio_request_data (w.req h))
  tag : match sub with
    | some s => w.chan.sub = s ∧ s.length = GRILIO_SUB_LEN
    | none => w.chan.sub_pos = GRILIO_SUB_LEN
  gate : w.chan.sub_pos < GRILIO_SUB_LEN → started w = []
  wire : w.wire = tagSent sub w
    ++ ((completed w).map (fun h => (w.req h).bytes)).flatten ++ partialFrame w

/-! ## Sample worlds -/

/-- A channel made without a subscription. -/
def sampleChan : GRilIoChannel := (grilio_channel_new_fd none).getD grilio_channel_init

/-- A channel that is not connected yet, with one request of code 51 and
payload `7 8 9` submitted; the socket will take up to 64 bytes. -/
def sampleQueued : World :=
  let w0 := World.init sampleChan [.written 64] 0
  let w1 := (w0.alloc (grilio_request_append_bytes grilio_request_new (some [7, 8, 9]) 3)).2
  (grilio_channel_send_request_full .little w1 true (some 0) 51 false false).2

/-! ## Effects of a step -/

/-- The receive state of the channel. -/
def readState (w : World) : List Nat × Nat × Nat × Nat × Nat × List Nat :=
  (w.chan.read_len_buf, w.chan.read_len_pos, w.chan.read_len, w.chan.read_buf_pos,
    w.chan.read_buf_alloc, w.chan.read_buf)

/-- The signals that come with a shutdown of the channel. -/
def Event.isStop : Event → Bool
  | .error _ _ => true
  | .eof => true
  | _ => false

/-- The step from `w` to `w'` appends events that all satisfy `P`, leaves the
receive state alone, and either leaves `connected` and `ril_version` alone or
has shut the channel down with an ERROR or EOF signal. -/
structure Eff (P : Event → Prop) (w w' : World) : Prop where
  ex : ∃ evs, w'.trace = w.trace ++ evs ∧ (∀ ev ∈ evs, P ev) ∧
    ((w'.chan.connected = w.chan.connected ∧ w'.chan.ril_version = w.chan.ril_version) ∨
      (w'.chan.connected = false ∧ w'.chan.ril_version = 0 ∧ ∃ ev ∈ evs, ev.isStop = true))
  read : readState w' = readState w

/-- The events the write path can produce all satisfy `P`. -/
def WriteEvents (P : Event → Prop) : Prop :=
  (∀ h, P (.sending h)) ∧ (∀ l id code data, P (.log l .REQ id code data)) ∧
    (∀ h, P (.destroy h)) ∧ (∀ h, P (.freed h)) ∧ P (.error .WRITE false)

/-! ## Inbound framing -/

/-- One packet on the wire: the big-endian length, then the body. -/
def packet (body : List Nat) : List Nat := storeU32 .big body.length ++ body

/-- The byte stream of a sequence of packets. -/
def stream (bodies : List (List Nat)) : List Nat := bodies.flatMap packet

/-- The read outcomes when every packet arrives in a single read: each
`g_io_channel_read_chars` gets all it asks for, first the length, then the
body (which is not asked for when its length is zero). -/
def wholeReads (bodies : List (List Nat)) : List IoRead :=
  bodies.flatMap (fun b => if b.length = 0 then [.avail 4] else [.avail 4, .avail b.length])

/-- The main loop calls `grilio_channel_read_callback` `k` times. -/
def pump (e : Endian) : Nat → World × Input → World × Input
  | 0, s => s
  | k + 1, s => pump e k (grilio_channel_read_callback e s.1 s.2)

/-- The channel is between two packets and its buffers have their sizes. -/
def Boundary (w : World) : Prop :=
  w.chan.read_len_pos = 0 ∧ w.chan.read_len_buf.length = 4 ∧
    w.chan.read_buf.length = w.chan.read_buf_alloc

instance (w : World) : Decidable (Boundary w) := by
  unfold Boundary; infer_instance

/-- The body buffer once the length `n` of the next packet is known. -/
def bodyBuffer (w : World) (n : Nat) : List Nat :=
  if w.chan.read_buf_alloc < n then List.replicate n 0 else w.chan.read_buf

/-- The channel after `c` bytes of the packet with body `b` have been read,
starting between two packets in `w`. -/
def midPacket (w : World) (b : List Nat) (c : Nat) : World :=
  if c < 4 then
    { w with chan := { w.chan with
        read_len_buf := poke w.chan.read_len_buf 0 ((storeU32 .big b.length).take c)
        read_len_pos := c } }
  else
    { w with chan := { w.chan with
        read_len_buf := storeU32 .big b.length
        read_len_pos := 4
        read_len := b.length
        read_buf_pos := c - 4
        read_buf_alloc := max w.chan.read_buf_alloc b.length
        read_buf := poke (bodyBuffer w b.length) 0 (b.take (c - 4)) } }

/-- The channel with the whole packet in its buffer, as
`grilio_channel_handle_packet` gets it. -/
def wholePacket (w : World) (b : List Nat) : World :=
  { w with chan := { w.chan with
      read_len_buf := storeU32 .big b.length
      read_len_pos := 0
      read_len := b.length
      read_buf_pos := b.length
      read_buf_alloc := max w.chan.read_buf_alloc b.length
      read_buf := poke (bodyBuffer w b.length) 0 b } }

/-- The channel after the read callback that completes the packet with body
`b`: the packet is handled, and the watch is gone if that returned FALSE. -/
def afterPacket (e : Endian) (w : World) (b : List Nat) : World :=
  let r := grilio_channel_handle_packet e (wholePacket w b)
  if r.1 then r.2 else { r.2 with chan := { r.2.chan with read_watch_id := false } }

/-- The packets handed to `grilio_channel_handle_packet` one after the other,
for as long as the read watch exists. -/
def deliver (e : Endian) (w : World) : List (List Nat) → World
  | [] => w
  | b :: bs => if w.chan.read_watch_id then deliver e (afterPacket e w b) bs else w

/-- All read outcomes are byte counts: no error, no end of file. -/
def AvailOnly (reads : List IoRead) : Prop := ∀ r ∈ reads, ∃ n, r = IoRead.avail n

/-- The state of a run of read callbacks over the stream of `frames`: stopped,
inside packet `j`, or past the last packet. -/
def Sim (e : Endian) (w : World) (frames : List (List Nat)) (s : World × Input) : Prop :=
  AvailOnly s.2.reads ∧ ∃ j, j ≤ frames.length ∧
    (((deliver e w (frames.take j)).chan.read_watch_id = false ∧
        s.1 = deliver e w (frames.take j)) ∨
      ((deliver e w (frames.take j)).chan.read_watch_id = true ∧
        ∃ b c, frames.drop j = b :: frames.drop (j + 1) ∧ c < 4 + b.length ∧
          s.1 = midPacket (deliver e w (frames.take j)) b c ∧
          s.2.inbox = (packet b).drop c ++ stream (frames.drop (j + 1))) ∨
      (j = frames.length ∧ s.1 = deliver e w frames ∧ s.2.inbox = []))

/-- Two unsolicited packets, of 8 and 9 bytes. -/
def sampleFrames : List (List Nat) := [[1, 0, 0, 0, 5, 0, 0, 0], [2, 0, 0, 0, 6, 0, 0, 0, 9]]

/-- Reads that cut the first length word and the first body in two. -/
def sampleReads : List IoRead :=
  [.avail 3, .avail 6, .avail 1, .avail 100, .avail 100, .avail 100]

/-- The world of a new channel without subscription, nothing written. -/
def sampleIdle : World := World.init sampleChan [] 0

/-! ## Callbacks in the trace -/

/-- The response callbacks in a trace, in order: request, status, data. -/
def responses (t : List Event) : List (Nat × Int × List Nat) :=
  t.filterMap (fun ev => match ev with
    | .response h s d => some (h, s, d)
    | _ => none)

/-- The events of one `grilio_request_unref`: nothing while references are
left, else the destroy callback (if any) and the release. -/
def unrefEvents (w : World) (h : Nat) : List Event :=
  (grilio_request_unref w h).trace.drop w.trace.length

/-- Two requests that differ in the reference count at most. -/
def sameReq (r r' : GRilIoRequest) : Prop :=
  r.code = r'.code ∧ r.id = r'.id ∧ r.status = r'.status ∧ r.bytes = r'.bytes ∧
    r.queue = r'.queue ∧ r.response = r'.response ∧ r.destroy = r'.destroy ∧
    r.timeout = r'.timeout ∧ r.deadline = r'.deadline

/-! ## Well-formed worlds -/

/-- The requests the channel holds: the one in transmission, the send queue,
the response table. -/
def Pending (w : World) : List Nat :=
  w.chan.send_req.toList ++ w.chan.fifo ++ w.chan.resp_table.map (fun kv => kv.2)

/-- The links between the requests, the queues and the channel are
consistent: a request with a queue is a member of it, the members of a queue
are distinct and point back to it, the send queue has no request twice, the
response table maps ids to requests with that id, and the requests the
channel holds are live and have distinct ids. -/
def WellFormed (w : World) : Prop :=
  (∀ h ∈ List.range w.reqs.length, ∀ q ∈ (w.req h).queue, h ∈ (w.queue q).reqs) ∧
  (∀ q ∈ List.range w.queues.length,
    (w.queue q).reqs.Nodup ∧ ∀ h ∈ (w.queue q).reqs, (w.req h).queue = some q) ∧
  w.chan.fifo.Nodup ∧
  (∀ kv ∈ w.chan.resp_table, (w.req kv.2).id = kv.1) ∧
  (∀ h ∈ Pending w, h < w.reqs.length ∧
    ∀ k ∈ Pending w, (w.req h).id = (w.req k).id → h = k) ∧
  (∀ s ∈ w.chan.send_req, s ∉ w.chan.fifo)

instance (w : World) : Decidable (WellFormed w) := by
  unfold WellFormed; infer_instance

/-- What a cancellation of the request `req` with the id `id` does to the
world `w`, apart from the send queue: the id leaves the response table, the
request leaves its queue and is CANCELLED, the callbacks `cb` are made, and
nothing else changes but reference counts. -/
structure CancelEffect (w w' : World) (req id : Nat) (cb : List (Nat × Int × List Nat)) :
    Prop where
  table : w'.chan.resp_table = w.chan.resp_table.filter (fun kv => kv.1 ≠ id)
  send_req : w'.chan.send_req = w.chan.send_req
  timer : w'.chan.timeout_id = w.chan.timeout_id ∧ w'.chan.next_deadline = w.chan.next_deadline
  len : w'.reqs.length = w.reqs.length
  status : (w'.req req).status = .CANCELLED
  queue : (w'.req req).queue = none
  response : (w'.req req).response = (w.req req).response
  rid : (w'.req req).id = (w.req req).id
  other : ∀ x, x ≠ req → sameReq (w'.req x) (w.req x)
  members : ∀ q, (w'.queue q).reqs
    = if (w.req req).queue = some q then (w.queue q).reqs.erase req else (w.queue q).reqs
  callbacks : responses w'.trace = responses w.trace ++ cb

/-- The packet body of `RIL_UNSOL_RIL_CONNECTED` as the test server sends it:
type word 1, code 1034, one value, RIL version 9. -/
def sampleHandshake : List Nat := [1, 0, 0, 0, 10, 4, 0, 0, 1, 0, 0, 0, 9, 0, 0, 0]

/-- A new channel without subscription; a queue; a request of code 10
submitted to the queue and one of code 11 submitted to the channel, both with
a response callback. The channel is not connected, so both wait in the send
queue. -/
def sampleWaiting : World :=
  let w0 := World.init sampleChan [.written 5, .written 100] 0
  let w1 := (grilio_queue_new w0).2
  let w2 := (w1.alloc (grilio_request_append_bytes grilio_request_new (some [7, 8, 9]) 3)).2
  let w3 := (grilio_queue_send_request_full .little w2 (some 0) (some 0) 10 true false).2
  let w4 := (w3.alloc grilio_request_new).2
  (grilio_channel_send_request_full .little w4 true (some 1) 11 true false).2

/-- The same after the connected event has arrived while the socket took
five bytes: the first request is in transmission, the second waits. -/
def sampleSending : World :=
  (grilio_channel_handle_packet .little (wholePacket sampleWaiting sampleHandshake)).2

/-- The world `sampleWaiting` when the socket fails at the next write. -/
def sampleBroken : World := { sampleWaiting with writes := [.error] }

/-- No request goes back to NEW in the step from `w` to `w'`, and the heap
does not shrink. -/
def NotNew (w w' : World) : Prop :=
  w.reqs.length ≤ w'.reqs.length ∧ ∀ h, (w.req h).status ≠ .NEW → (w'.req h).status ≠ .NEW

/-- The world `sampleSending` after two more write callbacks on a socket
that takes everything: both requests are sent and wait for their responses. -/
def sampleSent : World :=
  grilio_channel_write_callback .little (grilio_channel_write_callback .little
    { sampleSending with writes := [.written 100, .written 100] })

/-- The body of a response packet: type word 0, id 1, status 0, one byte of
data. -/
def sampleResponse : List Nat := [0, 0, 0, 0, 1, 0, 0, 0, 0, 0, 0, 0, 42]

/-- A channel made with the subscription `SUB1`, not connected, on which a
request of code 51 with the payload `7 8 9` has been submitted before the
socket became writable. -/
def sampleSubscribed : World :=
  let chan := (grilio_channel_new_fd (some [83, 85, 66, 49])).getD grilio_channel_init
  let w0 := World.init chan [.written 100, .written 100] 0
  let w1 := (w0.alloc (grilio_request_append_bytes grilio_request_new (some [7, 8, 9]) 3)).2
  (grilio_channel_send_request_full .little w1 true (some 0) 51 false false).2

/-- The world `sampleSending` after the owner of request 0 has dropped its
reference with `grilio_request_unref`. -/
def sampleReleased : World := grilio_request_unref sampleSending 0

/-- The links between requests and queues are consistent: a request with a
queue is a member of it, a member of a queue points back to it, and no
queue has a member twice. -/
def QueueLinked (w : World) : Prop :=
  (∀ h q, (w.req h).queue = some q → h ∈ (w.queue q).reqs) ∧
  (∀ h q, h ∈ (w.queue q).reqs → (w.req h).queue = some q) ∧
  ∀ q, (w.queue q).reqs.Nodup

/-- The request is in no queue. -/
def Unqueued (w : World) (h : Nat) : Prop :=
  (w.req h).queue = none ∧ ∀ q, h ∉ (w.queue q).reqs

/-- The table of a world: keys are distinct and are the ids of their
requests. -/
def TableOk (w : World) : Prop :=
  (w.chan.resp_table.map (fun kv => kv.1)).Nodup ∧
  ∀ kv ∈ w.chan.resp_table, (w.req kv.2).id = kv.1

instance (w : World) : Decidable (TableOk w) := by
  unfold TableOk; infer_instance

/-- The requests in the response table whose deadline has passed at the time
`now`, in table order: what the first loop of `grilio_channel_timeout`
collects. -/
def expiredAt (w : World) : List Nat :=
  (w.chan.resp_table.map (fun kv => kv.2)).filter
    (fun req => decide ((w.req req).deadline ≠ 0 ∧ (w.req req).deadline < w.now))

/-- A connected channel with the timeout 7 ms on which two requests with a
response callback were sent at the time 0, the first with the default
timeout and the second with no timeout; the time is now 8000 microseconds. -/
def sampleTimed : World :=
  let w0 := World.init sampleChan [.written 100, .written 100] 0
  let w1 := grilio_channel_set_timeout w0 7
  let w2 := (grilio_channel_handle_packet .little (wholePacket w1 sampleHandshake)).2
  let w3 := (w2.alloc grilio_request_new).2
  let w4 := (w3.alloc (grilio_request_set_timeout grilio_request_new GRILIO_TIMEOUT_NONE)).2
  let w5 := (grilio_channel_send_request_full .little w4 true (some 0) 10 true false).2
  let w6 := (grilio_channel_send_request_full .little w5 true (some 1) 11 true false).2
  { w6 with now := 8000 }

/-- A consistent world, for the cancellation loops: the links between
requests and queues are consistent, the response table has distinct keys
that are the ids of its requests, the send queue has no request twice and
not the request in transmission, and the requests the channel holds are live
and have distinct, non-zero ids. -/
structure Sane (w : World) : Prop where
  linked : QueueLinked w
  table : TableOk w
  fifo : w.chan.fifo.Nodup
  send : ∀ s, w.chan.send_req = some s → s ∉ w.chan.fifo
  live : ∀ h ∈ Pending w, h < w.reqs.length ∧ (w.req h).id ≠ 0
  uniq : ∀ h ∈ Pending w, ∀ k ∈ Pending w, (w.req h).id = (w.req k).id → h = k

/-- The ids of the requests the channel holds are not zero. -/
def IdsSet (w : World) : Prop := ∀ h ∈ Pending w, (w.req h).id ≠ 0

instance (w : World) : Decidable (IdsSet w) := by
  unfold IdsSet; infer_instance

/-- A channel that is not connected, with two queues: request 0 was
submitted to queue 0 and the requests 1 and 2 to queue 1; the requests 0 and
1 have a response callback, request 2 has none. -/
def sampleQueues : World :=
  let w0 := World.init sampleChan [] 0
  let w1 := (grilio_queue_new w0).2
  let w2 := (grilio_queue_new w1).2
  let w3 := (w2.alloc grilio_request_new).2
  let w4 := (w3.alloc grilio_request_new).2
  let w5 := (w4.alloc grilio_request_new).2
  let w6 := (grilio_queue_send_request_full .little w5 (some 0) (some 0) 10 true false).2
  let w7 := (grilio_queue_send_request_full .little w6 (some 1) (some 1) 11 true false).2
  (grilio_queue_send_request_full .little w7 (some 1) (some 2) 12 false false).2

/-! ## Loggers -/

/-- The function `grilio_channel_add_logger` on a non-null channel; `log`
tells whether the callback is non-null. The id returned and the world. A
logger is represented by its id. -/
def grilio_channel_add_logger (w : World) (log : Bool) : Nat × World :=
  if log then
    let id1 := (w.chan.last_logger_id + 1) % 4294967296
    let id2 := if id1 = 0 then (id1 + 1) % 4294967296 else id1
    (id2, { w with chan := { w.chan with
      last_logger_id := id2
      log_list := w.chan.log_list ++ [id2] } })
  else (0, w)

/-- The loop of `grilio_channel_remove_logger`: the list without the first
link whose logger has the id; the list itself when there is none. -/
def remove_logger_link (id : Nat) : List Nat → List Nat
  | [] => []
  | logger :: next => if logger = id then next else logger :: remove_logger_link id next

/-- The function `grilio_channel_remove_logger` on a non-null channel; an id
that is not in the list gets the warning `Invalid logger id`. -/
def grilio_channel_remove_logger (w : World) (id : Nat) : World :=
  if id ≠ 0 then
    if id ∈ w.chan.log_list then
      { w with chan := { w.chan with log_list := remove_logger_link id w.chan.log_list } }
    else w.emit (.invalid_logger id)
  else w

/-- The registry of a channel that has not used up its logger ids: the
ids of the registered loggers are distinct, non-zero and not above
`last_logger_id`, in increasing order of registration. -/
def LoggersOk (c : GRilIoChannel) : Prop :=
  (∀ x ∈ c.log_list, 0 < x ∧ x ≤ c.last_logger_id) ∧ c.log_list.Nodup ∧
    c.last_logger_id < 4294967296

instance (c : GRilIoChannel) : Decidable (LoggersOk c) := by
  unfold LoggersOk; infer_instance

/-- A logger is added and removed again, `n` times over. -/
def churnLoggers : Nat → World → World
  | 0, w => w
  | n + 1, w =>
      churnLoggers n (grilio_channel_remove_logger (grilio_channel_add_logger w true).2
        (grilio_channel_add_logger w true).1)

/-! ## The engine as a machine -/

/-- What the user of the library and the main loop can do next. Request and
queue handles are the ones the user holds. -/
inductive Op where
  /-- The call `grilio_request_new`, a payload appended, `grilio_request_set_timeout`. -/
  | request_new (payload : List Nat) (timeout : Int)
  /-- The call `grilio_request_ref`. -/
  | request_ref (req : Nat)
  /-- The call `grilio_request_unref`. -/
  | request_unref (req : Nat)
  /-- The call `grilio_channel_send_request_full`; `req` is `none` for a null request. -/
  | send (req : Option Nat) (code : Nat) (response destroy : Bool)
  /-- The call `grilio_channel_cancel_request`. -/
  | cancel (id : Nat) (notify : Bool)
  /-- The call `grilio_channel_cancel_all`. -/
  | cancel_all (notify : Bool)
  /-- The call `grilio_channel_set_timeout`. -/
  | set_timeout (timeout : Int)
  /-- The call `grilio_channel_shutdown`. -/
  | shutdown (flush : Bool)
  /-- The call `grilio_channel_ref`. -/
  | channel_ref
  /-- The call `grilio_channel_unref`. -/
  | channel_unref
  /-- The call `grilio_channel_add_logger` with a callback. -/
  | add_logger
  /-- The call `grilio_channel_remove_logger`. -/
  | remove_logger (id : Nat)
  /-- The call `grilio_queue_new`. -/
  | queue_new
  /-- The call `grilio_queue_ref`. -/
  | queue_ref (queue : Nat)
  /-- The call `grilio_queue_unref`. -/
  | queue_unref (queue : Nat)
  /-- The call `grilio_queue_send_request_full`. -/
  | queue_send (queue : Nat) (req : Option Nat) (code : Nat) (response destroy : Bool)
  /-- The call `grilio_queue_cancel_request`. -/
  | queue_cancel (queue : Nat) (id : Nat) (notify : Bool)
  /-- The call `grilio_queue_cancel_all`. -/
  | queue_cancel_all (queue : Nat) (notify : Bool)
  /-- The socket is writable: `grilio_channel_write_callback`. -/
  | writable
  /-- The socket is readable, with what the peer has sent and how it
  arrives: `grilio_channel_read_callback`. -/
  | readable (inp : Input)
  /-- The timer source fires: `grilio_channel_timeout`. -/
  | timer
  /-- The monotonic clock advances by `us` microseconds. -/
  | tick (us : Nat)
  deriving DecidableEq, Repr

/-- The user holds a reference to the request. -/
def World.holds (w : World) (req : Option Nat) : Prop :=
  ∀ h ∈ req, h < w.reqs.length ∧ 0 < (w.req h).refcount

instance (w : World) (req : Option Nat) : Decidable (w.holds req) := by
  unfold World.holds; infer_instance

/-- The user holds a reference to the queue. -/
def World.holdsQueue (w : World) (q : Nat) : Prop :=
  q < w.queues.length ∧ 0 < (w.queue q).refcount

instance (w : World) (q : Nat) : Decidable (w.holdsQueue q) := by
  unfold World.holdsQueue; infer_instance

/-- One step of the machine. A call with a handle the user does not hold, a
callback without its watch and a timer that is not pending do not happen:
the world stays as it is. -/
def step (e : Endian) (w : World) : Op → World
  | .request_new payload timeout =>
      (w.alloc (grilio_request_set_timeout
        (grilio_request_append_bytes grilio_request_new (some payload) payload.length)
        timeout)).2
  | .request_ref req => if w.holds (some req) then grilio_request_ref w req else w
  | .request_unref req => if w.holds (some req) then grilio_request_unref w req else w
  | .send req code response destroy =>
      if w.holds req then
        (grilio_channel_send_request_full e w true req code response destroy).2
      else w
  | .cancel id notify => (grilio_channel_cancel_request w id notify).2
  | .cancel_all notify => grilio_channel_cancel_all w notify
  | .set_timeout timeout => grilio_channel_set_timeout w timeout
  | .shutdown flush => grilio_channel_shutdown w flush
  | .channel_ref => grilio_channel_ref w
  | .channel_unref => if 0 < w.chan.refcount then grilio_channel_unref w else w
  | .add_logger => (grilio_channel_add_logger w true).2
  | .remove_logger id => grilio_channel_remove_logger w id
  | .queue_new => (grilio_queue_new w).2
  | .queue_ref queue => if w.holdsQueue queue then grilio_queue_ref w queue else w
  | .queue_unref queue => if w.holdsQueue queue then grilio_queue_unref w queue else w
  | .queue_send queue req code response destroy =>
      if w.holdsQueue queue ∧ w.holds req then
        (grilio_queue_send_request_full e w (some queue) req code response destroy).2
      else w
  | .queue_cancel queue id notify =>
      if w.holdsQueue queue then (grilio_queue_cancel_request w queue id notify).2 else w
  | .queue_cancel_all queue notify =>
      if w.holdsQueue queue then grilio_queue_cancel_all w queue notify else w
  | .writable => grilio_channel_write_callback e w
  | .readable inp => (grilio_channel_read_callback e w inp).1
  | .timer => if w.chan.timeout_id.isSome then grilio_channel_timeout w else w
  | .tick us => { w with now := w.now + us }

/-- The request id a step returns to the caller: the result of a
submission, zero for a rejected submission and for every other step. -/
def Op.result (e : Endian) (w : World) : Op → Nat
  | .send req code response destroy =>
      if w.holds req then
        (grilio_channel_send_request_full e w true req code response destroy).1
      else 0
  | .queue_send queue req code response destroy =>
      if w.holdsQueue queue ∧ w.holds req then
        (grilio_queue_send_request_full e w (some queue) req code response destroy).1
      else 0
  | _ => 0

/-- The machine run over a list of steps. -/
def run (e : Endian) (w : World) (ops : List Op) : World := ops.foldl (step e) w

/-- The ids returned by the successful submissions of a run, in order. -/
def results (e : Endian) : World → List Op → List Nat
  | _, [] => []
  | w, op :: ops =>
      (if op.result e w ≠ 0 then [op.result e w] else []) ++ results e (step e w op) ops

/-- The state a channel is created in, and the world around it. -/
def World.start (sub : Option (List Nat)) (writes : List IoWrite) (now : Int) : Option World :=
  (grilio_channel_new_fd sub).map (fun chan => World.init chan writes now)

/-- The channel has nothing more to do with the request: the request has
been submitted, it is neither in the send queue nor in the response table,
and if it is still the request in transmission, it has been cancelled. -/
def Retired (w : World) (h : Nat) : Prop :=
  (w.req h).status ≠ .NEW ∧ h ∉ w.chan.fifo ∧ (∀ kv ∈ w.chan.resp_table, kv.2 ≠ h) ∧
    (w.chan.send_req = some h → (w.req h).status = .CANCELLED)

instance (w : World) (h : Nat) : Decidable (Retired w h) := by
  unfold Retired; infer_instance

/-- What holds of the requests and the channel between any two steps: the
requests the channel holds exist and are not NEW; a request has the id zero
exactly while it is NEW, its id fits 32 bits, and it has no deadline while
NEW; the send queue has no request twice and not the one in transmission;
the response table has distinct keys, the ids of its requests;
`last_req_id` fits 32 bits; there is a timer exactly when `next_deadline` is
set. -/
structure Core (w : World) : Prop where
  pending : ∀ h ∈ Pending w, h < w.reqs.length ∧ (w.req h).status ≠ .NEW
  ids : ∀ h, ((w.req h).id = 0 ↔ (w.req h).status = .NEW) ∧ (w.req h).id < 4294967296 ∧
    ((w.req h).status = .NEW → (w.req h).deadline = 0)
  fifo : w.chan.fifo.Nodup
  send : ∀ s, w.chan.send_req = some s → s ∉ w.chan.fifo
  table : TableOk w
  last : w.chan.last_req_id < 4294967296
  timer : w.chan.timeout_id.isSome = true ↔ w.chan.next_deadline ≠ 0

/-- The deadline of the timer is not after the deadline of any request in
the response table. -/
def Bound (w : World) : Prop :=
  ∀ kv ∈ w.chan.resp_table, (w.req kv.2).deadline ≠ 0 →
    w.chan.next_deadline ≠ 0 ∧ w.chan.next_deadline ≤ (w.req kv.2).deadline

instance (w : World) : Decidable (Bound w) := by
  unfold Bound; infer_instance

/-- The step from `w` to `x` inside the engine: `x` is consistent, no request
is lost, a submitted request keeps its id and does not become NEW again, a
retired request stays retired and gets no response callback, `last_req_id`
stays, and the timer stays within the deadlines if it was. -/
structure Good (w x : World) : Prop where
  core : Core x
  len : w.reqs.length ≤ x.reqs.length
  ids : ∀ h, (w.req h).status ≠ .NEW →
    (x.req h).id = (w.req h).id ∧ (x.req h).status ≠ .NEW
  retired : ∀ h, Retired w h → Retired x h
  quiet : ∃ cb, responses x.trace = responses w.trace ++ cb ∧ ∀ c ∈ cb, ¬ Retired w c.1
  last : x.chan.last_req_id = w.chan.last_req_id
  bound : Bound w → Bound x

/-- Call `grilio_parser_skip_string` the given number of times: the flags
returned and the parser afterwards. -/
def skipStrings (e : Endian) (p : GRilIoParser) : Nat → List Bool × GRilIoParser
  | 0 => ([], p)
  | n + 1 =>
      let r := grilio_parser_skip_string e p
      let rs := skipStrings e r.2 n
      (r.1 :: rs.1, rs.2)

/-- A connected channel with the timeout 2147484 ms, at the time of 5000
seconds; a request with a response callback and the default timeout is
submitted and written out at once. -/
def sampleLongTimeout : World :=
  run .little (World.init sampleChan [.written 100, .written 100] 5000000000)
    [.set_timeout 2147484,
      .readable { inbox := packet sampleHandshake, reads := [.avail 100, .avail 100] },
      .request_new [] (-1),
      .send (some 0) 10 true false]

/-! ## Consistency of the links between requests, queues and channel -/

/-- The receive state is within its buffers: at most four bytes of the
length are read, the two buffers have their sizes, and while the read watch
exists and the length is complete, the length is at most
`GRILIO_MAX_PACKET_LEN`, the read position in the body is at most the length,
and the length is at most the capacity of the body buffer. -/
def ReadOk (w : World) : Prop :=
  w.chan.read_len_pos ≤ 4 ∧ w.chan.read_len_buf.length = 4 ∧
  w.chan.read_buf.length = w.chan.read_buf_alloc ∧
  (w.chan.read_watch_id = true → w.chan.read_len_pos = 4 →
    w.chan.read_len ≤ GRILIO_MAX_PACKET_LEN ∧ w.chan.read_buf_pos ≤ w.chan.read_len ∧
      w.chan.read_len ≤ w.chan.read_buf_alloc)

instance (w : World) : Decidable (ReadOk w) := by
  unfold ReadOk; infer_instance

/-- The channel still has the request to handle: the request is in the
response table, or it has no response callback and is in the send queue or
in transmission. -/
def Awaited (w : World) (h : Nat) : Prop :=
  (∃ kv ∈ w.chan.resp_table, kv.2 = h) ∨
    ((w.req h).response = false ∧ (h ∈ w.chan.fifo ∨ w.chan.send_req = some h))

instance (w : World) (h : Nat) : Decidable (Awaited w h) := by
  unfold Awaited; infer_instance

/-- No two requests have the same id, apart from the id zero of the requests
that have not been submitted. -/
def UniqueIds (w : World) : Prop :=
  ∀ h k, (w.req h).id = (w.req k).id → (w.req h).id ≠ 0 → h = k

/-- What holds of the links between two steps, and inside a step for all
requests but those in `E`, which the step is working on: a request in the
response table has a response callback; the request in transmission is
SENDING or CANCELLED and `send_pos` is inside its buffer; the requests of
the send queue are QUEUED; a request with a queue is a member of it, a member
of a queue points back to it, no queue has a member twice; a NEW request has
no queue; when the ids are unique, the members of the queues are awaited by
the channel; and the receive state is within its buffers. -/
structure Links (E : Nat → Prop) (w : World) : Prop where
  callback : ∀ kv ∈ w.chan.resp_table, (w.req kv.2).response = true
  sending : ∀ s, w.chan.send_req = some s → ¬ E s →
    ((w.req s).status = .SENDING ∨ (w.req s).status = .CANCELLED) ∧
      w.chan.send_pos ≤ (w.req s).bytes.length
  queued : ∀ h ∈ w.chan.fifo, (w.req h).status = .QUEUED
  linked : QueueLinked w
  fresh : ∀ h, ¬ E h → (w.req h).status = .NEW → (w.req h).queue = none
  members : UniqueIds w → ∀ q, ∀ h ∈ (w.queue q).reqs, ¬ E h → Awaited w h
  read : ReadOk w

/-- The step from `w` to `x` inside the engine, seen from the links: `x` is
consistent, the ids are those of `w`, and no queue has got a member. -/
structure Tidy (E : Nat → Prop) (w x : World) : Prop where
  core : Core x
  links : Links E x
  ids : ∀ h, (x.req h).id = (w.req h).id
  mono : ∀ q, ∀ h ∈ (x.queue q).reqs, h ∈ (w.queue q).reqs

/-- The state in which `grilio_channel_read` reads the packet body. -/
def BodyOk (w : World) : Prop :=
  w.chan.read_len ≤ GRILIO_MAX_PACKET_LEN ∧ w.chan.read_buf_pos ≤ w.chan.read_len ∧
    w.chan.read_len ≤ w.chan.read_buf_alloc

/-- What a step that returns `res` does to the request ids: they stay, or one
request without an id gets the id the channel has just counted up to. -/
def IdStep (w x : World) (res : Nat) : Prop :=
  (∀ k, (x.req k).id = (w.req k).id) ∨
    ∃ h, (w.req h).id = 0 ∧ (x.req h).id = x.chan.last_req_id ∧ res ≠ 0 ∧
      ∀ k, k ≠ h → (x.req k).id = (w.req k).id

/-! ## The linked lists behind the send queue and the request queues -/

/-- A singly linked list of requests with a pointer to its first and to its
last element: `first_req`, `last_req` and `next` of the channel,
`first_req`, `last_req` and `qnext` of a queue. A handle stands for the
pointer to the request, `none` for the null pointer. -/
structure ReqList where
  first_req : Option Nat
  last_req : Option Nat
  next : Nat → Option Nat

/-- The assignment `req->next = value` (`req->qnext = value`). -/
def ReqList.setNext (p : ReqList) (req : Nat) (value : Option Nat) : ReqList :=
  { p with next := fun k => if k = req then value else p.next k }

/-- The list code of `grilio_channel_queue_request`: the request is linked
after the last one. -/
def grilio_channel_queue_request_list (p : ReqList) (req : Nat) : ReqList :=
  match p.last_req with
  | some last => { p.setNext last (some req) with last_req := some req }
  | none => { p with first_req := some req, last_req := some req }

/-- The list code of `grilio_channel_dequeue_request`: the first request is
taken off the list and returned. -/
def grilio_channel_dequeue_request_list (p : ReqList) : Option Nat × ReqList :=
  match p.first_req with
  | some req =>
      match p.next req with
      | some n => (some req, ({ p with first_req := some n } : ReqList).setNext req none)
      | none => (some req, { p with first_req := none, last_req := none })
  | none => (none, p)

/-- The loop that looks for a request in a list and unlinks it, as in
`grilio_channel_cancel_request` (where `hit` is `req->id == id`) and in
`grilio_queue_remove` (where it is `ptr == req`). `prev` and `req` are the
variables of the loop, `fuel` bounds the number of rounds. The result is the
request unlinked, `none` when the end of the list was reached without a hit,
and the list; there is no result when the fuel runs out. -/
def ReqList.unlink (p : ReqList) (hit : Nat → Bool) :
    Nat → Option Nat → Option Nat → Option (Option Nat × ReqList)
  | 0, _, _ => none
  | _ + 1, _, none => some (none, p)
  | fuel + 1, prev, some req =>
      if hit req then
        let p1 : ReqList :=
          match prev with
          | some pr => p.setNext pr (p.next req)
          | none => { p with first_req := p.next req }
        let p2 : ReqList :=
          match p1.next req with
          | some _ => p1.setNext req none
          | none => { p1 with last_req := prev }
        some (some req, p2)
      else p.unlink hit fuel (some req) (p.next req)

/-- The list code of the loop of `grilio_channel_cancel_request` over the
send queue; `id_of` gives the id of a request. -/
def grilio_channel_cancel_request_list (p : ReqList) (id_of : Nat → Nat) (id : Nat)
    (fuel : Nat) : Option (Option Nat × ReqList) :=
  p.unlink (fun req => decide (id_of req = id)) fuel none p.first_req

/-- One round of the loop `while (first_req)` of `grilio_channel_cancel_all`
and of `grilio_queue_cancel_all`: the first request is taken off the list. -/
def ReqList.dropFirst (p : ReqList) : ReqList :=
  match p.first_req with
  | some req =>
      let p1 : ReqList := { p with first_req := p.next req }
      match p1.next req with
      | some _ => p1.setNext req none
      | none => { p1 with last_req := none }
  | none => p

/-- The list code of `grilio_queue_add`. -/
def grilio_queue_add_list (p : ReqList) (req : Nat) : ReqList :=
  match p.last_req with
  | some last => { p.setNext last (some req) with last_req := some req }
  | none => { p with first_req := some req, last_req := some req }

/-- The list code of `grilio_queue_remove` for a request whose queue is the
one with the list `p`. -/
def grilio_queue_remove_list (p : ReqList) (req : Nat) (fuel : Nat) :
    Option (Option Nat × ReqList) :=
  p.unlink (fun ptr => decide (ptr = req)) fuel none p.first_req

/-- The loop of `grilio_queue_free`: every request of the list loses its
link; `req` is the variable of the loop, `fuel` bounds the number of
rounds. -/
def grilio_queue_free_list : Nat → Option Nat → ReqList → Option ReqList
  | 0, _, _ => none
  | _ + 1, none, p => some p
  | fuel + 1, some req, p => grilio_queue_free_list fuel (p.next req) (p.setNext req none)

/-- The requests reached from `start` over at most `n` links. -/
def ReqList.walk (p : ReqList) : Nat → Option Nat → List Nat
  | 0, _ => []
  | _ + 1, none => []
  | n + 1, some req => req :: p.walk n (p.next req)

/-- The successor of a request in a list of requests. -/
def nextOf : List Nat → Nat → Option Nat
  | [], _ => none
  | a :: l, k => if k = a then l.head? else nextOf l k

/-- The linked list that stands for a list of requests: every request points
to its successor, and requests that are not in the list point nowhere. -/
def linksOf (l : List Nat) : ReqList :=
  { first_req := l.head?
    last_req := l.getLast?
    next := nextOf l }

/-! ## The receive path with its accesses checked -/

instance (w : World) : Decidable (BodyOk w) := by
  unfold BodyOk; infer_instance

/-- A 32-bit word of the packet body as `grilio_channel_handle_packet` reads
it, `buf[i]` at the byte offset `off`: there is no value when the word is not
within the `len` bytes received, or not within the buffer. -/
def body_word (e : Endian) (buf : List Nat) (len off : Nat) : Option Nat :=
  if off + 4 ≤ len ∧ len ≤ buf.length then some (loadU32 e buf off) else none

/-- The function `grilio_channel_handle_packet` with its reads of the packet
body checked: there is no result when a word is read outside the body. -/
def grilio_channel_handle_packet_checked (e : Endian) (w : World) : Option (Bool × World) :=
  let read_buf := w.chan.read_buf
  let read_len := w.chan.read_len
  let malformed : Bool × World := (false, grilio_channel_handle_error w .READ true)
  if read_len ≥ 8 then
    match body_word e read_buf read_len 0 with
    | none => none
    | some word0 =>
        if word0 ≠ 0 then
          -- RIL Unsolicited Event
          match body_word e read_buf read_len 4 with
          | none => none
          | some code =>
              -- Loggers get the whole thing except the length
              let w1 := grilio_channel_log w .UNSOL 0 code (read_buf.take read_len)
              -- Handle RIL_UNSOL_RIL_CONNECTED
              let w2 :=
                if code = RIL_UNSOL_RIL_CONNECTED then grilio_channel_connected e w1 else w1
              -- Event handler gets event code and the data separately
              some (true, w2.emit (.unsol_event code ((read_buf.drop 8).take (read_len - 8))))
        else if read_len ≥ 12 then
          -- RIL Solicited Response
          match body_word e read_buf read_len 4, body_word e read_buf read_len 8 with
          | some id, some status =>
              let req := g_hash_table_lookup w.chan.resp_table id
              -- Logger receives everything except the length
              let w1 := grilio_channel_log w .RESP id status (read_buf.take read_len)
              match req with
              | some req =>
                  -- We have a response callback
                  let w2 := grilio_request_ref w1 req
                  let w3 := grilio_queue_remove w2 req
                  let w4 := (g_hash_table_remove w3 id).2
                  let w5 := w4.emit
                    (.response req (toInt32 status) ((read_buf.drop 12).take (read_len - 12)))
                  some (true, grilio_request_unref w5 req)
              | none => some (true, w1)
          | _, _ => none
        else some malformed
  else some malformed

/-- The packet body part of `grilio_channel_read` with its accesses checked:
there is no result when body bytes are read or a packet is dispatched with
`read_len` above `GRILIO_MAX_PACKET_LEN`, `read_buf_pos` above `read_len` or
`read_len` above `read_buf_alloc`, or when the bytes read do not fit in the
buffer at `read_buf + read_buf_pos`. -/
def grilio_channel_read_body_checked (e : Endian) (w : World) (inp : Input) :
    Option (Bool × World × Input) :=
  if BodyOk w then
    if w.chan.read_buf_pos < w.chan.read_len then
      match grilio_channel_read_chars w inp (w.chan.read_len - w.chan.read_buf_pos) with
      | (none, w1, inp1) => some (false, w1, inp1)
      | (some bytes, w1, inp1) =>
          if w1.chan.read_buf_pos + bytes.length ≤ w1.chan.read_buf_alloc then
            let w2 := { w1 with chan := { w1.chan with
              read_buf := poke w1.chan.read_buf w1.chan.read_buf_pos bytes
              read_buf_pos := w1.chan.read_buf_pos + bytes.length } }
            if w2.chan.read_buf_pos < w2.chan.read_len then
              -- Need more bytes
              some (true, w2, inp1)
            else if BodyOk w2 then
              -- ready to start receiving the next packet
              (grilio_channel_handle_packet_checked e
                { w2 with chan := { w2.chan with read_len_pos := 0 } }).map
                  (fun r => (r.1, r.2, inp1))
            else none
          else none
    else
      -- ready to start receiving the next packet
      (grilio_channel_handle_packet_checked e
        { w with chan := { w.chan with read_len_pos := 0 } }).map (fun r => (r.1, r.2, inp))
  else none

/-- The function `grilio_channel_read` with its accesses checked: there is
no result when `read_len_pos` is above four, when the bytes read do not fit
in `read_len_buf`, or when the body part has none. -/
def grilio_channel_read_checked (e : Endian) (w : World) (inp : Input) :
    Option (Bool × World × Input) :=
  if w.chan.read_len_pos ≤ 4 then
    -- Length
    if w.chan.read_len_pos < 4 then
      match grilio_channel_read_chars w inp (4 - w.chan.read_len_pos) with
      | (none, w1, inp1) => some (false, w1, inp1)
      | (some bytes, w1, inp1) =>
          if w1.chan.read_len_pos + bytes.length ≤ 4 then
            let w2 := { w1 with chan := { w1.chan with
              read_len_buf := poke w1.chan.read_len_buf w1.chan.read_len_pos bytes
              read_len_pos := w1.chan.read_len_pos + bytes.length } }
            if w2.chan.read_len_pos < 4 then
              -- Need more bytes
              some (true, w2, inp1)
            else
              -- We have finished reading the length (in Big Endian)
              let w3 := { w2 with chan := { w2.chan with
                read_len := loadU32 .big w2.chan.read_len_buf 0 } }
              if w3.chan.read_len ≤ GRILIO_MAX_PACKET_LEN then
                -- Reset buffer read position
                let w4 := { w3 with chan := { w3.chan with read_buf_pos := 0 } }
                -- Allocate enough space for the entire packet
                let w5 :=
                  if w4.chan.read_buf_alloc < w4.chan.read_len then
                    { w4 with chan := { w4.chan with
                        read_buf_alloc := w4.chan.read_len
                        read_buf := List.replicate w4.chan.read_len 0 } }
                  else w4
                grilio_channel_read_body_checked e w5 inp1
              else
                -- Message is too long or stream is broken
                some (false, w3, inp1)
          else none
    else grilio_channel_read_body_checked e w inp
  else none

/-- A new channel with a subscription, on a socket that takes what is
written. -/
def sampleWrapStart : World :=
  World.init ((grilio_channel_new_fd (some [0, 0, 0, 0])).getD grilio_channel_init)
    [.written 4, .written 100] 0

/-- The user makes a queue and a request, submits the request through the
queue with a response callback, and the socket takes the frame. -/
def sampleWrapFirst : List Op :=
  [.queue_new, .request_new [] (-1), .queue_send 0 (some 0) 10 true false, .writable]

/-- After `sampleWrapFirst`, `n` requests without a response callback are
submitted (they wait in the send queue, the channel is not connected), and
then one with a response callback. -/
def sampleWrapOps (n : Nat) : List Op :=
  sampleWrapFirst ++ List.replicate n (.send none 10 false false) ++
    [.send none 10 true false]

/-- The state of the channel of `sampleWrapOps` while the requests pile up:
it is not connected and nothing is in transmission, the request 0 is in the
queue 0 under the id 1 and not in the send queue, and `L` is the last id
given out. -/
def Piled (L : Nat) (w : World) : Prop :=
  Core w ∧ w.chan.connected = false ∧ w.chan.send_req = none ∧ 0 ∉ w.chan.fifo ∧
    0 ∈ (w.queue 0).reqs ∧ (w.req 0).id = 1 ∧ w.chan.last_req_id = L

end Grilio

/-! # Theorems -/

namespace Grilio

theorem set_size_grow (bytes : List Nat) (k : Nat) :
    g_byte_array_set_size bytes (bytes.length + k) = bytes ++ List.replicate k 0 := by
  unfold g_byte_array_set_size
  by_cases hk : k = 0
  · subst hk; simp
  · have : ¬ (bytes.length + k ≤ bytes.length) := by omega
    simp [this]

theorem memcpy_tail (bytes fill src : List Nat) (h : fill.length = src.length) :
    memcpy (bytes ++ fill) bytes.length src = some (bytes ++ src) := by
  unfold memcpy
  simp [h]

theorem append_byte_bytes (req : GRilIoRequest) (v : Nat) :
    (grilio_request_append_byte req v).bytes = req.bytes ++ [v % 256] := by
  unfold grilio_request_append_byte
  simp only [set_size_grow]
  simp [List.set_append]

theorem storeU32_length (e : Endian) (v : Nat) : (storeU32 e v).length = 4 := by
  cases e <;> rfl

theorem storeU16_length (e : Endian) (v : Nat) : (storeU16 e v).length = 2 := by
  cases e <;> rfl

theorem append_int32_bytes (e : Endian) (req : GRilIoRequest) (v : Nat) :
    (grilio_request_append_int32 e req v).bytes = req.bytes ++ storeU32 e v := by
  unfold grilio_request_append_int32
  simp only [set_size_grow]
  have h : (req.bytes ++ List.replicate 4 0).length - 4 = req.bytes.length := by simp
  rw [h, memcpy_tail _ _ _ (by simp [storeU32_length])]
  rfl

theorem getD_append_at (pre post : List Nat) (i : Nat) :
    (pre ++ post).getD (pre.length + i) 0 = post.getD i 0 := by
  simp [List.getD_eq_getElem?_getD, List.getElem?_append_right]

theorem loadU32_append (e : Endian) (pre post : List Nat) (i : Nat) :
    loadU32 e (pre ++ post) (pre.length + i) = loadU32 e post i := by
  have h0 := getD_append_at pre post i
  have h1 := getD_append_at pre post (i + 1)
  have h2 := getD_append_at pre post (i + 2)
  have h3 := getD_append_at pre post (i + 3)
  cases e <;> simp only [loadU32, Nat.add_assoc] at * <;> rw [h0, h1, h2, h3]

theorem loadU16_append (e : Endian) (pre post : List Nat) (i : Nat) :
    loadU16 e (pre ++ post) (pre.length + i) = loadU16 e post i := by
  have h0 := getD_append_at pre post i
  have h1 := getD_append_at pre post (i + 1)
  cases e <;> simp only [loadU16, Nat.add_assoc] at * <;> rw [h0, h1]

theorem loadU32_storeU32 (e : Endian) (v : Nat) (post : List Nat) :
    loadU32 e (storeU32 e v ++ post) 0 = v % 4294967296 := by
  cases e <;> simp [loadU32, storeU32] <;> omega

theorem toInt32_ofInt32 (x : Int) (h : -2147483648 ≤ x ∧ x < 2147483648) :
    toInt32 (ofInt32 x % 4294967296) = x := by
  unfold toInt32 ofInt32
  have h1 : ((x % 4294967296).toNat : Int) = x % 4294967296 :=
    Int.toNat_of_nonneg (Int.emod_nonneg _ (by norm_num))
  split <;> rename_i hc <;> omega

theorem appendPrim_bytes (e : Endian) (req : GRilIoRequest) (x : Prim) :
    (appendPrim e req x).bytes = req.bytes ++ encodePrim e x := by
  cases x <;> simp [appendPrim, encodePrim, append_byte_bytes, append_int32_bytes]

theorem appendPrims_bytes (e : Endian) (xs : List Prim) (req : GRilIoRequest) :
    (appendPrims e req xs).bytes = req.bytes ++ xs.flatMap (encodePrim e) := by
  induction xs generalizing req with
  | nil => simp [appendPrims]
  | cons x xs ih =>
      have := ih (appendPrim e req x)
      simp only [appendPrims, List.foldl_cons] at this ⊢
      rw [this, appendPrim_bytes]
      simp

theorem encodePrim_length_pos (e : Endian) (x : Prim) : 0 < (encodePrim e x).length := by
  cases x <;> simp [encodePrim, storeU32_length]

theorem parsePrim_encode (e : Endian) (x : Prim) (hx : x.wf) (pre post : List Nat) (endp : Nat)
    (hend : pre.length + (encodePrim e x).length ≤ endp) :
    parsePrim e { data := pre ++ (encodePrim e x ++ post), ptr := pre.length, endp := endp } x
      = some (x, { data := pre ++ (encodePrim e x ++ post),
                   ptr := pre.length + (encodePrim e x).length, endp := endp }) := by
  cases x with
  | byte v =>
      simp only [Prim.wf] at hx
      simp only [encodePrim, List.length_singleton] at hend ⊢
      have hlt : pre.length < endp := by omega
      have hg := getD_append_at pre ([v % 256] ++ post) 0
      simp only [Nat.add_zero] at hg
      simp only [parsePrim, grilio_parser_get_byte, hlt, if_true, hg]
      simp [Nat.mod_eq_of_lt hx]
  | i32 x =>
      simp only [Prim.wf] at hx
      simp only [encodePrim, storeU32_length] at hend ⊢
      have hl := loadU32_append e pre (storeU32 e (ofInt32 x) ++ post) 0
      simp only [Nat.add_zero] at hl
      simp [parsePrim, grilio_parser_get_int32, grilio_parser_get_uint32, hend, hl,
        loadU32_storeU32, toInt32_ofInt32 x hx]
  | u32 v =>
      simp only [Prim.wf] at hx
      simp only [encodePrim, storeU32_length] at hend ⊢
      have hl := loadU32_append e pre (storeU32 e v ++ post) 0
      simp only [Nat.add_zero] at hl
      simp [parsePrim, grilio_parser_get_uint32, hend, hl, loadU32_storeU32,
        Nat.mod_eq_of_lt hx]

theorem parsePrims_encode (e : Endian) (xs : List Prim) (h : ∀ x ∈ xs, x.wf) :
    ∀ (pre post : List Nat) (endp : Nat),
      pre.length + (xs.flatMap (encodePrim e)).length ≤ endp →
      parsePrims e { data := pre ++ (xs.flatMap (encodePrim e) ++ post),
                     ptr := pre.length, endp := endp } xs
        = some (xs, { data := pre ++ (xs.flatMap (encodePrim e) ++ post),
                      ptr := pre.length + (xs.flatMap (encodePrim e)).length,
                      endp := endp }) := by
  induction xs with
  | nil => intro pre post endp _; simp [parsePrims]
  | cons x xs ih =>
      intro pre post endp hend
      have hx : x.wf := h x (List.mem_cons_self _ _)
      have hxs : ∀ y ∈ xs, y.wf := fun y hy => h y (List.mem_cons_of_mem _ hy)
      simp only [List.flatMap_cons, List.length_append, List.append_assoc] at hend ⊢
      have h1 := parsePrim_encode e x hx pre (xs.flatMap (encodePrim e) ++ post) endp
        (by omega)
      have h2 := ih hxs (pre ++ encodePrim e x) post endp
        (by simp only [List.length_append]; omega)
      simp only [List.length_append, List.append_assoc] at h2
      simp only [parsePrims, h1, h2]
      simp [Nat.add_assoc]

/-- C2: whatever bytes and 32-bit words are appended to a fresh request,
parsing its payload with the matching getters succeeds at every step, returns
the appended values in order, and leaves the parser at the end. -/
theorem append_parse_primitives (e : Endian) (size : Nat) (xs : List Prim)
    (h : ∀ x ∈ xs, x.wf) :
    ∃ p, parsePrims e
        (grilio_parser_init
          (grilio_request_data (appendPrims e (grilio_request_sized_new size) xs))
          (grilio_request_size (appendPrims e (grilio_request_sized_new size) xs))) xs
        = some (xs, p) ∧ grilio_parser_at_end p = true := by
  have hb := appendPrims_bytes e xs (grilio_request_sized_new size)
  have h0 : (grilio_request_sized_new size).bytes = List.replicate 12 0 := by
    simp [grilio_request_sized_new, g_byte_array_set_size, GRILIO_REQUEST_HEADER_SIZE]
  rw [h0] at hb
  have hd : grilio_request_data (appendPrims e (grilio_request_sized_new size) xs)
      = xs.flatMap (encodePrim e) := by
    simp [grilio_request_data, hb, GRILIO_REQUEST_HEADER_SIZE]
  have hs : grilio_request_size (appendPrims e (grilio_request_sized_new size) xs)
      = (xs.flatMap (encodePrim e)).length := by
    simp [grilio_request_size, hb, GRILIO_REQUEST_HEADER_SIZE]
  rw [hd, hs]
  have hp := parsePrims_encode e xs h [] [] (0 + (xs.flatMap (encodePrim e)).length)
    (by simp)
  simp only [List.nil_append, List.append_nil, List.length_nil] at hp
  exact ⟨_, hp, by simp [grilio_parser_at_end]⟩

theorem append_parse_primitives_witness :
    (∀ x ∈ [Prim.i32 (-1234), Prim.u32 16909060, Prim.byte 5, Prim.byte 6], x.wf) ∧
    ∃ p, parsePrims Endian.little
        (grilio_parser_init
          (grilio_request_data (appendPrims Endian.little (grilio_request_sized_new 12)
            [Prim.i32 (-1234), Prim.u32 16909060, Prim.byte 5, Prim.byte 6]))
          (grilio_request_size (appendPrims Endian.little (grilio_request_sized_new 12)
            [Prim.i32 (-1234), Prim.u32 16909060, Prim.byte 5, Prim.byte 6])))
          [Prim.i32 (-1234), Prim.u32 16909060, Prim.byte 5, Prim.byte 6]
        = some ([Prim.i32 (-1234), Prim.u32 16909060, Prim.byte 5, Prim.byte 6], p) ∧
      grilio_parser_at_end p = true :=
  ⟨by decide, append_parse_primitives Endian.little 12 _ (by decide)⟩

/-! ## Strings -/

theorem memcpy_mid (a b c src : List Nat) (h : b.length = src.length) :
    memcpy (a ++ (b ++ c)) a.length src = some (a ++ (src ++ c)) := by
  unfold memcpy
  have h1 : a.length + src.length ≤ (a ++ (b ++ c)).length := by
    simp only [List.length_append]; omega
  rw [if_pos h1]
  have h2 : List.drop (a.length + src.length) (a ++ (b ++ c)) = c := by
    rw [List.drop_append, ← h, List.drop_left]
  simp [h2]

theorem set_size_same (bytes : List Nat) : g_byte_array_set_size bytes bytes.length = bytes := by
  simp [g_byte_array_set_size]

theorem flatMap_storeU16_length (e : Endian) (us : List Nat) :
    (us.flatMap (storeU16 e)).length = 2 * us.length := by
  induction us with
  | nil => rfl
  | cons u us ih => simp [List.flatMap_cons, storeU16_length, ih]; omega

theorem utf16_of_bmp (cs : List Char) (h : ∀ c ∈ cs, c.toNat ≠ 0 ∧ c.toNat < 65536) :
    cs.flatMap utf16Units = cs.map Char.toNat := by
  induction cs with
  | nil => rfl
  | cons c cs ih =>
      have hc := (h c (List.mem_cons_self _ _)).2
      have := ih (fun d hd => h d (List.mem_cons_of_mem _ hd))
      simp [List.flatMap_cons, utf16Units, hc, this]

theorem strlen_pos (c : Char) (cs : List Char) : 0 < strlen (c :: cs) := by
  have : 0 < c.utf8Size := Char.utf8Size_pos c
  simp [strlen]; omega

theorem G_ALIGN4_ge (n : Nat) : n ≤ G_ALIGN4 n := by
  unfold G_ALIGN4; omega

theorem G_ALIGN4_lt (n : Nat) : G_ALIGN4 n < n + 4 := by
  unfold G_ALIGN4; omega

theorem append_utf8_bmp (e : Endian) (req : GRilIoRequest) (s : Option (List Char))
    (h : bmpString s) :
    grilio_request_append_utf8 e req s
      = some { req with bytes := req.bytes ++ encodeUtf8 e s } := by
  match s, h with
  | none, _ =>
      have h1 : ofInt32 (-1) = 4294967295 := by decide
      have h2 := append_int32_bytes e req 4294967295
      simp only [grilio_request_append_utf8, h1, encodeUtf8, Option.some.injEq]
      rw [← h2]
      simp [grilio_request_append_int32]
  | some [], _ =>
      have h1 : ¬ (0 < strlen []) := by simp [strlen]
      have h2 : storeU16 e 0 ++ storeU16 e 0 = storeU32 e 0 := by cases e <;> rfl
      simp only [grilio_request_append_utf8, h1, if_false, set_size_grow, encodeUtf8]
      rw [memcpy_tail _ _ _ (by simp [storeU16_length])]
      simp [← h2]
  | some (c :: cs), h =>
      obtain ⟨hb, _⟩ := h
      have h1 : 0 < strlen (c :: cs) := strlen_pos c cs
      have h2 : 0 < g_utf8_strlen (c :: cs) := by simp [g_utf8_strlen]
      have hu := utf16_of_bmp (c :: cs) hb
      have hlen : ((c :: cs).flatMap utf16Units).length = (c :: cs).length := by
        rw [hu, List.length_map]
      have hge := G_ALIGN4_ge (((c :: cs).length + 1) * 2)
      have hsz : ∀ a b : Nat, g_byte_array_set_size req.bytes (req.bytes.length + a + b)
          = req.bytes ++ List.replicate (a + b) 0 := by
        intro a b; rw [Nat.add_assoc, set_size_grow]
      have hnpos : 0 < (c :: cs).length := by simp
      simp only [grilio_request_append_utf8, h1, h2, if_true, g_utf8_to_utf16, hlen,
        g_utf8_strlen, hsz, encodeUtf8, hu, List.length_map, hnpos, List.append_assoc]
      generalize hus : ((c :: cs).map Char.toNat ++ [0]).flatMap (storeU16 e) = us
      have husl : us.length = ((c :: cs).length + 1) * 2 := by
        rw [← hus, flatMap_storeU16_length]; simp; omega
      generalize hn : (c :: cs).length = n at *
      generalize hP : G_ALIGN4 ((n + 1) * 2) = P at *
      have hsplit : List.replicate (P + 4) 0
          = List.replicate 4 0 ++ (List.replicate ((n + 1) * 2) 0 ++ List.replicate (P - (n + 1) * 2) 0) := by
        rw [← List.replicate_add, ← List.replicate_add]; congr 1; omega
      have hm1 : memcpy (req.bytes ++ List.replicate (P + 4) 0) (req.bytes.length + 4) us
          = some (req.bytes ++ List.replicate 4 0 ++ (us ++ List.replicate (P - (n + 1) * 2) 0)) := by
        rw [hsplit, ← List.append_assoc]
        have := memcpy_mid (req.bytes ++ List.replicate 4 0) (List.replicate ((n + 1) * 2) 0)
          (List.replicate (P - (n + 1) * 2) 0) us (by simp [husl])
        simpa using this
      rw [hm1]
      simp only [Option.map_some']
      clear hsz
      have hm2 : memcpy (req.bytes ++ List.replicate 4 0 ++ (us ++ List.replicate (P - (n + 1) * 2) 0))
          req.bytes.length (storeU32 e n)
          = some (req.bytes ++ (storeU32 e n ++ (us ++ List.replicate (P - (n + 1) * 2) 0))) := by
        rw [List.append_assoc]
        exact memcpy_mid _ _ _ _ (by simp [storeU32_length])
      rw [hm2]
      simp only
      have hm3 : memset (req.bytes ++ (storeU32 e n ++ (us ++ List.replicate (P - (n + 1) * 2) 0)))
          (req.bytes.length + 4 + (n + 1) * 2) 0 (P - (n + 1) * 2)
          = some (req.bytes ++ (storeU32 e n ++ (us ++ List.replicate (P - (n + 1) * 2) 0))) := by
        unfold memset
        have := memcpy_mid (req.bytes ++ (storeU32 e n ++ us)) (List.replicate (P - (n + 1) * 2) 0) []
          (List.replicate (P - (n + 1) * 2) 0) rfl
        simp only [List.append_nil, List.length_append, storeU32_length, husl,
          List.append_assoc] at this
        rw [← Nat.add_assoc] at this
        exact this
      have hfin : g_byte_array_set_size
          (req.bytes ++ (storeU32 e n ++ (us ++ List.replicate (P - (n + 1) * 2) 0)))
          (req.bytes.length + P + 4)
          = req.bytes ++ (storeU32 e n ++ (us ++ List.replicate (P - (n + 1) * 2) 0)) := by
        have hl : (req.bytes ++ (storeU32 e n ++ (us ++ List.replicate (P - (n + 1) * 2) 0))).length
            = req.bytes.length + P + 4 := by
          simp only [List.length_append, storeU32_length, husl, List.length_replicate]; omega
        rw [← hl, set_size_same]
      by_cases hp : P - (n + 1) * 2 = 0
      · simp only [hp, ne_eq, not_true_eq_false, if_false, Option.map_some', List.replicate_zero,
          List.append_nil] at hfin ⊢
        rw [hfin]
      · simp only [hp, ne_eq, not_false_eq_true, if_true, hm3, Option.map_some', hfin]

theorem utf16_to_utf8_cons (c : Char) (h0 : c.toNat ≠ 0) (rest : List Nat) :
    g_utf16_to_utf8 (c.toNat :: rest) = (g_utf16_to_utf8 rest).map (fun s => c :: s) := by
  have hv : c.toNat < 55296 ∨ (57343 < c.toNat ∧ c.toNat < 1114112) := c.valid
  have hs1 : ¬ (55296 ≤ c.toNat ∧ c.toNat < 57344) := by omega
  have hs2 : ¬ (55296 ≤ c.toNat ∧ c.toNat < 56320) := by omega
  have hs3 : ¬ (56320 ≤ c.toNat ∧ c.toNat < 57344) := by omega
  cases rest with
  | nil => simp [g_utf16_to_utf8, h0, hs1, Char.ofNat_toNat]
  | cons l rest => simp [g_utf16_to_utf8, h0, hs2, hs3, Char.ofNat_toNat]

theorem utf16_to_utf8_bmp (cs : List Char) (h : ∀ c ∈ cs, c.toNat ≠ 0 ∧ c.toNat < 65536) :
    g_utf16_to_utf8 (cs.map Char.toNat) = some cs := by
  induction cs with
  | nil => rfl
  | cons c cs ih =>
      have hc := (h c (List.mem_cons_self _ _)).1
      have := ih (fun d hd => h d (List.mem_cons_of_mem _ hd))
      rw [List.map_cons, utf16_to_utf8_cons c hc, this]
      rfl

theorem loadU16_storeU16 (e : Endian) (v : Nat) (post : List Nat) :
    loadU16 e (storeU16 e v ++ post) 0 = v % 65536 := by
  cases e <;> simp [loadU16, storeU16] <;> omega

theorem loadU16s_flatMap (e : Endian) (us : List Nat) :
    ∀ (pre post : List Nat),
      loadU16s e (pre ++ (us.flatMap (storeU16 e) ++ post)) pre.length us.length
        = us.map (fun u => u % 65536) := by
  induction us with
  | nil => intro pre post; rfl
  | cons u us ih =>
      intro pre post
      have h1 := loadU16_append e pre (storeU16 e u ++ (us.flatMap (storeU16 e) ++ post)) 0
      have h2 := ih (pre ++ storeU16 e u) post
      simp only [List.length_append, storeU16_length, List.append_assoc, Nat.add_zero] at h1 h2
      simp only [List.flatMap_cons, List.length_cons, loadU16s, List.append_assoc, h1,
        loadU16_storeU16, h2, List.map_cons]

theorem toInt32_small (n : Nat) (h : n < 2147483648) : toInt32 n = n := by
  unfold toInt32
  have : n % 4294967296 = n := Nat.mod_eq_of_lt (by omega)
  simp [this, h]

theorem encodeUtf8_cons_length (e : Endian) (c : Char) (cs : List Char) :
    (encodeUtf8 e (some (c :: cs))).length = 4 + G_ALIGN4 (((c :: cs).length + 1) * 2) := by
  have hge := G_ALIGN4_ge (((c :: cs).length + 1) * 2)
  simp only [encodeUtf8, List.length_append, storeU32_length, flatMap_storeU16_length,
    List.length_replicate, List.length_map, List.length_singleton]
  omega

theorem get_utf8_encode (e : Endian) (s : Option (List Char)) (h : bmpString s)
    (pre post : List Nat) (endp : Nat)
    (hend : pre.length + (encodeUtf8 e s).length ≤ endp) :
    grilio_parser_get_utf8 e
        { data := pre ++ (encodeUtf8 e s ++ post), ptr := pre.length, endp := endp }
      = (s, { data := pre ++ (encodeUtf8 e s ++ post),
              ptr := pre.length + (encodeUtf8 e s).length, endp := endp }) := by
  match s, h with
  | none, _ =>
      simp only [encodeUtf8, storeU32_length] at hend ⊢
      have hl := loadU32_append e pre (storeU32 e 4294967295 ++ post) 0
      simp only [Nat.add_zero, loadU32_storeU32] at hl
      have h1 : toInt32 (4294967295 % 4294967296) = -1 := by decide
      simp only [grilio_parser_get_utf8, hend, if_true, hl, h1]
  | some [], _ =>
      have he : encodeUtf8 e (some []) = storeU32 e 0 ++ (storeU16 e 0 ++ storeU16 e 65535) := by
        simp [encodeUtf8]
      rw [he] at hend ⊢
      simp only [List.length_append, storeU32_length, storeU16_length] at hend ⊢
      have hl := loadU32_append e pre (storeU32 e 0 ++ ((storeU16 e 0 ++ storeU16 e 65535) ++ post)) 0
      simp only [Nat.add_zero, loadU32_storeU32, List.append_assoc] at hl
      have h4 : pre.length + 4 ≤ endp := by omega
      have h1 : toInt32 (0 % 4294967296) = 0 := by decide
      have h2 : G_ALIGN4 (((0 : Int).toNat + 1) * 2 % 4294967296) % 4294967296 = 4 := by decide
      have h3 : pre.length + 4 + 4 ≤ endp := by omega
      simp only [grilio_parser_get_utf8, h4, if_true, List.append_assoc, hl, h1, h2, h3]
      simp [loadU16s, g_utf16_to_utf8]
  | some (c :: cs), h =>
      obtain ⟨hb, hlen⟩ := h
      have hel := encodeUtf8_cons_length e c cs
      rw [hel] at hend
      have hge := G_ALIGN4_ge (((c :: cs).length + 1) * 2)
      have hlt := G_ALIGN4_lt (((c :: cs).length + 1) * 2)
      have he : encodeUtf8 e (some (c :: cs)) = storeU32 e (c :: cs).length
          ++ (((c :: cs).map Char.toNat).flatMap (storeU16 e)
            ++ (storeU16 e 0 ++ List.replicate
              (G_ALIGN4 (((c :: cs).length + 1) * 2) - ((c :: cs).length + 1) * 2) 0)) := by
        simp [encodeUtf8]
      rw [hel, he]
      generalize hn : (c :: cs).length = n at *
      have hl := loadU32_append e pre (storeU32 e n
          ++ (((c :: cs).map Char.toNat).flatMap (storeU16 e)
            ++ (storeU16 e 0 ++ List.replicate (G_ALIGN4 ((n + 1) * 2) - (n + 1) * 2) 0)) ++ post) 0
      simp only [Nat.add_zero, loadU32_storeU32, List.append_assoc] at hl
      have hnm : n % 4294967296 = n := Nat.mod_eq_of_lt (by omega)
      have h4 : pre.length + 4 ≤ endp := by omega
      have h1 : toInt32 n = n := toInt32_small n (by omega)
      have h1' : ¬ ((n : Int) = -1) := by omega
      have h1'' : (0 : Int) ≤ n := by omega
      have h2 : (n + 1) * 2 % 4294967296 = (n + 1) * 2 := Nat.mod_eq_of_lt (by omega)
      have h2' : G_ALIGN4 ((n + 1) * 2) % 4294967296 = G_ALIGN4 ((n + 1) * 2) :=
        Nat.mod_eq_of_lt (by omega)
      have h3 : pre.length + G_ALIGN4 ((n + 1) * 2) + 4 ≤ endp := by omega
      have hu := loadU16s_flatMap e ((c :: cs).map Char.toNat) (pre ++ storeU32 e n)
        (storeU16 e 0 ++ (List.replicate (G_ALIGN4 ((n + 1) * 2) - (n + 1) * 2) 0 ++ post))
      simp only [List.length_append, storeU32_length, List.length_map, hn,
        List.append_assoc] at hu
      have hmod : ((c :: cs).map Char.toNat).map (fun u => u % 65536)
          = (c :: cs).map Char.toNat := by
        rw [List.map_map]
        apply List.map_congr_left
        intro d hd
        exact Nat.mod_eq_of_lt (hb d hd).2
      simp only [grilio_parser_get_utf8, h4, if_true, List.append_assoc, hl, hnm, h1, h1',
        if_false, h1'', Int.toNat_ofNat, h2, h2', h3, hu, hmod, utf16_to_utf8_bmp _ hb]
      congr 2
      omega

theorem appendUtf8s_bmp (e : Endian) (ss : List (Option (List Char)))
    (h : ∀ s ∈ ss, bmpString s) :
    ∀ req : GRilIoRequest, appendUtf8s e req ss
      = some { req with bytes := req.bytes ++ ss.flatMap (encodeUtf8 e) } := by
  induction ss with
  | nil => intro req; simp [appendUtf8s]
  | cons s ss ih =>
      intro req
      have hs := h s (List.mem_cons_self _ _)
      have := ih (fun t ht => h t (List.mem_cons_of_mem _ ht))
        { req with bytes := req.bytes ++ encodeUtf8 e s }
      simp only [appendUtf8s, append_utf8_bmp e req s hs, Option.some_bind, this,
        List.flatMap_cons, List.append_assoc]

theorem getUtf8s_encode (e : Endian) (ss : List (Option (List Char)))
    (h : ∀ s ∈ ss, bmpString s) :
    ∀ (pre post : List Nat) (endp : Nat),
      pre.length + (ss.flatMap (encodeUtf8 e)).length ≤ endp →
      getUtf8s e { data := pre ++ (ss.flatMap (encodeUtf8 e) ++ post),
                   ptr := pre.length, endp := endp } ss.length
        = (ss, { data := pre ++ (ss.flatMap (encodeUtf8 e) ++ post),
                 ptr := pre.length + (ss.flatMap (encodeUtf8 e)).length, endp := endp }) := by
  induction ss with
  | nil => intro pre post endp _; simp [getUtf8s]
  | cons s ss ih =>
      intro pre post endp hend
      have hs := h s (List.mem_cons_self _ _)
      simp only [List.flatMap_cons, List.length_append, List.append_assoc] at hend ⊢
      have h1 := get_utf8_encode e s hs pre (ss.flatMap (encodeUtf8 e) ++ post) endp (by omega)
      have h2 := ih (fun t ht => h t (List.mem_cons_of_mem _ ht)) (pre ++ encodeUtf8 e s) post endp
        (by simp only [List.length_append]; omega)
      simp only [List.length_append, List.append_assoc] at h2
      simp only [List.length_cons, getUtf8s, h1, h2, Nat.add_assoc]

/-- Strings of the Basic Multilingual Plane survive the round trip: appended
to a fresh request in any number and parsed back in the same order they come
out equal (null for null, empty for empty), the parser ending at the end of
the payload. -/
theorem append_get_utf8_bmp (e : Endian) (size : Nat) (ss : List (Option (List Char)))
    (h : ∀ s ∈ ss, bmpString s) :
    ∃ req p, appendUtf8s e (grilio_request_sized_new size) ss = some req ∧
      getUtf8s e (grilio_parser_init (grilio_request_data req) (grilio_request_size req))
        ss.length = (ss, p) ∧
      grilio_parser_at_end p = true := by
  have ha := appendUtf8s_bmp e ss h (grilio_request_sized_new size)
  have h0 : (grilio_request_sized_new size).bytes = List.replicate 12 0 := by
    simp [grilio_request_sized_new, g_byte_array_set_size, GRILIO_REQUEST_HEADER_SIZE]
  rw [h0] at ha
  have hp := getUtf8s_encode e ss h [] [] (0 + (ss.flatMap (encodeUtf8 e)).length) (by simp)
  simp only [List.nil_append, List.append_nil, List.length_nil] at hp
  refine ⟨_, ⟨ss.flatMap (encodeUtf8 e), 0 + (ss.flatMap (encodeUtf8 e)).length,
    0 + (ss.flatMap (encodeUtf8 e)).length⟩, ha, ?_, ?_⟩
  · simpa [grilio_request_data, grilio_request_size, GRILIO_REQUEST_HEADER_SIZE,
      grilio_parser_init] using hp
  · simp [grilio_parser_at_end]

theorem append_get_utf8_bmp_witness :
    (∀ s ∈ [none, some [], some ['1', '2', '3']], bmpString s) ∧
    ∃ req p, appendUtf8s Endian.little (grilio_request_sized_new 0)
        [none, some [], some ['1', '2', '3']] = some req ∧
      getUtf8s Endian.little
        (grilio_parser_init (grilio_request_data req) (grilio_request_size req))
        [none, some [], some ['1', '2', '3']].length
          = ([none, some [], some ['1', '2', '3']], p) ∧
      grilio_parser_at_end p = true :=
  ⟨by simp [bmpString], append_get_utf8_bmp Endian.little 0 _ (by simp [bmpString])⟩

/-- C1 (defect): a string of four characters outside the Basic Multilingual
Plane, U+1F600 four times, appended to a fresh request: the array is sized for
four code units plus terminator (28 bytes in all) and the copy of the eight
code units plus terminator starting at offset 16 does not fit, so the append
runs off the end of the byte array, on either byte order. -/
theorem append_utf8_astral_overflow :
    grilio_request_append_utf8 Endian.little grilio_request_new
        (some (List.replicate 4 (Char.ofNat 128512))) = none ∧
    grilio_request_append_utf8 Endian.big grilio_request_new
        (some (List.replicate 4 (Char.ofNat 128512))) = none ∧
    memcpy (g_byte_array_set_size grilio_request_new.bytes (12 + 12 + 4)) 16
        (List.replicate 18 0) = none := by
  decide

/-! ## The heap -/

@[simp] theorem setReq_chan (w : World) (h : Nat) (r : GRilIoRequest) :
    (w.setReq h r).chan = w.chan := rfl

@[simp] theorem setReq_trace (w : World) (h : Nat) (r : GRilIoRequest) :
    (w.setReq h r).trace = w.trace := rfl

@[simp] theorem setReq_wire (w : World) (h : Nat) (r : GRilIoRequest) :
    (w.setReq h r).wire = w.wire := rfl

@[simp] theorem setReq_queues (w : World) (h : Nat) (r : GRilIoRequest) :
    (w.setReq h r).queues = w.queues := rfl

@[simp] theorem setReq_writes (w : World) (h : Nat) (r : GRilIoRequest) :
    (w.setReq h r).writes = w.writes := rfl

@[simp] theorem setReq_length (w : World) (h : Nat) (r : GRilIoRequest) :
    (w.setReq h r).reqs.length = w.reqs.length := by
  simp [World.setReq]

theorem req_setReq_same (w : World) (h : Nat) (r : GRilIoRequest) (hh : h < w.reqs.length) :
    (w.setReq h r).req h = r := by
  simp [World.req, World.setReq, List.getD_eq_getElem?_getD, List.getElem?_set, hh]

theorem req_setReq_other (w : World) (h k : Nat) (r : GRilIoRequest) (hk : k ≠ h) :
    (w.setReq h r).req k = w.req k := by
  simp [World.req, World.setReq, List.getD_eq_getElem?_getD, List.getElem?_set, Ne.symm hk]

@[simp] theorem emit_chan (w : World) (ev : Event) : (w.emit ev).chan = w.chan := rfl

@[simp] theorem emit_reqs (w : World) (ev : Event) : (w.emit ev).reqs = w.reqs := rfl

@[simp] theorem emit_req (w : World) (ev : Event) (h : Nat) : (w.emit ev).req h = w.req h := rfl

@[simp] theorem emit_wire (w : World) (ev : Event) : (w.emit ev).wire = w.wire := rfl

@[simp] theorem emit_queues (w : World) (ev : Event) : (w.emit ev).queues = w.queues := rfl

@[simp] theorem emit_writes (w : World) (ev : Event) : (w.emit ev).writes = w.writes := rfl

@[simp] theorem emit_trace (w : World) (ev : Event) : (w.emit ev).trace = w.trace ++ [ev] := rfl

/-! ## The frame of a request -/

theorem poke_mid (a b c src : List Nat) (h : b.length = src.length) :
    poke (a ++ (b ++ c)) a.length src = a ++ (src ++ c) := by
  simp [poke, memcpy_mid a b c src h]


theorem poke_eq (bytes : List Nat) (off : Nat) (src : List Nat)
    (h : off + src.length ≤ bytes.length) :
    poke bytes off src = bytes.take off ++ src ++ bytes.drop (off + src.length) := by
  simp [poke, memcpy, h]

theorem poke_length (bytes : List Nat) (off : Nat) (src : List Nat) :
    (poke bytes off src).length = bytes.length := by
  unfold poke memcpy
  split
  · simp only [Option.getD_some, List.length_append, List.length_take, List.length_drop]
    omega
  · rfl

theorem header_poke (bytes a b c : List Nat) (ha : a.length = 4) (hb : b.length = 4)
    (hc : c.length = 4) (h : 12 ≤ bytes.length) :
    poke (poke (poke bytes 0 a) 4 b) 8 c = a ++ b ++ c ++ bytes.drop 12 := by
  have h1 : poke bytes 0 a = a ++ bytes.drop 4 := by
    rw [poke_eq _ _ _ (by omega)]; simp [ha]
  have h2 : poke (a ++ bytes.drop 4) 4 b = a ++ (b ++ bytes.drop 8) := by
    have := poke_mid a (List.take 4 (bytes.drop 4)) (List.drop 4 (bytes.drop 4)) b
      (by simp [hb]; omega)
    rw [List.take_append_drop, ha] at this
    rw [this, List.drop_drop]
  have h3 : poke (a ++ (b ++ bytes.drop 8)) 8 c = a ++ (b ++ (c ++ bytes.drop 12)) := by
    have := poke_mid (a ++ b) (List.take 4 (bytes.drop 8)) (List.drop 4 (bytes.drop 8)) c
      (by simp [hc]; omega)
    rw [List.take_append_drop, List.length_append, ha, hb, List.drop_drop] at this
    simpa using this
  rw [h1, h2, h3]
  simp

theorem frameOf_length (e : Endian) (code id : Nat) (payload : List Nat) :
    (frameOf e code id payload).length = payload.length + 12 := by
  simp [frameOf, storeU32_length]; omega

theorem frameOf_decode (e : Endian) (code id : Nat) (payload : List Nat)
    (hp : payload.length + 8 < 4294967296) (hc : code < 4294967296) (hi : id < 4294967296) :
    loadU32 .big (frameOf e code id payload) 0 = ((frameOf e code id payload).drop 4).length ∧
    loadU32 e (frameOf e code id payload) 4 = code ∧
    loadU32 e (frameOf e code id payload) 8 = id ∧
    (frameOf e code id payload).drop 12 = payload := by
  have hl := frameOf_length e code id payload
  refine ⟨?_, ?_, ?_, ?_⟩
  · have := loadU32_storeU32 .big ((payload.length + 8) % 4294967296)
      (storeU32 e code ++ storeU32 e id ++ payload)
    simp only [frameOf, List.append_assoc] at this ⊢
    rw [this, Nat.mod_mod, Nat.mod_eq_of_lt hp]
    simp [storeU32_length]
    omega
  · have := loadU32_append e (storeU32 .big ((payload.length + 8) % 4294967296))
      (storeU32 e code ++ (storeU32 e id ++ payload)) 0
    simp only [storeU32_length, Nat.add_zero, loadU32_storeU32] at this
    simp only [frameOf, List.append_assoc]
    rw [this, Nat.mod_eq_of_lt hc]
  · have := loadU32_append e (storeU32 .big ((payload.length + 8) % 4294967296) ++ storeU32 e code)
      (storeU32 e id ++ payload) 0
    simp only [List.length_append, storeU32_length, Nat.add_zero, loadU32_storeU32,
      List.append_assoc] at this
    simp only [frameOf, List.append_assoc]
    rw [this, Nat.mod_eq_of_lt hi]
  · have h12 : (storeU32 .big ((payload.length + 8) % 4294967296) ++ storeU32 e code
        ++ storeU32 e id).length = 12 := by simp [storeU32_length]
    simp only [frameOf]
    rw [← h12, List.drop_left]

/-! ## Steps that keep the wire state -/

theorem Keeps.refl (w : World) : Keeps w w :=
  ⟨rfl, rfl, fun _ => rfl, fun _ => rfl, fun _ => rfl, fun _ h => h, rfl, rfl, rfl, rfl, rfl,
    rfl, rfl, rfl⟩

theorem Keeps.trans {a b c : World} (h1 : Keeps a b) (h2 : Keeps b c) : Keeps a c where
  wire := h2.wire.trans h1.wire
  len := h2.len.trans h1.len
  bytes := fun h => (h2.bytes h).trans (h1.bytes h)
  code := fun h => (h2.code h).trans (h1.code h)
  id := fun h => (h2.id h).trans (h1.id h)
  notNew := fun h hn => h2.notNew h (h1.notNew h hn)
  fifo := h2.fifo.trans h1.fifo
  sub := h2.sub.trans h1.sub
  sub_pos := h2.sub_pos.trans h1.sub_pos
  send_pos := h2.send_pos.trans h1.send_pos
  send_req := h2.send_req.trans h1.send_req
  submitted := h2.submitted.trans h1.submitted
  started := h2.started.trans h1.started
  unlinked := h2.unlinked.trans h1.unlinked

theorem req_setReq_oob (w : World) (h : Nat) (r : GRilIoRequest) (hh : ¬ h < w.reqs.length) :
    w.setReq h r = w := by
  have : w.reqs.set h r = w.reqs := by
    apply List.ext_getElem?
    intro i
    rw [List.getElem?_set]
    split
    · rename_i hi
      subst hi
      have h1 : w.reqs.length ≤ h := by omega
      simp [List.getElem?_eq_none h1, hh]
    · rfl
  simp [World.setReq, this]

theorem req_setReq (w : World) (h k : Nat) (r : GRilIoRequest) :
    (w.setReq h r).req k = if k = h ∧ h < w.reqs.length then r else w.req k := by
  by_cases hk : k = h
  · subst hk
    by_cases hh : k < w.reqs.length
    · simp [req_setReq_same w k r hh, hh]
    · simp [req_setReq_oob w k r hh, hh]
  · simp [req_setReq_other w h k r hk, hk]

theorem keeps_setReq (w : World) (h : Nat) (r : GRilIoRequest)
    (hb : r.bytes = (w.req h).bytes) (hc : r.code = (w.req h).code)
    (hi : r.id = (w.req h).id) (hn : (w.req h).status ≠ .NEW → r.status ≠ .NEW) :
    Keeps w (w.setReq h r) where
  wire := rfl
  len := setReq_length w h r
  bytes := fun k => by rw [req_setReq]; split <;> rename_i hk <;> simp [hk, hb]
  code := fun k => by rw [req_setReq]; split <;> rename_i hk <;> simp [hk, hc]
  id := fun k => by rw [req_setReq]; split <;> rename_i hk <;> simp [hk, hi]
  notNew := fun k hk => by
    rw [req_setReq]
    split
    · rename_i hkh
      rw [hkh.1] at hk
      exact hn hk
    · exact hk
  fifo := rfl
  sub := rfl
  sub_pos := rfl
  send_pos := rfl
  send_req := rfl
  submitted := rfl
  started := rfl
  unlinked := rfl

theorem keeps_emit (w : World) (ev : Event) (hq : ev.quiet = true) : Keeps w (w.emit ev) where
  wire := rfl
  len := rfl
  bytes := fun _ => rfl
  code := fun _ => rfl
  id := fun _ => rfl
  notNew := fun _ h => h
  fifo := rfl
  sub := rfl
  sub_pos := rfl
  send_pos := rfl
  send_req := rfl
  submitted := by cases ev <;> simp_all [Grilio.submitted, World.emit, Event.quiet]
  started := by cases ev <;> simp_all [Grilio.started, World.emit, Event.quiet]
  unlinked := by cases ev <;> simp_all [Grilio.unlinked, World.emit, Event.quiet]

/-- A change of the queues alone, or of channel fields the wire does not
depend on, keeps the wire state. -/
theorem keeps_of_eq (w w' : World) (hr : w'.reqs = w.reqs) (ht : w'.trace = w.trace)
    (hw : w'.wire = w.wire) (hf : w'.chan.fifo = w.chan.fifo) (hs : w'.chan.sub = w.chan.sub)
    (hsp : w'.chan.sub_pos = w.chan.sub_pos) (hp : w'.chan.send_pos = w.chan.send_pos)
    (hq : w'.chan.send_req = w.chan.send_req) : Keeps w w' where
  wire := hw
  len := by rw [hr]
  bytes := fun h => by simp [World.req, hr]
  code := fun h => by simp [World.req, hr]
  id := fun h => by simp [World.req, hr]
  notNew := fun h hn => by simpa [World.req, hr] using hn
  fifo := hf
  sub := hs
  sub_pos := hsp
  send_pos := hp
  send_req := hq
  submitted := by simp [Grilio.submitted, ht]
  started := by simp [Grilio.started, ht]
  unlinked := by simp [Grilio.unlinked, ht]

theorem keeps_ref (w : World) (h : Nat) : Keeps w (grilio_request_ref w h) :=
  keeps_setReq w h _ rfl rfl rfl (fun hn => hn)

theorem keeps_free (w : World) (h : Nat) : Keeps w (grilio_request_free w h) := by
  unfold grilio_request_free
  dsimp only
  split
  · exact (keeps_emit w (.destroy h) rfl).trans (keeps_emit _ (.freed h) rfl)
  · exact keeps_emit _ (.freed h) rfl

theorem keeps_unref (w : World) (h : Nat) : Keeps w (grilio_request_unref w h) := by
  unfold grilio_request_unref
  have h1 : Keeps w (w.setReq h { w.req h with refcount := (w.req h).refcount - 1 }) :=
    keeps_setReq w h _ rfl rfl rfl (fun hn => hn)
  dsimp only
  split
  · exact h1.trans (keeps_free _ _)
  · exact h1

theorem keeps_steal (w : World) (key : Nat) : Keeps w (g_hash_table_steal w key) :=
  keeps_of_eq _ _ rfl rfl rfl rfl rfl rfl rfl rfl

theorem keeps_hash_remove (w : World) (key : Nat) : Keeps w (g_hash_table_remove w key).2 := by
  unfold g_hash_table_remove
  split
  · exact (keeps_steal w key).trans (keeps_unref _ _)
  · exact Keeps.refl w

theorem keeps_hash_insert (w : World) (key value : Nat) :
    Keeps w (g_hash_table_insert w key value) := by
  unfold g_hash_table_insert
  split
  · dsimp only
    refine Keeps.trans ?_ (keeps_unref _ _)
    exact keeps_of_eq _ _ rfl rfl rfl rfl rfl rfl rfl rfl
  · exact keeps_of_eq _ _ rfl rfl rfl rfl rfl rfl rfl rfl

theorem keeps_setQueue (w : World) (q : Nat) (x : GRilIoQueue) : Keeps w (w.setQueue q x) :=
  keeps_of_eq _ _ rfl rfl rfl rfl rfl rfl rfl rfl

theorem keeps_queue_add (w : World) (queue req : Nat) :
    Keeps w (grilio_queue_add w queue req) := by
  unfold grilio_queue_add
  dsimp only
  exact Keeps.trans (keeps_setReq w req { w.req req with queue := some queue } rfl rfl rfl
    (fun hn => hn)) (keeps_setQueue _ _ _)

theorem keeps_queue_remove (w : World) (req : Nat) : Keeps w (grilio_queue_remove w req) := by
  unfold grilio_queue_remove
  split
  · split
    · dsimp only
      exact Keeps.trans (keeps_setQueue w _ _) (keeps_setReq _ req _ rfl rfl rfl (fun hn => hn))
    · exact Keeps.refl w
  · exact Keeps.refl w

theorem keeps_log (w : World) (type : GRILIO_PACKET_TYPE) (id code : Nat) (data : List Nat) :
    Keeps w (grilio_channel_log w type id code data) :=
  keeps_emit w (.log w.chan.log_list type id code data) rfl

theorem keeps_shutdown (w : World) (flush : Bool) : Keeps w (grilio_channel_shutdown w flush) :=
  keeps_of_eq _ _ rfl rfl rfl rfl rfl rfl rfl rfl

theorem keeps_handle_error (w : World) (type : GRILIO_ERROR_TYPE) (inv : Bool) :
    Keeps w (grilio_channel_handle_error w type inv) := by
  unfold grilio_channel_handle_error
  cases type <;> dsimp only
  · refine Keeps.trans (Keeps.trans ?_ (keeps_shutdown _ false))
      (keeps_emit _ (.error .READ inv) rfl)
    exact keeps_of_eq _ _ rfl rfl rfl rfl rfl rfl rfl rfl
  · refine Keeps.trans (Keeps.trans ?_ (keeps_shutdown _ false))
      (keeps_emit _ (.error .WRITE inv) rfl)
    exact keeps_of_eq _ _ rfl rfl rfl rfl rfl rfl rfl rfl

theorem keeps_handle_eof (w : World) : Keeps w (grilio_channel_handle_eof w) :=
  Keeps.trans (keeps_shutdown w false) (keeps_emit _ .eof rfl)

theorem keeps_reset_timeout (w : World) : Keeps w (grilio_channel_reset_timeout w) := by
  unfold grilio_channel_reset_timeout
  dsimp only
  split
  · split
    · exact keeps_of_eq _ _ rfl rfl rfl rfl rfl rfl rfl rfl
    · exact Keeps.refl w
  · split
    · exact keeps_of_eq _ _ rfl rfl rfl rfl rfl rfl rfl rfl
    · exact Keeps.refl w

theorem keeps_timeout_expired (expired : List Nat) :
    ∀ w : World, Keeps w (grilio_channel_timeout_expired w expired) := by
  induction expired with
  | nil => intro w; exact Keeps.refl w
  | cons req expired ih =>
      intro w
      unfold grilio_channel_timeout_expired
      dsimp only
      refine Keeps.trans ?_ (ih _)
      refine Keeps.trans ?_ (keeps_unref _ _)
      split
      · exact Keeps.trans (Keeps.trans (keeps_hash_remove w _) (keeps_queue_remove _ _))
          (keeps_emit _ (.response req GRILIO_STATUS_TIMEOUT []) rfl)
      · exact keeps_hash_remove w _

theorem keeps_foldl_ref (hs : List Nat) :
    ∀ w : World, Keeps w (hs.foldl grilio_request_ref w) := by
  induction hs with
  | nil => intro w; exact Keeps.refl w
  | cons h hs ih => intro w; exact (keeps_ref w h).trans (ih _)

theorem keeps_timeout (w : World) : Keeps w (grilio_channel_timeout w) := by
  unfold grilio_channel_timeout
  dsimp only
  refine Keeps.trans ?_ (keeps_reset_timeout _)
  refine Keeps.trans ?_ (keeps_timeout_expired _ _)
  refine Keeps.trans ?_ (keeps_foldl_ref _ _)
  exact keeps_of_eq _ _ rfl rfl rfl rfl rfl rfl rfl rfl

theorem keeps_cancel_found (w : World) (req id : Nat) (notify : Bool) :
    Keeps w (grilio_channel_cancel_found w req id notify) := by
  unfold grilio_channel_cancel_found
  dsimp only
  have h1 := (keeps_queue_remove w req).trans (keeps_hash_remove _ id)
  have h2 := h1.trans (keeps_setReq (g_hash_table_remove (grilio_queue_remove w req) id).2 req
    { (g_hash_table_remove (grilio_queue_remove w req) id).2.req req with status := .CANCELLED }
    rfl rfl rfl (fun _ => by simp))
  split
  · exact h2.trans (keeps_emit _ (.response req GRILIO_STATUS_CANCELLED []) rfl)
  · exact h2

theorem keeps_cancel_all_sent (ids : List Nat) :
    ∀ w : World, Keeps w (grilio_channel_cancel_all_sent w ids) := by
  induction ids with
  | nil => intro w; exact Keeps.refl w
  | cons key ids ih =>
      intro w
      unfold grilio_channel_cancel_all_sent
      split
      · rename_i req _
        dsimp only
        refine Keeps.trans ?_ (ih _)
        exact Keeps.trans (Keeps.trans (Keeps.trans (keeps_queue_remove w req)
          (keeps_steal _ key)) (keeps_emit _ (.response req GRILIO_STATUS_CANCELLED []) rfl))
          (keeps_unref _ req)
      · exact ih w

/-! The same facts in the form `Keeps w x → Keeps w (f x)`, to be chained. -/

theorem K_ite {w a b : World} {c : Prop} [Decidable c] (ha : Keeps w a)
    (hb : Keeps w b) : Keeps w (if c then a else b) := by
  split
  · exact ha
  · exact hb

theorem K_ref {w x : World} (h : Nat) (hk : Keeps w x) : Keeps w (grilio_request_ref x h) :=
  hk.trans (keeps_ref x h)

theorem K_unref {w x : World} (h : Nat) (hk : Keeps w x) : Keeps w (grilio_request_unref x h) :=
  hk.trans (keeps_unref x h)

theorem K_steal {w x : World} (key : Nat) (hk : Keeps w x) :
    Keeps w (g_hash_table_steal x key) :=
  hk.trans (keeps_steal x key)

theorem K_hash_remove {w x : World} (key : Nat) (hk : Keeps w x) :
    Keeps w (g_hash_table_remove x key).2 :=
  hk.trans (keeps_hash_remove x key)

theorem K_hash_insert {w x : World} (key value : Nat) (hk : Keeps w x) :
    Keeps w (g_hash_table_insert x key value) :=
  hk.trans (keeps_hash_insert x key value)

theorem K_queue_add {w x : World} (queue req : Nat) (hk : Keeps w x) :
    Keeps w (grilio_queue_add x queue req) :=
  hk.trans (keeps_queue_add x queue req)

theorem K_queue_remove {w x : World} (req : Nat) (hk : Keeps w x) :
    Keeps w (grilio_queue_remove x req) :=
  hk.trans (keeps_queue_remove x req)

theorem K_log {w x : World} (type : GRILIO_PACKET_TYPE) (id code : Nat) (data : List Nat)
    (hk : Keeps w x) : Keeps w (grilio_channel_log x type id code data) :=
  hk.trans (keeps_log x type id code data)

theorem K_handle_error {w x : World} (type : GRILIO_ERROR_TYPE) (inv : Bool) (hk : Keeps w x) :
    Keeps w (grilio_channel_handle_error x type inv) :=
  hk.trans (keeps_handle_error x type inv)

theorem K_reset_timeout {w x : World} (hk : Keeps w x) :
    Keeps w (grilio_channel_reset_timeout x) :=
  hk.trans (keeps_reset_timeout x)

theorem K_cancel_found {w x : World} (req id : Nat) (notify : Bool) (hk : Keeps w x) :
    Keeps w (grilio_channel_cancel_found x req id notify) :=
  hk.trans (keeps_cancel_found x req id notify)

theorem K_emit {w x : World} (ev : Event) (hq : ev.quiet = true) (hk : Keeps w x) :
    Keeps w (x.emit ev) :=
  hk.trans (keeps_emit x ev hq)

theorem K_setQueue {w x : World} (q : Nat) (v : GRilIoQueue) (hk : Keeps w x) :
    Keeps w (x.setQueue q v) :=
  hk.trans (keeps_setQueue x q v)

/-- Storing a request that differs from the stored one in fields the wire
does not depend on. -/
theorem K_setReq {w x : World} (h : Nat) (r : GRilIoRequest)
    (hb : r.bytes = (x.req h).bytes) (hc : r.code = (x.req h).code)
    (hi : r.id = (x.req h).id) (hn : (x.req h).status ≠ .NEW → r.status ≠ .NEW)
    (hk : Keeps w x) : Keeps w (x.setReq h r) :=
  hk.trans (keeps_setReq x h r hb hc hi hn)

theorem write_sent_spec (w : World) (req : Nat) :
    ∃ w4, Keeps w w4 ∧ (grilio_channel_write_sent w req).2
      = { w4 with chan := { w4.chan with send_req := none } } := by
  unfold grilio_channel_write_sent
  dsimp only
  refine ⟨_, ?_, rfl⟩
  apply_rules [K_unref, K_queue_remove, K_log, K_reset_timeout, K_setReq, K_ite, Keeps.refl] <;>
    first
      | exact Keeps.refl _
      | rfl
      | (intro _; exact GRILIO_REQUEST_STATUS.noConfusion)
      | exact fun hn => hn

theorem write_sent_wire (w : World) (req : Nat) :
    (grilio_channel_write_sent w req).2.wire = w.wire := by
  obtain ⟨w4, hk, he⟩ := write_sent_spec w req
  rw [he]
  exact hk.wire

theorem req_chan_update (w : World) (c : GRilIoChannel) (h : Nat) :
    World.req { w with chan := c } h = w.req h := rfl

theorem frameOf_data (e : Endian) (code id : Nat) (payload : List Nat) :
    (frameOf e code id payload).drop 12 = payload := by
  have h12 : (storeU32 .big ((payload.length + 8) % 4294967296) ++ storeU32 e code
      ++ storeU32 e id).length = 12 := by simp [storeU32_length]
  simp only [frameOf]
  rw [← h12, List.drop_left]

theorem prepared_bytes (e : Endian) (r : GRilIoRequest) (h : 12 ≤ r.bytes.length) :
    poke (poke (poke r.bytes 0 (storeU32 .big ((r.bytes.length - 4) % 4294967296))) 4
        (storeU32 e r.code)) 8 (storeU32 e r.id)
      = frameOf e r.code r.id (grilio_request_data r) := by
  rw [header_poke _ _ _ _ (storeU32_length _ _) (storeU32_length _ _) (storeU32_length _ _) h]
  have : r.bytes.length - 4 = (List.drop 12 r.bytes).length + 8 := by
    simp only [List.length_drop]; omega
  simp only [frameOf, grilio_request_data, GRILIO_REQUEST_HEADER_SIZE, this]

theorem submitted_emit (w : World) (ev : Event) :
    submitted (w.emit ev) = submitted w ++ (match ev with
      | .queued h => [h]
      | _ => []) := by
  cases ev <;> simp [submitted, World.emit, List.filterMap_append]

theorem started_emit (w : World) (ev : Event) :
    started (w.emit ev) = started w ++ (match ev with
      | .sending h => [h]
      | _ => []) := by
  cases ev <;> simp [started, World.emit, List.filterMap_append]

theorem unlinked_emit (w : World) (ev : Event) :
    unlinked (w.emit ev) = unlinked w ++ (match ev with
      | .cancelled h => [h]
      | _ => []) := by
  cases ev <;> simp [unlinked, World.emit, List.filterMap_append]

/-- What picking the head of the send queue does to the wire state. -/
theorem pick_dequeue (e : Endian) (w : World) (h : Nat) (rest : List Nat)
    (hfifo : w.chan.fifo = h :: rest) (hsend : w.chan.send_req = none)
    (hh : h < w.reqs.length) (hroom : 12 ≤ (w.req h).bytes.length) :
    ∃ w1, grilio_channel_write_pick e w = some (h, w1) ∧
      w1.wire = w.wire ∧ w1.writes = w.writes ∧ w1.reqs.length = w.reqs.length ∧
      (∀ k, (w1.req k).bytes = if k = h then
        frameOf e (w.req h).code (w.req h).id (grilio_request_data (w.req h))
        else (w.req k).bytes) ∧
      (∀ k, (w1.req k).code = (w.req k).code) ∧
      (∀ k, (w1.req k).id = (w.req k).id) ∧
      (∀ k, (w.req k).status ≠ .NEW → (w1.req k).status ≠ .NEW) ∧
      w1.chan.fifo = rest ∧ w1.chan.sub = w.chan.sub ∧ w1.chan.sub_pos = w.chan.sub_pos ∧
      w1.chan.send_pos = 0 ∧ w1.chan.send_req = some h ∧
      submitted w1 = submitted w ∧ started w1 = started w ++ [h] ∧
      unlinked w1 = unlinked w := by
  simp only [grilio_channel_write_pick, hsend, grilio_channel_dequeue_request, hfifo]
  refine ⟨_, rfl, rfl, rfl, ?_, ?_, ?_, ?_, ?_, rfl, rfl, rfl, rfl, rfl, ?_, ?_, ?_⟩
  · simp [grilio_channel_write_prepare]
  · intro k
    simp only [grilio_channel_write_prepare, req_chan_update, emit_req, req_setReq,
      setReq_length, emit_reqs]
    by_cases hk : k = h
    · subst hk
      simp only [true_and, hh, if_true]
      exact prepared_bytes e _ hroom
    · simp [hk]
  · intro k
    simp only [grilio_channel_write_prepare, req_chan_update, emit_req, req_setReq,
      setReq_length, emit_reqs]
    by_cases hk : k = h
    · subst hk; simp [hh]
    · simp [hk]
  · intro k
    simp only [grilio_channel_write_prepare, req_chan_update, emit_req, req_setReq,
      setReq_length, emit_reqs]
    by_cases hk : k = h
    · subst hk; simp [hh]
    · simp [hk]
  · intro k hn
    simp only [grilio_channel_write_prepare, req_chan_update, emit_req, req_setReq,
      setReq_length, emit_reqs]
    by_cases hk : k = h
    · subst hk; simp [hh]
    · simpa [hk] using hn
  · simp [submitted, grilio_channel_write_prepare, World.setReq, World.emit,
      List.filterMap_append]
  · simp [started, grilio_channel_write_prepare, World.setReq, World.emit,
      List.filterMap_append]
  · simp [unlinked, grilio_channel_write_prepare, World.setReq, World.emit,
      List.filterMap_append]

/-! ## The invariant of the send side -/

theorem WireInv.of_keeps {e : Endian} {sub : Option (List Nat)} {w w' : World}
    (hk : Keeps w w') (hi : WireInv e sub w) : WireInv e sub w' where
  valid := fun h hh => by
    rw [hk.submitted] at hh
    exact ⟨hk.len ▸ (hi.valid h hh).1, hk.notNew h (hi.valid h hh).2⟩
  room := fun h hh => by
    rw [hk.bytes]; exact hi.room h (hk.len ▸ hh)
  nodup := hk.submitted ▸ hi.nodup
  unl := fun h hh => by
    rw [hk.unlinked] at hh; rw [hk.submitted]; exact hi.unl h hh
  order := by rw [hk.started, hk.fifo, hk.submitted, hk.unlinked]; exact hi.order
  cur := fun h hh => by
    rw [hk.send_req] at hh; rw [hk.started]; exact hi.cur h hh
  framed := fun h hh => by
    rw [hk.started] at hh
    rw [hk.bytes, hk.code, hk.id]
    have := hi.framed h hh
    simpa [grilio_request_data, hk.bytes] using this
  tag := by
    have := hi.tag
    cases sub with
    | none => simpa [hk.sub_pos] using this
    | some s => simpa [hk.sub] using this
  gate := fun hlt => by
    rw [hk.sub_pos] at hlt; rw [hk.started]; exact hi.gate hlt
  wire := by
    have h1 : tagSent sub w' = tagSent sub w := by
      cases sub <;> simp [tagSent, hk.sub_pos]
    have h2 : completed w' = completed w := by
      simp [completed, hk.send_req, hk.started]
    have h3 : partialFrame w' = partialFrame w := by
      simp only [partialFrame, hk.send_req, hk.send_pos]
      cases w.chan.send_req <;> simp [hk.bytes]
    have h4 : (fun h => (w'.req h).bytes) = (fun h => (w.req h).bytes) := by
      funext h; exact hk.bytes h
    rw [hk.wire, h1, h2, h3, h4]
    exact hi.wire

/-- More bytes of the frame in transmission reach the wire. -/
theorem WireInv.advance {e : Endian} {sub : Option (List Nat)} {w : World} (req m : Nat)
    (ws : List IoWrite) (hi : WireInv e sub w) (hs : w.chan.send_req = some req) :
    WireInv e sub { w with
      writes := ws
      wire := w.wire ++ ((w.req req).bytes.drop w.chan.send_pos).take m
      chan := { w.chan with send_pos := w.chan.send_pos + m } } where
  valid := hi.valid
  room := hi.room
  nodup := hi.nodup
  unl := hi.unl
  order := hi.order
  cur := hi.cur
  framed := hi.framed
  tag := hi.tag
  gate := hi.gate
  wire := by
    have hw := hi.wire
    simp only [partialFrame, hs, completed] at hw
    show w.wire ++ _ = tagSent sub w ++ ((completed w).map (fun h => (w.req h).bytes)).flatten
      ++ partialFrame _
    simp only [completed, partialFrame, hs]
    show _ = _ ++ _ ++ (w.req req).bytes.take (w.chan.send_pos + m)
    rw [List.take_add, hw]
    simp [List.append_assoc]

/-- The frame in transmission is complete. -/
theorem WireInv.finish {e : Endian} {sub : Option (List Nat)} {w : World} (req : Nat)
    (hi : WireInv e sub w) (hs : w.chan.send_req = some req)
    (hp : (w.req req).bytes.length ≤ w.chan.send_pos) :
    WireInv e sub { w with chan := { w.chan with send_req := none } } where
  valid := hi.valid
  room := hi.room
  nodup := hi.nodup
  unl := hi.unl
  order := hi.order
  cur := fun h hh => by simp at hh
  framed := hi.framed
  tag := hi.tag
  gate := hi.gate
  wire := by
    have hw := hi.wire
    have hl := hi.cur req hs
    simp only [partialFrame, hs, completed, List.take_of_length_le hp] at hw
    show w.wire = tagSent sub w ++ ((started w).map (fun h => (w.req h).bytes)).flatten ++ []
    have hsplit : started w = (started w).dropLast ++ [req] := by
      have hne : started w ≠ [] := by
        intro h0; rw [h0] at hl; simp at hl
      have := List.dropLast_append_getLast hne
      rw [List.getLast?_eq_getLast _ hne] at hl
      simp only [Option.some.injEq] at hl
      rw [hl] at this
      exact this.symm
    rw [hw]
    conv_rhs => rw [hsplit]
    simp [List.append_assoc]

/-- More bytes of the subscription reach the wire. -/
theorem WireInv.advance_tag {e : Endian} {sub : Option (List Nat)} {w : World} (m : Nat)
    (ws : List IoWrite) (hi : WireInv e sub w) (hlt : w.chan.sub_pos < GRILIO_SUB_LEN) :
    WireInv e sub { w with
      writes := ws
      wire := w.wire
        ++ ((w.chan.sub.drop w.chan.sub_pos).take (GRILIO_SUB_LEN - w.chan.sub_pos)).take
          (min m ((w.chan.sub.drop w.chan.sub_pos).take (GRILIO_SUB_LEN - w.chan.sub_pos)).length)
      chan := { w.chan with
        sub_pos := w.chan.sub_pos + min m
          ((w.chan.sub.drop w.chan.sub_pos).take (GRILIO_SUB_LEN - w.chan.sub_pos)).length } } where
  valid := hi.valid
  room := hi.room
  nodup := hi.nodup
  unl := hi.unl
  order := hi.order
  cur := hi.cur
  framed := hi.framed
  tag := by
    have := hi.tag
    cases sub with
    | none => simp only [GRILIO_SUB_LEN] at this hlt ⊢; omega
    | some s => exact this
  gate := fun _ => hi.gate hlt
  wire := by
    have hw := hi.wire
    have hst := hi.gate hlt
    have hnone : w.chan.send_req = none := by
      cases hs : w.chan.send_req with
      | none => rfl
      | some h => have := hi.cur h hs; rw [hst] at this; simp at this
    have htag := hi.tag
    cases sub with
    | none => simp only [GRILIO_SUB_LEN] at htag hlt; omega
    | some s =>
        obtain ⟨h1, h2⟩ := htag
        simp only [GRILIO_SUB_LEN] at h2 hlt
        simp only [tagSent, completed, partialFrame, started, hnone] at hw hst ⊢
        simp only [hst, List.map_nil, List.flatten_nil, List.append_nil] at hw ⊢
        rw [hw, h1]
        simp only [GRILIO_SUB_LEN, List.length_take, List.length_drop, h2]
        have e1 : List.take (min m (min (4 - w.chan.sub_pos) (4 - w.chan.sub_pos)))
              (List.take (4 - w.chan.sub_pos) (List.drop w.chan.sub_pos s))
            = List.take (min m (min (4 - w.chan.sub_pos) (4 - w.chan.sub_pos)))
                (List.drop w.chan.sub_pos s) := by
          rw [List.take_take]; congr 1; omega
        rw [e1, List.take_add]

theorem WireInv.fifo_valid {e : Endian} {sub : Option (List Nat)} {w : World}
    (hi : WireInv e sub w) {h : Nat} (hh : h ∈ w.chan.fifo) :
    h ∈ submitted w ∧ h ∉ unlinked w ∧ h < w.reqs.length ∧ (w.req h).status ≠ .NEW := by
  have : h ∈ started w ++ w.chan.fifo := List.mem_append_right _ hh
  rw [hi.order, List.mem_filter] at this
  exact ⟨this.1, by simpa using this.2, hi.valid h this.1⟩

theorem WireInv.started_valid {e : Endian} {sub : Option (List Nat)} {w : World}
    (hi : WireInv e sub w) {h : Nat} (hh : h ∈ started w) :
    h ∈ submitted w ∧ h ∉ unlinked w ∧ h < w.reqs.length ∧ (w.req h).status ≠ .NEW := by
  have : h ∈ started w ++ w.chan.fifo := List.mem_append_left _ hh
  rw [hi.order, List.mem_filter] at this
  exact ⟨this.1, by simpa using this.2, hi.valid h this.1⟩

/-- Picking the request to send keeps the invariant and leaves the picked
request in transmission. -/
theorem WireInv.pick {e : Endian} {sub : Option (List Nat)} {w w1 : World} {req : Nat}
    (hi : WireInv e sub w) (hge : ¬ w.chan.sub_pos < GRILIO_SUB_LEN)
    (hp : grilio_channel_write_pick e w = some (req, w1)) :
    WireInv e sub w1 ∧ w1.chan.send_req = some req ∧ w1.writes = w.writes := by
  cases hs : w.chan.send_req with
  | some r =>
      simp only [grilio_channel_write_pick, hs, Option.some.injEq, Prod.mk.injEq] at hp
      obtain ⟨h1, h2⟩ := hp
      subst h1 h2
      exact ⟨hi, hs, rfl⟩
  | none =>
      cases hf : w.chan.fifo with
      | nil =>
          simp [grilio_channel_write_pick, hs, grilio_channel_dequeue_request, hf] at hp
      | cons h rest =>
          have hv := hi.fifo_valid (h := h) (by rw [hf]; exact List.mem_cons_self _ _)
          obtain ⟨w2, hpick, hwire, hwr, hlen, hbytes, hcode, hid, hnn, hfifo, hsub, hsp, hpos,
            hreq, hsubm, hstart, hunl⟩ := pick_dequeue e w h rest hf hs hv.2.2.1
              (hi.room h hv.2.2.1)
          rw [hpick] at hp
          simp only [Option.some.injEq, Prod.mk.injEq] at hp
          obtain ⟨h1, h2⟩ := hp
          subst h1 h2
          refine ⟨?_, hreq, hwr⟩
          have hsame : ∀ k ∈ started w, (w2.req k).bytes = (w.req k).bytes := by
            intro k hk
            rw [hbytes k]
            split
            · rename_i hkh
              rw [hkh]
              rw [hkh] at hk
              exact (hi.framed h hk).symm
            · rfl
          exact {
            valid := fun k hk => by
              rw [hsubm] at hk
              exact ⟨hlen ▸ (hi.valid k hk).1, hnn k (hi.valid k hk).2⟩
            room := fun k hk => by
              rw [hbytes k]
              split
              · rw [frameOf_length]; omega
              · exact hi.room k (hlen ▸ hk)
            nodup := hsubm ▸ hi.nodup
            unl := fun k hk => by
              rw [hunl] at hk; rw [hsubm]; exact hi.unl k hk
            order := by
              rw [hstart, hfifo, hsubm, hunl, ← hi.order, hf]; simp
            cur := fun k hk => by
              rw [hreq] at hk
              simp only [Option.some.injEq] at hk
              rw [hstart, ← hk]; simp
            framed := fun k hk => by
              rw [hcode, hid]
              by_cases hkh : k = h
              · have hb := hbytes k
                simp only [hkh, if_true] at hb ⊢
                have hd : grilio_request_data (w2.req h) = grilio_request_data (w.req h) := by
                  simp only [grilio_request_data, GRILIO_REQUEST_HEADER_SIZE, hb, frameOf_data]
                rw [hd, hb]
              · have hb := hbytes k
                simp only [hkh, if_false] at hb
                rw [hstart] at hk
                have hk' : k ∈ started w := by
                  rcases List.mem_append.1 hk with h1 | h1
                  · exact h1
                  · simp at h1; exact absurd h1 hkh
                have := hi.framed k hk'
                simp only [grilio_request_data, hb] at this ⊢
                exact this
            tag := by
              have := hi.tag
              cases sub with
              | none => simpa [hsp] using this
              | some s => simpa [hsub] using this
            gate := fun hlt => by rw [hsp] at hlt; exact absurd hlt hge
            wire := by
              have hw := hi.wire
              simp only [completed, partialFrame, hs, List.append_nil] at hw
              have h1 : tagSent sub w2 = tagSent sub w := by
                cases sub <;> simp [tagSent, hsp]
              simp only [completed, partialFrame, hreq, hpos, hstart, List.take_zero,
                List.append_nil, List.dropLast_concat, h1, hwire]
              rw [hw]
              congr 2
              apply List.map_congr_left
              intro k hk
              exact (hsame k hk).symm }

theorem WireInv.sent {e : Endian} {sub : Option (List Nat)} {w : World} {req : Nat}
    (hi : WireInv e sub w) (hs : w.chan.send_req = some req)
    (hp : (w.req req).bytes.length ≤ w.chan.send_pos) :
    WireInv e sub (grilio_channel_write_sent w req).2 := by
  obtain ⟨w4, hk, he⟩ := write_sent_spec w req
  rw [he]
  exact WireInv.finish req (hi.of_keeps hk) (by rw [hk.send_req]; exact hs)
    (by rw [hk.bytes, hk.send_pos]; exact hp)

/-- The outcomes of a socket write: an error, which changes nothing but the
environment, or some bytes taken. -/
theorem write_chars_cases (w : World) (buf : List Nat) :
    (∃ W, g_io_channel_write_chars w buf = (none, W) ∧ Keeps w W) ∨
    (∃ m ws, g_io_channel_write_chars w buf
      = (some (min m buf.length),
          { w with writes := ws, wire := w.wire ++ buf.take (min m buf.length) })) := by
  unfold g_io_channel_write_chars
  cases hw : w.writes with
  | nil =>
      right
      refine ⟨0, [], ?_⟩
      cases w
      simp_all
  | cons x rest =>
      cases x with
      | error =>
          left
          exact ⟨_, rfl, keeps_of_eq _ _ rfl rfl rfl rfl rfl rfl rfl rfl⟩
      | written n =>
          right
          exact ⟨n, rest, rfl⟩

theorem WireInv.write_data {e : Endian} {sub : Option (List Nat)} {w : World} {req : Nat}
    (hi : WireInv e sub w) (hs : w.chan.send_req = some req) :
    WireInv e sub (grilio_channel_write_data w req).2 := by
  unfold grilio_channel_write_data
  split
  · rcases write_chars_cases w ((w.req req).bytes.drop w.chan.send_pos) with
      ⟨W, hW, hk⟩ | ⟨m, ws, hW⟩
    · rw [hW]
      dsimp only
      exact hi.of_keeps (hk.trans (keeps_handle_error _ _ _))
    · rw [hW]
      have ha := WireInv.advance req
        (min m ((w.req req).bytes.drop w.chan.send_pos).length) ws hi hs
      dsimp only
      split
      · exact ha
      · rename_i hge
        exact WireInv.sent ha hs (Nat.le_of_not_lt hge)
  · rename_i hge
    exact WireInv.sent hi hs (Nat.le_of_not_lt hge)

theorem WireInv.write_request {e : Endian} {sub : Option (List Nat)} {w : World}
    (hi : WireInv e sub w) (hge : ¬ w.chan.sub_pos < GRILIO_SUB_LEN) :
    WireInv e sub (grilio_channel_write_request e w).2 := by
  unfold grilio_channel_write_request
  cases hp : grilio_channel_write_pick e w with
  | none => exact hi
  | some r =>
      obtain ⟨req, w1⟩ := r
      obtain ⟨h1, h2, _⟩ := hi.pick hge hp
      exact h1.write_data h2

theorem WireInv.write {e : Endian} {sub : Option (List Nat)} {w : World}
    (hi : WireInv e sub w) : WireInv e sub (grilio_channel_write e w).2 := by
  unfold grilio_channel_write
  split
  · rename_i hlt
    rcases write_chars_cases w
        ((w.chan.sub.drop w.chan.sub_pos).take (GRILIO_SUB_LEN - w.chan.sub_pos)) with
      ⟨W, hW, hk⟩ | ⟨m, ws, hW⟩
    · rw [hW]
      dsimp only
      exact hi.of_keeps (hk.trans (keeps_handle_error _ _ _))
    · rw [hW]
      have ha := WireInv.advance_tag m ws hi hlt
      dsimp only
      split
      · exact ha
      · rename_i hge
        exact ha.write_request hge
  · rename_i hge
    exact hi.write_request hge

theorem WireInv.write_callback {e : Endian} {sub : Option (List Nat)} {w : World}
    (hi : WireInv e sub w) : WireInv e sub (grilio_channel_write_callback e w) := by
  unfold grilio_channel_write_callback
  split
  · dsimp only
    split
    · exact hi.write
    · refine WireInv.of_keeps ?_ hi.write
      exact keeps_of_eq _ _ rfl rfl rfl rfl rfl rfl rfl rfl
  · exact hi

theorem WireInv.schedule_write {e : Endian} {sub : Option (List Nat)} {w : World}
    (hi : WireInv e sub w) : WireInv e sub (grilio_channel_schedule_write e w) := by
  unfold grilio_channel_schedule_write
  split
  · dsimp only
    split
    · refine WireInv.of_keeps ?_ hi.write
      exact keeps_of_eq _ _ rfl rfl rfl rfl rfl rfl rfl rfl
    · exact hi.write
  · exact hi

/-- A socket that takes everything gets the rest of the frame at once. -/
theorem write_data_all (w : World) (req n : Nat) (ws : List IoWrite)
    (hw : w.writes = IoWrite.written n :: ws)
    (hn : (w.req req).bytes.length - w.chan.send_pos ≤ n) :
    (grilio_channel_write_data w req).2.wire
      = w.wire ++ (w.req req).bytes.drop w.chan.send_pos := by
  unfold grilio_channel_write_data
  split
  · rename_i hlt
    have hmin : min n ((w.req req).bytes.drop w.chan.send_pos).length
        = ((w.req req).bytes.drop w.chan.send_pos).length := by
      simp only [List.length_drop]; omega
    simp only [g_io_channel_write_chars, hw, hmin, List.take_length]
    split
    · rfl
    · rw [write_sent_wire]
  · rename_i hge
    rw [write_sent_wire, List.drop_eq_nil_of_le (by omega)]
    simp

/-- C3: the request at the head of the send queue, with payload `p` under the
maximum packet size, code `c` and id `i`, is put on the wire by
`grilio_channel_write` as the big-endian word `len p + 8`, then `c` and `i` in
host byte order, then `p`; the first word read big-endian is the number of
bytes after it, and code, id and payload read back unchanged. -/
theorem write_frame_layout (e : Endian) (w : World) (h : Nat) (rest : List Nat) (n : Nat)
    (ws : List IoWrite)
    (hsub : w.chan.sub_pos = GRILIO_SUB_LEN) (hsend : w.chan.send_req = none)
    (hfifo : w.chan.fifo = h :: rest) (hh : h < w.reqs.length)
    (hlen : GRILIO_REQUEST_HEADER_SIZE ≤ (w.req h).bytes.length)
    (hmax : (grilio_request_data (w.req h)).length ≤ GRILIO_MAX_PACKET_LEN)
    (hc : (w.req h).code < 4294967296) (hi : (w.req h).id < 4294967296)
    (hw : w.writes = IoWrite.written n :: ws) (hn : (w.req h).bytes.length ≤ n) :
    (grilio_channel_write e w).2.wire
      = w.wire ++ (storeU32 Endian.big ((grilio_request_data (w.req h)).length + 8)
          ++ storeU32 e (w.req h).code ++ storeU32 e (w.req h).id
          ++ grilio_request_data (w.req h)) ∧
    loadU32 Endian.big ((grilio_channel_write e w).2.wire.drop w.wire.length) 0
      = (((grilio_channel_write e w).2.wire.drop w.wire.length).drop 4).length ∧
    loadU32 e ((grilio_channel_write e w).2.wire.drop w.wire.length) 4 = (w.req h).code ∧
    loadU32 e ((grilio_channel_write e w).2.wire.drop w.wire.length) 8 = (w.req h).id ∧
    ((grilio_channel_write e w).2.wire.drop w.wire.length).drop 12
      = grilio_request_data (w.req h) := by
  simp only [GRILIO_REQUEST_HEADER_SIZE, GRILIO_MAX_PACKET_LEN] at hlen hmax
  have hp : (grilio_request_data (w.req h)).length + 8 < 4294967296 := by omega
  have hfl := frameOf_length e (w.req h).code (w.req h).id (grilio_request_data (w.req h))
  have hdl : (grilio_request_data (w.req h)).length + 12 = (w.req h).bytes.length := by
    simp only [grilio_request_data, GRILIO_REQUEST_HEADER_SIZE, List.length_drop]; omega
  have hwire : (grilio_channel_write e w).2.wire
      = w.wire ++ frameOf e (w.req h).code (w.req h).id (grilio_request_data (w.req h)) := by
    have hs : ¬ (w.chan.sub_pos < GRILIO_SUB_LEN) := by omega
    obtain ⟨w1, hpick, hwire1, hwr1, _, hbytes, _, _, _, _, _, _, hpos, _⟩ :=
      pick_dequeue e w h rest hfifo hsend hh hlen
    have hb := hbytes h
    simp only [if_true] at hb
    simp only [grilio_channel_write, hs, if_false, grilio_channel_write_request, hpick]
    rw [write_data_all w1 h n ws (by rw [hwr1]; exact hw) (by rw [hb, hfl, hpos]; omega)]
    rw [hwire1, hb, hpos, List.drop_zero]
  have hd := frameOf_decode e (w.req h).code (w.req h).id (grilio_request_data (w.req h)) hp hc hi
  rw [hwire, List.drop_left]
  refine ⟨?_, hd⟩
  simp only [frameOf, Nat.mod_eq_of_lt hp]

theorem write_frame_layout_witness :
    (sampleQueued.chan.sub_pos = GRILIO_SUB_LEN ∧ sampleQueued.chan.fifo = [0] ∧
      (grilio_request_data (sampleQueued.req 0)).length ≤ GRILIO_MAX_PACKET_LEN) ∧
    (grilio_channel_write Endian.little sampleQueued).2.wire
      = sampleQueued.wire ++ (storeU32 Endian.big
            ((grilio_request_data (sampleQueued.req 0)).length + 8)
          ++ storeU32 Endian.little (sampleQueued.req 0).code
          ++ storeU32 Endian.little (sampleQueued.req 0).id
          ++ grilio_request_data (sampleQueued.req 0)) :=
  ⟨by decide,
    (write_frame_layout Endian.little sampleQueued 0 [] 64 [] (by decide) (by decide)
      (by decide) (by decide) (by decide) (by decide) (by decide) (by decide) (by decide)
      (by decide)).1⟩

/-! ## Effects -/

theorem Eff.stay (P : Event → Prop) (w : World) : Eff P w w :=
  ⟨⟨[], by simp, by simp, Or.inl ⟨rfl, rfl⟩⟩, rfl⟩

theorem Eff.andThen {P : Event → Prop} {a b c : World} (h1 : Eff P a b) (h2 : Eff P b c) :
    Eff P a c := by
  obtain ⟨⟨ev1, ht1, hp1, hf1⟩, hr1⟩ := h1
  obtain ⟨⟨ev2, ht2, hp2, hf2⟩, hr2⟩ := h2
  refine ⟨⟨ev1 ++ ev2, by rw [ht2, ht1, List.append_assoc], ?_, ?_⟩, hr2.trans hr1⟩
  · intro ev hev
    rcases List.mem_append.1 hev with h | h
    · exact hp1 ev h
    · exact hp2 ev h
  · rcases hf2 with ⟨c2, v2⟩ | ⟨c2, v2, ev, hev, hs⟩
    · rcases hf1 with ⟨c1, v1⟩ | ⟨c1, v1, ev, hev, hs⟩
      · exact Or.inl ⟨c2.trans c1, v2.trans v1⟩
      · exact Or.inr ⟨c2.trans c1, v2.trans v1, ev, List.mem_append_left _ hev, hs⟩
    · exact Or.inr ⟨c2, v2, ev, List.mem_append_right _ hev, hs⟩

/-- A step that changes neither the trace, nor the receive state, nor the
two connection fields. -/
theorem eff_of_eq (P : Event → Prop) (w w' : World) (ht : w'.trace = w.trace)
    (hr : readState w' = readState w) (hc : w'.chan.connected = w.chan.connected)
    (hv : w'.chan.ril_version = w.chan.ril_version) : Eff P w w' :=
  ⟨⟨[], by simp [ht], by simp, Or.inl ⟨hc, hv⟩⟩, hr⟩

theorem E_of_eq {P : Event → Prop} {w x : World} (hk : Eff P w x) (x' : World)
    (ht : x'.trace = x.trace) (hr : readState x' = readState x)
    (hc : x'.chan.connected = x.chan.connected)
    (hv : x'.chan.ril_version = x.chan.ril_version) : Eff P w x' :=
  hk.andThen (eff_of_eq P x x' ht hr hc hv)

theorem E_emit {P : Event → Prop} {w x : World} (ev : Event) (hP : P ev) (hk : Eff P w x) :
    Eff P w (x.emit ev) :=
  hk.andThen ⟨⟨[ev], rfl, by simpa using hP, Or.inl ⟨rfl, rfl⟩⟩, rfl⟩

theorem E_setReq {P : Event → Prop} {w x : World} (h : Nat) (r : GRilIoRequest)
    (hk : Eff P w x) : Eff P w (x.setReq h r) :=
  hk.andThen (eff_of_eq P _ _ rfl rfl rfl rfl)

theorem E_setQueue {P : Event → Prop} {w x : World} (q : Nat) (v : GRilIoQueue)
    (hk : Eff P w x) : Eff P w (x.setQueue q v) :=
  hk.andThen (eff_of_eq P _ _ rfl rfl rfl rfl)

theorem E_ite {P : Event → Prop} {w a b : World} {c : Prop} [Decidable c] (ha : Eff P w a)
    (hb : Eff P w b) : Eff P w (if c then a else b) := by
  split
  · exact ha
  · exact hb

theorem E_ref {P : Event → Prop} {w x : World} (h : Nat) (hk : Eff P w x) :
    Eff P w (grilio_request_ref x h) :=
  E_setReq h _ hk

theorem E_free {P : Event → Prop} {w x : World} (h : Nat) (hd : P (.destroy h))
    (hf : P (.freed h)) (hk : Eff P w x) : Eff P w (grilio_request_free x h) := by
  unfold grilio_request_free
  dsimp only
  split
  · exact E_emit _ hf (E_emit _ hd hk)
  · exact E_emit _ hf hk

theorem E_unref {P : Event → Prop} {w x : World} (h : Nat) (hd : P (.destroy h))
    (hf : P (.freed h)) (hk : Eff P w x) : Eff P w (grilio_request_unref x h) := by
  unfold grilio_request_unref
  dsimp only
  split
  · exact E_free h hd hf (E_setReq h _ hk)
  · exact E_setReq h _ hk

theorem E_steal {P : Event → Prop} {w x : World} (key : Nat) (hk : Eff P w x) :
    Eff P w (g_hash_table_steal x key) :=
  hk.andThen (eff_of_eq P _ _ rfl rfl rfl rfl)

theorem E_hash_remove {P : Event → Prop} {w x : World} (key : Nat)
    (hd : ∀ h, P (.destroy h)) (hf : ∀ h, P (.freed h)) (hk : Eff P w x) :
    Eff P w (g_hash_table_remove x key).2 := by
  unfold g_hash_table_remove
  split
  · exact E_unref _ (hd _) (hf _) (E_steal key hk)
  · exact hk

theorem E_hash_insert {P : Event → Prop} {w x : World} (key value : Nat)
    (hd : ∀ h, P (.destroy h)) (hf : ∀ h, P (.freed h)) (hk : Eff P w x) :
    Eff P w (g_hash_table_insert x key value) := by
  unfold g_hash_table_insert
  split
  · dsimp only
    refine E_unref _ (hd _) (hf _) ?_
    exact E_of_eq hk _ rfl rfl rfl rfl
  · exact E_of_eq hk _ rfl rfl rfl rfl

theorem E_queue_add {P : Event → Prop} {w x : World} (queue req : Nat) (hk : Eff P w x) :
    Eff P w (grilio_queue_add x queue req) := by
  unfold grilio_queue_add
  dsimp only
  exact E_setQueue _ _ (E_setReq _ _ hk)

theorem E_queue_remove {P : Event → Prop} {w x : World} (req : Nat) (hk : Eff P w x) :
    Eff P w (grilio_queue_remove x req) := by
  unfold grilio_queue_remove
  split
  · split
    · dsimp only
      exact E_setReq _ _ (E_setQueue _ _ hk)
    · exact hk
  · exact hk

theorem E_log {P : Event → Prop} {w x : World} (type : GRILIO_PACKET_TYPE) (id code : Nat)
    (data : List Nat) (hl : ∀ l, P (.log l type id code data)) (hk : Eff P w x) :
    Eff P w (grilio_channel_log x type id code data) :=
  E_emit _ (hl _) hk

theorem E_handle_error {P : Event → Prop} {w x : World} (type : GRILIO_ERROR_TYPE)
    (inv : Bool) (he : P (.error type inv)) (hk : Eff P w x) :
    Eff P w (grilio_channel_handle_error x type inv) := by
  refine hk.andThen ⟨⟨[.error type inv], ?_, by simpa using he, Or.inr ⟨?_, ?_, ?_⟩⟩, ?_⟩
  · cases type <;> rfl
  · cases type <;> rfl
  · cases type <;> rfl
  · exact ⟨_, List.mem_singleton_self _, rfl⟩
  · cases type <;> rfl

theorem E_handle_eof {P : Event → Prop} {w x : World} (he : P .eof) (hk : Eff P w x) :
    Eff P w (grilio_channel_handle_eof x) :=
  hk.andThen ⟨⟨[.eof], rfl, by simpa using he,
    Or.inr ⟨rfl, rfl, _, List.mem_singleton_self _, rfl⟩⟩, rfl⟩

theorem E_reset_timeout {P : Event → Prop} {w x : World} (hk : Eff P w x) :
    Eff P w (grilio_channel_reset_timeout x) := by
  unfold grilio_channel_reset_timeout
  dsimp only
  split
  · split
    · exact E_of_eq hk _ rfl rfl rfl rfl
    · exact hk
  · split
    · exact E_of_eq hk _ rfl rfl rfl rfl
    · exact hk

theorem E_set_send_req {P : Event → Prop} {w x : World} (v : Option Nat) (hk : Eff P w x) :
    Eff P w { x with chan := { x.chan with send_req := v } } :=
  E_of_eq hk _ rfl rfl rfl rfl

theorem E_set_send {P : Event → Prop} {w x : World} (v : Option Nat) (n : Nat)
    (hk : Eff P w x) :
    Eff P w { x with chan := { x.chan with send_req := v, send_pos := n } } :=
  E_of_eq hk _ rfl rfl rfl rfl

theorem E_set_send_pos {P : Event → Prop} {w x : World} (n : Nat) (hk : Eff P w x) :
    Eff P w { x with chan := { x.chan with send_pos := n } } :=
  E_of_eq hk _ rfl rfl rfl rfl

theorem E_set_sub_pos {P : Event → Prop} {w x : World} (n : Nat) (hk : Eff P w x) :
    Eff P w { x with chan := { x.chan with sub_pos := n } } :=
  E_of_eq hk _ rfl rfl rfl rfl

theorem E_set_fifo {P : Event → Prop} {w x : World} (l : List Nat) (hk : Eff P w x) :
    Eff P w { x with chan := { x.chan with fifo := l } } :=
  E_of_eq hk _ rfl rfl rfl rfl

theorem E_set_write_watch {P : Event → Prop} {w x : World} (b : Bool) (hk : Eff P w x) :
    Eff P w { x with chan := { x.chan with write_watch_id := b } } :=
  E_of_eq hk _ rfl rfl rfl rfl

theorem E_set_read_watch {P : Event → Prop} {w x : World} (b : Bool) (hk : Eff P w x) :
    Eff P w { x with chan := { x.chan with read_watch_id := b } } :=
  E_of_eq hk _ rfl rfl rfl rfl

theorem E_write_sent {P : Event → Prop} {w x : World} (req : Nat) (hP : WriteEvents P)
    (hk : Eff P w x) : Eff P w (grilio_channel_write_sent x req).2 := by
  obtain ⟨_, hlog, hd, hf, _⟩ := hP
  unfold grilio_channel_write_sent
  dsimp only
  refine E_set_send_req none ?_
  refine E_unref _ (hd _) (hf _) ?_
  apply_rules [E_queue_remove, E_reset_timeout, E_log, E_setReq, E_ite] <;>
    first
      | exact hk
      | exact fun l => hlog l _ _ _

theorem E_write_chars {P : Event → Prop} {w x : World} (buf : List Nat) (hk : Eff P w x) :
    Eff P w (g_io_channel_write_chars x buf).2 := by
  unfold g_io_channel_write_chars
  split
  · exact hk
  · exact E_of_eq hk _ rfl rfl rfl rfl
  · exact E_of_eq hk _ rfl rfl rfl rfl

theorem E_write_pick {P : Event → Prop} {w x x1 : World} {req : Nat} (e : Endian)
    (hP : WriteEvents P) (hk : Eff P w x)
    (hp : grilio_channel_write_pick e x = some (req, x1)) : Eff P w x1 := by
  cases hs : x.chan.send_req with
  | some r =>
      simp only [grilio_channel_write_pick, hs, Option.some.injEq, Prod.mk.injEq] at hp
      rw [← hp.2]; exact hk
  | none =>
      cases hf : x.chan.fifo with
      | nil => simp [grilio_channel_write_pick, hs, grilio_channel_dequeue_request, hf] at hp
      | cons h rest =>
          simp only [grilio_channel_write_pick, hs, grilio_channel_dequeue_request, hf,
            Option.some.injEq, Prod.mk.injEq] at hp
          rw [← hp.2]
          unfold grilio_channel_write_prepare
          dsimp only
          refine E_set_send _ _ ?_
          refine E_setReq _ _ ?_
          refine E_emit _ (hP.1 _) ?_
          refine E_setReq _ _ ?_
          exact E_of_eq hk _ rfl rfl rfl rfl

theorem E_write_data {P : Event → Prop} {w x : World} (req : Nat) (hP : WriteEvents P)
    (hk : Eff P w x) : Eff P w (grilio_channel_write_data x req).2 := by
  unfold grilio_channel_write_data
  have hc := E_write_chars ((x.req req).bytes.drop x.chan.send_pos) hk
  split
  · split
    · rename_i h1 h2
      rw [h2] at hc
      exact E_handle_error _ _ hP.2.2.2.2 hc
    · rename_i h1 n w1 h2
      rw [h2] at hc
      dsimp only
      split
      · exact E_set_send_pos _ hc
      · exact E_write_sent _ hP (E_set_send_pos _ hc)
  · exact E_write_sent _ hP hk

theorem E_write_request {P : Event → Prop} {w x : World} (e : Endian) (hP : WriteEvents P)
    (hk : Eff P w x) : Eff P w (grilio_channel_write_request e x).2 := by
  unfold grilio_channel_write_request
  split
  · exact hk
  · rename_i req x1 hp
    exact E_write_data req hP (E_write_pick e hP hk hp)

theorem E_write {P : Event → Prop} {w x : World} (e : Endian) (hP : WriteEvents P)
    (hk : Eff P w x) : Eff P w (grilio_channel_write e x).2 := by
  unfold grilio_channel_write
  have hc := E_write_chars
    ((x.chan.sub.drop x.chan.sub_pos).take (GRILIO_SUB_LEN - x.chan.sub_pos)) hk
  split
  · split
    · rename_i h1 h2
      rw [h2] at hc
      exact E_handle_error _ _ hP.2.2.2.2 hc
    · rename_i h1 n w1 h2
      rw [h2] at hc
      dsimp only
      split
      · exact E_set_sub_pos _ hc
      · exact E_write_request e hP (E_set_sub_pos _ hc)
  · exact E_write_request e hP hk

theorem E_schedule_write {P : Event → Prop} {w x : World} (e : Endian) (hP : WriteEvents P)
    (hk : Eff P w x) : Eff P w (grilio_channel_schedule_write e x) := by
  unfold grilio_channel_schedule_write
  split
  · dsimp only
    split
    · exact E_set_write_watch _ (E_write e hP hk)
    · exact E_write e hP hk
  · exact hk

theorem writeEvents_true : WriteEvents (fun _ => True) :=
  ⟨fun _ => trivial, fun _ _ _ _ => trivial, fun _ => trivial, fun _ => trivial, trivial⟩

theorem read_connected (e : Endian) (w : World) :
    readState (grilio_channel_connected e w) = readState w := by
  unfold grilio_channel_connected
  split
  · dsimp only
    split
    · have h := E_schedule_write e writeEvents_true
        (E_emit .connected trivial (Eff.stay (fun _ => True)
          { w with chan := { w.chan with
              ril_version := (grilio_parser_get_uint32 e (grilio_parser_get_uint32 e
                (grilio_parser_init (w.chan.read_buf.drop 8) (w.chan.read_len - 8))).2.2).2.1
              connected := true } }))
      exact h.read
    · rfl
  · rfl

theorem Eff.read_eq {w w' : World} (h : Eff (fun _ => True) w w') :
    readState w' = readState w := h.read

theorem read_handle_packet (e : Endian) (w : World) :
    readState (grilio_channel_handle_packet e w).2 = readState w := by
  unfold grilio_channel_handle_packet
  dsimp only
  split
  · split
    · split
      · show readState (grilio_channel_connected e _) = _
        rw [read_connected]
        rfl
      · rfl
    · split
      · split
        · apply Eff.read_eq
          apply_rules [E_unref, E_emit, E_hash_remove, E_queue_remove, E_ref, E_log] <;>
            first
              | exact Eff.stay _ w
              | trivial
              | (intro _; trivial)
        · rfl
      · exact (E_handle_error _ _ trivial (Eff.stay (fun _ => True) w)).read
  · exact (E_handle_error _ _ trivial (Eff.stay (fun _ => True) w)).read

/-! ## Inbound framing -/

theorem poke_nil (buf : List Nat) (p : Nat) : poke buf p [] = buf := by
  unfold poke memcpy
  split
  · simp
  · rfl

theorem poke_poke (buf a c : List Nat) (h : a.length + c.length ≤ buf.length) :
    poke (poke buf 0 a) a.length c = poke buf 0 (a ++ c) := by
  have h1 : poke buf 0 a = a ++ buf.drop a.length := by
    rw [poke_eq _ _ _ (by omega)]; simp
  have h2 : poke buf 0 (a ++ c) = a ++ c ++ buf.drop (a.length + c.length) := by
    rw [poke_eq _ _ _ (by simp; omega)]; simp
  rw [h1, h2]
  have := poke_mid a ((buf.drop a.length).take c.length)
    ((buf.drop a.length).drop c.length) c (by simp; omega)
  rw [List.take_append_drop] at this
  rw [this, List.drop_drop]
  simp [Nat.add_comm]

theorem poke_full (buf s : List Nat) (h : s.length = buf.length) : poke buf 0 s = s := by
  rw [poke_eq _ _ _ (by omega)]
  simp [h]

theorem availOnly_tail {r : IoRead} {rs : List IoRead} (h : AvailOnly (r :: rs)) :
    AvailOnly rs := fun x hx => h x (List.mem_cons_of_mem _ hx)

/-- A read without error or end of file takes a prefix of the inbox, no longer
than asked for. -/
theorem read_chars_avail (w : World) (inp : Input) (count : Nat) (hav : AvailOnly inp.reads) :
    ∃ m rs, m ≤ count ∧ AvailOnly rs ∧
      grilio_channel_read_chars w inp count
        = (some (inp.inbox.take m), w, { inbox := inp.inbox.drop m, reads := rs }) := by
  unfold grilio_channel_read_chars
  cases hr : inp.reads with
  | nil =>
      refine ⟨0, [], Nat.zero_le _, ?_, ?_⟩
      · intro r hr'; simp at hr'
      · cases inp
        simp_all
  | cons r rs =>
      rw [hr] at hav
      obtain ⟨n, hn⟩ := hav r (List.mem_cons_self _ _)
      subst hn
      exact ⟨min n count, rs, Nat.min_le_right _ _, availOnly_tail hav, rfl⟩

theorem packet_length (b : List Nat) : (packet b).length = 4 + b.length := by
  simp [packet, storeU32_length]

theorem bodyBuffer_length (w : World) (n : Nat) (h : w.chan.read_buf.length = w.chan.read_buf_alloc) :
    (bodyBuffer w n).length = max w.chan.read_buf_alloc n := by
  unfold bodyBuffer
  split
  · simp; omega
  · rw [h]; omega

theorem inbox_take (b tl : List Nat) (c m : Nat) (hc : c + m ≤ (packet b).length) :
    List.take m ((packet b).drop c ++ tl) = ((packet b).drop c).take m := by
  rw [List.take_append_of_le_length (by simp only [List.length_drop]; omega)]

theorem inbox_drop (b tl : List Nat) (c m : Nat) (hc : c + m ≤ (packet b).length) :
    List.drop m ((packet b).drop c ++ tl) = (packet b).drop (c + m) ++ tl := by
  rw [List.drop_append_of_le_length (by simp only [List.length_drop]; omega), List.drop_drop]

theorem packet_drop_body (b : List Nat) (c : Nat) (hc : 4 ≤ c) :
    (packet b).drop c = b.drop (c - 4) := by
  have h4 : (storeU32 Endian.big b.length).length = 4 := storeU32_length _ _
  unfold packet
  have : c = (storeU32 Endian.big b.length).length + (c - 4) := by omega
  rw [this, List.drop_append]
  simp [h4]

/-- The body part of `grilio_channel_read` in the middle of a packet: it ends
further in the same packet, or hands the whole packet over. -/
theorem read_body_mid (e : Endian) (R : World) (b tl : List Nat) (c : Nat) (inp : Input)
    (hB : Boundary R) (hc4 : 4 ≤ c) (hc : c < 4 + b.length ∨ c = 4)
    (hin : inp.inbox = (packet b).drop c ++ tl) (hav : AvailOnly inp.reads) :
    ∃ c' rs, c ≤ c' ∧ AvailOnly rs ∧
      ((c' < 4 + b.length ∧ grilio_channel_read_body e (midPacket R b c) inp
          = (true, midPacket R b c', { inbox := (packet b).drop c' ++ tl, reads := rs })) ∨
        (grilio_channel_read_body e (midPacket R b c) inp
          = ((grilio_channel_handle_packet e (wholePacket R b)).1,
              (grilio_channel_handle_packet e (wholePacket R b)).2,
              { inbox := tl, reads := rs }))) := by
  have hnl : ¬ c < 4 := by omega
  have hbl := bodyBuffer_length R b.length hB.2.2
  by_cases hpos : c - 4 < b.length
  · obtain ⟨m, rs, hm, hrs, hrc⟩ := read_chars_avail (midPacket R b c) inp (b.length - (c - 4)) hav
    have htake : List.take m inp.inbox = (b.drop (c - 4)).take m := by
      rw [hin, inbox_take b tl c m (by rw [packet_length]; omega), packet_drop_body b c hc4]
    have hdrop : List.drop m inp.inbox = (packet b).drop (c + m) ++ tl := by
      rw [hin, inbox_drop b tl c m (by rw [packet_length]; omega)]
    have hlen : ((b.drop (c - 4)).take m).length = m := by
      simp only [List.length_take, List.length_drop]; omega
    have hpp : poke (poke (bodyBuffer R b.length) 0 (b.take (c - 4))) (c - 4)
        ((b.drop (c - 4)).take m) = poke (bodyBuffer R b.length) 0 (b.take (c - 4 + m)) := by
      have h1 : (b.take (c - 4)).length = c - 4 := by
        simp only [List.length_take]; omega
      have := poke_poke (bodyBuffer R b.length) (b.take (c - 4)) ((b.drop (c - 4)).take m)
        (by rw [h1, hlen, hbl]; omega)
      rw [h1] at this
      rw [this, List.take_add]
    refine ⟨c + m, rs, by omega, hrs, ?_⟩
    have f1 : (midPacket R b c).chan.read_buf_pos = c - 4 := by simp [midPacket, hnl]
    have f2 : (midPacket R b c).chan.read_len = b.length := by simp [midPacket, hnl]
    have f3 : (midPacket R b c).chan.read_buf
        = poke (bodyBuffer R b.length) 0 (b.take (c - 4)) := by simp [midPacket, hnl]
    unfold grilio_channel_read_body
    simp only [f1, f2, hpos, if_true, hrc, htake, hlen, hdrop, f3, hpp]
    by_cases hfin : c - 4 + m < b.length
    · left
      refine ⟨by omega, ?_⟩
      have hnl' : ¬ c + m < 4 := by omega
      have e1 : c + m - 4 = c - 4 + m := by omega
      simp only [hfin, if_true, midPacket, hnl, hnl', if_false, e1]
    · right
      have hm' : c - 4 + m = b.length := by omega
      have hd : List.drop (c + m) (packet b) = [] :=
        List.drop_eq_nil_of_le (by rw [packet_length]; omega)
      simp only [hm', lt_irrefl, if_false, List.take_length, hd, List.nil_append, midPacket,
        hnl, wholePacket]
  · have hb0 : b.length = 0 := by omega
    have hc' : c = 4 := by omega
    have hbnil : b = [] := List.length_eq_zero.1 hb0
    refine ⟨c, inp.reads, Nat.le_refl _, hav, Or.inr ?_⟩
    subst hc' hbnil
    have hd : List.drop 4 (packet ([] : List Nat)) = [] := by
      apply List.drop_eq_nil_of_le; rw [packet_length]; simp
    rw [hd] at hin
    simp only [grilio_channel_read_body, midPacket, lt_irrefl, if_false, List.length_nil,
      Nat.sub_self, List.take_nil]
    have : inp = { inbox := tl, reads := inp.reads } := by
      cases inp; simp_all
    rw [← this]
    rfl

theorem packet_take_len (b : List Nat) (c m : Nat) (hc : c + m ≤ 4) :
    ((packet b).drop c).take m = ((storeU32 Endian.big b.length).drop c).take m := by
  have h4 : (storeU32 Endian.big b.length).length = 4 := storeU32_length _ _
  unfold packet
  rw [List.drop_append_of_le_length (by omega),
    List.take_append_of_le_length (by simp only [List.length_drop]; omega)]

theorem midPacket_zero (R : World) (b : List Nat) (hB : Boundary R) : midPacket R b 0 = R := by
  obtain ⟨h0, _, _⟩ := hB
  simp only [midPacket, Nat.zero_lt_succ, if_true, List.take_zero, poke_nil]
  cases R with
  | mk reqs queues chan trace wire writes now =>
      cases chan
      simp_all

/-- One call of `grilio_channel_read` in the middle of a packet: it ends
further in the same packet, or hands the whole packet over. -/
theorem read_mid (e : Endian) (R : World) (b tl : List Nat) (c : Nat) (inp : Input)
    (hB : Boundary R) (hmax : b.length ≤ GRILIO_MAX_PACKET_LEN) (hc : c < 4 + b.length)
    (hin : inp.inbox = (packet b).drop c ++ tl) (hav : AvailOnly inp.reads) :
    ∃ c' rs, c ≤ c' ∧ AvailOnly rs ∧
      ((c' < 4 + b.length ∧ grilio_channel_read e (midPacket R b c) inp
          = (true, midPacket R b c', { inbox := (packet b).drop c' ++ tl, reads := rs })) ∨
        (grilio_channel_read e (midPacket R b c) inp
          = ((grilio_channel_handle_packet e (wholePacket R b)).1,
              (grilio_channel_handle_packet e (wholePacket R b)).2,
              { inbox := tl, reads := rs }))) := by
  by_cases hc4 : c < 4
  · obtain ⟨m, rs, hm, hrs, hrc⟩ := read_chars_avail (midPacket R b c) inp (4 - c) hav
    have h4 : (storeU32 Endian.big b.length).length = 4 := storeU32_length _ _
    have htake : List.take m inp.inbox = ((storeU32 Endian.big b.length).drop c).take m := by
      rw [hin, inbox_take b tl c m (by rw [packet_length]; omega),
        packet_take_len b c m (by omega)]
    have hdrop : List.drop m inp.inbox = (packet b).drop (c + m) ++ tl := by
      rw [hin, inbox_drop b tl c m (by rw [packet_length]; omega)]
    have hlen : (((storeU32 Endian.big b.length).drop c).take m).length = m := by
      simp only [List.length_take, List.length_drop]; omega
    have hpp : poke (poke R.chan.read_len_buf 0 ((storeU32 Endian.big b.length).take c)) c
        (((storeU32 Endian.big b.length).drop c).take m)
        = poke R.chan.read_len_buf 0 ((storeU32 Endian.big b.length).take (c + m)) := by
      have h1 : ((storeU32 Endian.big b.length).take c).length = c := by
        simp only [List.length_take]; omega
      have := poke_poke R.chan.read_len_buf ((storeU32 Endian.big b.length).take c)
        (((storeU32 Endian.big b.length).drop c).take m) (by rw [h1, hlen, hB.2.1]; omega)
      rw [h1] at this
      rw [this, List.take_add]
    have f1 : (midPacket R b c).chan.read_len_pos = c := by simp [midPacket, hc4]
    have f2 : (midPacket R b c).chan.read_len_buf
        = poke R.chan.read_len_buf 0 ((storeU32 Endian.big b.length).take c) := by
      simp [midPacket, hc4]
    by_cases hfin : c + m < 4
    · refine ⟨c + m, rs, by omega, hrs, Or.inl ⟨by omega, ?_⟩⟩
      unfold grilio_channel_read
      simp only [f1, hc4, if_true, hrc, htake, hlen, hdrop, f2, hpp, hfin]
      simp only [midPacket, hc4, hfin, if_true]
    · have hcm : c + m = 4 := by omega
      have hfull : poke R.chan.read_len_buf 0 ((storeU32 Endian.big b.length).take 4)
          = storeU32 Endian.big b.length := by
        rw [← h4, List.take_length]
        exact poke_full _ _ (by rw [h4, hB.2.1])
      have hload : loadU32 Endian.big (storeU32 Endian.big b.length) 0 = b.length := by
        have := loadU32_storeU32 Endian.big b.length []
        simp only [List.append_nil] at this
        rw [this]
        exact Nat.mod_eq_of_lt (by simp only [GRILIO_MAX_PACKET_LEN] at hmax; omega)
      have hmid4 : grilio_channel_read e (midPacket R b c) inp
          = grilio_channel_read_body e (midPacket R b 4)
              { inbox := (packet b).drop 4 ++ tl, reads := rs } := by
        unfold grilio_channel_read
        simp only [f1, hc4, if_true, hrc, htake, hlen, hdrop, f2, hpp, hcm, lt_irrefl, if_false,
          hfull, hload, hmax]
        congr 1
        simp only [midPacket, hc4, if_true, lt_irrefl, if_false, Nat.sub_self, List.take_zero,
          poke_nil, bodyBuffer]
        split <;> rename_i hal
        · have : max R.chan.read_buf_alloc b.length = b.length := by omega
          simp only [this]
        · have : max R.chan.read_buf_alloc b.length = R.chan.read_buf_alloc := by omega
          simp only [this]
      obtain ⟨c', rs', hc', hrs', hres⟩ := read_body_mid e R b tl 4
        { inbox := (packet b).drop 4 ++ tl, reads := rs } hB (Nat.le_refl _) (Or.inr rfl) rfl hrs
      refine ⟨c', rs', by omega, hrs', ?_⟩
      rw [hmid4]
      exact hres
  · have hnl : ¬ (midPacket R b c).chan.read_len_pos < 4 := by simp [midPacket, hc4]
    have heq : grilio_channel_read e (midPacket R b c) inp
        = grilio_channel_read_body e (midPacket R b c) inp := by
      unfold grilio_channel_read
      simp only [hnl, if_false]
    rw [heq]
    exact read_body_mid e R b tl c inp hB (by omega) (Or.inl hc) hin hav

theorem readState_wholePacket (R : World) (b : List Nat) :
    readState (wholePacket R b) = (storeU32 Endian.big b.length, 0, b.length, b.length,
      max R.chan.read_buf_alloc b.length, poke (bodyBuffer R b.length) 0 b) := rfl

theorem boundary_afterPacket (e : Endian) (R : World) (b : List Nat) (hB : Boundary R) :
    Boundary (afterPacket e R b) := by
  have hr := read_handle_packet e (wholePacket R b)
  rw [readState_wholePacket] at hr
  have hs : readState (afterPacket e R b) = readState
      (grilio_channel_handle_packet e (wholePacket R b)).2 := by
    unfold afterPacket
    dsimp only
    split <;> rfl
  rw [hr] at hs
  simp only [readState, Prod.mk.injEq] at hs
  obtain ⟨h1, h2, _, _, h5, h6⟩ := hs
  refine ⟨h2, ?_, ?_⟩
  · rw [h1, storeU32_length]
  · rw [h6, h5, poke_length, bodyBuffer_length R b.length hB.2.2]

theorem deliver_off (e : Endian) (w : World) (bs : List (List Nat))
    (h : w.chan.read_watch_id = false) : deliver e w bs = w := by
  cases bs with
  | nil => rfl
  | cons b bs => simp [deliver, h]

theorem deliver_snoc (e : Endian) (bs : List (List Nat)) (b : List Nat) :
    ∀ w : World, deliver e w (bs ++ [b])
      = if (deliver e w bs).chan.read_watch_id then afterPacket e (deliver e w bs) b
        else deliver e w bs := by
  induction bs with
  | nil => intro w; simp [deliver]
  | cons a bs ih =>
      intro w
      by_cases hw : w.chan.read_watch_id = true
      · simp only [List.cons_append, deliver, hw, if_true]
        exact ih _
      · have hw' : w.chan.read_watch_id = false := by simpa using hw
        simp [deliver, hw']

theorem boundary_deliver (e : Endian) (bs : List (List Nat)) :
    ∀ w : World, Boundary w → Boundary (deliver e w bs) := by
  induction bs with
  | nil => intro w h; exact h
  | cons b bs ih =>
      intro w h
      unfold deliver
      split
      · exact ih _ (boundary_afterPacket e w b h)
      · exact h

theorem midPacket_watch (R : World) (b : List Nat) (c : Nat) :
    (midPacket R b c).chan.read_watch_id = R.chan.read_watch_id := by
  unfold midPacket
  split <;> rfl

/-- One read callback in the middle of a packet. -/
theorem callback_mid (e : Endian) (R : World) (b tl : List Nat) (c : Nat) (inp : Input)
    (hB : Boundary R) (hw : R.chan.read_watch_id = true)
    (hmax : b.length ≤ GRILIO_MAX_PACKET_LEN) (hc : c < 4 + b.length)
    (hin : inp.inbox = (packet b).drop c ++ tl) (hav : AvailOnly inp.reads) :
    ∃ c' rs, c ≤ c' ∧ AvailOnly rs ∧
      ((c' < 4 + b.length ∧ grilio_channel_read_callback e (midPacket R b c) inp
          = (midPacket R b c', { inbox := (packet b).drop c' ++ tl, reads := rs })) ∨
        (grilio_channel_read_callback e (midPacket R b c) inp
          = (afterPacket e R b, { inbox := tl, reads := rs }))) := by
  obtain ⟨c', rs, hc', hrs, hres⟩ := read_mid e R b tl c inp hB hmax hc hin hav
  refine ⟨c', rs, hc', hrs, ?_⟩
  have hmw := midPacket_watch R b c
  rw [hw] at hmw
  rcases hres with ⟨hlt, hr⟩ | hr
  · left
    refine ⟨hlt, ?_⟩
    simp only [grilio_channel_read_callback, hmw, if_true, hr]
  · right
    simp only [grilio_channel_read_callback, hmw, if_true, hr, afterPacket]
    split <;> rfl

theorem stream_cons (b : List Nat) (bs : List (List Nat)) :
    stream (b :: bs) = packet b ++ stream bs := by
  simp [stream]

theorem stream_nil : stream [] = [] := rfl

/-- A read callback with nothing in the inbox, between two packets, changes
nothing in the channel. -/
theorem callback_idle (e : Endian) (R : World) (inp : Input) (hB : Boundary R)
    (hw : R.chan.read_watch_id = true) (hin : inp.inbox = []) (hav : AvailOnly inp.reads) :
    ∃ rs, AvailOnly rs ∧
      grilio_channel_read_callback e R inp = (R, { inbox := [], reads := rs }) := by
  obtain ⟨m, rs, _, hrs, hrc⟩ := read_chars_avail R inp (4 - R.chan.read_len_pos) hav
  refine ⟨rs, hrs, ?_⟩
  obtain ⟨h0, _, _⟩ := hB
  have h4 : R.chan.read_len_pos < 4 := by omega
  simp only [grilio_channel_read_callback, hw, grilio_channel_read, h4, if_true, hrc, hin,
    List.take_nil, List.drop_nil, poke_nil, List.length_nil, Nat.add_zero]
  cases R with
  | mk reqs queues chan trace wire writes now =>
      cases chan
      simp_all


theorem sim_start (e : Endian) (w : World) (frames : List (List Nat)) (reads : List IoRead)
    (hB : Boundary w) (hav : AvailOnly reads) :
    Sim e w frames (w, { inbox := stream frames, reads := reads }) := by
  refine ⟨hav, 0, Nat.zero_le _, ?_⟩
  by_cases hw : w.chan.read_watch_id = true
  · right
    cases frames with
    | nil => right; exact ⟨rfl, rfl, rfl⟩
    | cons b bs =>
        left
        refine ⟨hw, b, 0, rfl, by omega, ?_, ?_⟩
        · exact (midPacket_zero w b hB).symm
        · simp [stream_cons]
  · left
    have hw' : w.chan.read_watch_id = false := by simpa using hw
    exact ⟨hw', rfl⟩

/-- After a packet is handed over the run is stopped, at the start of the next
packet, or past the last one. -/
theorem sim_next (e : Endian) (w : World) (frames : List (List Nat)) (j : Nat) (b : List Nat)
    (rs : List IoRead) (hB : Boundary w) (hav : AvailOnly rs)
    (hd : frames.drop j = b :: frames.drop (j + 1))
    (hw : (deliver e w (frames.take j)).chan.read_watch_id = true) :
    Sim e w frames (afterPacket e (deliver e w (frames.take j)) b,
      { inbox := stream (frames.drop (j + 1)), reads := rs }) := by
  have hj : j < frames.length := by
    by_contra hn
    rw [List.drop_eq_nil_of_le (by omega)] at hd
    cases hd
  have htake : frames.take (j + 1) = frames.take j ++ [b] := by
    have h1 : frames.take (j + 1) = frames.take j ++ (frames.drop j).take 1 := by
      rw [List.take_add]
    rw [h1, hd]; rfl
  have hdel : deliver e w (frames.take (j + 1))
      = afterPacket e (deliver e w (frames.take j)) b := by
    rw [htake, deliver_snoc, hw, if_pos rfl]
  refine ⟨hav, j + 1, hj, ?_⟩
  rw [hdel]
  by_cases hw2 : (afterPacket e (deliver e w (frames.take j)) b).chan.read_watch_id = true
  · right
    have hB2 : Boundary (afterPacket e (deliver e w (frames.take j)) b) :=
      boundary_afterPacket e _ b (boundary_deliver e _ w hB)
    cases hd2 : frames.drop (j + 1) with
    | nil =>
        right
        have hlen : j + 1 = frames.length := by
          have := congrArg List.length hd2
          simp at this; omega
        refine ⟨hlen, ?_, rfl⟩
        rw [← hdel, hlen, List.take_length]
    | cons b2 rest =>
        left
        have hrest : rest = frames.drop (j + 1 + 1) := by
          have h3 : frames.drop (j + 1 + 1) = (frames.drop (j + 1)).drop 1 := by
            rw [List.drop_drop]
          rw [h3, hd2]; rfl
        refine ⟨hw2, b2, 0, ?_, by omega, ?_, ?_⟩
        · rw [hrest]
        · exact (midPacket_zero _ b2 hB2).symm
        · simp [stream_cons, hrest]
  · left
    have hw' : (afterPacket e (deliver e w (frames.take j)) b).chan.read_watch_id = false := by
      simpa using hw2
    exact ⟨hw', rfl⟩

theorem sim_step (e : Endian) (w : World) (frames : List (List Nat)) (s : World × Input)
    (hB : Boundary w) (hmax : ∀ b ∈ frames, b.length ≤ GRILIO_MAX_PACKET_LEN)
    (hs : Sim e w frames s) : Sim e w frames (grilio_channel_read_callback e s.1 s.2) := by
  obtain ⟨hav, j, hj, hcase⟩ := hs
  have hBR : Boundary (deliver e w (frames.take j)) := boundary_deliver e _ w hB
  rcases hcase with ⟨hoff, hs1⟩ | ⟨hon, b, c, hd, hc, hs1, hin⟩ | ⟨hlen, hs1, hin⟩
  · refine ⟨?_, j, hj, Or.inl ⟨hoff, ?_⟩⟩
    · simp only [grilio_channel_read_callback, hs1, hoff]
      exact hav
    · simp only [grilio_channel_read_callback, hs1, hoff]
      rfl
  · have hbm : b ∈ frames := by
      have : b ∈ frames.drop j := by rw [hd]; exact List.mem_cons_self _ _
      exact List.mem_of_mem_drop this
    obtain ⟨c', rs, _, hrs, hres⟩ := callback_mid e _ b _ c s.2 hBR hon (hmax b hbm) hc hin hav
    rw [hs1]
    rcases hres with ⟨hlt, hr⟩ | hr
    · rw [hr]
      exact ⟨hrs, j, hj, Or.inr (Or.inl ⟨hon, b, c', hd, hlt, rfl, rfl⟩)⟩
    · rw [hr]
      exact sim_next e w frames j b rs hB hrs hd hon
  · by_cases hw : (deliver e w frames).chan.read_watch_id = true
    · have hBF : Boundary (deliver e w frames) := boundary_deliver e _ w hB
      obtain ⟨rs, hrs, hr⟩ := callback_idle e _ s.2 hBF hw hin hav
      rw [hs1, hr]
      exact ⟨hrs, j, hj, Or.inr (Or.inr ⟨hlen, rfl, rfl⟩)⟩
    · have hw' : (deliver e w frames).chan.read_watch_id = false := by simpa using hw
      refine ⟨?_, j, hj, Or.inr (Or.inr ⟨hlen, ?_, ?_⟩)⟩
      · simp only [grilio_channel_read_callback, hs1, hw']
        exact hav
      · simp only [grilio_channel_read_callback, hs1, hw']
        rfl
      · simp only [grilio_channel_read_callback, hs1, hw']
        exact hin

theorem sim_pump (e : Endian) (w : World) (frames : List (List Nat))
    (hB : Boundary w) (hmax : ∀ b ∈ frames, b.length ≤ GRILIO_MAX_PACKET_LEN) (k : Nat) :
    ∀ s, Sim e w frames s → Sim e w frames (pump e k s) := by
  induction k with
  | zero => intro s hs; exact hs
  | succ k ih =>
      intro s hs
      exact ih _ (sim_step e w frames s hB hmax hs)

/-- A read callback between two packets when the next packet arrives whole. -/
theorem callback_whole (e : Endian) (R : World) (b tl : List Nat) (rs : List IoRead)
    (hB : Boundary R) (hw : R.chan.read_watch_id = true)
    (hmax : b.length ≤ GRILIO_MAX_PACKET_LEN) :
    grilio_channel_read_callback e R
        { inbox := packet b ++ tl, reads := wholeReads [b] ++ rs }
      = (afterPacket e R b, { inbox := tl, reads := rs }) := by
  obtain ⟨h0, h4, hal⟩ := hB
  have hs4 : (storeU32 Endian.big b.length).length = 4 := storeU32_length _ _
  have hlt : b.length < 4294967296 := by
    simp only [GRILIO_MAX_PACKET_LEN] at hmax; omega
  have hld : loadU32 Endian.big (storeU32 Endian.big b.length) 0 = b.length := by
    have := loadU32_storeU32 Endian.big b.length []
    rw [List.append_nil, Nat.mod_eq_of_lt hlt] at this
    exact this
  have ht : List.take 4 (packet b ++ tl) = storeU32 Endian.big b.length := by
    unfold packet
    rw [List.append_assoc, List.take_append_of_le_length (by omega), ← hs4, List.take_length]
  have hd : List.drop 4 (packet b ++ tl) = b ++ tl := by
    unfold packet
    rw [List.append_assoc, ← hs4, List.drop_left]
  have hpk : poke R.chan.read_len_buf 0 (storeU32 Endian.big b.length)
      = storeU32 Endian.big b.length := poke_full _ _ (by omega)
  have hwr : wholeReads [b] ++ rs = IoRead.avail 4
      :: ((if b.length = 0 then [] else [IoRead.avail b.length]) ++ rs) := by
    simp only [wholeReads, List.flatMap_cons, List.flatMap_nil, List.append_nil]
    split <;> rfl
  have hrd : grilio_channel_read e R { inbox := packet b ++ tl, reads := wholeReads [b] ++ rs }
      = grilio_channel_read_body e (midPacket R b 4)
          { inbox := b ++ tl, reads := (if b.length = 0 then [] else [IoRead.avail b.length]) ++ rs } := by
    have h44 : ¬ (4 < 4) := by omega
    rw [hwr]
    simp only [grilio_channel_read, h0, grilio_channel_read_chars, 
      Nat.sub_zero, Nat.min_self, Nat.zero_lt_succ, if_true,
      ht, hd, hpk, hs4, Nat.zero_add, h44, if_false, hld, hmax, midPacket, bodyBuffer,
      poke_nil, List.take_zero, Nat.sub_self]
    split
    · rename_i h; rw [max_eq_right (Nat.le_of_lt h)]
    · rename_i h; rw [max_eq_left (Nat.le_of_not_lt h)]
  have hbody : grilio_channel_read_body e (midPacket R b 4)
          { inbox := b ++ tl, reads := (if b.length = 0 then [] else [IoRead.avail b.length]) ++ rs }
      = ((grilio_channel_handle_packet e (wholePacket R b)).1,
          (grilio_channel_handle_packet e (wholePacket R b)).2, { inbox := tl, reads := rs }) := by
    have h44 : ¬ (4 < 4) := by omega
    by_cases hb : b.length = 0
    · have hbn : b = [] := List.length_eq_zero.1 hb
      simp only [grilio_channel_read_body, midPacket, h44, if_false, hb, Nat.sub_self,
        Nat.lt_irrefl, if_true, List.nil_append, hbn, List.take_nil, wholePacket,
        List.length_nil]
    · have hpos : 0 < b.length := by omega
      have hbl := bodyBuffer_length R b.length hal
      simp only [grilio_channel_read_body, midPacket, h44, if_false, hb, Nat.sub_self, hpos,
        if_true, List.singleton_append, grilio_channel_read_chars, Nat.sub_zero, Nat.min_self,
        List.take_left, List.drop_left, List.take_zero, poke_nil, Nat.zero_add,
        Nat.lt_irrefl, wholePacket]
  simp only [grilio_channel_read_callback, hw, if_true, hrd, hbody, afterPacket]
  split <;> rfl

theorem pump_off (e : Endian) (k : Nat) : ∀ (w : World) (inp : Input),
    w.chan.read_watch_id = false → pump e k (w, inp) = (w, inp) := by
  induction k with
  | zero => intro w inp _; rfl
  | succ k ih =>
      intro w inp h
      have : grilio_channel_read_callback e w inp = (w, inp) := by
        simp [grilio_channel_read_callback, h]
      simp only [pump, this]
      exact ih w inp h

theorem wholeReads_cons (b : List Nat) (bs : List (List Nat)) :
    wholeReads (b :: bs) = wholeReads [b] ++ wholeReads bs := by
  simp [wholeReads]

/-- When every packet arrives in a single read, one callback per packet hands
the packets over one after the other. -/
theorem pump_whole (e : Endian) (frames : List (List Nat)) :
    ∀ (w : World) (tl : List Nat) (rs : List IoRead), Boundary w →
      (∀ b ∈ frames, b.length ≤ GRILIO_MAX_PACKET_LEN) →
      (pump e frames.length
        (w, { inbox := stream frames ++ tl, reads := wholeReads frames ++ rs })).1
        = deliver e w frames := by
  induction frames with
  | nil => intro w tl rs _ _; rfl
  | cons b bs ih =>
      intro w tl rs hB hmax
      by_cases hw : w.chan.read_watch_id = true
      · have hb := hmax b (List.mem_cons_self _ _)
        have hcb := callback_whole e w b (stream bs ++ tl) (wholeReads bs ++ rs) hB hw hb
        have hd : deliver e w (b :: bs) = deliver e (afterPacket e w b) bs := by
          simp only [deliver, hw, if_true]
        rw [hd, stream_cons, wholeReads_cons, List.append_assoc, List.append_assoc]
        show (pump e bs.length (grilio_channel_read_callback e w _)).1 = _
        rw [hcb]
        exact ih _ tl rs (boundary_afterPacket e w b hB)
          (fun x hx => hmax x (List.mem_cons_of_mem _ hx))
      · have hw' : w.chan.read_watch_id = false := by simpa using hw
        rw [pump_off e _ w _ hw', deliver_off e w _ hw']

theorem pump_whole_take (e : Endian) (frames : List (List Nat)) (w : World) (j : Nat)
    (hB : Boundary w) (hmax : ∀ b ∈ frames, b.length ≤ GRILIO_MAX_PACKET_LEN)
    (hj : j ≤ frames.length) :
    (pump e j (w, { inbox := stream frames, reads := wholeReads frames })).1
      = deliver e w (frames.take j) := by
  have hs : stream frames = stream (frames.take j) ++ stream (frames.drop j) := by
    simp only [stream, ← List.flatMap_append, List.take_append_drop]
  have hr : wholeReads frames = wholeReads (frames.take j) ++ wholeReads (frames.drop j) := by
    simp only [wholeReads, ← List.flatMap_append, List.take_append_drop]
  have hl : (frames.take j).length = j := by simp only [List.length_take]; omega
  have := pump_whole e (frames.take j) w (stream (frames.drop j)) (wholeReads (frames.drop j)) hB
    (fun b hb => hmax b (List.mem_of_mem_take hb))
  rw [hl, ← hs, ← hr] at this
  exact this

/-- C4: the inbound framing is independent of how the stream is chunked. For
a channel between two packets, a stream of packets with bodies `frames` (each
at most 32768 bytes long) and any succession `reads` of non-blocking reads
that each return some number of bytes, after any number `k` of read callbacks
the channel is where the run in which every packet arrives in a single read
is after some number `j` of packets, but for the part of the next packet
already in its buffers; and once the stream has been read to its end with the
watch still there, it is where that run is after all the packets. So the
bodies handed to `grilio_channel_handle_packet` are the same ones, in the
same order, with the same effects. -/
theorem read_chunk_independent (e : Endian) (w : World) (frames : List (List Nat))
    (reads : List IoRead) (k : Nat) (hB : Boundary w)
    (hmax : ∀ b ∈ frames, b.length ≤ GRILIO_MAX_PACKET_LEN) (hav : AvailOnly reads) :
    (∃ j b c, j ≤ frames.length ∧
      (pump e k (w, { inbox := stream frames, reads := reads })).1
        = midPacket (pump e j (w, { inbox := stream frames, reads := wholeReads frames })).1
            b c) ∧
    ((pump e k (w, { inbox := stream frames, reads := reads })).2.inbox = [] →
      (pump e k (w, { inbox := stream frames, reads := reads })).1.chan.read_watch_id = true →
      (pump e k (w, { inbox := stream frames, reads := reads })).1
        = (pump e frames.length
            (w, { inbox := stream frames, reads := wholeReads frames })).1) := by
  have hsim := sim_pump e w frames hB hmax k _ (sim_start e w frames reads hB hav)
  obtain ⟨_, j, hj, hcase⟩ := hsim
  have hBj : Boundary (deliver e w (frames.take j)) := boundary_deliver e _ w hB
  have hall := pump_whole_take e frames w frames.length hB hmax (Nat.le_refl _)
  rw [List.take_length] at hall
  rcases hcase with ⟨hoff, hs1⟩ | ⟨hon, b, c, hd, hc, hs1, hin⟩ | ⟨hlen, hs1, hin⟩
  · refine ⟨⟨j, [], 0, hj, ?_⟩, ?_⟩
    · rw [pump_whole_take e frames w j hB hmax hj, midPacket_zero _ _ hBj]
      exact hs1
    · intro _ hw
      rw [hs1, hoff] at hw
      cases hw
  · refine ⟨⟨j, b, c, hj, ?_⟩, ?_⟩
    · rw [pump_whole_take e frames w j hB hmax hj]
      exact hs1
    · intro hnil _
      rw [hin] at hnil
      have := congrArg List.length hnil
      simp only [List.length_append, List.length_drop, packet_length, List.length_nil] at this
      omega
  · refine ⟨⟨j, [], 0, hj, ?_⟩, ?_⟩
    · rw [pump_whole_take e frames w j hB hmax hj, midPacket_zero _ _ hBj, hlen,
        List.take_length]
      exact hs1
    · intro _ _
      rw [hall]
      exact hs1

theorem read_chunk_independent_witness :
    (Boundary sampleIdle ∧
      (pump Endian.little 4
        (sampleIdle, { inbox := stream sampleFrames, reads := sampleReads })).2.inbox = []) ∧
    (pump Endian.little 4
        (sampleIdle, { inbox := stream sampleFrames, reads := sampleReads })).1
      = (pump Endian.little sampleFrames.length
          (sampleIdle, { inbox := stream sampleFrames, reads := wholeReads sampleFrames })).1 :=
  ⟨⟨by decide, by decide⟩,
    (read_chunk_independent Endian.little sampleIdle sampleFrames sampleReads 4 (by decide)
      (by decide)
      (by intro r hr
          simp only [sampleReads, List.mem_cons, List.mem_singleton, List.not_mem_nil,
            or_false] at hr
          rcases hr with h | h | h | h | h | h <;> exact ⟨_, h⟩)).2 (by decide) (by decide)⟩

/-! ## The effect of the primitive steps, field by field -/

theorem sameReq_refl (r : GRilIoRequest) : sameReq r r :=
  ⟨rfl, rfl, rfl, rfl, rfl, rfl, rfl, rfl, rfl⟩

theorem sameReq_refcount (r : GRilIoRequest) (n : Int) : sameReq { r with refcount := n } r :=
  ⟨rfl, rfl, rfl, rfl, rfl, rfl, rfl, rfl, rfl⟩

@[simp] theorem responses_append (a b : List Event) :
    responses (a ++ b) = responses a ++ responses b := by
  simp [responses, List.filterMap_append]

@[simp] theorem responses_nil : responses [] = [] := rfl

theorem ref_req (w : World) (h x : Nat) : sameReq ((grilio_request_ref w h).req x) (w.req x) := by
  unfold grilio_request_ref
  rw [req_setReq]
  split
  · rename_i hx; rw [hx.1]; exact sameReq_refcount _ _
  · exact sameReq_refl _

@[simp] theorem ref_chan (w : World) (h : Nat) : (grilio_request_ref w h).chan = w.chan := rfl

@[simp] theorem ref_trace (w : World) (h : Nat) : (grilio_request_ref w h).trace = w.trace := rfl

@[simp] theorem ref_queues (w : World) (h : Nat) :
    (grilio_request_ref w h).queues = w.queues := rfl

@[simp] theorem ref_length (w : World) (h : Nat) :
    (grilio_request_ref w h).reqs.length = w.reqs.length := by
  simp [grilio_request_ref]

theorem unref_req (w : World) (h x : Nat) :
    sameReq ((grilio_request_unref w h).req x) (w.req x) := by
  have hs : sameReq ((w.setReq h { w.req h with refcount := (w.req h).refcount - 1 }).req x)
      (w.req x) := by
    rw [req_setReq]
    split
    · rename_i hx; rw [hx.1]; exact sameReq_refcount _ _
    · exact sameReq_refl _
  unfold grilio_request_unref grilio_request_free
  dsimp only
  split
  · split <;> exact hs
  · exact hs

@[simp] theorem unref_chan (w : World) (h : Nat) : (grilio_request_unref w h).chan = w.chan := by
  unfold grilio_request_unref grilio_request_free
  dsimp only
  split
  · split <;> rfl
  · rfl

@[simp] theorem unref_queues (w : World) (h : Nat) :
    (grilio_request_unref w h).queues = w.queues := by
  unfold grilio_request_unref grilio_request_free
  dsimp only
  split
  · split <;> rfl
  · rfl

@[simp] theorem unref_length (w : World) (h : Nat) :
    (grilio_request_unref w h).reqs.length = w.reqs.length := by
  unfold grilio_request_unref grilio_request_free
  dsimp only
  split
  · split <;> simp
  · simp

theorem unref_trace (w : World) (h : Nat) :
    (grilio_request_unref w h).trace = w.trace ++ unrefEvents w h := by
  unfold unrefEvents grilio_request_unref grilio_request_free
  dsimp only
  split
  · split <;> simp
  · simp

@[simp] theorem responses_unrefEvents (w : World) (h : Nat) :
    responses (unrefEvents w h) = [] := by
  unfold unrefEvents grilio_request_unref grilio_request_free
  dsimp only
  split
  · split <;> simp [responses]
  · simp

@[simp] theorem unref_responses (w : World) (h : Nat) :
    responses (grilio_request_unref w h).trace = responses w.trace := by
  rw [unref_trace, responses_append, responses_unrefEvents, List.append_nil]

@[simp] theorem ref_code (w : World) (h : Nat) (x : Nat) :
    ((grilio_request_ref w h).req x).code = (w.req x).code :=
  (ref_req w h x).1

@[simp] theorem ref_id (w : World) (h : Nat) (x : Nat) :
    ((grilio_request_ref w h).req x).id = (w.req x).id :=
  (ref_req w h x).2.1

@[simp] theorem ref_status (w : World) (h : Nat) (x : Nat) :
    ((grilio_request_ref w h).req x).status = (w.req x).status :=
  (ref_req w h x).2.2.1

@[simp] theorem ref_bytes (w : World) (h : Nat) (x : Nat) :
    ((grilio_request_ref w h).req x).bytes = (w.req x).bytes :=
  (ref_req w h x).2.2.2.1

@[simp] theorem ref_queue (w : World) (h : Nat) (x : Nat) :
    ((grilio_request_ref w h).req x).queue = (w.req x).queue :=
  (ref_req w h x).2.2.2.2.1

@[simp] theorem ref_response (w : World) (h : Nat) (x : Nat) :
    ((grilio_request_ref w h).req x).response = (w.req x).response :=
  (ref_req w h x).2.2.2.2.2.1

@[simp] theorem ref_destroy (w : World) (h : Nat) (x : Nat) :
    ((grilio_request_ref w h).req x).destroy = (w.req x).destroy :=
  (ref_req w h x).2.2.2.2.2.2.1

@[simp] theorem ref_timeout (w : World) (h : Nat) (x : Nat) :
    ((grilio_request_ref w h).req x).timeout = (w.req x).timeout :=
  (ref_req w h x).2.2.2.2.2.2.2.1

@[simp] theorem ref_deadline (w : World) (h : Nat) (x : Nat) :
    ((grilio_request_ref w h).req x).deadline = (w.req x).deadline :=
  (ref_req w h x).2.2.2.2.2.2.2.2

@[simp] theorem unref_code (w : World) (h : Nat) (x : Nat) :
    ((grilio_request_unref w h).req x).code = (w.req x).code :=
  (unref_req w h x).1

@[simp] theorem unref_id (w : World) (h : Nat) (x : Nat) :
    ((grilio_request_unref w h).req x).id = (w.req x).id :=
  (unref_req w h x).2.1

@[simp] theorem unref_status (w : World) (h : Nat) (x : Nat) :
    ((grilio_request_unref w h).req x).status = (w.req x).status :=
  (unref_req w h x).2.2.1

@[simp] theorem unref_bytes (w : World) (h : Nat) (x : Nat) :
    ((grilio_request_unref w h).req x).bytes = (w.req x).bytes :=
  (unref_req w h x).2.2.2.1

@[simp] theorem unref_queue (w : World) (h : Nat) (x : Nat) :
    ((grilio_request_unref w h).req x).queue = (w.req x).queue :=
  (unref_req w h x).2.2.2.2.1

@[simp] theorem unref_response (w : World) (h : Nat) (x : Nat) :
    ((grilio_request_unref w h).req x).response = (w.req x).response :=
  (unref_req w h x).2.2.2.2.2.1

@[simp] theorem unref_destroy (w : World) (h : Nat) (x : Nat) :
    ((grilio_request_unref w h).req x).destroy = (w.req x).destroy :=
  (unref_req w h x).2.2.2.2.2.2.1

@[simp] theorem unref_timeout (w : World) (h : Nat) (x : Nat) :
    ((grilio_request_unref w h).req x).timeout = (w.req x).timeout :=
  (unref_req w h x).2.2.2.2.2.2.2.1

@[simp] theorem unref_deadline (w : World) (h : Nat) (x : Nat) :
    ((grilio_request_unref w h).req x).deadline = (w.req x).deadline :=
  (unref_req w h x).2.2.2.2.2.2.2.2


/-! ### The response table -/

theorem lookup_none_filter (t : List (Nat × Nat)) (key : Nat)
    (h : g_hash_table_lookup t key = none) : t.filter (fun kv => kv.1 ≠ key) = t := by
  unfold g_hash_table_lookup at h
  simp only [Option.map_eq_none', List.find?_eq_none, decide_eq_true_eq] at h
  rw [List.filter_eq_self]
  intro kv hkv
  simpa using h kv hkv

@[simp] theorem steal_req (w : World) (key x : Nat) : (g_hash_table_steal w key).req x = w.req x :=
  rfl

@[simp] theorem steal_trace (w : World) (key : Nat) : (g_hash_table_steal w key).trace = w.trace :=
  rfl

@[simp] theorem steal_queues (w : World) (key : Nat) :
    (g_hash_table_steal w key).queues = w.queues := rfl

@[simp] theorem steal_reqs (w : World) (key : Nat) : (g_hash_table_steal w key).reqs = w.reqs :=
  rfl

theorem hash_remove_chan (w : World) (key : Nat) :
    (g_hash_table_remove w key).2.chan = (g_hash_table_steal w key).chan := by
  unfold g_hash_table_remove
  split
  · simp
  · rename_i h
    simp only [g_hash_table_steal, lookup_none_filter _ _ h]

theorem hash_remove_found (w : World) (key : Nat) :
    (g_hash_table_remove w key).1 = (g_hash_table_lookup w.chan.resp_table key).isSome := by
  unfold g_hash_table_remove
  split <;> simp [*]

theorem hash_remove_req (w : World) (key x : Nat) :
    sameReq ((g_hash_table_remove w key).2.req x) (w.req x) := by
  unfold g_hash_table_remove
  split
  · exact unref_req _ _ _
  · exact sameReq_refl _

@[simp] theorem hash_remove_queues (w : World) (key : Nat) :
    (g_hash_table_remove w key).2.queues = w.queues := by
  unfold g_hash_table_remove
  split <;> simp

@[simp] theorem hash_remove_length (w : World) (key : Nat) :
    (g_hash_table_remove w key).2.reqs.length = w.reqs.length := by
  unfold g_hash_table_remove
  split <;> simp

@[simp] theorem hash_remove_responses (w : World) (key : Nat) :
    responses (g_hash_table_remove w key).2.trace = responses w.trace := by
  unfold g_hash_table_remove
  split <;> simp

@[simp] theorem hash_remove_code (w : World) (key : Nat) (x : Nat) :
    (((g_hash_table_remove w key).2).req x).code = (w.req x).code :=
  (hash_remove_req w key x).1

@[simp] theorem hash_remove_id (w : World) (key : Nat) (x : Nat) :
    (((g_hash_table_remove w key).2).req x).id = (w.req x).id :=
  (hash_remove_req w key x).2.1

@[simp] theorem hash_remove_status (w : World) (key : Nat) (x : Nat) :
    (((g_hash_table_remove w key).2).req x).status = (w.req x).status :=
  (hash_remove_req w key x).2.2.1

@[simp] theorem hash_remove_bytes (w : World) (key : Nat) (x : Nat) :
    (((g_hash_table_remove w key).2).req x).bytes = (w.req x).bytes :=
  (hash_remove_req w key x).2.2.2.1

@[simp] theorem hash_remove_queue (w : World) (key : Nat) (x : Nat) :
    (((g_hash_table_remove w key).2).req x).queue = (w.req x).queue :=
  (hash_remove_req w key x).2.2.2.2.1

@[simp] theorem hash_remove_response (w : World) (key : Nat) (x : Nat) :
    (((g_hash_table_remove w key).2).req x).response = (w.req x).response :=
  (hash_remove_req w key x).2.2.2.2.2.1

@[simp] theorem hash_remove_destroy (w : World) (key : Nat) (x : Nat) :
    (((g_hash_table_remove w key).2).req x).destroy = (w.req x).destroy :=
  (hash_remove_req w key x).2.2.2.2.2.2.1

@[simp] theorem hash_remove_timeout (w : World) (key : Nat) (x : Nat) :
    (((g_hash_table_remove w key).2).req x).timeout = (w.req x).timeout :=
  (hash_remove_req w key x).2.2.2.2.2.2.2.1

@[simp] theorem hash_remove_deadline (w : World) (key : Nat) (x : Nat) :
    (((g_hash_table_remove w key).2).req x).deadline = (w.req x).deadline :=
  (hash_remove_req w key x).2.2.2.2.2.2.2.2

/-! ### Queues -/

@[simp] theorem setQueue_chan (w : World) (q : Nat) (v : GRilIoQueue) :
    (w.setQueue q v).chan = w.chan := rfl

@[simp] theorem setQueue_trace (w : World) (q : Nat) (v : GRilIoQueue) :
    (w.setQueue q v).trace = w.trace := rfl

@[simp] theorem setQueue_reqs (w : World) (q : Nat) (v : GRilIoQueue) :
    (w.setQueue q v).reqs = w.reqs := rfl

@[simp] theorem setQueue_req (w : World) (q : Nat) (v : GRilIoQueue) (x : Nat) :
    (w.setQueue q v).req x = w.req x := rfl

@[simp] theorem setReq_queue (w : World) (h : Nat) (r : GRilIoRequest) (q : Nat) :
    (w.setReq h r).queue q = w.queue q := rfl

@[simp] theorem emit_queue (w : World) (ev : Event) (q : Nat) : (w.emit ev).queue q = w.queue q :=
  rfl

@[simp] theorem setQueue_length (w : World) (q : Nat) (v : GRilIoQueue) :
    (w.setQueue q v).queues.length = w.queues.length := by
  simp [World.setQueue]

theorem queue_setQueue (w : World) (q k : Nat) (v : GRilIoQueue) :
    (w.setQueue q v).queue k = if k = q ∧ q < w.queues.length then v else w.queue k := by
  simp only [World.queue, World.setQueue, List.getD_eq_getElem?_getD, List.getElem?_set]
  by_cases hk : k = q
  · subst hk
    by_cases hq : k < w.queues.length
    · simp [hq]
    · simp [hq, List.getElem?_eq_none (Nat.le_of_not_lt hq)]
  · simp [hk, Ne.symm hk]

theorem queue_of_eq {w w' : World} (h : w'.queues = w.queues) (q : Nat) :
    w'.queue q = w.queue q := by
  simp [World.queue, h]

theorem mem_queue_lt (w : World) (q r : Nat) (h : r ∈ (w.queue q).reqs) :
    q < w.queues.length := by
  by_contra hq
  have : w.queue q = default := by
    simp [World.queue, List.getD_eq_getElem?_getD, List.getElem?_eq_none (Nat.le_of_not_lt hq)]
  rw [this] at h
  simp [default] at h

theorem queue_some_lt (w : World) (r q : Nat) (h : (w.req r).queue = some q) :
    r < w.reqs.length := by
  by_contra hr
  have : w.req r = default := by
    simp [World.req, List.getD_eq_getElem?_getD, List.getElem?_eq_none (Nat.le_of_not_lt hr)]
  rw [this] at h
  simp [default, grilio_request_new, grilio_request_sized_new] at h

@[simp] theorem queue_remove_chan (w : World) (r : Nat) : (grilio_queue_remove w r).chan = w.chan := by
  unfold grilio_queue_remove
  split
  · split <;> rfl
  · rfl

@[simp] theorem queue_remove_trace (w : World) (r : Nat) :
    (grilio_queue_remove w r).trace = w.trace := by
  unfold grilio_queue_remove
  split
  · split <;> rfl
  · rfl

@[simp] theorem queue_remove_length (w : World) (r : Nat) :
    (grilio_queue_remove w r).reqs.length = w.reqs.length := by
  unfold grilio_queue_remove
  split
  · split <;> simp
  · rfl

@[simp] theorem queue_remove_queues_length (w : World) (r : Nat) :
    (grilio_queue_remove w r).queues.length = w.queues.length := by
  unfold grilio_queue_remove
  split
  · split <;> simp
  · rfl

/-- The members of a queue after `grilio_queue_remove`. -/
theorem queue_remove_reqs (w : World) (r q : Nat) :
    ((grilio_queue_remove w r).queue q).reqs
      = if (w.req r).queue = some q then (w.queue q).reqs.erase r else (w.queue q).reqs := by
  unfold grilio_queue_remove
  split
  · rename_i q0 hq0
    split
    · rename_i hm
      simp only [setReq_queue, queue_setQueue, mem_queue_lt w q0 r hm, and_true, hq0,
        Option.some.injEq]
      by_cases hq : q = q0
      · subst hq; simp
      · simp [hq, Ne.symm hq]
    · rename_i hm
      rw [hq0]
      split
      · rename_i he
        simp only [Option.some.injEq] at he
        subst he
        rw [List.erase_of_not_mem hm]
      · rfl
  · rename_i hn
    simp [hn]

@[simp] theorem queue_remove_qrefcount (w : World) (r q : Nat) :
    ((grilio_queue_remove w r).queue q).refcount = (w.queue q).refcount := by
  unfold grilio_queue_remove
  split
  · rename_i q0 hq0
    split
    · simp only [setReq_queue, queue_setQueue]
      split
      · rename_i hc; rw [hc.1]
      · rfl
    · rfl
  · rfl

/-- A request after `grilio_queue_remove` of `r`: only the queue of `r`
changes, and it is cleared when `r` was found in its queue. -/
theorem queue_remove_req (w : World) (r x : Nat) :
    (grilio_queue_remove w r).req x
      = if x = r ∧ ∃ q, (w.req r).queue = some q ∧ r ∈ (w.queue q).reqs
        then { w.req r with queue := none } else w.req x := by
  unfold grilio_queue_remove
  split
  · rename_i q0 hq0
    split
    · rename_i hm
      have hr := queue_some_lt w r q0 hq0
      have hex : ∃ q, some q0 = some q ∧ r ∈ (w.queue q).reqs := ⟨q0, rfl, hm⟩
      simp only [req_setReq, setQueue_req, setQueue_reqs, hr, and_true, hq0, hex]
    · rename_i hm
      have hex : ¬ ∃ q, (w.req r).queue = some q ∧ r ∈ (w.queue q).reqs := by
        rintro ⟨q, h1, h2⟩
        rw [hq0] at h1
        simp only [Option.some.injEq] at h1
        subst h1
        exact hm h2
      simp only [hex, and_false, if_false]
  · rename_i hn
    simp [hn]

@[simp] theorem queue_remove_code (w : World) (r x : Nat) :
    ((grilio_queue_remove w r).req x).code = (w.req x).code := by
  rw [queue_remove_req]
  split
  · rename_i h; rw [h.1]
  · rfl

@[simp] theorem queue_remove_id (w : World) (r x : Nat) :
    ((grilio_queue_remove w r).req x).id = (w.req x).id := by
  rw [queue_remove_req]
  split
  · rename_i h; rw [h.1]
  · rfl

@[simp] theorem queue_remove_status (w : World) (r x : Nat) :
    ((grilio_queue_remove w r).req x).status = (w.req x).status := by
  rw [queue_remove_req]
  split
  · rename_i h; rw [h.1]
  · rfl

@[simp] theorem queue_remove_bytes (w : World) (r x : Nat) :
    ((grilio_queue_remove w r).req x).bytes = (w.req x).bytes := by
  rw [queue_remove_req]
  split
  · rename_i h; rw [h.1]
  · rfl

@[simp] theorem queue_remove_response (w : World) (r x : Nat) :
    ((grilio_queue_remove w r).req x).response = (w.req x).response := by
  rw [queue_remove_req]
  split
  · rename_i h; rw [h.1]
  · rfl

@[simp] theorem queue_remove_destroy (w : World) (r x : Nat) :
    ((grilio_queue_remove w r).req x).destroy = (w.req x).destroy := by
  rw [queue_remove_req]
  split
  · rename_i h; rw [h.1]
  · rfl

@[simp] theorem queue_remove_timeout (w : World) (r x : Nat) :
    ((grilio_queue_remove w r).req x).timeout = (w.req x).timeout := by
  rw [queue_remove_req]
  split
  · rename_i h; rw [h.1]
  · rfl

@[simp] theorem queue_remove_deadline (w : World) (r x : Nat) :
    ((grilio_queue_remove w r).req x).deadline = (w.req x).deadline := by
  rw [queue_remove_req]
  split
  · rename_i h; rw [h.1]
  · rfl

@[simp] theorem queue_remove_refcount (w : World) (r x : Nat) :
    ((grilio_queue_remove w r).req x).refcount = (w.req x).refcount := by
  rw [queue_remove_req]
  split
  · rename_i h; rw [h.1]
  · rfl

/-- After `grilio_queue_remove` the request has no queue, when its queue had
it as a member. -/
theorem queue_remove_queue_self (w : World) (r : Nat)
    (hc : ∀ q, (w.req r).queue = some q → r ∈ (w.queue q).reqs) :
    ((grilio_queue_remove w r).req r).queue = none := by
  rw [queue_remove_req]
  split
  · rfl
  · rename_i h
    cases hq : (w.req r).queue with
    | none => rfl
    | some q => exact absurd ⟨rfl, q, hq, hc q hq⟩ h

theorem queue_remove_queue_other (w : World) (r x : Nat) (hx : x ≠ r) :
    ((grilio_queue_remove w r).req x).queue = (w.req x).queue := by
  rw [queue_remove_req]
  simp [hx]

theorem WellFormed.back {w : World} (hw : WellFormed w) (h q : Nat)
    (hq : (w.req h).queue = some q) : h ∈ (w.queue q).reqs :=
  hw.1 h (List.mem_range.2 (queue_some_lt w h q hq)) q hq

theorem WellFormed.member {w : World} (hw : WellFormed w) (h q : Nat)
    (hm : h ∈ (w.queue q).reqs) : (w.req h).queue = some q :=
  (hw.2.1 q (List.mem_range.2 (mem_queue_lt w q h hm))).2 h hm

theorem WellFormed.nodup {w : World} (hw : WellFormed w) (q : Nat) : (w.queue q).reqs.Nodup := by
  by_cases hq : q < w.queues.length
  · exact (hw.2.1 q (List.mem_range.2 hq)).1
  · have : w.queue q = default := by
      simp [World.queue, List.getD_eq_getElem?_getD, List.getElem?_eq_none (Nat.le_of_not_lt hq)]
    rw [this]
    simp [default]

theorem lookup_some_mem (t : List (Nat × Nat)) (key h : Nat)
    (hl : g_hash_table_lookup t key = some h) : (key, h) ∈ t := by
  unfold g_hash_table_lookup at hl
  simp only [Option.map_eq_some'] at hl
  obtain ⟨kv, hf, hv⟩ := hl
  have hm := List.mem_of_find?_eq_some hf
  have hk := List.find?_some hf
  simp only [decide_eq_true_eq] at hk
  have : kv = (key, h) := by
    cases kv; simp_all
  rw [← this]; exact hm

theorem lookup_isSome (t : List (Nat × Nat)) (key : Nat) :
    (g_hash_table_lookup t key).isSome = true ↔ ∃ kv ∈ t, kv.1 = key := by
  unfold g_hash_table_lookup
  simp [List.find?_isSome]

theorem lookup_steal (w : World) (key : Nat) :
    g_hash_table_lookup (g_hash_table_steal w key).chan.resp_table key = none := by
  unfold g_hash_table_lookup g_hash_table_steal
  simp [List.find?_eq_none]

/-- What a cancellation of the request `req` with the id `id` leaves behind;
`fifo` is the send queue afterwards. -/
theorem cancel_found_chan (w : World) (req id : Nat) (notify : Bool) :
    (grilio_channel_cancel_found w req id notify).chan = (g_hash_table_steal w id).chan := by
  unfold grilio_channel_cancel_found
  dsimp only
  split <;> simp [hash_remove_chan, g_hash_table_steal]

theorem cancel_found_status (w : World) (req id : Nat) (notify : Bool)
    (hr : req < w.reqs.length) :
    ((grilio_channel_cancel_found w req id notify).req req).status = .CANCELLED := by
  unfold grilio_channel_cancel_found
  dsimp only
  split <;> simp [req_setReq, hr]

theorem cancel_found_queue (w : World) (req id : Nat) (notify : Bool)
    (hc : ∀ q, (w.req req).queue = some q → req ∈ (w.queue q).reqs) :
    ((grilio_channel_cancel_found w req id notify).req req).queue = none := by
  unfold grilio_channel_cancel_found
  dsimp only
  have := queue_remove_queue_self w req hc
  split <;> simp only [emit_req, req_setReq] <;> split <;> simp [this]

theorem cancel_found_reqs (w : World) (req id : Nat) (notify : Bool) (q : Nat) :
    ((grilio_channel_cancel_found w req id notify).queue q).reqs
      = if (w.req req).queue = some q then (w.queue q).reqs.erase req else (w.queue q).reqs := by
  rw [← queue_remove_reqs]
  unfold grilio_channel_cancel_found
  dsimp only
  split <;> simp only [emit_queue, setReq_queue] <;>
    rw [queue_of_eq (hash_remove_queues _ _)]

theorem responses_singleton (ev : Event) :
    responses [ev] = match ev with
      | .response h s d => [(h, s, d)]
      | _ => [] := by
  cases ev <;> rfl

theorem cancel_found_responses (w : World) (req id : Nat) (notify : Bool) :
    responses (grilio_channel_cancel_found w req id notify).trace
      = responses w.trace ++ (if notify = true ∧ (w.req req).response = true
          then [(req, GRILIO_STATUS_CANCELLED, [])] else []) := by
  unfold grilio_channel_cancel_found
  dsimp only
  by_cases hr : req < w.reqs.length
  · simp only [req_setReq, hr, and_self, if_true, hash_remove_response, queue_remove_response,
      hash_remove_length, queue_remove_length]
    split <;> simp [responses_singleton]
  · have hd : (w.req req).response = false := by
      have : w.req req = default := by
        simp [World.req, List.getD_eq_getElem?_getD, List.getElem?_eq_none (Nat.le_of_not_lt hr)]
      rw [this]; rfl
    simp only [req_setReq, hash_remove_length, queue_remove_length, hr, and_false, if_false,
      hash_remove_response, queue_remove_response, hd]
    simp

theorem find_id_some (w : World) (id req : Nat)
    (h : w.chan.fifo.find? (fun h => (w.req h).id = id) = some req) :
    req ∈ w.chan.fifo ∧ (w.req req).id = id := by
  refine ⟨List.mem_of_find?_eq_some h, ?_⟩
  have := List.find?_some h
  simpa using this

/-- The branches of `grilio_channel_cancel_request`. -/
theorem cancel_request_cases (w : World) (id : Nat) (notify : Bool) (hid : id ≠ 0) :
    (∃ req, w.chan.send_req = some req ∧ (w.req req).id = id ∧
      grilio_channel_cancel_request w id notify
        = (true, grilio_channel_cancel_sending w req id notify)) ∨
    (∃ req, (∀ s, w.chan.send_req = some s → (w.req s).id ≠ id) ∧
      req ∈ w.chan.fifo ∧ (w.req req).id = id ∧
      grilio_channel_cancel_request w id notify
        = (true, grilio_channel_cancel_queued w req id notify)) ∨
    (∃ req, (∀ s, w.chan.send_req = some s → (w.req s).id ≠ id) ∧
      (∀ h ∈ w.chan.fifo, (w.req h).id ≠ id) ∧
      g_hash_table_lookup w.chan.resp_table id = some req ∧
      grilio_channel_cancel_request w id notify
        = (true, grilio_request_unref (grilio_channel_cancel_found
            (grilio_request_ref w req) req id notify) req)) ∨
    ((∀ s, w.chan.send_req = some s → (w.req s).id ≠ id) ∧
      (∀ h ∈ w.chan.fifo, (w.req h).id ≠ id) ∧
      g_hash_table_lookup w.chan.resp_table id = none ∧
      grilio_channel_cancel_request w id notify = (false, w)) := by
  have tail_ : (∀ s, w.chan.send_req = some s → (w.req s).id ≠ id) →
      (∃ req, (∀ s, w.chan.send_req = some s → (w.req s).id ≠ id) ∧
        req ∈ w.chan.fifo ∧ (w.req req).id = id ∧
        (match w.chan.fifo.find? (fun h => (w.req h).id = id) with
          | some req => (true, grilio_channel_cancel_queued w req id notify)
          | none =>
            match g_hash_table_lookup w.chan.resp_table id with
            | some req => (true, grilio_request_unref (grilio_channel_cancel_found
                (grilio_request_ref w req) req id notify) req)
            | none => (false, w))
          = (true, grilio_channel_cancel_queued w req id notify)) ∨
      (∃ req, (∀ s, w.chan.send_req = some s → (w.req s).id ≠ id) ∧
        (∀ h ∈ w.chan.fifo, (w.req h).id ≠ id) ∧
        g_hash_table_lookup w.chan.resp_table id = some req ∧
        (match w.chan.fifo.find? (fun h => (w.req h).id = id) with
          | some req => (true, grilio_channel_cancel_queued w req id notify)
          | none =>
            match g_hash_table_lookup w.chan.resp_table id with
            | some req => (true, grilio_request_unref (grilio_channel_cancel_found
                (grilio_request_ref w req) req id notify) req)
            | none => (false, w))
          = (true, grilio_request_unref (grilio_channel_cancel_found
              (grilio_request_ref w req) req id notify) req)) ∨
      ((∀ s, w.chan.send_req = some s → (w.req s).id ≠ id) ∧
        (∀ h ∈ w.chan.fifo, (w.req h).id ≠ id) ∧
        g_hash_table_lookup w.chan.resp_table id = none ∧
        (match w.chan.fifo.find? (fun h => (w.req h).id = id) with
          | some req => (true, grilio_channel_cancel_queued w req id notify)
          | none =>
            match g_hash_table_lookup w.chan.resp_table id with
            | some req => (true, grilio_request_unref (grilio_channel_cancel_found
                (grilio_request_ref w req) req id notify) req)
            | none => (false, w)) = (false, w)) := by
    intro hns
    cases hf : w.chan.fifo.find? (fun h => (w.req h).id = id) with
    | some req =>
        left
        obtain ⟨hm, hi⟩ := find_id_some w id req hf
        exact ⟨req, hns, hm, hi, rfl⟩
    | none =>
        right
        have hnf : ∀ h ∈ w.chan.fifo, (w.req h).id ≠ id := by
          intro h hm
          have := List.find?_eq_none.1 hf h hm
          simpa using this
        cases hl : g_hash_table_lookup w.chan.resp_table id with
        | some req => left; exact ⟨req, hns, hnf, rfl, rfl⟩
        | none => right; exact ⟨hns, hnf, rfl, rfl⟩
  unfold grilio_channel_cancel_request
  simp only [hid, ne_eq, not_false_eq_true, if_true]
  cases hs : w.chan.send_req with
  | some s =>
      by_cases hsid : (w.req s).id = id
      · left
        refine ⟨s, rfl, hsid, ?_⟩
        simp only [hsid, if_true]
      · right
        simp only [hsid, if_false]
        rw [hs] at tail_
        exact tail_ (fun s2 h2 => by cases h2; exact hsid)
  | none =>
      right
      rw [hs] at tail_
      exact tail_ (fun s2 h2 => by cases h2)

theorem sameReq_trans {a b c : GRilIoRequest} (h1 : sameReq a b) (h2 : sameReq b c) :
    sameReq a c := by
  obtain ⟨a1, a2, a3, a4, a5, a6, a7, a8, a9⟩ := h1
  obtain ⟨b1, b2, b3, b4, b5, b6, b7, b8, b9⟩ := h2
  exact ⟨a1.trans b1, a2.trans b2, a3.trans b3, a4.trans b4, a5.trans b5, a6.trans b6,
    a7.trans b7, a8.trans b8, a9.trans b9⟩

theorem queue_remove_other (w : World) (r x : Nat) (hx : x ≠ r) :
    (grilio_queue_remove w r).req x = w.req x := by
  rw [queue_remove_req]
  simp [hx]

theorem cancel_found_other (w : World) (req id : Nat) (notify : Bool) (x : Nat) (hx : x ≠ req) :
    sameReq ((grilio_channel_cancel_found w req id notify).req x) (w.req x) := by
  have h1 : sameReq ((g_hash_table_remove (grilio_queue_remove w req) id).2.req x) (w.req x) := by
    have := hash_remove_req (grilio_queue_remove w req) id x
    rw [queue_remove_other w req x hx] at this
    exact this
  unfold grilio_channel_cancel_found
  dsimp only
  split <;> simp only [emit_req, req_setReq, hx, false_and, if_false] <;> exact h1

@[simp] theorem cancel_found_length (w : World) (req id : Nat) (notify : Bool) :
    (grilio_channel_cancel_found w req id notify).reqs.length = w.reqs.length := by
  unfold grilio_channel_cancel_found
  dsimp only
  split <;> simp

theorem cancel_found_response (w : World) (req id : Nat) (notify : Bool) (x : Nat) :
    ((grilio_channel_cancel_found w req id notify).req x).response = (w.req x).response ∧
    ((grilio_channel_cancel_found w req id notify).req x).id = (w.req x).id := by
  unfold grilio_channel_cancel_found
  dsimp only
  split <;> simp only [emit_req, req_setReq] <;> split <;> simp_all

/-- The effect of the common tail of `grilio_channel_cancel_request`. -/
theorem cancel_found_effect (w : World) (req id : Nat) (notify : Bool)
    (hr : req < w.reqs.length)
    (hc : ∀ q, (w.req req).queue = some q → req ∈ (w.queue q).reqs) :
    CancelEffect w (grilio_channel_cancel_found w req id notify) req id
      (if notify = true ∧ (w.req req).response = true
        then [(req, GRILIO_STATUS_CANCELLED, [])] else []) where
  table := by rw [cancel_found_chan]; rfl
  send_req := by rw [cancel_found_chan]; rfl
  timer := by rw [cancel_found_chan]; exact ⟨rfl, rfl⟩
  len := cancel_found_length _ _ _ _
  status := cancel_found_status w req id notify hr
  queue := cancel_found_queue w req id notify hc
  response := (cancel_found_response w req id notify req).1
  rid := (cancel_found_response w req id notify req).2
  other := cancel_found_other w req id notify
  members := cancel_found_reqs w req id notify
  callbacks := cancel_found_responses w req id notify

/-- A step that changes reference counts only keeps a cancellation effect. -/
theorem CancelEffect.after {w w1 w2 : World} {req id : Nat} {cb : List (Nat × Int × List Nat)}
    (h : CancelEffect w w1 req id cb) (hchan : w2.chan = w1.chan)
    (hreq : ∀ x, sameReq (w2.req x) (w1.req x)) (hlen : w2.reqs.length = w1.reqs.length)
    (hq : w2.queues = w1.queues) (ht : responses w2.trace = responses w1.trace) :
    CancelEffect w w2 req id cb where
  table := by rw [hchan]; exact h.table
  send_req := by rw [hchan]; exact h.send_req
  timer := by rw [hchan]; exact h.timer
  len := hlen.trans h.len
  status := (hreq req).2.2.1.trans h.status
  queue := (hreq req).2.2.2.2.1.trans h.queue
  response := (hreq req).2.2.2.2.2.1.trans h.response
  rid := (hreq req).2.1.trans h.rid
  other := fun x hx => sameReq_trans (hreq x) (h.other x hx)
  members := fun q => by rw [queue_of_eq hq q]; exact h.members q
  callbacks := ht.trans h.callbacks

/-- A step before that changes reference counts only. -/
theorem CancelEffect.before {w0 w w1 : World} {req id : Nat} {cb : List (Nat × Int × List Nat)}
    (h : CancelEffect w w1 req id cb)
    (htab : w.chan.resp_table = w0.chan.resp_table) (hsend : w.chan.send_req = w0.chan.send_req)
    (htimer : w.chan.timeout_id = w0.chan.timeout_id ∧
      w.chan.next_deadline = w0.chan.next_deadline)
    (hreq : ∀ x, sameReq (w.req x) (w0.req x)) (hlen : w.reqs.length = w0.reqs.length)
    (hq : w.queues = w0.queues) (ht : responses w.trace = responses w0.trace) :
    CancelEffect w0 w1 req id cb where
  table := by rw [← htab]; exact h.table
  send_req := h.send_req.trans hsend
  timer := ⟨h.timer.1.trans htimer.1, h.timer.2.trans htimer.2⟩
  len := h.len.trans hlen
  status := h.status
  queue := h.queue
  response := h.response.trans (hreq req).2.2.2.2.2.1
  rid := h.rid.trans (hreq req).2.1
  other := fun x hx => sameReq_trans (h.other x hx) (hreq x)
  members := fun q => by
    rw [h.members q, (hreq req).2.2.2.2.1, queue_of_eq hq q]
  callbacks := by rw [h.callbacks, ht]

theorem cancel_queued_effect (w : World) (req id : Nat) (notify : Bool)
    (hr : req < w.reqs.length)
    (hc : ∀ q, (w.req req).queue = some q → req ∈ (w.queue q).reqs) :
    CancelEffect w (grilio_channel_cancel_queued w req id notify) req id
      (if notify = true ∧ (w.req req).response = true
        then [(req, GRILIO_STATUS_CANCELLED, [])] else []) ∧
    (grilio_channel_cancel_queued w req id notify).chan.fifo = w.chan.fifo.erase req := by
  unfold grilio_channel_cancel_queued
  dsimp only
  constructor
  · refine @CancelEffect.after _ (grilio_channel_cancel_found _ req id notify) _ _ _ _ ?_
      (unref_chan _ _) (unref_req _ _) (unref_length _ _) (unref_queues _ _)
      (unref_responses _ _)
    refine CancelEffect.before (cancel_found_effect _ req id notify hr hc) rfl rfl ⟨rfl, rfl⟩
      (fun x => sameReq_refl _) rfl rfl ?_
    simp [responses_singleton]
  · rw [unref_chan, cancel_found_chan]
    rfl

theorem cancel_sent_effect (w : World) (req id : Nat) (notify : Bool)
    (hr : req < w.reqs.length)
    (hc : ∀ q, (w.req req).queue = some q → req ∈ (w.queue q).reqs) :
    CancelEffect w (grilio_request_unref (grilio_channel_cancel_found
        (grilio_request_ref w req) req id notify) req) req id
      (if notify = true ∧ (w.req req).response = true
        then [(req, GRILIO_STATUS_CANCELLED, [])] else []) ∧
    (grilio_request_unref (grilio_channel_cancel_found
        (grilio_request_ref w req) req id notify) req).chan.fifo = w.chan.fifo := by
  constructor
  · refine @CancelEffect.after _ (grilio_channel_cancel_found _ req id notify) _ _ _ _ ?_
      (unref_chan _ _) (unref_req _ _) (unref_length _ _) (unref_queues _ _)
      (unref_responses _ _)
    have hce := cancel_found_effect (grilio_request_ref w req) req id notify
      (by simpa using hr) (by simpa using hc)
    rw [ref_response] at hce
    exact CancelEffect.before hce rfl rfl ⟨rfl, rfl⟩ (ref_req w req) (ref_length _ _) rfl rfl
  · rw [unref_chan, cancel_found_chan]
    rfl

theorem cancel_sending_effect (w : World) (req id : Nat) (notify : Bool)
    (hr : req < w.reqs.length)
    (hc : ∀ q, (w.req req).queue = some q → req ∈ (w.queue q).reqs) :
    CancelEffect w (grilio_channel_cancel_sending w req id notify) req id
      (if (w.req req).status ≠ .CANCELLED ∧ notify = true ∧ (w.req req).response = true
        then [(req, GRILIO_STATUS_CANCELLED, [])] else []) ∧
    (grilio_channel_cancel_sending w req id notify).chan.fifo = w.chan.fifo := by
  by_cases hst : (w.req req).status = .CANCELLED
  · have hw3 : grilio_channel_cancel_sending w req id notify
        = grilio_request_unref (g_hash_table_remove (grilio_queue_remove w req) id).2 req := by
      simp [grilio_channel_cancel_sending, hst]
    rw [hw3]
    have hq := queue_remove_queue_self w req hc
    constructor
    · simp only [hst, ne_eq, not_true_eq_false, false_and, if_false]
      exact
        { table := by simp [hash_remove_chan, g_hash_table_steal]
          send_req := by simp [hash_remove_chan, g_hash_table_steal]
          timer := by simp [hash_remove_chan, g_hash_table_steal]
          len := by simp
          status := by simp [hst]
          queue := by simp [hq]
          response := by simp
          rid := by simp
          other := fun x hx => by
            refine sameReq_trans (unref_req _ _ _) (sameReq_trans (hash_remove_req _ _ _) ?_)
            rw [queue_remove_other w req x hx]
            exact sameReq_refl _
          members := fun q => by
            rw [queue_of_eq (unref_queues _ _), queue_of_eq (hash_remove_queues _ _),
              queue_remove_reqs]
          callbacks := by simp }
    · simp [hash_remove_chan, g_hash_table_steal]
  · have hw3 : grilio_channel_cancel_sending w req id notify
        = grilio_request_unref (grilio_channel_cancel_found w req id notify) req := by
      simp [grilio_channel_cancel_sending, grilio_channel_cancel_found, hst]
    rw [hw3]
    constructor
    · simp only [ne_eq, hst, not_false_eq_true, true_and]
      exact CancelEffect.after (cancel_found_effect w req id notify hr hc)
        (unref_chan _ _) (unref_req _ _) (unref_length _ _) (unref_queues _ _)
        (unref_responses _ _)
    · rw [unref_chan, cancel_found_chan]
      rfl

theorem mem_pending (w : World) (h : Nat) :
    h ∈ Pending w ↔ w.chan.send_req = some h ∨ h ∈ w.chan.fifo ∨
      ∃ kv ∈ w.chan.resp_table, kv.2 = h := by
  unfold Pending
  simp only [List.mem_append, Option.mem_toList, Option.mem_def, List.mem_map, or_assoc]

/-- C12: for a well-formed world and a non-zero id,
`grilio_channel_cancel_request` returns TRUE exactly when a request with
that id is the one in transmission, in the send queue or in the response
table; that request is then in neither the send queue nor the table, in no
queue, and CANCELLED, and the send queue is the old one without it, in the
same order; when FALSE is returned the world is unchanged. -/
theorem cancel_request_removes (w : World) (id : Nat) (notify : Bool) (hid : id ≠ 0)
    (hwf : WellFormed w) :
    ((grilio_channel_cancel_request w id notify).1 = true
      ↔ ∃ h ∈ Pending w, (w.req h).id = id) ∧
    (∀ h ∈ Pending w, (w.req h).id = id →
      h ∉ (grilio_channel_cancel_request w id notify).2.chan.fifo ∧
      (∀ kv ∈ (grilio_channel_cancel_request w id notify).2.chan.resp_table,
        kv.1 ≠ id ∧ kv.2 ≠ h) ∧
      ((grilio_channel_cancel_request w id notify).2.req h).queue = none ∧
      (∀ q, h ∉ ((grilio_channel_cancel_request w id notify).2.queue q).reqs) ∧
      ((grilio_channel_cancel_request w id notify).2.req h).status = .CANCELLED ∧
      (grilio_channel_cancel_request w id notify).2.chan.fifo
        = w.chan.fifo.filter (fun x => x ≠ h)) ∧
    ((grilio_channel_cancel_request w id notify).1 = false →
      (grilio_channel_cancel_request w id notify).2 = w) := by
  obtain ⟨hback, hmem, hfifo, htab, hpend, hsend⟩ := hwf
  have hwf : WellFormed w := ⟨hback, hmem, hfifo, htab, hpend, hsend⟩
  -- what follows from an effect on the request found
  have main : ∀ (w' : World) (req : Nat) (cb : List (Nat × Int × List Nat)),
      req ∈ Pending w → (w.req req).id = id → CancelEffect w w' req id cb →
      w'.chan.fifo = w.chan.fifo.filter (fun x => x ≠ req) →
      ∀ h ∈ Pending w, (w.req h).id = id →
        h ∉ w'.chan.fifo ∧ (∀ kv ∈ w'.chan.resp_table, kv.1 ≠ id ∧ kv.2 ≠ h) ∧
        (w'.req h).queue = none ∧ (∀ q, h ∉ (w'.queue q).reqs) ∧
        (w'.req h).status = .CANCELLED ∧
        w'.chan.fifo = w.chan.fifo.filter (fun x => x ≠ h) := by
    intro w' req cb hrp hrid hce hff h hh hhid
    have heq : h = req := (hpend h hh).2 req hrp (hhid.trans hrid.symm)
    subst heq
    refine ⟨?_, ?_, hce.queue, ?_, hce.status, hff⟩
    · rw [hff]; simp
    · intro kv hkv
      rw [hce.table] at hkv
      simp only [List.mem_filter, decide_eq_true_eq] at hkv
      refine ⟨hkv.2, fun h2 => hkv.2 ?_⟩
      rw [← htab kv hkv.1, h2, hhid]
    · intro q
      rw [hce.members q]
      split
      · exact fun hm => (List.Nodup.mem_erase_iff (hwf.nodup q)).1 hm |>.1 rfl
      · rename_i hq
        exact fun hm => hq (hwf.member h q hm)
  have hbk : ∀ req, ∀ q, (w.req req).queue = some q → req ∈ (w.queue q).reqs :=
    fun req q => hwf.back req q
  rcases cancel_request_cases w id notify hid with
    ⟨req, hs, hi, hr⟩ | ⟨req, hns, hm, hi, hr⟩ | ⟨req, hns, hnf, hl, hr⟩ | ⟨hns, hnf, hl, hr⟩
  · have hp : req ∈ Pending w := (mem_pending w req).2 (Or.inl hs)
    obtain ⟨hce, hf⟩ := cancel_sending_effect w req id notify (hpend req hp).1 (hbk req)
    rw [hr]
    refine ⟨⟨fun _ => ⟨req, hp, hi⟩, fun _ => rfl⟩, ?_, (fun h => by cases h)⟩
    refine main _ req _ hp hi hce ?_
    rw [hf, List.filter_eq_self.2]
    intro x hx
    have : req ∉ w.chan.fifo := hsend req hs
    simpa using fun hxr : x = req => this (hxr ▸ hx)
  · have hp : req ∈ Pending w := (mem_pending w req).2 (Or.inr (Or.inl hm))
    obtain ⟨hce, hf⟩ := cancel_queued_effect w req id notify (hpend req hp).1 (hbk req)
    rw [hr]
    refine ⟨⟨fun _ => ⟨req, hp, hi⟩, fun _ => rfl⟩, ?_, (fun h => by cases h)⟩
    refine main _ req _ hp hi hce ?_
    rw [hf, List.Nodup.erase_eq_filter hfifo]
    congr 1
    funext x
    by_cases hx : x = req <;> simp [hx]
  · have hkv := lookup_some_mem _ _ _ hl
    have hi : (w.req req).id = id := htab _ hkv
    have hp : req ∈ Pending w := (mem_pending w req).2 (Or.inr (Or.inr ⟨_, hkv, rfl⟩))
    obtain ⟨hce, hf⟩ := cancel_sent_effect w req id notify (hpend req hp).1 (hbk req)
    rw [hr]
    refine ⟨⟨fun _ => ⟨req, hp, hi⟩, fun _ => rfl⟩, ?_, (fun h => by cases h)⟩
    refine main _ req _ hp hi hce ?_
    rw [hf, List.filter_eq_self.2]
    intro x hx
    simpa using fun hxr : x = req => hnf x hx (hxr ▸ hi)
  · rw [hr]
    refine ⟨⟨(fun h => by cases h), ?_⟩, ?_, fun _ => rfl⟩
    · rintro ⟨h, hp, hhid⟩
      rcases (mem_pending w h).1 hp with h1 | h1 | ⟨kv, hkv, rfl⟩
      · exact absurd hhid (hns h h1)
      · exact absurd hhid (hnf h h1)
      · have : (g_hash_table_lookup w.chan.resp_table id).isSome = true :=
          (lookup_isSome _ _).2 ⟨kv, hkv, (htab kv hkv).symm.trans hhid⟩
        rw [hl] at this
        cases this
    · intro h hp hhid
      exfalso
      rcases (mem_pending w h).1 hp with h1 | h1 | ⟨kv, hkv, rfl⟩
      · exact hns h h1 hhid
      · exact hnf h h1 hhid
      · have : (g_hash_table_lookup w.chan.resp_table id).isSome = true :=
          (lookup_isSome _ _).2 ⟨kv, hkv, (htab kv hkv).symm.trans hhid⟩
        rw [hl] at this
        cases this

theorem cancel_request_removes_witness :
    (WellFormed sampleWaiting ∧ 0 ∈ Pending sampleWaiting ∧ (sampleWaiting.req 0).id = 1) ∧
    ((grilio_channel_cancel_request sampleWaiting 1 true).2.req 0).status = .CANCELLED ∧
    (grilio_channel_cancel_request sampleWaiting 1 true).2.chan.fifo
      = sampleWaiting.chan.fifo.filter (fun x => x ≠ 0) :=
  ⟨by decide,
    ((cancel_request_removes sampleWaiting 1 true (by decide) (by decide)).2.1 0 (by decide)
      (by decide)).2.2.2.2⟩

/-- C15: the claim fails for the request in transmission. In `sampleSending`
the request 0 (with a response callback) is in transmission and the request
1 waits in the send queue; `grilio_channel_cancel_all` with `notify` TRUE
calls the response callback of request 0 first, then that of request 1, and
then that of request 0 a second time, from the loop over the response table,
where the request in transmission was left. -/
theorem cancel_all_notifies_twice :
    sampleSending.chan.send_req = some 0 ∧ sampleSending.chan.fifo = [1] ∧
    sampleSending.chan.resp_table = [(1, 0), (2, 1)] ∧
    responses (grilio_channel_cancel_all sampleSending true).trace
      = responses sampleSending.trace
        ++ [(0, GRILIO_STATUS_CANCELLED, []), (1, GRILIO_STATUS_CANCELLED, []),
            (0, GRILIO_STATUS_CANCELLED, [])] := by
  decide

theorem writeEvents_not_connected : WriteEvents (fun ev => ev ≠ Event.connected) :=
  ⟨fun _ => by simp, fun _ _ _ _ => by simp, fun _ => by simp, fun _ => by simp, by simp⟩

/-- The connected event with one value and a version: CONNECTED is emitted
once, and the channel is connected with that version unless the write of the
waiting requests failed and shut it down. -/
theorem connected_ok (e : Endian) (w : World) (hn : 16 ≤ w.chan.read_len)
    (hone : loadU32 e (w.chan.read_buf.drop 8) 0 = 1) :
    ∃ evs, (grilio_channel_connected e w).trace = w.trace ++ [Event.connected] ++ evs ∧
      Event.connected ∉ evs ∧
      (((grilio_channel_connected e w).chan.connected = true ∧
          (grilio_channel_connected e w).chan.ril_version
            = loadU32 e (w.chan.read_buf.drop 8) 4) ∨
        ((grilio_channel_connected e w).chan.connected = false ∧
          (grilio_channel_connected e w).chan.ril_version = 0 ∧
          ∃ ev ∈ evs, ev.isStop = true)) := by
  have h8 : w.chan.read_len > 8 := by omega
  have h4 : 4 ≤ w.chan.read_len - 8 := by omega
  have h44 : 4 + 4 ≤ w.chan.read_len - 8 := by omega
  have h45 : 8 ≤ w.chan.read_len - 8 := by omega
  have hw : grilio_channel_connected e w = grilio_channel_schedule_write e
      (({ w with chan := { w.chan with
          ril_version := loadU32 e (w.chan.read_buf.drop 8) 4
          connected := true } } : World).emit .connected) := by
    simp [grilio_channel_connected, h8, grilio_parser_get_uint32, grilio_parser_init, h4, h44,
      h45, hone]
  rw [hw]
  obtain ⟨⟨evs, ht, hp, hf⟩, _⟩ := E_schedule_write e writeEvents_not_connected
    (Eff.stay (fun ev => ev ≠ Event.connected)
      (({ w with chan := { w.chan with
          ril_version := loadU32 e (w.chan.read_buf.drop 8) 4
          connected := true } } : World).emit .connected))
  refine ⟨evs, ?_, fun hm => hp _ hm rfl, ?_⟩
  · rw [ht]; rfl
  · rcases hf with ⟨h1, h2⟩ | ⟨h1, h2, h3⟩
    · left; exact ⟨h1, h2⟩
    · right; exact ⟨h1, h2, h3⟩

/-- The connected event that does not parse leaves the channel as it was. -/
theorem connected_fail (e : Endian) (w : World)
    (hno : ¬ (16 ≤ w.chan.read_len ∧ loadU32 e (w.chan.read_buf.drop 8) 0 = 1)) :
    (grilio_channel_connected e w).chan = w.chan ∧
    ((grilio_channel_connected e w).trace = w.trace ∨
      (grilio_channel_connected e w).trace = w.trace ++ [Event.connect_failed]) := by
  unfold grilio_channel_connected
  split
  · dsimp only
    split
    · rename_i h8 hc
      exfalso
      apply hno
      simp only [grilio_parser_get_uint32, grilio_parser_init] at hc
      split at hc
      · rename_i h4
        simp only [true_and] at hc
        obtain ⟨h1, h2⟩ := hc
        split at h2
        · rename_i h44
          exact ⟨by omega, h1⟩
        · simp at h2
      · simp at hc
    · exact ⟨rfl, Or.inr rfl⟩
  · exact ⟨rfl, Or.inl rfl⟩

/-- The unsolicited branch of `grilio_channel_handle_packet`. -/
theorem handle_packet_unsol (e : Endian) (w : World) (hN : 8 ≤ w.chan.read_len)
    (htype : loadU32 e w.chan.read_buf 0 ≠ 0) :
    grilio_channel_handle_packet e w
      = (true, (if loadU32 e w.chan.read_buf 4 = RIL_UNSOL_RIL_CONNECTED
            then grilio_channel_connected e (grilio_channel_log w .UNSOL 0
              (loadU32 e w.chan.read_buf 4) (w.chan.read_buf.take w.chan.read_len))
            else grilio_channel_log w .UNSOL 0
              (loadU32 e w.chan.read_buf 4) (w.chan.read_buf.take w.chan.read_len)).emit
          (.unsol_event (loadU32 e w.chan.read_buf 4)
            ((w.chan.read_buf.drop 8).take (w.chan.read_len - 8)))) := by
  simp only [grilio_channel_handle_packet, ge_iff_le, hN, if_true, ne_eq, htype,
    not_false_eq_true]

/-- C6 as the code has it (a counterexample to the claim): the packet the
test server sends for `RIL_UNSOL_RIL_CONNECTED` has the type word 1, and it
is dispatched as the unsolicited event with the code 1034, the second word. -/
theorem unsol_code_is_not_type_word :
    loadU32 Endian.little (wholePacket sampleIdle sampleHandshake).chan.read_buf 0 = 1 ∧
    (grilio_channel_handle_packet Endian.little
        (wholePacket sampleIdle sampleHandshake)).2.trace.getLast?
      = some (Event.unsol_event 1034 [1, 0, 0, 0, 9, 0, 0, 0]) := by
  decide

/-- C6, amended: a complete body of length at least 8 whose first word is not
zero is dispatched as an unsolicited event whose code is the second word,
`body[4..8]` read in host byte order: the loggers get that code with the
whole body, then the subscribers of UNSOL_EVENT get that code with
`body[8..N]`; nothing comes in between unless the code is 1034. -/
theorem unsol_event_code (e : Endian) (w : World) (hN : 8 ≤ w.chan.read_len)
    (htype : loadU32 e w.chan.read_buf 0 ≠ 0) :
    (grilio_channel_handle_packet e w).1 = true ∧
    ∃ mid, (grilio_channel_handle_packet e w).2.trace
        = w.trace
          ++ [Event.log w.chan.log_list .UNSOL 0 (loadU32 e w.chan.read_buf 4)
                (w.chan.read_buf.take w.chan.read_len)]
          ++ mid
          ++ [Event.unsol_event (loadU32 e w.chan.read_buf 4)
                ((w.chan.read_buf.drop 8).take (w.chan.read_len - 8))] ∧
      (loadU32 e w.chan.read_buf 4 ≠ RIL_UNSOL_RIL_CONNECTED → mid = []) := by
  rw [handle_packet_unsol e w hN htype]
  refine ⟨rfl, ?_⟩
  by_cases hc : loadU32 e w.chan.read_buf 4 = RIL_UNSOL_RIL_CONNECTED
  · simp only [hc, if_true, emit_trace, ne_eq, not_true_eq_false, false_implies, and_true]
    by_cases hok : 16 ≤ (grilio_channel_log w .UNSOL 0 RIL_UNSOL_RIL_CONNECTED
        (w.chan.read_buf.take w.chan.read_len)).chan.read_len ∧
        loadU32 e ((grilio_channel_log w .UNSOL 0 RIL_UNSOL_RIL_CONNECTED
          (w.chan.read_buf.take w.chan.read_len)).chan.read_buf.drop 8) 0 = 1
    · obtain ⟨evs, ht, _⟩ := connected_ok e _ hok.1 hok.2
      exact ⟨[Event.connected] ++ evs, by rw [ht]; simp [grilio_channel_log]⟩
    · obtain ⟨_, ht | ht⟩ := connected_fail e _ hok
      · exact ⟨[], by rw [ht]; simp [grilio_channel_log]⟩
      · exact ⟨[Event.connect_failed], by rw [ht]; simp [grilio_channel_log]⟩
  · refine ⟨[], ?_, fun _ => rfl⟩
    simp [hc, grilio_channel_log]

theorem unsol_event_code_witness :
    (8 ≤ (wholePacket sampleIdle sampleHandshake).chan.read_len ∧
      loadU32 Endian.little (wholePacket sampleIdle sampleHandshake).chan.read_buf 0 ≠ 0) ∧
    (grilio_channel_handle_packet Endian.little
      (wholePacket sampleIdle sampleHandshake)).1 = true :=
  ⟨by decide,
    (unsol_event_code Endian.little (wholePacket sampleIdle sampleHandshake) (by decide)
      (by decide)).1⟩

/-- C7 as the code has it (a counterexample to the claim): with a request
waiting and a socket that fails at the next write, the connected event with
one value and version 9 emits CONNECTED, the write of the waiting request
fails, and the channel ends shut down: not connected, `ril_version` 0. -/
theorem connected_then_write_error :
    sampleBroken.chan.connected = false ∧
    loadU32 Endian.little (sampleHandshake.drop 8) 0 = 1 ∧
    Event.connected ∈ (grilio_channel_handle_packet Endian.little
        (wholePacket sampleBroken sampleHandshake)).2.trace ∧
    (grilio_channel_handle_packet Endian.little
        (wholePacket sampleBroken sampleHandshake)).2.chan.connected = false ∧
    (grilio_channel_handle_packet Endian.little
        (wholePacket sampleBroken sampleHandshake)).2.chan.ril_version = 0 := by
  decide

/-- C7, amended: an unsolicited packet with the code 1034 whose data starts
with the value 1 and holds a second word emits CONNECTED exactly once, and
the channel is then connected with its `ril_version` equal to the second
word, unless the write of the waiting requests failed: then an ERROR signal
was emitted and the channel is shut down. With another first value or less
than 8 bytes of data, `connected` and `ril_version` stay as they were and
CONNECTED is not emitted. In both cases the subscribers of the unsolicited
event are called last, with 1034 and the data. -/
theorem connected_handshake (e : Endian) (w : World) (hN : 8 ≤ w.chan.read_len)
    (htype : loadU32 e w.chan.read_buf 0 ≠ 0)
    (hcode : loadU32 e w.chan.read_buf 4 = RIL_UNSOL_RIL_CONNECTED) :
    (16 ≤ w.chan.read_len ∧ loadU32 e (w.chan.read_buf.drop 8) 0 = 1 →
      ∃ evs, (grilio_channel_handle_packet e w).2.trace
          = w.trace
            ++ [Event.log w.chan.log_list .UNSOL 0 RIL_UNSOL_RIL_CONNECTED
                  (w.chan.read_buf.take w.chan.read_len), Event.connected]
            ++ evs
            ++ [Event.unsol_event RIL_UNSOL_RIL_CONNECTED
                  ((w.chan.read_buf.drop 8).take (w.chan.read_len - 8))] ∧
        Event.connected ∉ evs ∧
        (((grilio_channel_handle_packet e w).2.chan.connected = true ∧
            (grilio_channel_handle_packet e w).2.chan.ril_version
              = loadU32 e (w.chan.read_buf.drop 8) 4) ∨
          ((grilio_channel_handle_packet e w).2.chan.connected = false ∧
            (grilio_channel_handle_packet e w).2.chan.ril_version = 0 ∧
            ∃ ev ∈ evs, ev.isStop = true))) ∧
    (¬ (16 ≤ w.chan.read_len ∧ loadU32 e (w.chan.read_buf.drop 8) 0 = 1) →
      (grilio_channel_handle_packet e w).2.chan.connected = w.chan.connected ∧
      (grilio_channel_handle_packet e w).2.chan.ril_version = w.chan.ril_version ∧
      Event.connected ∉ (grilio_channel_handle_packet e w).2.trace.drop w.trace.length ∧
      (grilio_channel_handle_packet e w).2.trace.getLast?
        = some (Event.unsol_event RIL_UNSOL_RIL_CONNECTED
            ((w.chan.read_buf.drop 8).take (w.chan.read_len - 8)))) := by
  rw [handle_packet_unsol e w hN htype]
  simp only [hcode, if_true]
  constructor
  · intro hok
    obtain ⟨evs, ht, hne, hf⟩ := connected_ok e (grilio_channel_log w .UNSOL 0
      RIL_UNSOL_RIL_CONNECTED (w.chan.read_buf.take w.chan.read_len)) hok.1 hok.2
    refine ⟨evs, ?_, hne, hf⟩
    rw [emit_trace, ht]
    simp [grilio_channel_log]
  · intro hno
    obtain ⟨hc, ht⟩ := connected_fail e (grilio_channel_log w .UNSOL 0
      RIL_UNSOL_RIL_CONNECTED (w.chan.read_buf.take w.chan.read_len)) hno
    refine ⟨by rw [emit_chan, hc]; rfl, by rw [emit_chan, hc]; rfl, ?_, by simp⟩
    rcases ht with ht | ht <;> rw [emit_trace, ht] <;> simp [grilio_channel_log]

theorem connected_handshake_witness :
    (8 ≤ (wholePacket sampleWaiting sampleHandshake).chan.read_len ∧
      16 ≤ (wholePacket sampleWaiting sampleHandshake).chan.read_len ∧
      loadU32 Endian.little ((wholePacket sampleWaiting sampleHandshake).chan.read_buf.drop 8) 0
        = 1) ∧
    ∃ evs, (grilio_channel_handle_packet Endian.little
          (wholePacket sampleWaiting sampleHandshake)).2.trace
        = (wholePacket sampleWaiting sampleHandshake).trace
          ++ [Event.log (wholePacket sampleWaiting sampleHandshake).chan.log_list .UNSOL 0
                RIL_UNSOL_RIL_CONNECTED
                ((wholePacket sampleWaiting sampleHandshake).chan.read_buf.take
                  (wholePacket sampleWaiting sampleHandshake).chan.read_len),
              Event.connected]
          ++ evs
          ++ [Event.unsol_event RIL_UNSOL_RIL_CONNECTED
                (((wholePacket sampleWaiting sampleHandshake).chan.read_buf.drop 8).take
                  ((wholePacket sampleWaiting sampleHandshake).chan.read_len - 8))] :=
  ⟨by decide,
    let ⟨evs, h, _⟩ := (connected_handshake Endian.little
      (wholePacket sampleWaiting sampleHandshake) (by decide) (by decide) (by decide)).1
      (by decide)
    ⟨evs, h⟩⟩

@[simp] theorem reset_timeout_reqs (w : World) : (grilio_channel_reset_timeout w).reqs = w.reqs := by
  unfold grilio_channel_reset_timeout
  dsimp only
  split
  · split <;> rfl
  · split <;> rfl

@[simp] theorem reset_timeout_req (w : World) (x : Nat) :
    (grilio_channel_reset_timeout w).req x = w.req x := by
  simp [World.req]

@[simp] theorem reset_timeout_trace (w : World) :
    (grilio_channel_reset_timeout w).trace = w.trace := by
  unfold grilio_channel_reset_timeout
  dsimp only
  split
  · split <;> rfl
  · split <;> rfl

@[simp] theorem reset_timeout_queues (w : World) :
    (grilio_channel_reset_timeout w).queues = w.queues := by
  unfold grilio_channel_reset_timeout
  dsimp only
  split
  · split <;> rfl
  · split <;> rfl

@[simp] theorem log_req (w : World) (t : GRILIO_PACKET_TYPE) (id code : Nat) (data : List Nat)
    (x : Nat) : (grilio_channel_log w t id code data).req x = w.req x := rfl

@[simp] theorem log_chan (w : World) (t : GRILIO_PACKET_TYPE) (id code : Nat) (data : List Nat) :
    (grilio_channel_log w t id code data).chan = w.chan := rfl

@[simp] theorem log_queues (w : World) (t : GRILIO_PACKET_TYPE) (id code : Nat)
    (data : List Nat) : (grilio_channel_log w t id code data).queues = w.queues := rfl

@[simp] theorem log_reqs (w : World) (t : GRILIO_PACKET_TYPE) (id code : Nat)
    (data : List Nat) : (grilio_channel_log w t id code data).reqs = w.reqs := rfl

@[simp] theorem log_now (w : World) (t : GRILIO_PACKET_TYPE) (id code : Nat)
    (data : List Nat) : (grilio_channel_log w t id code data).now = w.now := rfl

@[simp] theorem setReq_now (w : World) (h : Nat) (r : GRilIoRequest) :
    (w.setReq h r).now = w.now := rfl

@[simp] theorem log_responses (w : World) (t : GRILIO_PACKET_TYPE) (id code : Nat)
    (data : List Nat) : responses (grilio_channel_log w t id code data).trace
      = responses w.trace := by
  simp [grilio_channel_log, responses_singleton]

/-- C20: at the end of the transmission of the request `req`, in
`grilio_channel_write`, the request gets a deadline exactly when it has a
response callback and either its own timeout is positive or its timeout is
DEFAULT and the timeout of the channel is positive; the deadline is the time
`now` plus the timeout in milliseconds times 1000 (a 32-bit product), where
the timeout is the one of the request when that is positive and the one of
the channel otherwise; else the deadline stays as it was. So a request with
the timeout NONE never gets one; and `grilio_channel_set_timeout` with
DEFAULT stores NONE. -/
theorem effective_timeout (w : World) (req : Nat) (timeout : Int)
    (hr : req < w.reqs.length) :
    ((grilio_channel_write_sent w req).2.req req).deadline
      = (if (w.req req).response = true ∧
            ((w.req req).timeout > 0 ∨
              ((w.req req).timeout = GRILIO_TIMEOUT_DEFAULT ∧ w.chan.timeout > 0))
          then w.now + toInt32
            (((if (w.req req).timeout > 0 then (w.req req).timeout else w.chan.timeout)
              * 1000) % 4294967296).toNat
          else (w.req req).deadline) ∧
    ((w.req req).timeout = GRILIO_TIMEOUT_NONE →
      ((grilio_channel_write_sent w req).2.req req).deadline = (w.req req).deadline) ∧
    (grilio_channel_set_timeout w timeout).chan.timeout
      = (if timeout = GRILIO_TIMEOUT_DEFAULT then GRILIO_TIMEOUT_NONE else timeout) := by
  have main : ((grilio_channel_write_sent w req).2.req req).deadline
      = (if (w.req req).response = true ∧
            ((w.req req).timeout > 0 ∨
              ((w.req req).timeout = GRILIO_TIMEOUT_DEFAULT ∧ w.chan.timeout > 0))
          then w.now + toInt32
            (((if (w.req req).timeout > 0 then (w.req req).timeout else w.chan.timeout)
              * 1000) % 4294967296).toNat
          else (w.req req).deadline) := by
    have h1 : ∀ w1 : World, w1 = (if (w.req req).status = .SENDING
        then w.setReq req { w.req req with status := .SENT } else w) →
        (w1.req req).response = (w.req req).response ∧
        (w1.req req).timeout = (w.req req).timeout ∧
        (w1.req req).deadline = (w.req req).deadline ∧ w1.chan = w.chan ∧ w1.now = w.now ∧
        w1.reqs.length = w.reqs.length := by
      intro w1 hw1
      subst hw1
      split <;> simp [req_setReq, hr]
    unfold grilio_channel_write_sent
    dsimp only
    generalize hw1 : (if (w.req req).status = .SENDING
        then w.setReq req { w.req req with status := .SENT } else w) = w1
    obtain ⟨a1, a2, a3, a4, a5, a6⟩ := h1 w1 hw1.symm
    have hr1 : req < w1.reqs.length := by omega
    simp only [req_chan_update, unref_deadline, log_req, log_chan, log_now, a1, a2, a4, a5]
    by_cases hresp : (w.req req).response = true
    · simp only [hresp, not_true_eq_false, if_false, true_and]
      by_cases hc : (w.req req).timeout > 0 ∨
          (w.chan.timeout > 0 ∧ (w.req req).timeout = GRILIO_TIMEOUT_DEFAULT)
      · have hc' : (w.req req).timeout > 0 ∨
            ((w.req req).timeout = GRILIO_TIMEOUT_DEFAULT ∧ w.chan.timeout > 0) := by
          rcases hc with h | h
          · exact Or.inl h
          · exact Or.inr ⟨h.2, h.1⟩
        have ht : (if (w.req req).timeout = GRILIO_TIMEOUT_DEFAULT then w.chan.timeout
            else (w.req req).timeout)
            = (if (w.req req).timeout > 0 then (w.req req).timeout else w.chan.timeout) := by
          rcases hc with h | h
          · have : (w.req req).timeout ≠ GRILIO_TIMEOUT_DEFAULT := by
              simp only [GRILIO_TIMEOUT_DEFAULT]; omega
            simp [this, h]
          · have : ¬ (w.req req).timeout > 0 := by
              rw [h.2]; simp [GRILIO_TIMEOUT_DEFAULT]
            rw [if_pos h.2, if_neg this]
        have hite : ∀ (c : Prop) [Decidable c] (X : World),
            (if c then grilio_channel_reset_timeout X else X).req req = X.req req := by
          intro c _ X; split <;> simp
        simp only [hc, hc', if_true, ht, hite]
        simp [req_setReq, hr1]
      · have hc' : ¬ ((w.req req).timeout > 0 ∨
            ((w.req req).timeout = GRILIO_TIMEOUT_DEFAULT ∧ w.chan.timeout > 0)) := by
          intro h
          apply hc
          rcases h with h | h
          · exact Or.inl h
          · exact Or.inr ⟨h.2, h.1⟩
        simp only [hc, hc', if_false, log_req, a3]
    · have hf : (w.req req).response = false := by simpa using hresp
      simp [hf, a3]
  refine ⟨main, ?_, rfl⟩
  intro hnone
  rw [main, hnone]
  simp [GRILIO_TIMEOUT_NONE, GRILIO_TIMEOUT_DEFAULT]

theorem effective_timeout_witness :
    0 < (grilio_channel_set_timeout sampleSending 7).reqs.length ∧
    (((grilio_channel_set_timeout sampleSending 7).req 0).timeout = GRILIO_TIMEOUT_DEFAULT ∧
      ((grilio_channel_write_sent (grilio_channel_set_timeout sampleSending 7) 0).2.req 0).deadline
        = 7000) :=
  ⟨by decide, by decide,
    (effective_timeout (grilio_channel_set_timeout sampleSending 7) 0 (-1) (by decide)).1.trans
      (by decide)⟩

theorem foldl_clear_queue (l : List Nat) : ∀ w : World,
    (l.foldl (fun w req => w.setReq req { w.req req with queue := none }) w).chan = w.chan ∧
    (l.foldl (fun w req => w.setReq req { w.req req with queue := none }) w).trace = w.trace ∧
    (l.foldl (fun w req => w.setReq req { w.req req with queue := none }) w).queues = w.queues ∧
    (l.foldl (fun w req => w.setReq req { w.req req with queue := none }) w).reqs.length
      = w.reqs.length ∧
    ∀ x, (l.foldl (fun w req => w.setReq req { w.req req with queue := none }) w).req x
      = if x ∈ l ∧ x < w.reqs.length then { w.req x with queue := none } else w.req x := by
  induction l with
  | nil => intro w; simp
  | cons a l ih =>
      intro w
      obtain ⟨h1, h2, h3, h4, h5⟩ := ih (w.setReq a { w.req a with queue := none })
      simp only [List.foldl_cons]
      refine ⟨h1, h2, h3, by rw [h4]; simp, ?_⟩
      intro x
      rw [h5 x]
      simp only [req_setReq, setReq_length, List.mem_cons]
      by_cases hx : x = a
      · subst hx
        by_cases hl : x < w.reqs.length
        · simp [hl]
        · simp [hl]
      · by_cases hm : x ∈ l <;> simp [hx, hm]

/-- C18 as the code has it (a counterexample to the claim): in
`sampleWaiting` after the caller has dropped its reference to the channel,
the queue holds the last one; releasing the queue then disposes of the
channel, which cancels every request and calls both response callbacks. -/
theorem queue_release_disposes_channel :
    ((grilio_channel_unref sampleWaiting).queue 0).refcount = 1 ∧
    (grilio_channel_unref sampleWaiting).chan.refcount = 1 ∧
    responses (grilio_channel_unref sampleWaiting).trace = [] ∧
    responses (grilio_queue_unref (grilio_channel_unref sampleWaiting) 0).trace
      = [(0, GRILIO_STATUS_CANCELLED, []), (1, GRILIO_STATUS_CANCELLED, [])] ∧
    (grilio_queue_unref (grilio_channel_unref sampleWaiting) 0).chan.fifo = [] := by
  decide

/-- The loop of `grilio_queue_free` when the channel stays. -/
theorem queue_free_spec (w : World) (q : Nat) (hq : q < w.queues.length)
    (hchan : w.chan.refcount ≠ 1) (hlive : ∀ h ∈ (w.queue q).reqs, h < w.reqs.length) :
    (∀ h ∈ (w.queue q).reqs, ((grilio_queue_free w q).req h).queue = none) ∧
    ((grilio_queue_free w q).queue q).reqs = [] ∧
    (grilio_queue_free w q).trace = w.trace ∧
    (grilio_queue_free w q).chan.fifo = w.chan.fifo ∧
    (grilio_queue_free w q).chan.resp_table = w.chan.resp_table ∧
    (grilio_queue_free w q).chan.send_req = w.chan.send_req ∧
    (∀ x, ((grilio_queue_free w q).req x).status = (w.req x).status ∧
      (x ∉ (w.queue q).reqs → (grilio_queue_free w q).req x = w.req x)) := by
  obtain ⟨f1, f2, f3, f4, f5⟩ := foldl_clear_queue (w.queue q).reqs w
  have hcu : ∀ x : World, x.chan.refcount ≠ 1 →
      grilio_channel_unref x
        = { x with chan := { x.chan with refcount := x.chan.refcount - 1 } } := by
    intro x hx
    simp [grilio_channel_unref, hx]
  unfold grilio_queue_free
  dsimp only
  rw [hcu _ (by simpa [f1] using hchan)]
  refine ⟨?_, ?_, ?_, ?_, ?_, ?_, ?_⟩
  · intro h hm
    simp only [req_chan_update, setQueue_req, f5, hm, hlive h hm, and_self, if_true]
  · have hql : q < ((w.queue q).reqs.foldl
        (fun w req => w.setReq req { w.req req with queue := none }) w).queues.length := by
      rw [f3]; exact hq
    show ((World.setQueue _ q _).queue q).reqs = []
    rw [queue_setQueue]
    simp [hql]
  · simp [f2]
  · simp [f1]
  · simp [f1]
  · simp [f1]
  · intro x
    simp only [req_chan_update, setQueue_req, f5]
    constructor
    · split <;> rfl
    · intro hx
      simp [hx]

/-- C18, amended: when the last reference to a queue is dropped and the
queue does not hold the last reference to the channel, every request that
was a member has its queue cleared, the queue has no member left, no event
is added to the trace (no callback), and the send queue, the response table
and every request apart from its queue field are unchanged. -/
theorem queue_release (w : World) (q : Nat) (hq : q < w.queues.length)
    (hlast : (w.queue q).refcount = 1) (hchan : 1 < w.chan.refcount)
    (hlive : ∀ h ∈ (w.queue q).reqs, h < w.reqs.length) :
    (∀ h ∈ (w.queue q).reqs, ((grilio_queue_unref w q).req h).queue = none) ∧
    ((grilio_queue_unref w q).queue q).reqs = [] ∧
    (grilio_queue_unref w q).trace = w.trace ∧
    (grilio_queue_unref w q).chan.fifo = w.chan.fifo ∧
    (grilio_queue_unref w q).chan.resp_table = w.chan.resp_table ∧
    (grilio_queue_unref w q).chan.send_req = w.chan.send_req ∧
    (∀ x, ((grilio_queue_unref w q).req x).status = (w.req x).status ∧
      (x ∉ (w.queue q).reqs → (grilio_queue_unref w q).req x = w.req x)) := by
  have hne : w.chan.refcount ≠ 1 := by omega
  have hw1 : (w.setQueue q { w.queue q with refcount := (w.queue q).refcount - 1 }).queue q
      = { w.queue q with refcount := (w.queue q).refcount - 1 } := by
    simp [queue_setQueue, hq]
  have hun : grilio_queue_unref w q = grilio_queue_free
      (w.setQueue q { w.queue q with refcount := (w.queue q).refcount - 1 }) q := by
    unfold grilio_queue_unref
    dsimp only
    rw [if_pos]
    rw [hw1]
    show (w.queue q).refcount - 1 = 0
    rw [hlast]
    rfl
  have hr : ((w.setQueue q { w.queue q with refcount := (w.queue q).refcount - 1 }).queue q).reqs
      = (w.queue q).reqs := by rw [hw1]
  have := queue_free_spec (w.setQueue q { w.queue q with refcount := (w.queue q).refcount - 1 })
    q (by simpa using hq) hne (by rw [hr]; exact hlive)
  rw [hr] at this
  rw [hun]
  exact this

theorem queue_release_witness :
    ((sampleWaiting.queue 0).refcount = 1 ∧ 1 < sampleWaiting.chan.refcount ∧
      (sampleWaiting.queue 0).reqs = [0]) ∧
    (∀ h ∈ (sampleWaiting.queue 0).reqs, ((grilio_queue_unref sampleWaiting 0).req h).queue = none) ∧
    ((grilio_queue_unref sampleWaiting 0).queue 0).reqs = [] ∧
    (grilio_queue_unref sampleWaiting 0).trace = sampleWaiting.trace :=
  ⟨by decide,
    (queue_release sampleWaiting 0 (by decide) (by decide) (by decide) (by decide)).1,
    (queue_release sampleWaiting 0 (by decide) (by decide) (by decide) (by decide)).2.1,
    (queue_release sampleWaiting 0 (by decide) (by decide) (by decide) (by decide)).2.2.1⟩

theorem NotNew.same (w : World) : NotNew w w := ⟨Nat.le_refl _, fun _ h => h⟩

theorem NotNew.next {a b c : World} (h1 : NotNew a b) (h2 : NotNew b c) : NotNew a c :=
  ⟨Nat.le_trans h1.1 h2.1, fun h hn => h2.2 h (h1.2 h hn)⟩

theorem notNew_of_status {w w' : World} (hl : w'.reqs.length = w.reqs.length)
    (h : ∀ x, (w'.req x).status = (w.req x).status) : NotNew w w' :=
  ⟨Nat.le_of_eq hl.symm, fun x hn => by rw [h x]; exact hn⟩

theorem N_setReq {w x : World} (h : Nat) (r : GRilIoRequest)
    (hr : r.status ≠ .NEW ∨ r.status = (x.req h).status) (hk : NotNew w x) :
    NotNew w (x.setReq h r) := by
  refine hk.next ⟨by simp, fun k hn => ?_⟩
  rw [req_setReq]
  split
  · rename_i hc
    rcases hr with hr | hr
    · exact hr
    · rw [hr, ← hc.1]; exact hn
  · exact hn

theorem N_of_eq {w x : World} (hk : NotNew w x) (x' : World) (hr : x'.reqs = x.reqs) :
    NotNew w x' :=
  hk.next ⟨by rw [hr], fun k hn => by simpa [World.req, hr] using hn⟩

theorem N_emit {w x : World} (ev : Event) (hk : NotNew w x) : NotNew w (x.emit ev) :=
  N_of_eq hk _ rfl

theorem N_ite {w a b : World} {c : Prop} [Decidable c] (ha : NotNew w a) (hb : NotNew w b) :
    NotNew w (if c then a else b) := by
  split
  · exact ha
  · exact hb

theorem N_ref {w x : World} (h : Nat) (hk : NotNew w x) : NotNew w (grilio_request_ref x h) :=
  hk.next (notNew_of_status (ref_length _ _) (ref_status _ _))

theorem N_unref {w x : World} (h : Nat) (hk : NotNew w x) :
    NotNew w (grilio_request_unref x h) :=
  hk.next (notNew_of_status (unref_length _ _) (unref_status _ _))

theorem N_hash_remove {w x : World} (key : Nat) (hk : NotNew w x) :
    NotNew w (g_hash_table_remove x key).2 :=
  hk.next (notNew_of_status (hash_remove_length _ _) (hash_remove_status _ _))

theorem N_steal {w x : World} (key : Nat) (hk : NotNew w x) :
    NotNew w (g_hash_table_steal x key) :=
  N_of_eq hk _ rfl

theorem N_queue_remove {w x : World} (r : Nat) (hk : NotNew w x) :
    NotNew w (grilio_queue_remove x r) :=
  hk.next (notNew_of_status (queue_remove_length _ _) (queue_remove_status _ _))

theorem N_log {w x : World} (t : GRILIO_PACKET_TYPE) (id code : Nat) (data : List Nat)
    (hk : NotNew w x) : NotNew w (grilio_channel_log x t id code data) :=
  N_of_eq hk _ rfl

theorem N_reset_timeout {w x : World} (hk : NotNew w x) :
    NotNew w (grilio_channel_reset_timeout x) :=
  N_of_eq hk _ (reset_timeout_reqs x)

theorem N_handle_error {w x : World} (t : GRILIO_ERROR_TYPE) (inv : Bool) (hk : NotNew w x) :
    NotNew w (grilio_channel_handle_error x t inv) := by
  refine N_of_eq hk _ ?_
  unfold grilio_channel_handle_error
  cases t <;> rfl

theorem N_write_chars {w x : World} (buf : List Nat) (hk : NotNew w x) :
    NotNew w (g_io_channel_write_chars x buf).2 := by
  refine N_of_eq hk _ ?_
  unfold g_io_channel_write_chars
  split <;> rfl

theorem N_write_sent {w x : World} (req : Nat) (hk : NotNew w x) :
    NotNew w (grilio_channel_write_sent x req).2 := by
  unfold grilio_channel_write_sent
  dsimp only
  have h1 : NotNew w (if (x.req req).status = .SENDING
      then x.setReq req { x.req req with status := .SENT } else x) :=
    N_ite (N_setReq _ _ (Or.inl (by simp)) hk) hk
  have h2 := N_log .REQ
    ((if (x.req req).status = .SENDING
      then x.setReq req { x.req req with status := .SENT } else x).req req).id
    ((if (x.req req).status = .SENDING
      then x.setReq req { x.req req with status := .SENT } else x).req req).code
    (((if (x.req req).status = .SENDING
      then x.setReq req { x.req req with status := .SENT } else x).req req).bytes.drop 4) h1
  refine N_of_eq (x := grilio_request_unref _ req) ?_ _ rfl
  refine N_unref _ ?_
  refine N_ite (N_queue_remove _ h2) (N_ite ?_ h2)
  exact N_ite (N_reset_timeout (N_setReq _ _ (Or.inr rfl) h2)) (N_setReq _ _ (Or.inr rfl) h2)

theorem N_write_pick {w x x1 : World} {req : Nat} (e : Endian) (hk : NotNew w x)
    (hp : grilio_channel_write_pick e x = some (req, x1)) : NotNew w x1 := by
  cases hs : x.chan.send_req with
  | some r =>
      simp only [grilio_channel_write_pick, hs, Option.some.injEq, Prod.mk.injEq] at hp
      rw [← hp.2]; exact hk
  | none =>
      cases hf : x.chan.fifo with
      | nil => simp [grilio_channel_write_pick, hs, grilio_channel_dequeue_request, hf] at hp
      | cons h rest =>
          simp only [grilio_channel_write_pick, hs, grilio_channel_dequeue_request, hf,
            Option.some.injEq, Prod.mk.injEq] at hp
          rw [← hp.2]
          unfold grilio_channel_write_prepare
          dsimp only
          refine N_of_eq (x := World.setReq _ _ _) ?_ _ rfl
          refine N_setReq _ _ (Or.inr rfl) ?_
          refine N_emit _ ?_
          refine N_setReq _ _ (Or.inl (by simp)) ?_
          exact N_of_eq hk _ rfl

theorem N_write_data {w x : World} (req : Nat) (hk : NotNew w x) :
    NotNew w (grilio_channel_write_data x req).2 := by
  unfold grilio_channel_write_data
  have hc := N_write_chars ((x.req req).bytes.drop x.chan.send_pos) hk
  split
  · split
    · rename_i h1 h2
      rw [h2] at hc
      exact N_handle_error _ _ hc
    · rename_i h1 n w1 h2
      rw [h2] at hc
      dsimp only
      split
      · exact N_of_eq hc _ rfl
      · exact N_write_sent _ (N_of_eq hc _ rfl)
  · exact N_write_sent _ hk

theorem N_write_request {w x : World} (e : Endian) (hk : NotNew w x) :
    NotNew w (grilio_channel_write_request e x).2 := by
  unfold grilio_channel_write_request
  split
  · exact hk
  · rename_i req x1 hp
    exact N_write_data req (N_write_pick e hk hp)

theorem N_write {w x : World} (e : Endian) (hk : NotNew w x) :
    NotNew w (grilio_channel_write e x).2 := by
  unfold grilio_channel_write
  have hc := N_write_chars
    ((x.chan.sub.drop x.chan.sub_pos).take (GRILIO_SUB_LEN - x.chan.sub_pos)) hk
  split
  · split
    · rename_i h1 h2
      rw [h2] at hc
      exact N_handle_error _ _ hc
    · rename_i h1 n w1 h2
      rw [h2] at hc
      dsimp only
      split
      · exact N_of_eq hc _ rfl
      · exact N_write_request e (N_of_eq hc _ rfl)
  · exact N_write_request e hk

theorem N_schedule_write {w x : World} (e : Endian) (hk : NotNew w x) :
    NotNew w (grilio_channel_schedule_write e x) := by
  unfold grilio_channel_schedule_write
  split
  · dsimp only
    split
    · exact N_of_eq (N_write e hk) _ rfl
    · exact N_write e hk
  · exact hk

theorem N_hash_insert {w x : World} (key value : Nat) (hk : NotNew w x) :
    NotNew w (g_hash_table_insert x key value) := by
  unfold g_hash_table_insert
  split
  · exact N_unref _ (N_of_eq hk _ rfl)
  · exact N_of_eq hk _ rfl

@[simp] theorem hash_insert_length (w : World) (key value : Nat) :
    (g_hash_table_insert w key value).reqs.length = w.reqs.length := by
  unfold g_hash_table_insert
  split <;> simp

theorem queue_add_status (w : World) (q h x : Nat) :
    ((grilio_queue_add w q h).req x).status = (w.req x).status := by
  unfold grilio_queue_add
  dsimp only
  rw [setQueue_req, req_setReq]
  split
  · rename_i hc; rw [hc.1]
  · rfl

theorem alloc_req (w : World) (r : GRilIoRequest) :
    (w.alloc r).2.req (w.alloc r).1 = r := by
  simp [World.alloc, World.req]

/-- The id the next submission gets. -/
theorem next_id_pos (last : Nat) :
    (if (last + 1) % 4294967296 = 0 then ((last + 1) % 4294967296 + 1) % 4294967296
      else (last + 1) % 4294967296) ≠ 0 := by
  split
  · rename_i h; rw [h]; decide
  · rename_i h; exact h

/-- A request submitted through the channel is no longer NEW. -/
theorem send_request_status (e : Endian) (w : World) (h code : Nat) (response destroy : Bool)
    (hh : h < w.reqs.length) (hnew : (w.req h).status = .NEW) :
    ((grilio_channel_send_request_full e w true (some h) code response destroy).2.req h).status
      ≠ .NEW := by
  have hc : (true = true ∧ ((some h).isNone = true ∨
      (some h).map (fun h => (w.req h).status) = some GRILIO_REQUEST_STATUS.NEW)) := by
    simp [hnew]
  unfold grilio_channel_send_request_full
  rw [if_pos hc]
  dsimp only
  refine (N_schedule_write e (NotNew.same _)).2 h ?_
  unfold grilio_channel_queue_request
  dsimp only
  rw [emit_req, req_chan_update, req_setReq_same]
  · simp
  · rw [ref_length]
    split
    · simpa using hh
    · simpa using hh

/-- C9: `grilio_channel_send_request_full` and
`grilio_queue_send_request_full` return 0 exactly when the channel (queue)
handle is null or the request is not NEW, and then leave the whole world
unchanged; a live request that was submitted is rejected the second time,
and that changes nothing. -/
theorem send_request_rejected (e : Endian) (w : World) (self : Bool) (queue req : Option Nat)
    (code : Nat) (response destroy : Bool) :
    ((grilio_channel_send_request_full e w self req code response destroy).1 = 0
      ↔ (self = false ∨ ∃ h, req = some h ∧ (w.req h).status ≠ .NEW)) ∧
    ((grilio_channel_send_request_full e w self req code response destroy).1 = 0 →
      (grilio_channel_send_request_full e w self req code response destroy).2 = w) ∧
    ((grilio_queue_send_request_full e w queue req code response destroy).1 = 0
      ↔ (queue = none ∨ ∃ h, req = some h ∧ (w.req h).status ≠ .NEW)) ∧
    ((grilio_queue_send_request_full e w queue req code response destroy).1 = 0 →
      (grilio_queue_send_request_full e w queue req code response destroy).2 = w) ∧
    (∀ h code2 response2 destroy2, h < w.reqs.length → (w.req h).status = .NEW →
      grilio_channel_send_request_full e
          (grilio_channel_send_request_full e w true (some h) code response destroy).2
          true (some h) code2 response2 destroy2
        = (0, (grilio_channel_send_request_full e w true (some h) code response destroy).2)) := by
  have hrej : ∀ (w : World) (self : Bool) (req : Option Nat),
      (self = false ∨ ∃ h, req = some h ∧ (w.req h).status ≠ .NEW) ↔
      ¬ (self = true ∧ (req.isNone = true ∨
        req.map (fun h => (w.req h).status) = some GRILIO_REQUEST_STATUS.NEW)) := by
    intro w self req
    cases self <;> cases req <;> simp
  have hch : ∀ (w : World) (self : Bool) (req : Option Nat) (code : Nat) (r d : Bool),
      ((grilio_channel_send_request_full e w self req code r d).1 = 0
        ↔ (self = false ∨ ∃ h, req = some h ∧ (w.req h).status ≠ .NEW)) ∧
      ((grilio_channel_send_request_full e w self req code r d).1 = 0 →
        (grilio_channel_send_request_full e w self req code r d).2 = w) := by
    intro w self req code r d
    rw [hrej w self req]
    unfold grilio_channel_send_request_full
    split
    · rename_i hc
      dsimp only
      have := next_id_pos w.chan.last_req_id
      exact ⟨⟨fun h0 => absurd h0 this, fun hn => absurd hc hn⟩, fun h0 => absurd h0 this⟩
    · rename_i hc
      exact ⟨⟨fun _ => hc, fun _ => rfl⟩, fun _ => rfl⟩
  have hq : ((grilio_queue_send_request_full e w queue req code response destroy).1 = 0
        ↔ (queue = none ∨ ∃ h, req = some h ∧ (w.req h).status ≠ .NEW)) ∧
      ((grilio_queue_send_request_full e w queue req code response destroy).1 = 0 →
        (grilio_queue_send_request_full e w queue req code response destroy).2 = w) := by
    cases queue with
    | none => simp [grilio_queue_send_request_full]
    | some q =>
        have hr := hrej w true req
        simp only [true_and, Bool.true_eq_false, false_or] at hr
        simp only [false_or, reduceCtorEq]
        rw [hr]
        unfold grilio_queue_send_request_full
        dsimp only
        split
        · rename_i hc
          have hne : ∀ (w1 : World) (h : Nat), (w1.req h).status = .NEW →
              (grilio_channel_send_request_full e w1 true (some h) code response destroy).1
                ≠ 0 := by
            intro w1 h hst h0
            rcases (hch w1 true (some h) code response destroy).1.1 h0 with hf | ⟨h', he, hn⟩
            · cases hf
            · cases he; exact hn hst
          have hid : (grilio_channel_send_request_full e
              (grilio_queue_add
                (match req with
                  | some h => (h, w, none)
                  | none => ((w.alloc grilio_request_new).1, (w.alloc grilio_request_new).2,
                      some (w.alloc grilio_request_new).1)).2.1 q
                (match req with
                  | some h => (h, w, (none : Option Nat))
                  | none => ((w.alloc grilio_request_new).1, (w.alloc grilio_request_new).2,
                      some (w.alloc grilio_request_new).1)).1)
              true
              (some (match req with
                  | some h => (h, w, (none : Option Nat))
                  | none => ((w.alloc grilio_request_new).1, (w.alloc grilio_request_new).2,
                      some (w.alloc grilio_request_new).1)).1)
              code response destroy).1 ≠ 0 := by
            apply hne
            rw [queue_add_status]
            cases req with
            | none =>
                dsimp only
                rw [alloc_req]
                rfl
            | some h =>
                simpa using hc
          exact ⟨⟨fun h0 => absurd h0 hid, fun hn => absurd hc hn⟩, fun h0 => absurd h0 hid⟩
        · rename_i hc
          exact ⟨⟨fun _ => hc, fun _ => rfl⟩, fun _ => rfl⟩
  refine ⟨(hch w self req code response destroy).1, (hch w self req code response destroy).2,
    hq.1, hq.2, ?_⟩
  · intro h code2 response2 destroy2 hh hnew
    have hs := send_request_status e w h code response destroy hh hnew
    have := (hch (grilio_channel_send_request_full e w true (some h) code response destroy).2
      true (some h) code2 response2 destroy2)
    have h0 : (grilio_channel_send_request_full e
        (grilio_channel_send_request_full e w true (some h) code response destroy).2
        true (some h) code2 response2 destroy2).1 = 0 :=
      this.1.2 (Or.inr ⟨h, rfl, hs⟩)
    exact Prod.ext h0 (this.2 h0)

theorem send_request_rejected_witness :
    (0 < (sampleIdle.alloc grilio_request_new).2.reqs.length ∧
      ((sampleIdle.alloc grilio_request_new).2.req 0).status = .NEW) ∧
    grilio_channel_send_request_full Endian.little
        (grilio_channel_send_request_full Endian.little (sampleIdle.alloc grilio_request_new).2
          true (some 0) 5 false false).2 true (some 0) 6 true false
      = (0, (grilio_channel_send_request_full Endian.little
          (sampleIdle.alloc grilio_request_new).2 true (some 0) 5 false false).2) :=
  ⟨by decide,
    (send_request_rejected Endian.little (sampleIdle.alloc grilio_request_new).2 true none
      (some 0) 5 false false).2.2.2.2 0 6 true false (by decide) (by decide)⟩

/-- The solicited branch of `grilio_channel_handle_packet`. -/
theorem handle_packet_resp (e : Endian) (w : World) (hN : 12 ≤ w.chan.read_len)
    (htype : loadU32 e w.chan.read_buf 0 = 0) :
    grilio_channel_handle_packet e w
      = (true, match g_hash_table_lookup w.chan.resp_table (loadU32 e w.chan.read_buf 4) with
          | some req =>
              grilio_request_unref
                ((g_hash_table_remove (grilio_queue_remove (grilio_request_ref
                    (grilio_channel_log w .RESP (loadU32 e w.chan.read_buf 4)
                      (loadU32 e w.chan.read_buf 8) (w.chan.read_buf.take w.chan.read_len))
                    req) req) (loadU32 e w.chan.read_buf 4)).2.emit
                  (.response req (toInt32 (loadU32 e w.chan.read_buf 8))
                    ((w.chan.read_buf.drop 12).take (w.chan.read_len - 12)))) req
          | none => grilio_channel_log w .RESP (loadU32 e w.chan.read_buf 4)
              (loadU32 e w.chan.read_buf 8) (w.chan.read_buf.take w.chan.read_len)) := by
  have h8 : 8 ≤ w.chan.read_len := by omega
  simp only [grilio_channel_handle_packet, ge_iff_le, h8, hN, if_true, ne_eq, htype,
    not_true_eq_false, if_false]
  cases g_hash_table_lookup w.chan.resp_table (loadU32 e w.chan.read_buf 4) <;> rfl

/-- C5: a complete body of at least 12 bytes whose first word is zero, with
the id in the second word and the status in the third. If the response table
has a request under that id, the id leaves the table, the request leaves its
queue, and exactly one response callback is made, for that request, with the
status and `body[12..N]`; the send queue stays. If the table has no request
under that id, no response callback is made and the send queue, the response
table and the queues stay as they are. -/
theorem response_correlation (e : Endian) (w : World) (hN : 12 ≤ w.chan.read_len)
    (htype : loadU32 e w.chan.read_buf 0 = 0) (hwf : WellFormed w) :
    (∀ h, g_hash_table_lookup w.chan.resp_table (loadU32 e w.chan.read_buf 4) = some h →
      g_hash_table_lookup (grilio_channel_handle_packet e w).2.chan.resp_table
        (loadU32 e w.chan.read_buf 4) = none ∧
      (grilio_channel_handle_packet e w).2.chan.resp_table
        = w.chan.resp_table.filter (fun kv => kv.1 ≠ loadU32 e w.chan.read_buf 4) ∧
      (∀ kv ∈ (grilio_channel_handle_packet e w).2.chan.resp_table, kv.2 ≠ h) ∧
      ((grilio_channel_handle_packet e w).2.req h).queue = none ∧
      (∀ q, h ∉ ((grilio_channel_handle_packet e w).2.queue q).reqs) ∧
      responses (grilio_channel_handle_packet e w).2.trace
        = responses w.trace ++ [(h, toInt32 (loadU32 e w.chan.read_buf 8),
            (w.chan.read_buf.drop 12).take (w.chan.read_len - 12))] ∧
      (grilio_channel_handle_packet e w).2.chan.fifo = w.chan.fifo) ∧
    (g_hash_table_lookup w.chan.resp_table (loadU32 e w.chan.read_buf 4) = none →
      responses (grilio_channel_handle_packet e w).2.trace = responses w.trace ∧
      (grilio_channel_handle_packet e w).2.chan.fifo = w.chan.fifo ∧
      (grilio_channel_handle_packet e w).2.chan.resp_table = w.chan.resp_table ∧
      (grilio_channel_handle_packet e w).2.queues = w.queues ∧
      (grilio_channel_handle_packet e w).2.reqs = w.reqs) := by
  rw [handle_packet_resp e w hN htype]
  constructor
  · intro h hl
    have hkv := lookup_some_mem _ _ _ hl
    have hid : (w.req h).id = loadU32 e w.chan.read_buf 4 := hwf.2.2.2.1 _ hkv
    simp only [hl]
    have hchan : (grilio_request_unref
        ((g_hash_table_remove (grilio_queue_remove (grilio_request_ref
            (grilio_channel_log w .RESP (loadU32 e w.chan.read_buf 4)
              (loadU32 e w.chan.read_buf 8) (w.chan.read_buf.take w.chan.read_len))
            h) h) (loadU32 e w.chan.read_buf 4)).2.emit
          (.response h (toInt32 (loadU32 e w.chan.read_buf 8))
            ((w.chan.read_buf.drop 12).take (w.chan.read_len - 12)))) h).chan
        = (g_hash_table_steal w (loadU32 e w.chan.read_buf 4)).chan := by
      simp [hash_remove_chan, g_hash_table_steal]
    have hback : ∀ q, ((grilio_request_ref
            (grilio_channel_log w .RESP (loadU32 e w.chan.read_buf 4)
              (loadU32 e w.chan.read_buf 8) (w.chan.read_buf.take w.chan.read_len))
            h).req h).queue = some q →
          h ∈ ((grilio_request_ref
            (grilio_channel_log w .RESP (loadU32 e w.chan.read_buf 4)
              (loadU32 e w.chan.read_buf 8) (w.chan.read_buf.take w.chan.read_len))
            h).queue q).reqs := by
      intro q hq
      simp only [ref_queue, log_req] at hq
      rw [queue_of_eq (ref_queues _ _), queue_of_eq (log_queues _ _ _ _ _)]
      exact hwf.back h q hq
    have hqs := queue_remove_queue_self _ h hback
    refine ⟨?_, ?_, ?_, ?_, ?_, ?_, ?_⟩
    · rw [hchan]; exact lookup_steal w _
    · rw [hchan]; rfl
    · rw [hchan]
      intro kv hm
      simp only [g_hash_table_steal, List.mem_filter, decide_eq_true_eq] at hm
      intro h2
      apply hm.2
      rw [← hwf.2.2.2.1 kv hm.1, h2, hid]
    · simp [hqs]
    · intro q
      rw [queue_of_eq (unref_queues _ _), emit_queue, queue_of_eq (hash_remove_queues _ _),
        queue_remove_reqs]
      simp only [ref_queue, log_req]
      rw [queue_of_eq (ref_queues _ _), queue_of_eq (log_queues _ _ _ _ _)]
      split
      · exact fun hm => (List.Nodup.mem_erase_iff (hwf.nodup q)).1 hm |>.1 rfl
      · rename_i hq
        exact fun hm => hq (hwf.member h q hm)
    · simp [responses_singleton]
    · rw [hchan]; rfl
  · intro hl
    simp only [hl]
    exact ⟨by simp, rfl, rfl, rfl, rfl⟩

theorem response_correlation_witness :
    (12 ≤ (wholePacket sampleSent sampleResponse).chan.read_len ∧
      loadU32 Endian.little (wholePacket sampleSent sampleResponse).chan.read_buf 0 = 0 ∧
      WellFormed (wholePacket sampleSent sampleResponse) ∧
      g_hash_table_lookup (wholePacket sampleSent sampleResponse).chan.resp_table
        (loadU32 Endian.little (wholePacket sampleSent sampleResponse).chan.read_buf 4)
        = some 0) ∧
    responses (grilio_channel_handle_packet Endian.little
        (wholePacket sampleSent sampleResponse)).2.trace
      = responses (wholePacket sampleSent sampleResponse).trace
        ++ [(0, toInt32 (loadU32 Endian.little
              (wholePacket sampleSent sampleResponse).chan.read_buf 8),
            ((wholePacket sampleSent sampleResponse).chan.read_buf.drop 12).take
              ((wholePacket sampleSent sampleResponse).chan.read_len - 12))] :=
  ⟨by decide,
    ((response_correlation Endian.little (wholePacket sampleSent sampleResponse) (by decide)
      (by decide) (by decide)).1 0 (by decide)).2.2.2.2.2.1⟩

theorem cancel_request_true_iff (w : World) (id : Nat) (notify : Bool) (hid : id ≠ 0)
    (hwf : WellFormed w) :
    (grilio_channel_cancel_request w id notify).1 = true
      ↔ ∃ h ∈ Pending w, (w.req h).id = id := by
  have htab := hwf.2.2.2.1
  rcases cancel_request_cases w id notify hid with
    ⟨req, hs, hi, hr⟩ | ⟨req, hns, hm, hi, hr⟩ | ⟨req, hns, hnf, hl, hr⟩ | ⟨hns, hnf, hl, hr⟩
  · rw [hr]
    exact ⟨fun _ => ⟨req, (mem_pending w req).2 (Or.inl hs), hi⟩, fun _ => rfl⟩
  · rw [hr]
    exact ⟨fun _ => ⟨req, (mem_pending w req).2 (Or.inr (Or.inl hm)), hi⟩, fun _ => rfl⟩
  · rw [hr]
    have hkv := lookup_some_mem _ _ _ hl
    exact ⟨fun _ => ⟨req, (mem_pending w req).2 (Or.inr (Or.inr ⟨_, hkv, rfl⟩)), htab _ hkv⟩,
      fun _ => rfl⟩
  · rw [hr]
    refine ⟨(fun h => by cases h), ?_⟩
    rintro ⟨h, hp, hhid⟩
    exfalso
    rcases (mem_pending w h).1 hp with h1 | h1 | ⟨kv, hkv, rfl⟩
    · exact hns h h1 hhid
    · exact hnf h h1 hhid
    · have : (g_hash_table_lookup w.chan.resp_table id).isSome = true :=
        (lookup_isSome _ _).2 ⟨kv, hkv, (htab kv hkv).symm.trans hhid⟩
      rw [hl] at this
      cases this

/-- What `grilio_channel_get_request` finds. -/
theorem get_request_spec (w : World) (id : Nat) (hid : id ≠ 0) (hwf : WellFormed w) :
    (∀ r, grilio_channel_get_request w id = some r → r ∈ Pending w ∧ (w.req r).id = id) ∧
    (grilio_channel_get_request w id = none → ∀ h ∈ Pending w, (w.req h).id ≠ id) := by
  have htab := hwf.2.2.2.1
  have tail_ : (∀ s, w.chan.send_req = some s → (w.req s).id ≠ id) →
      (∀ r, (match g_hash_table_lookup w.chan.resp_table id with
          | some r => some r
          | none => w.chan.fifo.find? (fun h => (w.req h).id = id)) = some r →
        r ∈ Pending w ∧ (w.req r).id = id) ∧
      ((match g_hash_table_lookup w.chan.resp_table id with
          | some r => some r
          | none => w.chan.fifo.find? (fun h => (w.req h).id = id)) = none →
        ∀ h ∈ Pending w, (w.req h).id ≠ id) := by
    intro hns
    cases hl : g_hash_table_lookup w.chan.resp_table id with
    | some r0 =>
        have hkv := lookup_some_mem _ _ _ hl
        refine ⟨fun r hr => ?_, fun hr => by cases hr⟩
        simp only [Option.some.injEq] at hr
        subst hr
        exact ⟨(mem_pending w r0).2 (Or.inr (Or.inr ⟨_, hkv, rfl⟩)), htab _ hkv⟩
    | none =>
        dsimp only
        refine ⟨fun r hr => ?_, fun hr h hp hhid => ?_⟩
        · obtain ⟨hm, hi⟩ := find_id_some w id r hr
          exact ⟨(mem_pending w r).2 (Or.inr (Or.inl hm)), hi⟩
        · rcases (mem_pending w h).1 hp with h1 | h1 | ⟨kv, hkv, rfl⟩
          · exact hns h h1 hhid
          · have := List.find?_eq_none.1 hr h h1
            simp [hhid] at this
          · have : (g_hash_table_lookup w.chan.resp_table id).isSome = true :=
              (lookup_isSome _ _).2 ⟨kv, hkv, (htab kv hkv).symm.trans hhid⟩
            rw [hl] at this
            cases this
  unfold grilio_channel_get_request
  simp only [hid, ne_eq, not_false_eq_true, if_true]
  cases hs : w.chan.send_req with
  | some s =>
      dsimp only
      by_cases hsid : (w.req s).id = id
      · simp only [hsid, if_true]
        refine ⟨fun r hr => ?_, fun hr => by cases hr⟩
        simp only [Option.some.injEq] at hr
        subst hr
        exact ⟨(mem_pending w s).2 (Or.inl hs), hsid⟩
      · simp only [hsid, if_false]
        rw [hs] at tail_
        exact tail_ (fun s2 h2 => by cases h2; exact hsid)
  | none =>
      dsimp only
      rw [hs] at tail_
      exact tail_ (fun s2 h2 => by cases h2)

/-- C17: for a well-formed world and a non-zero id,
`grilio_queue_cancel_request` returns TRUE exactly when a request with that
id is held by the channel and its queue is this queue, and it then does what
`grilio_channel_cancel_request` does; in every other case it returns FALSE
and the world is unchanged: no callback, the channel and the queues as they
were. -/
theorem queue_cancel_request_own (w : World) (queue id : Nat) (notify : Bool) (hid : id ≠ 0)
    (hwf : WellFormed w) :
    ((grilio_queue_cancel_request w queue id notify).1 = true
      ↔ ∃ h ∈ Pending w, (w.req h).id = id ∧ (w.req h).queue = some queue) ∧
    ((grilio_queue_cancel_request w queue id notify).1 = true →
      grilio_queue_cancel_request w queue id notify
        = grilio_channel_cancel_request w id notify) ∧
    ((grilio_queue_cancel_request w queue id notify).1 = false →
      (grilio_queue_cancel_request w queue id notify).2 = w) := by
  obtain ⟨hsome, hnone⟩ := get_request_spec w id hid hwf
  have huniq := hwf.2.2.2.2.1
  unfold grilio_queue_cancel_request
  simp only [hid, ne_eq, not_false_eq_true, if_true]
  cases hg : grilio_channel_get_request w id with
  | none =>
      dsimp only
      refine ⟨⟨(fun h => by cases h), ?_⟩, (fun h => by cases h), fun _ => rfl⟩
      rintro ⟨h, hp, hhid, _⟩
      exact absurd hhid (hnone hg h hp)
  | some r =>
      dsimp only
      obtain ⟨hrp, hrid⟩ := hsome r hg
      have htrue : (grilio_channel_cancel_request w id notify).1 = true :=
        (cancel_request_true_iff w id notify hid hwf).2 ⟨r, hrp, hrid⟩
      by_cases hq : (w.req r).queue = some queue
      · rw [if_pos hq]
        exact ⟨⟨fun _ => ⟨r, hrp, hrid, hq⟩, fun _ => htrue⟩, fun _ => rfl,
          fun hf => by rw [htrue] at hf; cases hf⟩
      · rw [if_neg hq]
        refine ⟨⟨(fun h => by cases h), ?_⟩, (fun h => by cases h), fun _ => rfl⟩
        rintro ⟨h, hp, hhid, hhq⟩
        have : h = r := (huniq h hp).2 r hrp (hhid.trans hrid.symm)
        subst this
        exact absurd hhq hq

theorem queue_cancel_request_own_witness :
    (WellFormed sampleWaiting ∧ (sampleWaiting.req 1).id = 2 ∧
      (sampleWaiting.req 1).queue = none ∧
      (grilio_queue_cancel_request sampleWaiting 0 2 true).1 = false) ∧
    (grilio_queue_cancel_request sampleWaiting 0 2 true).2 = sampleWaiting ∧
    grilio_queue_cancel_request sampleWaiting 0 1 true
      = grilio_channel_cancel_request sampleWaiting 1 true :=
  ⟨by decide,
    (queue_cancel_request_own sampleWaiting 0 2 true (by decide) (by decide)).2.2 (by decide),
    (queue_cancel_request_own sampleWaiting 0 1 true (by decide) (by decide)).2.1 (by decide)⟩

/-- C11: the claim fails for a channel made with a subscription. In
`sampleSubscribed` the channel is not connected and a request waits in the
send queue; the write callback (its watch exists since
`grilio_channel_new_fd`) writes the subscription and goes on to write the
whole frame of the request, and the channel is still not connected. -/
theorem frame_written_before_connected :
    sampleSubscribed.chan.connected = false ∧ sampleSubscribed.chan.write_watch_id = true ∧
    sampleSubscribed.chan.fifo = [0] ∧ sampleSubscribed.wire = [] ∧
    (grilio_channel_write_callback Endian.little sampleSubscribed).chan.connected = false ∧
    (grilio_channel_write_callback Endian.little sampleSubscribed).wire
      = [83, 85, 66, 49] ++ frameOf Endian.little 51 1 [7, 8, 9] := by
  decide

/-- C10: the claim fails for a request cancelled with
`grilio_channel_cancel_request` while it is in transmission. In
`sampleReleased` request 0 is in transmission with 5 of its 15 bytes written,
and its owner has dropped its reference. The cancellation drops the
reference of the response table and then one more, the last one, so the
request is released (its buffer is freed) while it still is the request in
transmission with 10 bytes to write: the rest of the frame would be read
from a freed buffer. -/
theorem cancel_frees_request_in_transmission :
    sampleReleased.chan.send_req = some 0 ∧ sampleReleased.chan.send_pos = 5 ∧
    (sampleReleased.req 0).bytes.length = 15 ∧ (sampleReleased.req 0).refcount = 2 ∧
    Event.freed 0 ∉ sampleReleased.trace ∧
    (grilio_channel_cancel_request sampleReleased 1 true).1 = true ∧
    Event.freed 0 ∈ (grilio_channel_cancel_request sampleReleased 1 true).2.trace ∧
    (grilio_channel_cancel_request sampleReleased 1 true).2.chan.send_req = some 0 ∧
    (grilio_channel_cancel_request sampleReleased 1 true).2.chan.send_pos = 5 ∧
    (grilio_channel_cancel_request sampleReleased 1 true).2.wire.length = 5 := by
  decide

theorem WellFormed.linked {w : World} (hw : WellFormed w) : QueueLinked w :=
  ⟨hw.back, hw.member, hw.nodup⟩

/-- Steps that leave the queues and the queue of every request alone keep
the links. -/
theorem linked_of_eq {w w' : World} (h : QueueLinked w) (hq : w'.queues = w.queues)
    (hr : ∀ x, (w'.req x).queue = (w.req x).queue) : QueueLinked w' := by
  refine ⟨fun x q hx => ?_, fun x q hx => ?_, fun q => ?_⟩
  · rw [queue_of_eq hq]; exact h.1 x q (by rw [← hr x]; exact hx)
  · rw [hr x]; exact h.2.1 x q (by rw [← queue_of_eq hq]; exact hx)
  · rw [queue_of_eq hq]; exact h.2.2 q

theorem unqueued_of_eq {w w' : World} {x : Nat} (h : Unqueued w x) (hq : w'.queues = w.queues)
    (hr : (w'.req x).queue = (w.req x).queue) : Unqueued w' x :=
  ⟨hr.trans h.1, fun q => by rw [queue_of_eq hq]; exact h.2 q⟩

theorem linked_remove {w : World} (h : QueueLinked w) (r : Nat) :
    QueueLinked (grilio_queue_remove w r) ∧ Unqueued (grilio_queue_remove w r) r ∧
    ∀ x, Unqueued w x → Unqueued (grilio_queue_remove w r) x := by
  have hself := queue_remove_queue_self w r (h.1 r)
  have hmem : ∀ q x, x ∈ ((grilio_queue_remove w r).queue q).reqs →
      x ∈ (w.queue q).reqs ∧ x ≠ r := by
    intro q x hx
    rw [queue_remove_reqs] at hx
    split at hx
    · exact ⟨List.mem_of_mem_erase hx,
        fun he => ((List.Nodup.mem_erase_iff (h.2.2 q)).1 hx).1 he⟩
    · rename_i hq
      exact ⟨hx, fun he => hq (he ▸ h.2.1 x q hx)⟩
  refine ⟨⟨fun x q hx => ?_, fun x q hx => ?_, fun q => ?_⟩, ⟨hself, fun q hm => ?_⟩,
    fun x hx => ⟨?_, fun q hm => ?_⟩⟩
  · have hxr : x ≠ r := by
      intro he; rw [he, hself] at hx; cases hx
    rw [queue_remove_queue_other w r x hxr] at hx
    rw [queue_remove_reqs]
    split
    · exact (List.mem_erase_of_ne hxr).2 (h.1 x q hx)
    · exact h.1 x q hx
  · obtain ⟨hm, hne⟩ := hmem q x hx
    rw [queue_remove_queue_other w r x hne]
    exact h.2.1 x q hm
  · rw [queue_remove_reqs]
    split
    · exact (h.2.2 q).erase r
    · exact h.2.2 q
  · exact (hmem q r hm).2 rfl
  · by_cases hxr : x = r
    · rw [hxr]; exact hself
    · rw [queue_remove_queue_other w r x hxr]; exact hx.1
  · exact hx.2 q (hmem q x hm).1

theorem foldl_ref_spec (l : List Nat) : ∀ w : World,
    (l.foldl grilio_request_ref w).chan = w.chan ∧
    (l.foldl grilio_request_ref w).trace = w.trace ∧
    (l.foldl grilio_request_ref w).queues = w.queues ∧
    (l.foldl grilio_request_ref w).now = w.now ∧
    (l.foldl grilio_request_ref w).reqs.length = w.reqs.length ∧
    ∀ x, sameReq ((l.foldl grilio_request_ref w).req x) (w.req x) := by
  induction l with
  | nil => intro w; exact ⟨rfl, rfl, rfl, rfl, rfl, fun x => sameReq_refl _⟩
  | cons a l ih =>
      intro w
      obtain ⟨h1, h2, h3, h4, h5, h6⟩ := ih (grilio_request_ref w a)
      simp only [List.foldl_cons]
      exact ⟨h1, h2, h3, h4, by rw [h5]; simp, fun x => sameReq_trans (h6 x) (ref_req w a x)⟩

theorem TableOk.key_iff {w : World} (ht : TableOk w) {h : Nat}
    (hin : ∃ kv ∈ w.chan.resp_table, kv.2 = h) :
    ∀ kv ∈ w.chan.resp_table, (kv.1 = (w.req h).id ↔ kv.2 = h) := by
  obtain ⟨kv0, hm0, h0⟩ := hin
  intro kv hm
  constructor
  · intro hk
    have hk0 : kv0.1 = (w.req h).id := by rw [← h0]; exact (ht.2 kv0 hm0).symm
    have : kv = kv0 := by
      have hinj := List.inj_on_of_nodup_map ht.1 hm hm0
      exact hinj (hk.trans hk0.symm)
    rw [this]; exact h0
  · intro hk
    rw [← hk]; exact (ht.2 kv hm).symm

theorem TableOk.values_nodup {w : World} (ht : TableOk w) :
    (w.chan.resp_table.map (fun kv => kv.2)).Nodup := by
  have hnd : w.chan.resp_table.Nodup := List.Nodup.of_map _ ht.1
  refine List.Nodup.map_on ?_ hnd
  intro a ha b hb hab
  have hk : a.1 = b.1 := by rw [← ht.2 a ha, ← ht.2 b hb, hab]
  exact List.inj_on_of_nodup_map ht.1 ha hb hk

/-- One round of the second loop of `grilio_channel_timeout`, for a request
that is still in the table. -/
theorem timeout_round (w : World) (req : Nat) (ht : TableOk w) (hl : QueueLinked w)
    (hin : ∃ kv ∈ w.chan.resp_table, kv.2 = req) :
    let w' := grilio_request_unref
      ((grilio_queue_remove (g_hash_table_remove w (w.req req).id).2 req).emit
        (.response req GRILIO_STATUS_TIMEOUT [])) req
    (g_hash_table_remove w (w.req req).id).1 = true ∧
    w'.chan = { w.chan with resp_table := w.chan.resp_table.filter (fun kv => kv.2 ≠ req) } ∧
    responses w'.trace = responses w.trace ++ [(req, GRILIO_STATUS_TIMEOUT, [])] ∧
    w'.reqs.length = w.reqs.length ∧
    (∀ x, (w'.req x).id = (w.req x).id ∧ (w'.req x).status = (w.req x).status ∧
      (w'.req x).deadline = (w.req x).deadline ∧ (w'.req x).response = (w.req x).response ∧
      (x ≠ req → (w'.req x).queue = (w.req x).queue)) ∧
    QueueLinked w' ∧ Unqueued w' req ∧ (∀ x, Unqueued w x → Unqueued w' x) ∧ TableOk w' := by
  intro w'
  have hfound : (g_hash_table_remove w (w.req req).id).1 = true := by
    rw [hash_remove_found, lookup_isSome]
    obtain ⟨kv, hm, hk⟩ := hin
    exact ⟨kv, hm, by rw [← hk]; exact (ht.2 kv hm).symm⟩
  have hfilter : w.chan.resp_table.filter (fun kv => kv.1 ≠ (w.req req).id)
      = w.chan.resp_table.filter (fun kv => kv.2 ≠ req) := by
    apply List.filter_congr
    intro kv hm
    have := ht.key_iff hin kv hm
    by_cases hk : kv.2 = req
    · simp [hk, this.2 hk]
    · have : kv.1 ≠ (w.req req).id := fun h1 => hk (this.1 h1)
      simp [hk, this]
  have hchan : w'.chan
      = { w.chan with resp_table := w.chan.resp_table.filter (fun kv => kv.2 ≠ req) } := by
    show (grilio_request_unref _ req).chan = _
    rw [unref_chan, emit_chan, queue_remove_chan, hash_remove_chan, ← hfilter]
    rfl
  have hl1 : QueueLinked (g_hash_table_remove w (w.req req).id).2 :=
    linked_of_eq hl (hash_remove_queues _ _) (hash_remove_queue _ _)
  obtain ⟨hl2, hu2, hk2⟩ := linked_remove hl1 req
  have hq' : w'.queues = (grilio_queue_remove (g_hash_table_remove w (w.req req).id).2 req).queues := by
    show (grilio_request_unref _ req).queues = _
    rw [unref_queues, emit_queues]
  have hr' : ∀ x, (w'.req x).queue
      = ((grilio_queue_remove (g_hash_table_remove w (w.req req).id).2 req).req x).queue := by
    intro x
    show ((grilio_request_unref _ req).req x).queue = _
    rw [unref_queue, emit_req]
  refine ⟨hfound, hchan, ?_, ?_, ?_, linked_of_eq hl2 hq' hr', unqueued_of_eq hu2 hq' (hr' req), ?_, ?_⟩
  · show responses (grilio_request_unref _ req).trace = _
    simp [responses_singleton]
  · show (grilio_request_unref _ req).reqs.length = _
    simp
  · intro x
    refine ⟨?_, ?_, ?_, ?_, ?_⟩
    · show ((grilio_request_unref _ req).req x).id = _
      simp
    · show ((grilio_request_unref _ req).req x).status = _
      simp
    · show ((grilio_request_unref _ req).req x).deadline = _
      simp
    · show ((grilio_request_unref _ req).req x).response = _
      simp
    · intro hx
      rw [hr' x, queue_remove_queue_other _ req x hx, hash_remove_queue]
  · intro x hx
    have h1 : Unqueued (g_hash_table_remove w (w.req req).id).2 x :=
      unqueued_of_eq hx (hash_remove_queues _ _) (hash_remove_queue _ _ _)
    exact unqueued_of_eq (hk2 x h1) hq' (hr' x)
  · constructor
    · rw [hchan]
      exact List.Nodup.sublist (List.Sublist.map _ (List.filter_sublist _)) ht.1
    · intro kv hm
      rw [hchan] at hm
      have hm' := (List.mem_filter.1 hm).1
      have : (w'.req kv.2).id = (w.req kv.2).id := by
        show ((grilio_request_unref _ req).req kv.2).id = _
        simp
      rw [this]
      exact ht.2 kv hm'

/-- The second loop of `grilio_channel_timeout` over requests that are all in
the table: each is removed and notified, in order. -/
theorem timeout_expired_spec (l : List Nat) : ∀ w : World, TableOk w → QueueLinked w →
    l.Nodup → (∀ h ∈ l, ∃ kv ∈ w.chan.resp_table, kv.2 = h) →
    (grilio_channel_timeout_expired w l).chan
      = { w.chan with resp_table := w.chan.resp_table.filter (fun kv => kv.2 ∉ l) } ∧
    responses (grilio_channel_timeout_expired w l).trace
      = responses w.trace ++ l.map (fun h => (h, GRILIO_STATUS_TIMEOUT, [])) ∧
    (grilio_channel_timeout_expired w l).reqs.length = w.reqs.length ∧
    (∀ x, ((grilio_channel_timeout_expired w l).req x).id = (w.req x).id ∧
      ((grilio_channel_timeout_expired w l).req x).status = (w.req x).status ∧
      ((grilio_channel_timeout_expired w l).req x).deadline = (w.req x).deadline ∧
      ((grilio_channel_timeout_expired w l).req x).response = (w.req x).response ∧
      (x ∉ l → ((grilio_channel_timeout_expired w l).req x).queue = (w.req x).queue)) ∧
    QueueLinked (grilio_channel_timeout_expired w l) ∧
    (∀ h ∈ l, Unqueued (grilio_channel_timeout_expired w l) h) ∧
    (∀ x, Unqueued w x → Unqueued (grilio_channel_timeout_expired w l) x) ∧
    TableOk (grilio_channel_timeout_expired w l) := by
  induction l with
  | nil =>
      intro w ht hl _ _
      refine ⟨?_, by simp [grilio_channel_timeout_expired], rfl,
        fun x => ⟨rfl, rfl, rfl, rfl, fun _ => rfl⟩, hl, (fun h hh => absurd hh (List.not_mem_nil h)),
        fun x hx => hx, ht⟩
      simp [grilio_channel_timeout_expired]
  | cons req rest ih =>
      intro w ht hl hnd hin
      obtain ⟨hfound, hchan, hresp, hlen, hreq, hl', hu', hk', ht'⟩ :=
        timeout_round w req ht hl (hin req (List.mem_cons_self _ _))
      have hnd' : rest.Nodup := (List.nodup_cons.1 hnd).2
      have hnotin : req ∉ rest := (List.nodup_cons.1 hnd).1
      have hstep : grilio_channel_timeout_expired w (req :: rest)
          = grilio_channel_timeout_expired (grilio_request_unref
              ((grilio_queue_remove (g_hash_table_remove w (w.req req).id).2 req).emit
                (.response req GRILIO_STATUS_TIMEOUT [])) req) rest := by
        simp only [grilio_channel_timeout_expired, hfound, if_true]
      have hin' : ∀ h ∈ rest, ∃ kv ∈ (grilio_request_unref
              ((grilio_queue_remove (g_hash_table_remove w (w.req req).id).2 req).emit
                (.response req GRILIO_STATUS_TIMEOUT [])) req).chan.resp_table, kv.2 = h := by
        intro h hh
        obtain ⟨kv, hm, hk⟩ := hin h (List.mem_cons_of_mem _ hh)
        refine ⟨kv, ?_, hk⟩
        rw [hchan]
        refine List.mem_filter.2 ⟨hm, ?_⟩
        have : kv.2 ≠ req := by rw [hk]; exact fun he => hnotin (he ▸ hh)
        simpa using this
      obtain ⟨i1, i2, i3, i4, i5, i6, i7, i8⟩ := ih _ ht' hl' hnd' hin'
      rw [hstep]
      refine ⟨?_, ?_, i3.trans hlen, ?_, i5, ?_, fun x hx => i7 x (hk' x hx), i8⟩
      · rw [i1, hchan]
        simp only [List.filter_filter, List.mem_cons, not_or]
        congr 1
        apply List.filter_congr
        intro kv _
        by_cases h1 : kv.2 = req <;> by_cases h2 : kv.2 ∈ rest <;> simp [h1, h2]
      · rw [i2, hresp]
        simp
      · intro x
        obtain ⟨a1, a2, a3, a4, a5⟩ := i4 x
        obtain ⟨b1, b2, b3, b4, b5⟩ := hreq x
        refine ⟨a1.trans b1, a2.trans b2, a3.trans b3, a4.trans b4, fun hx => ?_⟩
        simp only [List.mem_cons, not_or] at hx
        exact (a5 hx.2).trans (b5 hx.1)
      · intro h hh
        rcases List.mem_cons.1 hh with he | he
        · rw [he]; exact i7 req hu'
        · exact i6 h he

theorem reset_timeout_table (w : World) :
    (grilio_channel_reset_timeout w).chan.resp_table = w.chan.resp_table ∧
    (grilio_channel_reset_timeout w).chan.fifo = w.chan.fifo ∧
    (grilio_channel_reset_timeout w).chan.send_req = w.chan.send_req ∧
    (grilio_channel_reset_timeout w).chan.last_req_id = w.chan.last_req_id := by
  unfold grilio_channel_reset_timeout
  dsimp only
  split
  · split <;> exact ⟨rfl, rfl, rfl, rfl⟩
  · split <;> exact ⟨rfl, rfl, rfl, rfl⟩

/-- C19: when `grilio_channel_timeout` runs in a well-formed world, the
requests of the response table whose deadline is not zero and less than
`now` (`expiredAt`) get one response callback each, with the status TIMEOUT
and no data, and nobody else gets one; exactly these leave the table, and
they leave their queues; the other entries of the table stay, in order; the
send queue and the status of every request are unchanged. -/
theorem timer_fire (w : World) (hwf : WellFormed w) (ht : TableOk w) :
    responses (grilio_channel_timeout w).trace
      = responses w.trace
        ++ (expiredAt w).reverse.map (fun h => (h, GRILIO_STATUS_TIMEOUT, [])) ∧
    (grilio_channel_timeout w).chan.resp_table
      = w.chan.resp_table.filter
          (fun kv => ¬ ((w.req kv.2).deadline ≠ 0 ∧ (w.req kv.2).deadline < w.now)) ∧
    (∀ h ∈ expiredAt w, Unqueued (grilio_channel_timeout w) h) ∧
    (grilio_channel_timeout w).chan.fifo = w.chan.fifo ∧
    (∀ x, ((grilio_channel_timeout w).req x).status = (w.req x).status ∧
      (x ∉ expiredAt w → ((grilio_channel_timeout w).req x).queue = (w.req x).queue)) := by
  have hsub : ∀ h ∈ expiredAt w, ∃ kv ∈ w.chan.resp_table, kv.2 = h := by
    intro h hh
    have := (List.mem_filter.1 hh).1
    simpa using this
  have hexp : ∀ h, h ∈ expiredAt w ↔ (∃ kv ∈ w.chan.resp_table, kv.2 = h) ∧
      ((w.req h).deadline ≠ 0 ∧ (w.req h).deadline < w.now) := by
    intro h
    simp [expiredAt, List.mem_filter]
  have hnd : (expiredAt w).reverse.Nodup :=
    List.nodup_reverse.2 (List.Nodup.filter _ ht.values_nodup)
  obtain ⟨f1, f2, f3, f4, f5, f6⟩ := foldl_ref_spec (expiredAt w)
    { w with chan := { w.chan with timeout_id := none, next_deadline := 0 } }
  have ht2 : TableOk ((expiredAt w).foldl grilio_request_ref
      { w with chan := { w.chan with timeout_id := none, next_deadline := 0 } }) := by
    refine ⟨by rw [f1]; exact ht.1, fun kv hm => ?_⟩
    rw [f1] at hm
    rw [(f6 kv.2).2.1]
    exact ht.2 kv hm
  have hl2 : QueueLinked ((expiredAt w).foldl grilio_request_ref
      { w with chan := { w.chan with timeout_id := none, next_deadline := 0 } }) :=
    linked_of_eq hwf.linked f3 (fun x => (f6 x).2.2.2.2.1)
  have hin2 : ∀ h ∈ (expiredAt w).reverse, ∃ kv ∈ ((expiredAt w).foldl grilio_request_ref
      { w with chan := { w.chan with timeout_id := none, next_deadline := 0 } }).chan.resp_table,
      kv.2 = h := by
    intro h hh
    rw [f1]
    exact hsub h (List.mem_reverse.1 hh)
  obtain ⟨e1, e2, e3, e4, e5, e6, e7, e8⟩ := timeout_expired_spec _ _ ht2 hl2 hnd hin2
  have hdef : grilio_channel_timeout w = grilio_channel_reset_timeout
      (grilio_channel_timeout_expired ((expiredAt w).foldl grilio_request_ref
        { w with chan := { w.chan with timeout_id := none, next_deadline := 0 } })
        (expiredAt w).reverse) := rfl
  rw [hdef]
  obtain ⟨r1, r2, r3, r4⟩ := reset_timeout_table
    (grilio_channel_timeout_expired ((expiredAt w).foldl grilio_request_ref
        { w with chan := { w.chan with timeout_id := none, next_deadline := 0 } })
        (expiredAt w).reverse)
  refine ⟨?_, ?_, ?_, ?_, ?_⟩
  · rw [reset_timeout_trace, e2, f2]
  · rw [r1, e1, f1]
    apply List.filter_congr
    intro kv hm
    have := hexp kv.2
    simp only [List.mem_reverse]
    by_cases hk : kv.2 ∈ expiredAt w
    · simp [hk, (this.1 hk).2]
    · have hn : ¬ ((w.req kv.2).deadline ≠ 0 ∧ (w.req kv.2).deadline < w.now) :=
        fun hc => hk (this.2 ⟨⟨kv, hm, rfl⟩, hc⟩)
      simp only [hk, not_false_eq_true, decide_True, hn]
  · intro h hh
    have := e6 h (List.mem_reverse.2 hh)
    exact unqueued_of_eq this (reset_timeout_queues _) (by rw [reset_timeout_req])
  · rw [r2, e1, f1]
  · intro x
    rw [reset_timeout_req]
    obtain ⟨a1, a2, a3, a4, a5⟩ := e4 x
    refine ⟨a2.trans (f6 x).2.2.1, fun hx => ?_⟩
    rw [a5 (by simpa using hx)]
    exact (f6 x).2.2.2.2.1

theorem timer_fire_witness :
    (WellFormed sampleTimed ∧ TableOk sampleTimed ∧ expiredAt sampleTimed = [0] ∧
      sampleTimed.chan.resp_table = [(1, 0), (2, 1)]) ∧
    responses (grilio_channel_timeout sampleTimed).trace
      = responses sampleTimed.trace
        ++ (expiredAt sampleTimed).reverse.map (fun h => (h, GRILIO_STATUS_TIMEOUT, [])) ∧
    (grilio_channel_timeout sampleTimed).chan.resp_table
      = sampleTimed.chan.resp_table.filter
          (fun kv => ¬ ((sampleTimed.req kv.2).deadline ≠ 0 ∧
            (sampleTimed.req kv.2).deadline < sampleTimed.now)) :=
  ⟨by decide, (timer_fire sampleTimed (by decide) (by decide)).1,
    (timer_fire sampleTimed (by decide) (by decide)).2.1⟩

theorem sane_of_wellFormed {w : World} (hwf : WellFormed w) (ht : TableOk w) (hi : IdsSet w) :
    Sane w where
  linked := hwf.linked
  table := ht
  fifo := hwf.2.2.1
  send := fun s hs => hwf.2.2.2.2.2 s hs
  live := fun h hh => ⟨(hwf.2.2.2.2.1 h hh).1, hi h hh⟩
  uniq := fun h hh => (hwf.2.2.2.2.1 h hh).2

/-- The effect of `grilio_channel_cancel_request` on the request that has
the id, in a consistent world. -/
theorem cancel_request_effect (w : World) (id : Nat) (notify : Bool) (hs : Sane w)
    (req : Nat) (hp : req ∈ Pending w) (hi : (w.req req).id = id) :
    (grilio_channel_cancel_request w id notify).1 = true ∧
    CancelEffect w (grilio_channel_cancel_request w id notify).2 req id
      (if (w.chan.send_req = some req → (w.req req).status ≠ .CANCELLED) ∧ notify = true ∧
          (w.req req).response = true
        then [(req, GRILIO_STATUS_CANCELLED, [])] else []) ∧
    (grilio_channel_cancel_request w id notify).2.chan.fifo
      = w.chan.fifo.filter (fun x => x ≠ req) := by
  have hid : id ≠ 0 := by rw [← hi]; exact (hs.live req hp).2
  have hbk : ∀ r, ∀ q, (w.req r).queue = some q → r ∈ (w.queue q).reqs :=
    fun r q => hs.linked.1 r q
  have hnotin : ∀ r, r ∉ w.chan.fifo → w.chan.fifo.filter (fun x => x ≠ r) = w.chan.fifo := by
    intro r hr
    rw [List.filter_eq_self]
    intro x hx
    simpa using fun hxr : x = r => hr (hxr ▸ hx)
  rcases cancel_request_cases w id notify hid with
    ⟨r, hsr, hri, hr⟩ | ⟨r, hns, hm, hri, hr⟩ | ⟨r, hns, hnf, hl, hr⟩ | ⟨hns, hnf, hl, hr⟩
  · have hrp : r ∈ Pending w := (mem_pending w r).2 (Or.inl hsr)
    have he : req = r := hs.uniq req hp r hrp (hi.trans hri.symm)
    subst he
    obtain ⟨hce, hf⟩ := cancel_sending_effect w req id notify (hs.live req hp).1 (hbk req)
    rw [hr]
    refine ⟨rfl, ?_, ?_⟩
    · have : ((w.chan.send_req = some req → (w.req req).status ≠ .CANCELLED) ∧ notify = true ∧
          (w.req req).response = true) ↔ ((w.req req).status ≠ .CANCELLED ∧ notify = true ∧
          (w.req req).response = true) := by
        constructor
        · exact fun h => ⟨h.1 hsr, h.2⟩
        · exact fun h => ⟨fun _ => h.1, h.2⟩
      simp only [this]
      exact hce
    · rw [hf, hnotin req (hs.send req hsr)]
  · have hrp : r ∈ Pending w := (mem_pending w r).2 (Or.inr (Or.inl hm))
    have he : req = r := hs.uniq req hp r hrp (hi.trans hri.symm)
    subst he
    obtain ⟨hce, hf⟩ := cancel_queued_effect w req id notify (hs.live req hp).1 (hbk req)
    rw [hr]
    refine ⟨rfl, ?_, ?_⟩
    · have hne : w.chan.send_req ≠ some req := fun h => hs.send req h hm
      simp only [hne, false_implies, true_and]
      exact hce
    · rw [hf, List.Nodup.erase_eq_filter hs.fifo]
      congr 1
      funext x
      by_cases hx : x = req <;> simp [hx]
  · have hkv := lookup_some_mem _ _ _ hl
    have hri : (w.req r).id = id := hs.table.2 _ hkv
    have hrp : r ∈ Pending w := (mem_pending w r).2 (Or.inr (Or.inr ⟨_, hkv, rfl⟩))
    have he : req = r := hs.uniq req hp r hrp (hi.trans hri.symm)
    subst he
    obtain ⟨hce, hf⟩ := cancel_sent_effect w req id notify (hs.live req hp).1 (hbk req)
    rw [hr]
    refine ⟨rfl, ?_, ?_⟩
    · have hne : w.chan.send_req ≠ some req := fun h => hns req h hri
      simp only [hne, false_implies, true_and]
      exact hce
    · rw [hf, hnotin req (fun hm => hnf req hm hri)]
  · exfalso
    rcases (mem_pending w req).1 hp with h1 | h1 | ⟨kv, hkv, hk⟩
    · exact hns req h1 hi
    · exact hnf req h1 hi
    · have : (g_hash_table_lookup w.chan.resp_table id).isSome = true :=
        (lookup_isSome _ _).2 ⟨kv, hkv, by rw [← hs.table.2 kv hkv, hk, hi]⟩
      rw [hl] at this
      cases this

theorem CancelEffect.ids {w w' : World} {req id : Nat} {cb : List (Nat × Int × List Nat)}
    (h : CancelEffect w w' req id cb) (x : Nat) : (w'.req x).id = (w.req x).id := by
  by_cases hx : x = req
  · rw [hx]; exact h.rid
  · exact (h.other x hx).2.1

theorem CancelEffect.table_values {w w' : World} {req id : Nat}
    {cb : List (Nat × Int × List Nat)} (h : CancelEffect w w' req id cb) (hs : Sane w)
    (hp : req ∈ Pending w) (hi : (w.req req).id = id) :
    w'.chan.resp_table = w.chan.resp_table.filter (fun kv => kv.2 ≠ req) := by
  rw [h.table]
  apply List.filter_congr
  intro kv hm
  have hkp : kv.2 ∈ Pending w := (mem_pending w kv.2).2 (Or.inr (Or.inr ⟨kv, hm, rfl⟩))
  by_cases hk : kv.2 = req
  · have : kv.1 = id := by rw [← hs.table.2 kv hm, hk, hi]
    simp [hk, this]
  · have : kv.1 ≠ id := by
      intro hc
      exact hk (hs.uniq kv.2 hkp req hp (by rw [hs.table.2 kv hm, hc, hi]))
    simp [hk, this]

/-- The links between requests and queues after the request `req` has been
taken out of its queue. -/
theorem linked_drop {w w' : World} {req : Nat} (hl : QueueLinked w)
    (hmembers : ∀ q, (w'.queue q).reqs
      = if (w.req req).queue = some q then (w.queue q).reqs.erase req else (w.queue q).reqs)
    (hqueue : (w'.req req).queue = none)
    (hq : ∀ x, x ≠ req → (w'.req x).queue = (w.req x).queue) :
    QueueLinked w' ∧ Unqueued w' req ∧ ∀ x, Unqueued w x → Unqueued w' x := by
  have hmem : ∀ q x, x ∈ (w'.queue q).reqs → x ∈ (w.queue q).reqs ∧ x ≠ req := by
    intro q x hx
    rw [hmembers] at hx
    split at hx
    · exact ⟨List.mem_of_mem_erase hx,
        fun he => ((List.Nodup.mem_erase_iff (hl.2.2 q)).1 hx).1 he⟩
    · rename_i hq
      exact ⟨hx, fun he => hq (he ▸ hl.2.1 x q hx)⟩
  refine ⟨⟨fun x q hx => ?_, fun x q hx => ?_, fun q => ?_⟩, ⟨hqueue, fun q hm => ?_⟩,
    fun x hx => ⟨?_, fun q hm => ?_⟩⟩
  · have hxr : x ≠ req := by
      intro he; rw [he, hqueue] at hx; cases hx
    rw [hq x hxr] at hx
    rw [hmembers]
    split
    · exact (List.mem_erase_of_ne hxr).2 (hl.1 x q hx)
    · exact hl.1 x q hx
  · obtain ⟨hm, hne⟩ := hmem q x hx
    rw [hq x hne]
    exact hl.2.1 x q hm
  · rw [hmembers]
    split
    · exact (hl.2.2 q).erase req
    · exact hl.2.2 q
  · exact (hmem q req hm).2 rfl
  · by_cases hxr : x = req
    · rw [hxr]; exact hqueue
    · rw [hq x hxr]; exact hx.1
  · exact hx.2 q (hmem q x hm).1

theorem CancelEffect.links {w w' : World} {req id : Nat} {cb : List (Nat × Int × List Nat)}
    (h : CancelEffect w w' req id cb) (hl : QueueLinked w) :
    QueueLinked w' ∧ Unqueued w' req ∧ ∀ x, Unqueued w x → Unqueued w' x :=
  linked_drop hl h.members h.queue (fun x hx => (h.other x hx).2.2.2.2.1)

/-- A cancellation keeps the world consistent; the requests the channel holds
afterwards are those it held before, without the cancelled one unless it is
in transmission. -/
theorem sane_after_cancel {w w' : World} {req id : Nat} {cb : List (Nat × Int × List Nat)}
    (hs : Sane w) (hp : req ∈ Pending w) (hi : (w.req req).id = id)
    (h : CancelEffect w w' req id cb)
    (hf : w'.chan.fifo = w.chan.fifo.filter (fun x => x ≠ req)) :
    Sane w' ∧
    (∀ x, x ∈ Pending w' ↔ x ∈ Pending w ∧ (x ≠ req ∨ w.chan.send_req = some req)) := by
  have htab := h.table_values hs hp hi
  have hpend : ∀ x, x ∈ Pending w' ↔ x ∈ Pending w ∧ (x ≠ req ∨ w.chan.send_req = some req) := by
    intro x
    rw [mem_pending, mem_pending, h.send_req, hf, htab]
    simp only [List.mem_filter, decide_eq_true_eq, ne_eq]
    constructor
    · rintro (h1 | ⟨h1, h2⟩ | ⟨kv, ⟨h1, h2⟩, h3⟩)
      · by_cases hx : x = req
        · exact ⟨Or.inl h1, Or.inr (hx ▸ h1)⟩
        · exact ⟨Or.inl h1, Or.inl hx⟩
      · exact ⟨Or.inr (Or.inl h1), Or.inl h2⟩
      · exact ⟨Or.inr (Or.inr ⟨kv, h1, h3⟩), Or.inl (h3 ▸ h2)⟩
    · rintro ⟨h1 | h1 | ⟨kv, h1, h3⟩, h2⟩
      · exact Or.inl h1
      · rcases h2 with h2 | h2
        · exact Or.inr (Or.inl ⟨h1, h2⟩)
        · by_cases hx : x = req
          · exact Or.inl (hx ▸ h2)
          · exact Or.inr (Or.inl ⟨h1, hx⟩)
      · rcases h2 with h2 | h2
        · exact Or.inr (Or.inr ⟨kv, ⟨h1, h3 ▸ h2⟩, h3⟩)
        · by_cases hx : x = req
          · exact Or.inl (hx ▸ h2)
          · exact Or.inr (Or.inr ⟨kv, ⟨h1, h3 ▸ hx⟩, h3⟩)
  refine ⟨⟨(h.links hs.linked).1, ?_, ?_, ?_, ?_, ?_⟩, hpend⟩
  · constructor
    · rw [htab]
      exact List.Nodup.sublist (List.Sublist.map _ (List.filter_sublist _)) hs.table.1
    · intro kv hm
      rw [htab] at hm
      rw [h.ids]
      exact hs.table.2 kv (List.mem_filter.1 hm).1
  · rw [hf]; exact hs.fifo.filter _
  · intro s hsr hm
    rw [h.send_req] at hsr
    rw [hf] at hm
    exact hs.send s hsr (List.mem_filter.1 hm).1
  · intro x hx
    have := hs.live x ((hpend x).1 hx).1
    rw [h.len, h.ids]
    exact this
  · intro x hx k hk hik
    rw [h.ids, h.ids] at hik
    exact hs.uniq x ((hpend x).1 hx).1 k ((hpend k).1 hk).1 hik

/-- The first half of a round of `grilio_queue_cancel_all`: the head of the
queue is taken off the list and forgets its queue. -/
theorem queue_pop_sane (w : World) (q req : Nat) (rest : List Nat) (hs : Sane w)
    (hl : (w.queue q).reqs = req :: rest) :
    let w2 := (w.setQueue q { w.queue q with reqs := rest }).setReq req
      { (w.setQueue q { w.queue q with reqs := rest }).req req with queue := none }
    Sane w2 ∧ w2.chan = w.chan ∧ w2.trace = w.trace ∧ w2.reqs.length = w.reqs.length ∧
    (w2.queue q).reqs = rest ∧ (∀ q', q' ≠ q → (w2.queue q').reqs = (w.queue q').reqs) ∧
    (w2.req req).queue = none ∧ (∀ x, x ≠ req → w2.req x = w.req x) ∧
    (∀ x, (w2.req x).id = (w.req x).id ∧ (w2.req x).status = (w.req x).status ∧
      (w2.req x).response = (w.req x).response) ∧
    (∀ x, x ∈ Pending w2 ↔ x ∈ Pending w) := by
  intro w2
  have hm : req ∈ (w.queue q).reqs := by rw [hl]; exact List.mem_cons_self _ _
  have hqlt : q < w.queues.length := mem_queue_lt w q req hm
  have hrq : (w.req req).queue = some q := hs.linked.2.1 req q hm
  have hrlt : req < w.reqs.length := queue_some_lt w req q hrq
  have hreq : ∀ x, w2.req x = if x = req then { w.req req with queue := none } else w.req x := by
    intro x
    show (World.setReq _ req _).req x = _
    rw [req_setReq]
    simp [hrlt]
  have hqueue : ∀ q', w2.queue q' = if q' = q then { w.queue q with reqs := rest }
      else w.queue q' := by
    intro q'
    show (World.setReq _ req _).queue q' = _
    rw [setReq_queue, queue_setQueue]
    simp [hqlt]
  have hchan : w2.chan = w.chan := rfl
  have hmembers : ∀ q', (w2.queue q').reqs
      = if (w.req req).queue = some q' then (w.queue q').reqs.erase req
        else (w.queue q').reqs := by
    intro q'
    rw [hqueue, hrq]
    by_cases hq' : q' = q
    · subst hq'
      simp [hl]
    · have : ¬ (some q = some q') := by
        intro h; cases h; exact hq' rfl
      simp [hq', this]
  have hq2 : (w2.req req).queue = none := by rw [hreq]; simp
  have hother : ∀ x, x ≠ req → w2.req x = w.req x := by
    intro x hx; rw [hreq]; simp [hx]
  have hfields : ∀ x, (w2.req x).id = (w.req x).id ∧ (w2.req x).status = (w.req x).status ∧
      (w2.req x).response = (w.req x).response := by
    intro x
    rw [hreq]
    split
    · rename_i hx; rw [hx]; exact ⟨rfl, rfl, rfl⟩
    · exact ⟨rfl, rfl, rfl⟩
  have hpend : ∀ x, x ∈ Pending w2 ↔ x ∈ Pending w := by
    intro x
    rw [mem_pending, mem_pending, hchan]
  have hlinked := linked_drop hs.linked hmembers hq2
    (fun x hx => by rw [hother x hx])
  refine ⟨⟨hlinked.1, ?_, hs.fifo, hs.send, ?_, ?_⟩, hchan, rfl, by simp [w2], ?_, ?_, hq2,
    hother, hfields, hpend⟩
  · exact ⟨hs.table.1, fun kv hkv => by rw [(hfields kv.2).1]; exact hs.table.2 kv hkv⟩
  · intro x hx
    have := hs.live x ((hpend x).1 hx)
    rw [(hfields x).1]
    exact ⟨by simpa [w2] using this.1, this.2⟩
  · intro x hx k hk hik
    rw [(hfields x).1, (hfields k).1] at hik
    exact hs.uniq x ((hpend x).1 hx) k ((hpend k).1 hk) hik
  · rw [hqueue]; simp
  · intro q' hq'
    rw [hqueue]; simp [hq']

/-- The loop of `grilio_queue_cancel_all` in a consistent world whose queue
members are all held by the channel and not cancelled yet. -/
theorem queue_cancel_all_spec (q : Nat) (notify : Bool) : ∀ (n : Nat) (w : World), Sane w →
    (∀ h ∈ (w.queue q).reqs, h ∈ Pending w ∧ (w.req h).status ≠ .CANCELLED) →
    (w.queue q).reqs.length ≤ n →
    responses (grilio_queue_cancel_all_loop w q notify n).trace
      = responses w.trace
        ++ ((w.queue q).reqs.filter (fun h => notify && (w.req h).response)).map
            (fun h => (h, GRILIO_STATUS_CANCELLED, [])) ∧
    ((grilio_queue_cancel_all_loop w q notify n).queue q).reqs = [] ∧
    (grilio_queue_cancel_all_loop w q notify n).chan.fifo
      = w.chan.fifo.filter (fun x => x ∉ (w.queue q).reqs) ∧
    (grilio_queue_cancel_all_loop w q notify n).chan.resp_table
      = w.chan.resp_table.filter (fun kv => kv.2 ∉ (w.queue q).reqs) ∧
    (grilio_queue_cancel_all_loop w q notify n).chan.send_req = w.chan.send_req ∧
    (∀ x, x ∉ (w.queue q).reqs →
      sameReq ((grilio_queue_cancel_all_loop w q notify n).req x) (w.req x)) ∧
    (∀ q', q' ≠ q →
      ((grilio_queue_cancel_all_loop w q notify n).queue q').reqs = (w.queue q').reqs) ∧
    (∀ h ∈ (w.queue q).reqs,
      ((grilio_queue_cancel_all_loop w q notify n).req h).status = .CANCELLED ∧
      ((grilio_queue_cancel_all_loop w q notify n).req h).queue = none) := by
  intro n
  induction n with
  | zero =>
      intro w hs hmem hn
      have hnil : (w.queue q).reqs = [] := List.length_eq_zero.1 (Nat.le_zero.1 hn)
      simp only [grilio_queue_cancel_all_loop, hnil]
      simp
      exact fun x => sameReq_refl _
  | succ n ih =>
      intro w hs hmem hn
      cases hl : (w.queue q).reqs with
      | nil =>
          have : grilio_queue_cancel_all_loop w q notify (n + 1) = w := by
            simp only [grilio_queue_cancel_all_loop, hl]
          rw [this, hl]
          simp
          exact fun x => sameReq_refl _
      | cons req rest =>
          obtain ⟨hs2, p1, p2, p3, p4, p5, p6, p7, p8, p9⟩ := queue_pop_sane w q req rest hs hl
          have hreqm : req ∈ (w.queue q).reqs := by rw [hl]; exact List.mem_cons_self _ _
          have hnd : (req :: rest).Nodup := by rw [← hl]; exact hs.linked.2.2 q
          have hnotin : req ∉ rest := (List.nodup_cons.1 hnd).1
          have hp2 : req ∈ Pending ((w.setQueue q { w.queue q with reqs := rest }).setReq req
              { (w.setQueue q { w.queue q with reqs := rest }).req req with queue := none }) :=
            (p9 req).2 (hmem req hreqm).1
          obtain ⟨_, hce, hf⟩ := cancel_request_effect _ _ notify hs2 req hp2 rfl
          obtain ⟨hs3, hpend3⟩ := sane_after_cancel hs2 hp2 rfl hce hf
          have hstep : grilio_queue_cancel_all_loop w q notify (n + 1)
              = grilio_queue_cancel_all_loop (grilio_channel_cancel_request
                  ((w.setQueue q { w.queue q with reqs := rest }).setReq req
                    { (w.setQueue q { w.queue q with reqs := rest }).req req with queue := none })
                  (((w.setQueue q { w.queue q with reqs := rest }).setReq req
                    { (w.setQueue q { w.queue q with reqs := rest }).req req with
                      queue := none }).req req).id notify).2 q notify n := by
            simp only [grilio_queue_cancel_all_loop, hl]
          have hq3 : ∀ q', ((grilio_channel_cancel_request
                  ((w.setQueue q { w.queue q with reqs := rest }).setReq req
                    { (w.setQueue q { w.queue q with reqs := rest }).req req with queue := none })
                  (((w.setQueue q { w.queue q with reqs := rest }).setReq req
                    { (w.setQueue q { w.queue q with reqs := rest }).req req with
                      queue := none }).req req).id notify).2.queue q').reqs
              = (((w.setQueue q { w.queue q with reqs := rest }).setReq req
                    { (w.setQueue q { w.queue q with reqs := rest }).req req with
                      queue := none }).queue q').reqs := by
            intro q'
            rw [hce.members q', p6]
            simp
          have hq3q := (hq3 q).trans p4
          have hreq3 : ∀ x, x ≠ req → sameReq ((grilio_channel_cancel_request
                  ((w.setQueue q { w.queue q with reqs := rest }).setReq req
                    { (w.setQueue q { w.queue q with reqs := rest }).req req with queue := none })
                  (((w.setQueue q { w.queue q with reqs := rest }).setReq req
                    { (w.setQueue q { w.queue q with reqs := rest }).req req with
                      queue := none }).req req).id notify).2.req x) (w.req x) := by
            intro x hx
            have := hce.other x hx
            rw [p7 x hx] at this
            exact this
          have hresp3 : ∀ x, ((grilio_channel_cancel_request
                  ((w.setQueue q { w.queue q with reqs := rest }).setReq req
                    { (w.setQueue q { w.queue q with reqs := rest }).req req with queue := none })
                  (((w.setQueue q { w.queue q with reqs := rest }).setReq req
                    { (w.setQueue q { w.queue q with reqs := rest }).req req with
                      queue := none }).req req).id notify).2.req x).response
              = (w.req x).response := by
            intro x
            by_cases hx : x = req
            · rw [hx, hce.response, (p8 req).2.2]
            · exact (hreq3 x hx).2.2.2.2.2.1
          have hmem3 : ∀ h ∈ ((grilio_channel_cancel_request
                  ((w.setQueue q { w.queue q with reqs := rest }).setReq req
                    { (w.setQueue q { w.queue q with reqs := rest }).req req with queue := none })
                  (((w.setQueue q { w.queue q with reqs := rest }).setReq req
                    { (w.setQueue q { w.queue q with reqs := rest }).req req with
                      queue := none }).req req).id notify).2.queue q).reqs,
              h ∈ Pending (grilio_channel_cancel_request
                  ((w.setQueue q { w.queue q with reqs := rest }).setReq req
                    { (w.setQueue q { w.queue q with reqs := rest }).req req with queue := none })
                  (((w.setQueue q { w.queue q with reqs := rest }).setReq req
                    { (w.setQueue q { w.queue q with reqs := rest }).req req with
                      queue := none }).req req).id notify).2 ∧
              ((grilio_channel_cancel_request
                  ((w.setQueue q { w.queue q with reqs := rest }).setReq req
                    { (w.setQueue q { w.queue q with reqs := rest }).req req with queue := none })
                  (((w.setQueue q { w.queue q with reqs := rest }).setReq req
                    { (w.setQueue q { w.queue q with reqs := rest }).req req with
                      queue := none }).req req).id notify).2.req h).status ≠ .CANCELLED := by
            intro h hh
            rw [hq3q] at hh
            have hne : h ≠ req := fun he => hnotin (he ▸ hh)
            have hm := hmem h (by rw [hl]; exact List.mem_cons_of_mem _ hh)
            refine ⟨(hpend3 h).2 ⟨(p9 h).2 hm.1, Or.inl hne⟩, ?_⟩
            rw [(hreq3 h hne).2.2.1]
            exact hm.2
          obtain ⟨i1, i2, i3, i4, i5, i6, i7, i8⟩ := ih _ hs3 hmem3 (by
            rw [hq3q]
            rw [hl] at hn
            simpa using hn)
          rw [hstep]
          rw [hq3q] at i1 i3 i4 i6 i8
          have hcb : (if (((w.setQueue q { w.queue q with reqs := rest }).setReq req
                { (w.setQueue q { w.queue q with reqs := rest }).req req with
                  queue := none }).chan.send_req = some req →
                (((w.setQueue q { w.queue q with reqs := rest }).setReq req
                  { (w.setQueue q { w.queue q with reqs := rest }).req req with
                    queue := none }).req req).status ≠ .CANCELLED) ∧ notify = true ∧
                (((w.setQueue q { w.queue q with reqs := rest }).setReq req
                  { (w.setQueue q { w.queue q with reqs := rest }).req req with
                    queue := none }).req req).response = true
              then [(req, GRILIO_STATUS_CANCELLED, ([] : List Nat))] else [])
              = ([req].filter (fun h => notify && (w.req h).response)).map
                  (fun h => (h, GRILIO_STATUS_CANCELLED, [])) := by
            rw [(p8 req).2.1, (p8 req).2.2]
            have hst := (hmem req hreqm).2
            by_cases hc : notify = true ∧ (w.req req).response = true
            · simp [hc.1, hc.2, hst]
            · have : (notify && (w.req req).response) = false := by
                cases notify <;> cases hr : (w.req req).response <;> simp_all
              simp [this, hc]
          refine ⟨?_, i2, ?_, ?_, ?_, ?_, ?_, ?_⟩
          · rw [i1, hce.callbacks, p2, hcb]
            have : rest.filter (fun h => notify && ((grilio_channel_cancel_request
                  ((w.setQueue q { w.queue q with reqs := rest }).setReq req
                    { (w.setQueue q { w.queue q with reqs := rest }).req req with queue := none })
                  (((w.setQueue q { w.queue q with reqs := rest }).setReq req
                    { (w.setQueue q { w.queue q with reqs := rest }).req req with
                      queue := none }).req req).id notify).2.req h).response)
                = rest.filter (fun h => notify && (w.req h).response) := by
              apply List.filter_congr
              intro x _
              rw [hresp3 x]
            rw [this]
            have : (req :: rest) = [req] ++ rest := rfl
            rw [this, List.filter_append, List.map_append, List.append_assoc]
          · rw [i3, hf, p1, List.filter_filter]
            apply List.filter_congr
            intro x _
            by_cases h1 : x = req <;> by_cases h2 : x ∈ rest <;> simp [h1, h2]
          · rw [i4, hce.table_values hs2 hp2 rfl, p1, List.filter_filter]
            apply List.filter_congr
            intro kv _
            by_cases h1 : kv.2 = req <;> by_cases h2 : kv.2 ∈ rest <;> simp [h1, h2]
          · rw [i5, hce.send_req, p1]
          · intro x hx
            simp only [List.mem_cons, not_or] at hx
            exact sameReq_trans (i6 x hx.2) (hreq3 x hx.1)
          · intro q' hq'
            rw [i7 q' hq', hq3 q', p5 q' hq']
          · intro h hh
            rcases List.mem_cons.1 hh with he | he
            · rw [he]
              have := i6 req hnotin
              exact ⟨this.2.2.1.trans hce.status, this.2.2.2.2.1.trans hce.queue⟩
            · exact i8 h he

/-- C16: in a consistent world in which the members of queue `b` are held by
the channel and not cancelled, `grilio_queue_cancel_all` on `b` makes one
response callback, with CANCELLED, for each member of `b` that has a
callback (when `notify` is TRUE), in queue order, and no other callback;
afterwards `b` has no member, its former members are CANCELLED and in no
queue, the send queue and the response table are the old ones without the
members of `b`, and every other request, every other queue and the request
in transmission are as before. -/
theorem queue_cancel_all_isolated (w : World) (a b : Nat) (notify : Bool) (hab : a ≠ b)
    (hwf : WellFormed w) (ht : TableOk w) (hid : IdsSet w)
    (hmem : ∀ h ∈ (w.queue b).reqs, h ∈ Pending w ∧ (w.req h).status ≠ .CANCELLED) :
    responses (grilio_queue_cancel_all w b notify).trace
      = responses w.trace
        ++ ((w.queue b).reqs.filter (fun h => notify && (w.req h).response)).map
            (fun h => (h, GRILIO_STATUS_CANCELLED, [])) ∧
    ((grilio_queue_cancel_all w b notify).queue b).reqs = [] ∧
    ((grilio_queue_cancel_all w b notify).queue a).reqs = (w.queue a).reqs ∧
    (grilio_queue_cancel_all w b notify).chan.fifo
      = w.chan.fifo.filter (fun x => x ∉ (w.queue b).reqs) ∧
    (grilio_queue_cancel_all w b notify).chan.resp_table
      = w.chan.resp_table.filter (fun kv => kv.2 ∉ (w.queue b).reqs) ∧
    (grilio_queue_cancel_all w b notify).chan.send_req = w.chan.send_req ∧
    (∀ x, x ∉ (w.queue b).reqs →
      ((grilio_queue_cancel_all w b notify).req x).status = (w.req x).status ∧
      ((grilio_queue_cancel_all w b notify).req x).queue = (w.req x).queue) ∧
    (∀ h ∈ (w.queue b).reqs,
      ((grilio_queue_cancel_all w b notify).req h).status = .CANCELLED ∧
      ((grilio_queue_cancel_all w b notify).req h).queue = none) := by
  obtain ⟨i1, i2, i3, i4, i5, i6, i7, i8⟩ := queue_cancel_all_spec b notify
    (w.queue b).reqs.length w (sane_of_wellFormed hwf ht hid) hmem (Nat.le_refl _)
  exact ⟨i1, i2, i7 a hab, i3, i4, i5, fun x hx => ⟨(i6 x hx).2.2.1, (i6 x hx).2.2.2.2.1⟩, i8⟩

theorem queue_cancel_all_isolated_witness :
    (WellFormed sampleQueues ∧ TableOk sampleQueues ∧ IdsSet sampleQueues ∧
      (sampleQueues.queue 0).reqs = [0] ∧ (sampleQueues.queue 1).reqs = [1, 2] ∧
      sampleQueues.chan.fifo = [0, 1, 2]) ∧
    responses (grilio_queue_cancel_all sampleQueues 1 true).trace
      = responses sampleQueues.trace
        ++ ((sampleQueues.queue 1).reqs.filter
              (fun h => true && (sampleQueues.req h).response)).map
            (fun h => (h, GRILIO_STATUS_CANCELLED, [])) ∧
    ((grilio_queue_cancel_all sampleQueues 1 true).queue 1).reqs = [] ∧
    ((grilio_queue_cancel_all sampleQueues 1 true).queue 0).reqs = (sampleQueues.queue 0).reqs :=
  ⟨by decide,
    (queue_cancel_all_isolated sampleQueues 0 1 true (by decide) (by decide) (by decide)
      (by decide) (by decide)).1,
    (queue_cancel_all_isolated sampleQueues 0 1 true (by decide) (by decide) (by decide)
      (by decide) (by decide)).2.1,
    (queue_cancel_all_isolated sampleQueues 0 1 true (by decide) (by decide) (by decide)
      (by decide) (by decide)).2.2.1⟩

/-- C21: the claim fails. For a channel between two packets whose read watch
exists, a length word that decodes to more than 32768 makes
`grilio_channel_read` return FALSE without anything else: the read callback
drops its watch, but no ERROR signal is emitted (the trace is unchanged) and
the channel is not shut down: `connected`, `ril_version`, the I/O channel
and the write watch are as before. -/
theorem oversize_length_is_silent (e : Endian) (w : World) (n : Nat) (tl : List Nat)
    (rs : List IoRead) (hB : Boundary w) (hw : w.chan.read_watch_id = true)
    (hbig : GRILIO_MAX_PACKET_LEN < n) (h32 : n < 4294967296) :
    (grilio_channel_read_callback e w
        { inbox := storeU32 Endian.big n ++ tl, reads := IoRead.avail 4 :: rs }).1.trace
      = w.trace ∧
    (grilio_channel_read_callback e w
        { inbox := storeU32 Endian.big n ++ tl, reads := IoRead.avail 4 :: rs }).1.chan
      = { w.chan with
          read_watch_id := false
          read_len_buf := storeU32 Endian.big n
          read_len_pos := 4
          read_len := n } := by
  obtain ⟨h0, h4, _⟩ := hB
  have hs4 : (storeU32 Endian.big n).length = 4 := storeU32_length _ _
  have hld : loadU32 Endian.big (storeU32 Endian.big n) 0 = n := by
    have := loadU32_storeU32 Endian.big n []
    rw [List.append_nil, Nat.mod_eq_of_lt h32] at this
    exact this
  have ht : List.take 4 (storeU32 Endian.big n ++ tl) = storeU32 Endian.big n := by
    rw [List.take_append_of_le_length (by omega), ← hs4, List.take_length]
  have hpk : poke w.chan.read_len_buf 0 (storeU32 Endian.big n) = storeU32 Endian.big n :=
    poke_full _ _ (by omega)
  have h44 : ¬ (4 < 4) := by omega
  have hnle : ¬ (n ≤ GRILIO_MAX_PACKET_LEN) := by omega
  simp only [grilio_channel_read_callback, hw, if_true, grilio_channel_read, h0,
    grilio_channel_read_chars, Nat.sub_zero, Nat.min_self, Nat.zero_lt_succ, ht, hpk, hs4,
    Nat.zero_add, h44, if_false, hld, hnle]
  exact ⟨rfl, rfl⟩

theorem oversize_length_is_silent_witness :
    (Boundary sampleSent ∧ sampleSent.chan.read_watch_id = true ∧
      sampleSent.chan.connected = true) ∧
    (grilio_channel_read_callback Endian.little sampleSent
        { inbox := storeU32 Endian.big 32769 ++ [], reads := IoRead.avail 4 :: [] }).1.trace
      = sampleSent.trace ∧
    (grilio_channel_read_callback Endian.little sampleSent
        { inbox := storeU32 Endian.big 32769 ++ [], reads := IoRead.avail 4 :: [] }).1.chan.connected
      = true :=
  ⟨by decide,
    (oversize_length_is_silent Endian.little sampleSent 32769 [] [] (by decide) (by decide)
      (by decide) (by decide)).1,
    by decide⟩

/-- C23: `grilio_channel_shutdown`, and with it the handling of a transport
error, of a framing violation and of EOF, clears `connected` and
`ril_version`, both watches and the I/O channel, and nothing else: the send
queue, the request in transmission, the response table, the queues and the
requests are unchanged; the only event added is the ERROR or EOF signal of
the handler, so no response callback is made; and a second shutdown changes
nothing. -/
theorem shutdown_keeps_requests (w : World) (flush flush2 : Bool) (type : GRILIO_ERROR_TYPE)
    (invalid_data : Bool) :
    (grilio_channel_shutdown w flush).chan
      = { w.chan with
          read_watch_id := false
          write_watch_id := false
          io_channel := false
          connected := false
          ril_version := 0 } ∧
    (grilio_channel_shutdown w flush).reqs = w.reqs ∧
    (grilio_channel_shutdown w flush).queues = w.queues ∧
    (grilio_channel_shutdown w flush).trace = w.trace ∧
    grilio_channel_shutdown (grilio_channel_shutdown w flush) flush2
      = grilio_channel_shutdown w flush ∧
    (grilio_channel_handle_error w type invalid_data).chan
      = (grilio_channel_shutdown w false).chan ∧
    (grilio_channel_handle_error w type invalid_data).reqs = w.reqs ∧
    (grilio_channel_handle_error w type invalid_data).queues = w.queues ∧
    (grilio_channel_handle_error w type invalid_data).trace
      = w.trace ++ [Event.error type invalid_data] ∧
    responses (grilio_channel_handle_error w type invalid_data).trace = responses w.trace ∧
    (grilio_channel_handle_eof w).chan = (grilio_channel_shutdown w false).chan ∧
    (grilio_channel_handle_eof w).reqs = w.reqs ∧
    (grilio_channel_handle_eof w).queues = w.queues ∧
    (grilio_channel_handle_eof w).trace = w.trace ++ [Event.eof] ∧
    responses (grilio_channel_handle_eof w).trace = responses w.trace := by
  refine ⟨rfl, rfl, rfl, rfl, rfl, ?_, ?_, ?_, ?_, ?_, rfl, rfl, rfl, rfl, ?_⟩
  · cases type <;> rfl
  · cases type <;> rfl
  · cases type <;> rfl
  · cases type <;> rfl
  · have : (grilio_channel_handle_error w type invalid_data).trace
        = w.trace ++ [Event.error type invalid_data] := by cases type <;> rfl
    rw [this, responses_append, responses_singleton]
    simp
  · have : (grilio_channel_handle_eof w).trace = w.trace ++ [Event.eof] := rfl
    rw [this, responses_append, responses_singleton]
    simp

/-- Broken strings are rejected without consuming input, as long as the
declared length is less than `2^31 - 2`: fewer than four bytes, a negative length
other than -1, or not enough bytes for the declared length. -/
theorem broken_string_rejected (e : Endian) (p : GRilIoParser)
    (h : p.endp - p.ptr < 4 ∨
      (toInt32 (loadU32 e p.data p.ptr) < 0 ∧ toInt32 (loadU32 e p.data p.ptr) ≠ -1) ∨
      (0 ≤ toInt32 (loadU32 e p.data p.ptr) ∧
        toInt32 (loadU32 e p.data p.ptr) < 2147483646 ∧
        p.endp - p.ptr < 4 + G_ALIGN4 (2 * ((toInt32 (loadU32 e p.data p.ptr)).toNat + 1)))) :
    grilio_parser_get_utf8 e p = (none, p) ∧ grilio_parser_skip_string e p = (false, p) := by
  unfold grilio_parser_get_utf8 grilio_parser_skip_string
  dsimp only
  rcases h with h | ⟨h1, h2⟩ | ⟨h1, h2, h3⟩
  · have : ¬ p.ptr + 4 ≤ p.endp := by omega
    simp [this]
  · have h3 : ¬ 0 ≤ toInt32 (loadU32 e p.data p.ptr) := by omega
    simp only [h2, h3, if_false]
    constructor <;> split <;> rfl
  · have hne : toInt32 (loadU32 e p.data p.ptr) ≠ -1 := by omega
    have hn : (toInt32 (loadU32 e p.data p.ptr)).toNat < 2147483646 := by omega
    have hmod : ((toInt32 (loadU32 e p.data p.ptr)).toNat + 1) * 2 % 4294967296
        = 2 * ((toInt32 (loadU32 e p.data p.ptr)).toNat + 1) := by omega
    have hal : G_ALIGN4 (2 * ((toInt32 (loadU32 e p.data p.ptr)).toNat + 1)) % 4294967296
        = G_ALIGN4 (2 * ((toInt32 (loadU32 e p.data p.ptr)).toNat + 1)) := by
      apply Nat.mod_eq_of_lt
      unfold G_ALIGN4
      omega
    have hno : ¬ p.ptr + G_ALIGN4 (2 * ((toInt32 (loadU32 e p.data p.ptr)).toNat + 1)) + 4
        ≤ p.endp := by omega
    simp only [hne, h1, if_true, if_false, hmod, hal, hno]
    constructor <;> split <;> rfl

/-- C24: the claim fails for the declared length `2^31 - 1`. With the four
bytes `FF FF FF 7F` (the length word `0x7FFFFFFF` on a little-endian host)
and nothing after them, `(len+1)*2` is zero in 32 bits, so the padded length
is zero and the bounds test passes: `grilio_parser_skip_string` returns TRUE
and `grilio_parser_get_utf8` goes on to convert `2^31 - 1` code units that
are not there; both move the parser by four bytes. -/
theorem string_length_overflow :
    toInt32 (loadU32 Endian.little [255, 255, 255, 127] 0) = 2147483647 ∧
    grilio_parser_skip_string Endian.little (grilio_parser_init [255, 255, 255, 127] 4)
      = (true, { grilio_parser_init [255, 255, 255, 127] 4 with ptr := 4 }) ∧
    (grilio_parser_get_utf8 Endian.little (grilio_parser_init [255, 255, 255, 127] 4)).2
      = { grilio_parser_init [255, 255, 255, 127] 4 with ptr := 4 } := by
  refine ⟨by decide, by decide, ?_⟩
  unfold grilio_parser_get_utf8
  have h1 : toInt32 (loadU32 Endian.little (grilio_parser_init [255, 255, 255, 127] 4).data
      (grilio_parser_init [255, 255, 255, 127] 4).ptr) = 2147483647 := by decide
  simp only [h1]
  rfl

/-- C25: `grilio_parser_get_byte` succeeds exactly when at least one byte
remains and then advances by one byte; `grilio_parser_get_uint32` and
`grilio_parser_get_int32` succeed exactly when at least four bytes remain and
then advance by four; a failed call leaves the parser as it is;
`grilio_parser_at_end` is true exactly when no byte remains, and then every
call fails. -/
theorem parser_bounds (e : Endian) (p : GRilIoParser) :
    ((grilio_parser_get_byte p).1 = true ↔ 1 ≤ p.endp - p.ptr) ∧
    ((grilio_parser_get_byte p).1 = true →
      (grilio_parser_get_byte p).2.2 = { p with ptr := p.ptr + 1 }) ∧
    ((grilio_parser_get_byte p).1 = false → (grilio_parser_get_byte p).2.2 = p) ∧
    ((grilio_parser_get_uint32 e p).1 = true ↔ 4 ≤ p.endp - p.ptr) ∧
    ((grilio_parser_get_uint32 e p).1 = true →
      (grilio_parser_get_uint32 e p).2.2 = { p with ptr := p.ptr + 4 }) ∧
    ((grilio_parser_get_uint32 e p).1 = false → (grilio_parser_get_uint32 e p).2.2 = p) ∧
    ((grilio_parser_get_int32 e p).1 = (grilio_parser_get_uint32 e p).1 ∧
      (grilio_parser_get_int32 e p).2.2 = (grilio_parser_get_uint32 e p).2.2) ∧
    (grilio_parser_at_end p = true ↔ p.endp - p.ptr = 0) ∧
    (grilio_parser_at_end p = true →
      (grilio_parser_get_byte p).1 = false ∧ (grilio_parser_get_uint32 e p).1 = false ∧
      (grilio_parser_get_int32 e p).1 = false) := by
  unfold grilio_parser_get_int32 grilio_parser_get_byte grilio_parser_get_uint32
    grilio_parser_at_end
  refine ⟨?_, ?_, ?_, ?_, ?_, ?_, ⟨rfl, rfl⟩, ?_, ?_⟩
  · split <;> simp <;> omega
  · split <;> simp
  · split <;> simp
  · split <;> simp <;> omega
  · split <;> simp
  · split <;> simp
  · simp; omega
  · intro h
    have h' : p.endp ≤ p.ptr := by simpa using h
    have h1 : ¬ p.ptr < p.endp := by omega
    have h2 : ¬ p.ptr + 4 ≤ p.endp := by omega
    simp [h1, h2]

theorem parser_bounds_witness :
    grilio_parser_at_end (grilio_parser_init [1, 2, 3] 3) = false ∧
    ((grilio_parser_get_byte (grilio_parser_init [1, 2, 3] 3)).1 = true ∧
      (grilio_parser_get_byte (grilio_parser_init [1, 2, 3] 3)).2.2
        = { grilio_parser_init [1, 2, 3] 3 with ptr := (grilio_parser_init [1, 2, 3] 3).ptr + 1 }) ∧
    (grilio_parser_get_uint32 Endian.little (grilio_parser_init [1, 2, 3] 3)).2.2
      = grilio_parser_init [1, 2, 3] 3 :=
  ⟨by decide,
    ⟨by decide, (parser_bounds Endian.little (grilio_parser_init [1, 2, 3] 3)).2.1 (by decide)⟩,
    (parser_bounds Endian.little (grilio_parser_init [1, 2, 3] 3)).2.2.2.2.2.1 (by decide)⟩

/-- The events of `grilio_channel_connected`. -/
theorem connected_events (P : Event → Prop) (e : Endian) (w : World) (hP : WriteEvents P)
    (hc : P Event.connected) (hf : P Event.connect_failed) :
    ∃ evs, (grilio_channel_connected e w).trace = w.trace ++ evs ∧ ∀ ev ∈ evs, P ev := by
  unfold grilio_channel_connected
  split
  · dsimp only
    split
    · obtain ⟨⟨evs, ht, hp, _⟩, _⟩ := E_schedule_write e hP
        (Eff.stay P (({ w with chan := { w.chan with
          ril_version := (grilio_parser_get_uint32 e (grilio_parser_get_uint32 e
            (grilio_parser_init (w.chan.read_buf.drop 8) (w.chan.read_len - 8))).2.2).2.1
          connected := true } } : World).emit .connected))
      refine ⟨Event.connected :: evs, ?_, ?_⟩
      · rw [ht]; simp
      · intro ev hev
        rcases List.mem_cons.1 hev with h | h
        · rw [h]; exact hc
        · exact hp ev h
    · exact ⟨[Event.connect_failed], rfl, by simpa using hf⟩
  · exact ⟨[], by simp, by simp⟩

/-- C22: a complete body of length N is rejected exactly when N < 8, or its
first word is zero and N < 12: then `grilio_channel_handle_packet` returns
FALSE having run `grilio_channel_handle_error` with the kind "invalid data",
which emits that ERROR signal and shuts the channel down. Every other body
is dispatched: TRUE is returned, and the only ERROR signal that can be
among the events added is a write error that is not of the kind "invalid
data" (raised when the handshake flushes queued requests). -/
theorem malformed_frame (e : Endian) (w : World) :
    ((w.chan.read_len < 8 ∨ (loadU32 e w.chan.read_buf 0 = 0 ∧ w.chan.read_len < 12)) →
      grilio_channel_handle_packet e w = (false, grilio_channel_handle_error w .READ true) ∧
      (grilio_channel_handle_packet e w).2.trace = w.trace ++ [Event.error .READ true] ∧
      (grilio_channel_handle_packet e w).2.chan.connected = false ∧
      (grilio_channel_handle_packet e w).2.chan.io_channel = false ∧
      (grilio_channel_handle_packet e w).2.chan.read_watch_id = false ∧
      (grilio_channel_handle_packet e w).2.chan.write_watch_id = false) ∧
    (¬ (w.chan.read_len < 8 ∨ (loadU32 e w.chan.read_buf 0 = 0 ∧ w.chan.read_len < 12)) →
      (grilio_channel_handle_packet e w).1 = true ∧
      ∃ evs, (grilio_channel_handle_packet e w).2.trace = w.trace ++ evs ∧
        ∀ ev ∈ evs, ∀ t b, ev = Event.error t b → t = .WRITE ∧ b = false) := by
  constructor
  · intro hbad
    have hp : grilio_channel_handle_packet e w
        = (false, grilio_channel_handle_error w .READ true) := by
      unfold grilio_channel_handle_packet
      dsimp only
      rcases hbad with h | ⟨h1, h2⟩
      · have : ¬ (w.chan.read_len ≥ 8) := by omega
        simp only [this, if_false]
      · by_cases h8 : w.chan.read_len ≥ 8
        · have h12 : ¬ (w.chan.read_len ≥ 12) := by omega
          simp only [h8, if_true, ne_eq, h1, not_true_eq_false, if_false, h12]
        · simp only [h8, if_false]
    rw [hp]
    exact ⟨rfl, rfl, rfl, rfl, rfl, rfl⟩
  · intro hok
    have hW : WriteEvents (fun ev => ∀ t b, ev = Event.error t b → t = .WRITE ∧ b = false) :=
      ⟨fun _ _ _ => by simp, fun _ _ _ _ _ _ => by simp, fun _ _ _ => by simp,
        fun _ _ _ => by simp, fun _ _ h => by cases h; exact ⟨rfl, rfl⟩⟩
    by_cases htype : loadU32 e w.chan.read_buf 0 = 0
    · have hN : 12 ≤ w.chan.read_len := by
        by_contra h
        exact hok (Or.inr ⟨htype, by omega⟩)
      rw [handle_packet_resp e w hN htype]
      refine ⟨rfl, ?_⟩
      cases hl : g_hash_table_lookup w.chan.resp_table (loadU32 e w.chan.read_buf 4) with
      | none => exact ⟨[_], rfl, by simp⟩
      | some req =>
          dsimp only
          have := (E_unref req (P := fun ev => ∀ t b, ev = Event.error t b → t = .WRITE ∧ b = false)
            (w := w) (fun _ _ => by simp) (fun _ _ => by simp)
            (E_emit (.response req (toInt32 (loadU32 e w.chan.read_buf 8))
                ((w.chan.read_buf.drop 12).take (w.chan.read_len - 12))) (fun _ _ => by simp)
              (E_hash_remove (loadU32 e w.chan.read_buf 4) (fun _ _ _ => by simp)
                (fun _ _ _ => by simp)
                (E_queue_remove req (E_ref req (E_log .RESP (loadU32 e w.chan.read_buf 4)
                  (loadU32 e w.chan.read_buf 8) (w.chan.read_buf.take w.chan.read_len)
                  (fun _ _ _ => by simp) (Eff.stay _ w))))))).ex
          obtain ⟨evs, ht, hp, _⟩ := this
          exact ⟨evs, ht, hp⟩
    · have hN : 8 ≤ w.chan.read_len := by
        by_contra h
        exact hok (Or.inl (by omega))
      rw [handle_packet_unsol e w hN htype]
      refine ⟨rfl, ?_⟩
      by_cases hc : loadU32 e w.chan.read_buf 4 = RIL_UNSOL_RIL_CONNECTED
      · simp only [hc, if_true]
        obtain ⟨evs, ht, hp⟩ := connected_events (fun ev => ∀ t b, ev = Event.error t b → t = .WRITE ∧ b = false) e
          (grilio_channel_log w .UNSOL 0 RIL_UNSOL_RIL_CONNECTED
            (w.chan.read_buf.take w.chan.read_len)) hW (fun _ _ => by simp) (fun _ _ => by simp)
        refine ⟨[Event.log w.chan.log_list .UNSOL 0 RIL_UNSOL_RIL_CONNECTED
            (w.chan.read_buf.take w.chan.read_len)] ++ evs
          ++ [Event.unsol_event RIL_UNSOL_RIL_CONNECTED
            ((w.chan.read_buf.drop 8).take (w.chan.read_len - 8))], ?_, ?_⟩
        · rw [emit_trace, ht]
          simp [grilio_channel_log]
        · intro ev hev t
          simp only [List.mem_append, List.mem_singleton] at hev
          rcases hev with (h | h) | h
          · rw [h]; simp
          · exact hp ev h t
          · rw [h]; simp
      · simp only [hc, if_false]
        exact ⟨[Event.log w.chan.log_list .UNSOL 0 (loadU32 e w.chan.read_buf 4)
            (w.chan.read_buf.take w.chan.read_len),
          Event.unsol_event (loadU32 e w.chan.read_buf 4)
            ((w.chan.read_buf.drop 8).take (w.chan.read_len - 8))],
          by simp [grilio_channel_log], by simp⟩

/-- Witness of `malformed_frame`: the two-byte body FF FF is rejected. -/
theorem malformed_frame_witness :
    grilio_channel_handle_packet .little
        { sampleIdle with chan := { sampleIdle.chan with read_buf := [255, 255], read_len := 2 } }
      = (false, grilio_channel_handle_error
        { sampleIdle with chan := { sampleIdle.chan with read_buf := [255, 255], read_len := 2 } }
        .READ true) :=
  ((malformed_frame .little
    { sampleIdle with chan := { sampleIdle.chan with read_buf := [255, 255], read_len := 2 } }).1
    (Or.inl (by decide))).1

/-- C28: requests the channel has finished with that are neither DONE nor
CANCELLED. On `sampleSent`, with the requests 0 and 1 sent and the owner
still holding a reference to each: after the response to request 0 has been
delivered, `grilio_request_status` of request 0 is SENT; after
`grilio_channel_cancel_all` with `notify` both requests got the CANCELLED
callback and both are SENT. On `sampleTimed`, after `grilio_channel_timeout`
request 0 got the TIMEOUT callback and is SENT. On `sampleWaiting`, with
both requests in the send queue, after `grilio_channel_cancel_all` without
`notify` both are QUEUED although the channel holds neither any more. -/
theorem finished_request_not_terminal :
    (responses ((grilio_channel_handle_packet .little
          (wholePacket sampleSent sampleResponse)).2.trace.drop sampleSent.trace.length)
        = [(0, 0, [42])] ∧
      grilio_request_status ((grilio_channel_handle_packet .little
          (wholePacket sampleSent sampleResponse)).2.req 0) = .SENT ∧
      0 < ((grilio_channel_handle_packet .little
          (wholePacket sampleSent sampleResponse)).2.req 0).refcount) ∧
    (responses ((grilio_channel_cancel_all sampleSent true).trace.drop sampleSent.trace.length)
        = [(0, GRILIO_STATUS_CANCELLED, []), (1, GRILIO_STATUS_CANCELLED, [])] ∧
      grilio_request_status ((grilio_channel_cancel_all sampleSent true).req 0) = .SENT ∧
      grilio_request_status ((grilio_channel_cancel_all sampleSent true).req 1) = .SENT ∧
      Pending (grilio_channel_cancel_all sampleSent true) = [] ∧
      0 < ((grilio_channel_cancel_all sampleSent true).req 0).refcount) ∧
    (responses ((grilio_channel_timeout sampleTimed).trace.drop sampleTimed.trace.length)
        = [(0, GRILIO_STATUS_TIMEOUT, [])] ∧
      grilio_request_status ((grilio_channel_timeout sampleTimed).req 0) = .SENT ∧
      0 < ((grilio_channel_timeout sampleTimed).req 0).refcount) ∧
    (grilio_request_status ((grilio_channel_cancel_all sampleWaiting false).req 0) = .QUEUED ∧
      grilio_request_status ((grilio_channel_cancel_all sampleWaiting false).req 1) = .QUEUED ∧
      Pending (grilio_channel_cancel_all sampleWaiting false) = [] ∧
      0 < ((grilio_channel_cancel_all sampleWaiting false).req 0).refcount) := by
  decide

/-- C26: the bytes `grilio_request_append_utf8` appends, for a string that is
null, empty, or non-empty with every character below U+10000 (and not NUL).
The append succeeds, the request changes in its byte array only, and the
earlier bytes stay. Null appends FF FF FF FF. The empty string appends
00 00 00 00 00 00 FF FF. A non-empty string of `n` characters appends the
native word `n`, the `n` characters as native 16-bit units and a zero unit,
and zero bytes up to a multiple of four: `4 + G_ALIGN4 (2 * (n + 1))` bytes
in all. -/
theorem append_utf8_wire (e : Endian) (req : GRilIoRequest) (s : Option (List Char))
    (h : bmpString s) :
    ∃ r, grilio_request_append_utf8 e req s = some r ∧
      { r with bytes := req.bytes } = req ∧
      r.bytes.take req.bytes.length = req.bytes ∧
      match s with
      | none => r.bytes = req.bytes ++ [255, 255, 255, 255]
      | some [] => r.bytes = req.bytes ++ [0, 0, 0, 0, 0, 0, 255, 255]
      | some (c :: cs) =>
          r.bytes = req.bytes ++ (storeU32 e (c :: cs).length
            ++ (((c :: cs).map Char.toNat) ++ [0]).flatMap (storeU16 e)
            ++ List.replicate
              (G_ALIGN4 (2 * ((c :: cs).length + 1)) - 2 * ((c :: cs).length + 1)) 0) ∧
          r.bytes.length = req.bytes.length + (4 + G_ALIGN4 (2 * ((c :: cs).length + 1))) := by
  refine ⟨_, append_utf8_bmp e req s h, rfl, by simp, ?_⟩
  match s, h with
  | none, _ => cases e <;> rfl
  | some [], _ => cases e <;> rfl
  | some (c :: cs), _ =>
      have hl := encodeUtf8_cons_length e c cs
      have hm : ((c :: cs).length + 1) * 2 = 2 * ((c :: cs).length + 1) := Nat.mul_comm _ _
      rw [hm] at hl
      refine ⟨?_, ?_⟩
      · show req.bytes ++ encodeUtf8 e (some (c :: cs)) = _
        simp only [encodeUtf8, hm]
      · show (req.bytes ++ encodeUtf8 e (some (c :: cs))).length = _
        rw [List.length_append, hl]

/-- Witness of `append_utf8_wire`: the string "ab" on a fresh request. -/
theorem append_utf8_wire_witness :
    bmpString (some ['a', 'b']) ∧
    ∃ r, grilio_request_append_utf8 .little grilio_request_new (some ['a', 'b']) = some r ∧
      r.bytes = grilio_request_new.bytes ++ [2, 0, 0, 0, 97, 0, 98, 0, 0, 0, 0, 0] := by
  obtain ⟨r, h1, _, _, h2, _⟩ := append_utf8_wire .little grilio_request_new
    (some ['a', 'b']) (by simp [bmpString])
  exact ⟨by simp [bmpString], r, h1, by rw [h2]; decide⟩

/-- C26, counterexample: the two-character string "a" U+1F600 appended to a
fresh request. The length word is 3, the number of 16-bit units, not the
character count 2, and four units follow (97, the surrogates D83D DE00, and
the terminator), not three. The one-character string U+1F600 does not fit
the array that was sized for one unit and the terminator. -/
theorem append_utf8_counts_units :
    g_utf8_strlen [Char.ofNat 97, Char.ofNat 128512] = 2 ∧
    (grilio_request_append_utf8 .little grilio_request_new
        (some [Char.ofNat 97, Char.ofNat 128512])).map (fun r => r.bytes)
      = some (grilio_request_new.bytes ++ [3, 0, 0, 0, 97, 0, 61, 216, 0, 222, 0, 0]) ∧
    (grilio_request_append_utf8 .big grilio_request_new
        (some [Char.ofNat 97, Char.ofNat 128512])).map (fun r => r.bytes)
      = some (grilio_request_new.bytes ++ [0, 0, 0, 3, 0, 97, 216, 61, 222, 0, 0, 0]) ∧
    grilio_request_append_utf8 .little grilio_request_new (some [Char.ofNat 128512]) = none := by
  decide

theorem remove_logger_link_eq (id : Nat) (l : List Nat) :
    remove_logger_link id l = l.erase id := by
  induction l with
  | nil => rfl
  | cons x l ih =>
      by_cases h : x = id
      · simp [remove_logger_link, h]
      · simp [remove_logger_link, h, List.erase_cons_tail, ih]

theorem remove_logger_link_absent (id : Nat) (l : List Nat) (h : id ∉ l) :
    remove_logger_link id l = l := by
  rw [remove_logger_link_eq, List.erase_of_not_mem h]

theorem remove_logger_link_last (id : Nat) (l : List Nat) (h : id ∉ l) :
    remove_logger_link id (l ++ [id]) = l := by
  induction l with
  | nil => simp [remove_logger_link]
  | cons x l ih =>
      have hx : x ≠ id := fun hx => h (by simp [hx])
      have hl : id ∉ l := fun hl => h (List.mem_cons_of_mem _ hl)
      simp [remove_logger_link, hx, ih hl]

/-- Adding and removing loggers while one logger stays registered. -/
theorem churnLoggers_spec (n : Nat) : ∀ (w : World), w.chan.log_list = [1] →
    1 ≤ w.chan.last_logger_id → w.chan.last_logger_id + n < 4294967296 →
    (churnLoggers n w).chan.log_list = [1] ∧
      (churnLoggers n w).chan.last_logger_id = w.chan.last_logger_id + n := by
  induction n with
  | zero => intro w h1 _ _; exact ⟨h1, rfl⟩
  | succ n ih =>
      intro w h1 h2 h3
      have hid : (w.chan.last_logger_id + 1) % 4294967296 = w.chan.last_logger_id + 1 :=
        Nat.mod_eq_of_lt (by omega)
      have hne : w.chan.last_logger_id + 1 ≠ 0 := by omega
      have hne1 : ¬ (1 = w.chan.last_logger_id + 1) := by omega
      have hadd : grilio_channel_add_logger w true
          = (w.chan.last_logger_id + 1, { w with chan := { w.chan with
              last_logger_id := w.chan.last_logger_id + 1
              log_list := w.chan.log_list ++ [w.chan.last_logger_id + 1] } }) := by
        simp [grilio_channel_add_logger, hid, hne]
      have hl : (grilio_channel_remove_logger (grilio_channel_add_logger w true).2
          (grilio_channel_add_logger w true).1).chan.log_list = [1] := by
        rw [hadd]; simp [grilio_channel_remove_logger, h1, remove_logger_link, hne1]
      have hi : (grilio_channel_remove_logger (grilio_channel_add_logger w true).2
          (grilio_channel_add_logger w true).1).chan.last_logger_id
            = w.chan.last_logger_id + 1 := by
        rw [hadd]; simp [grilio_channel_remove_logger]
      have hstep := ih (grilio_channel_remove_logger (grilio_channel_add_logger w true).2
          (grilio_channel_add_logger w true).1) hl (by rw [hi]; omega) (by rw [hi]; omega)
      rw [hi] at hstep
      show (churnLoggers n _).chan.log_list = [1] ∧ (churnLoggers n _).chan.last_logger_id = _
      refine ⟨hstep.1, ?_⟩
      rw [hstep.2]; omega

/-- C27: the logger registry of a channel whose registered ids are distinct,
non-zero and at most `last_logger_id` (as on a new channel, where no logger
is registered). While `last_logger_id` is below 2^32 - 1,
`grilio_channel_add_logger` returns `last_logger_id + 1`, which is not zero
and not the id of a registered logger, appends the logger after the existing
ones, and keeps the registry in that state. The id returned is never zero.
`grilio_channel_remove_logger` removes the logger with the id and keeps the
others in their order; the id zero leaves the world as it is, an id that is
not registered only gets the warning, and removing the same id a second time
leaves the channel as the first removal left it. -/
theorem logger_registry (w : World) (hok : LoggersOk w.chan) :
    (w.chan.last_logger_id < 4294967295 →
      (grilio_channel_add_logger w true).1 = w.chan.last_logger_id + 1 ∧
      (grilio_channel_add_logger w true).1 ∉ w.chan.log_list ∧
      (grilio_channel_add_logger w true).2.chan.log_list
        = w.chan.log_list ++ [(grilio_channel_add_logger w true).1] ∧
      (grilio_channel_add_logger w true).2.chan.last_logger_id
        = (grilio_channel_add_logger w true).1 ∧
      LoggersOk (grilio_channel_add_logger w true).2.chan) ∧
    (grilio_channel_add_logger w true).1 ≠ 0 ∧
    (grilio_channel_add_logger w false) = (0, w) ∧
    (∀ id, (grilio_channel_remove_logger w id).chan.log_list
        = w.chan.log_list.filter (fun x => x ≠ id) ∧
      (grilio_channel_remove_logger w id).chan.last_logger_id = w.chan.last_logger_id ∧
      LoggersOk (grilio_channel_remove_logger w id).chan ∧
      (id = 0 → grilio_channel_remove_logger w id = w) ∧
      (id ≠ 0 → id ∉ w.chan.log_list →
        grilio_channel_remove_logger w id = w.emit (.invalid_logger id)) ∧
      (grilio_channel_remove_logger (grilio_channel_remove_logger w id) id).chan
        = (grilio_channel_remove_logger w id).chan) := by
  obtain ⟨hb, hnd, hlt⟩ := hok
  have hfilter : ∀ id, remove_logger_link id w.chan.log_list
      = w.chan.log_list.filter (fun x => x ≠ id) := by
    intro id
    rw [remove_logger_link_eq, hnd.erase_eq_filter]
    congr 1
    funext x
    by_cases hx : x = id <;> simp [hx]
  have hzero : (0 : Nat) ∉ w.chan.log_list := fun h0 => absurd (hb 0 h0).1 (by decide)
  refine ⟨?_, ?_, rfl, ?_⟩
  · intro hl
    have hid : (w.chan.last_logger_id + 1) % 4294967296 = w.chan.last_logger_id + 1 :=
      Nat.mod_eq_of_lt (by omega)
    have hne : w.chan.last_logger_id + 1 ≠ 0 := by omega
    have hadd : grilio_channel_add_logger w true
        = (w.chan.last_logger_id + 1, { w with chan := { w.chan with
            last_logger_id := w.chan.last_logger_id + 1
            log_list := w.chan.log_list ++ [w.chan.last_logger_id + 1] } }) := by
      simp [grilio_channel_add_logger, hid, hne]
    have hnew : w.chan.last_logger_id + 1 ∉ w.chan.log_list := by
      intro hm
      have := (hb _ hm).2
      omega
    rw [hadd]
    refine ⟨rfl, hnew, rfl, rfl, ?_, ?_, ?_⟩
    · intro x hx
      rcases List.mem_append.1 hx with h | h
      · have := hb x h
        exact ⟨this.1, by show x ≤ w.chan.last_logger_id + 1; omega⟩
      · rw [List.mem_singleton.1 h]
        exact ⟨by omega, Nat.le_refl _⟩
    · show (w.chan.log_list ++ [w.chan.last_logger_id + 1]).Nodup
      rw [List.nodup_append]
      refine ⟨hnd, List.nodup_singleton _, ?_⟩
      intro a ha hb2
      rw [List.mem_singleton.1 hb2] at ha
      exact hnew ha
    · show w.chan.last_logger_id + 1 < 4294967296
      omega
  · unfold grilio_channel_add_logger
    simp only [if_true]
    split
    · rename_i h0; rw [h0]; decide
    · rename_i h0; exact h0
  · intro id
    by_cases h0 : id = 0
    · have hf : w.chan.log_list.filter (fun x => x ≠ id) = w.chan.log_list := by
        rw [List.filter_eq_self]
        intro a ha
        have := (hb a ha).1
        simp [h0]; omega
      have hr : grilio_channel_remove_logger w id = w := by
        simp [grilio_channel_remove_logger, h0]
      rw [hr]
      exact ⟨hf.symm, rfl, ⟨hb, hnd, hlt⟩, fun _ => rfl, fun h => absurd h0 h, by rw [hr]⟩
    · by_cases hm : id ∈ w.chan.log_list
      · have hr : grilio_channel_remove_logger w id
            = { w with chan := { w.chan with
                log_list := remove_logger_link id w.chan.log_list } } := by
          simp [grilio_channel_remove_logger, h0, hm]
        have hsub : ∀ x ∈ remove_logger_link id w.chan.log_list, x ∈ w.chan.log_list := by
          intro x hx
          rw [remove_logger_link_eq] at hx
          exact List.mem_of_mem_erase hx
        have hgone : id ∉ remove_logger_link id w.chan.log_list := by
          rw [remove_logger_link_eq]
          exact fun hm2 => ((List.Nodup.mem_erase_iff hnd).1 hm2).1 rfl
        refine ⟨?_, ?_, ?_, ?_, ?_, ?_⟩
        · rw [hr]; exact hfilter id
        · rw [hr]
        · rw [hr]
          refine ⟨fun x hx => hb x (hsub x hx), ?_, hlt⟩
          show (remove_logger_link id w.chan.log_list).Nodup
          rw [remove_logger_link_eq]
          exact hnd.erase _
        · exact fun h => absurd h h0
        · exact fun _ h => absurd hm h
        · rw [hr]
          have hgone2 : id ∉ (World.mk w.reqs w.queues
              { w.chan with log_list := remove_logger_link id w.chan.log_list }
              w.trace w.wire w.writes w.now).chan.log_list := hgone
          unfold grilio_channel_remove_logger
          rw [if_pos h0, if_neg hgone2]
          rfl
      · have hr : grilio_channel_remove_logger w id = w.emit (.invalid_logger id) := by
          simp [grilio_channel_remove_logger, h0, hm]
        have hf : w.chan.log_list.filter (fun x => x ≠ id) = w.chan.log_list := by
          rw [List.filter_eq_self]
          intro a ha
          have : a ≠ id := fun h => hm (h ▸ ha)
          simp [this]
        refine ⟨?_, ?_, ?_, fun h => absurd h h0, fun _ _ => hr, ?_⟩
        · rw [hr]; exact hf.symm
        · rw [hr]; rfl
        · rw [hr]; exact ⟨hb, hnd, hlt⟩
        · rw [hr]
          have hm2 : id ∉ (w.emit (.invalid_logger id)).chan.log_list := hm
          unfold grilio_channel_remove_logger
          rw [if_pos h0, if_neg hm2]
          rfl

/-- Witness of `logger_registry`: a new channel. -/
theorem logger_registry_witness :
    LoggersOk sampleIdle.chan ∧
    (grilio_channel_add_logger sampleIdle true).1 = 1 ∧
    (grilio_channel_add_logger sampleIdle true).2.chan.log_list = [1] :=
  ⟨by decide,
    ((logger_registry sampleIdle (by decide)).1 (by decide)).1,
    by rw [((logger_registry sampleIdle (by decide)).1 (by decide)).2.2.1,
      ((logger_registry sampleIdle (by decide)).1 (by decide)).1]; rfl⟩

/-- C27, counterexample: a logger is added to a new channel and gets the id
1; then a second logger is added and removed again, 2^32 - 2 times over. The
first logger is still registered, `last_logger_id` is 2^32 - 1, and the next
`grilio_channel_add_logger` returns the id 1 again: two registered loggers
have the same id, and `grilio_channel_remove_logger` of that id removes the
older one and leaves the logger that was just added. -/
theorem logger_id_reused :
    (grilio_channel_add_logger sampleIdle true).1 = 1 ∧
    (churnLoggers 4294967294 (grilio_channel_add_logger sampleIdle true).2).chan.log_list
      = [1] ∧
    (grilio_channel_add_logger
      (churnLoggers 4294967294 (grilio_channel_add_logger sampleIdle true).2) true).1 = 1 ∧
    (grilio_channel_add_logger
      (churnLoggers 4294967294 (grilio_channel_add_logger sampleIdle true).2) true).2.chan.log_list
      = [1, 1] ∧
    (grilio_channel_remove_logger (grilio_channel_add_logger
      (churnLoggers 4294967294 (grilio_channel_add_logger sampleIdle true).2) true).2
        1).chan.log_list = [1] := by
  have h := churnLoggers_spec 4294967294 (grilio_channel_add_logger sampleIdle true).2
    rfl (by decide) (by decide)
  revert h
  generalize churnLoggers 4294967294 (grilio_channel_add_logger sampleIdle true).2 = w2
  intro h
  obtain ⟨hl, hi⟩ := h
  have hi2 : w2.chan.last_logger_id = 4294967295 := by
    rw [hi]; rfl
  have hadd : grilio_channel_add_logger w2 true
      = (1, { w2 with chan := { w2.chan with last_logger_id := 1, log_list := [1, 1] } }) := by
    unfold grilio_channel_add_logger
    rw [hi2, hl]
    rfl
  rw [hadd]
  exact ⟨rfl, hl, rfl, rfl, rfl⟩

theorem good_refl {w : World} (h : Core w) : Good w w where
  core := h
  len := Nat.le_refl _
  ids := fun _ hn => ⟨rfl, hn⟩
  retired := fun _ hr => hr
  quiet := ⟨[], by simp, by simp⟩
  last := rfl
  bound := fun hb => hb

/-- The general step inside the engine: ids stay, the status and the
deadline of submitted requests may change (the status not to NEW, and a
retired request can only become CANCELLED), entries of the send queue and of
the response table may go, the request in transmission may be forgotten, and
no response callback is made. -/
theorem G_gen {w x : World} (hk : Good w x) (x' : World)
    (hlen : x.reqs.length ≤ x'.reqs.length)
    (hreq : ∀ h, (x'.req h).id = (x.req h).id ∧
      ((x'.req h).deadline = (x.req h).deadline ∨ (x.req h).status ≠ .NEW) ∧
      ((x'.req h).status = (x.req h).status ∨
        ((x.req h).status ≠ .NEW ∧ (x'.req h).status ≠ .NEW ∧
          (Retired w h → (x'.req h).status = .CANCELLED))))
    (hfifo : x'.chan.fifo.Sublist x.chan.fifo)
    (htable : x'.chan.resp_table.Sublist x.chan.resp_table)
    (hsend : ∀ s, x'.chan.send_req = some s → x.chan.send_req = some s)
    (hlast : x'.chan.last_req_id = x.chan.last_req_id)
    (hti : x'.chan.timeout_id.isSome = true ↔ x'.chan.next_deadline ≠ 0)
    (htrace : responses x'.trace = responses x.trace)
    (hb : Bound x → Bound x') : Good w x' := by
  have hpend : ∀ h ∈ Pending x', h ∈ Pending x := by
    intro h hh
    rw [mem_pending] at hh ⊢
    rcases hh with h1 | h1 | ⟨kv, h1, h2⟩
    · exact Or.inl (hsend h h1)
    · exact Or.inr (Or.inl (hfifo.subset h1))
    · exact Or.inr (Or.inr ⟨kv, htable.subset h1, h2⟩)
  have hnew : ∀ h, (x'.req h).status = .NEW ↔ (x.req h).status = .NEW := by
    intro h
    rcases (hreq h).2.2 with h1 | ⟨h1, h2, _⟩
    · rw [h1]
    · exact ⟨fun h3 => absurd h3 h2, fun h3 => absurd h3 h1⟩
  refine ⟨⟨?_, ?_, ?_, ?_, ?_, ?_, hti⟩, ?_, ?_, ?_, ?_, ?_, fun h => hb (hk.bound h)⟩
  · intro h hh
    have := hk.core.pending h (hpend h hh)
    exact ⟨Nat.lt_of_lt_of_le this.1 hlen, fun hn => this.2 ((hnew h).1 hn)⟩
  · intro h
    rw [(hreq h).1, hnew h]
    refine ⟨(hk.core.ids h).1, (hk.core.ids h).2.1, fun hn => ?_⟩
    rcases (hreq h).2.1 with h1 | h1
    · rw [h1]; exact (hk.core.ids h).2.2 hn
    · exact absurd hn h1
  · exact hk.core.fifo.sublist hfifo
  · intro s hs hm
    exact hk.core.send s (hsend s hs) (hfifo.subset hm)
  · refine ⟨hk.core.table.1.sublist (htable.map _), ?_⟩
    intro kv hm
    rw [(hreq kv.2).1]
    exact hk.core.table.2 kv (htable.subset hm)
  · rw [hlast]; exact hk.core.last
  · exact Nat.le_trans hk.len hlen
  · intro h hn
    rw [(hreq h).1]
    exact ⟨(hk.ids h hn).1, fun h3 => (hk.ids h hn).2 ((hnew h).1 h3)⟩
  · intro h hr
    obtain ⟨h1, h2, h3, h4⟩ := hk.retired h hr
    refine ⟨fun hn => h1 ((hnew h).1 hn), fun hm => h2 (hfifo.subset hm),
      fun kv hm => h3 kv (htable.subset hm), fun hs => ?_⟩
    rcases (hreq h).2.2 with h5 | ⟨_, _, h5⟩
    · rw [h5]; exact h4 (hsend h hs)
    · exact h5 hr
  · rw [htrace]; exact hk.quiet
  · rw [hlast]; exact hk.last

/-- A step that keeps the ids and the deadlines, changes the status of
submitted requests only, and not to NEW (a retired request can only become
CANCELLED), may drop entries of the send queue and of the response table and
forget the request in transmission, leaves the timer alone and makes no
response callback. -/
theorem G_step {w x : World} (hk : Good w x) (x' : World)
    (hlen : x'.reqs.length = x.reqs.length)
    (hreq : ∀ h, (x'.req h).id = (x.req h).id ∧ (x'.req h).deadline = (x.req h).deadline ∧
      ((x'.req h).status = (x.req h).status ∨
        ((x.req h).status ≠ .NEW ∧ (x'.req h).status ≠ .NEW ∧
          (Retired w h → (x'.req h).status = .CANCELLED))))
    (hfifo : x'.chan.fifo.Sublist x.chan.fifo)
    (htable : x'.chan.resp_table.Sublist x.chan.resp_table)
    (hsend : ∀ s, x'.chan.send_req = some s → x.chan.send_req = some s)
    (hlast : x'.chan.last_req_id = x.chan.last_req_id)
    (htimer : x'.chan.timeout_id = x.chan.timeout_id ∧
      x'.chan.next_deadline = x.chan.next_deadline)
    (htrace : responses x'.trace = responses x.trace) : Good w x' := by
  refine G_gen hk x' (Nat.le_of_eq hlen.symm)
    (fun h => ⟨(hreq h).1, Or.inl (hreq h).2.1, (hreq h).2.2⟩)
    hfifo htable hsend hlast (by rw [htimer.1, htimer.2]; exact hk.core.timer) htrace ?_
  intro hb kv hm hd
  rw [(hreq kv.2).2.1] at hd ⊢
  rw [htimer.2]
  exact hb kv (htable.subset hm) hd

/-- A step that changes nothing the invariant looks at, apart from dropping
entries of the send queue and the response table and forgetting the request
in transmission, and that makes no response callback. -/
theorem G_frame {w x : World} (hk : Good w x) (x' : World)
    (hlen : x'.reqs.length = x.reqs.length)
    (hreq : ∀ h, (x'.req h).id = (x.req h).id ∧ (x'.req h).status = (x.req h).status ∧
      (x'.req h).deadline = (x.req h).deadline)
    (hfifo : x'.chan.fifo.Sublist x.chan.fifo)
    (htable : x'.chan.resp_table.Sublist x.chan.resp_table)
    (hsend : ∀ s, x'.chan.send_req = some s → x.chan.send_req = some s)
    (hlast : x'.chan.last_req_id = x.chan.last_req_id)
    (htimer : x'.chan.timeout_id = x.chan.timeout_id ∧
      x'.chan.next_deadline = x.chan.next_deadline)
    (htrace : responses x'.trace = responses x.trace) : Good w x' :=
  G_step hk x' hlen (fun h => ⟨(hreq h).1, (hreq h).2.2, Or.inl (hreq h).2.1⟩)
    hfifo htable hsend hlast htimer htrace
/-- A step that leaves the requests, the send queue, the response table, the
request in transmission, `last_req_id`, the timer and the trace alone. -/
theorem G_of_eq {w x : World} (hk : Good w x) (x' : World) (hr : x'.reqs = x.reqs)
    (hf : x'.chan.fifo = x.chan.fifo) (ht : x'.chan.resp_table = x.chan.resp_table)
    (hs : x'.chan.send_req = x.chan.send_req)
    (hl : x'.chan.last_req_id = x.chan.last_req_id)
    (hti : x'.chan.timeout_id = x.chan.timeout_id)
    (hnd : x'.chan.next_deadline = x.chan.next_deadline)
    (htr : responses x'.trace = responses x.trace) : Good w x' :=
  G_frame hk x' (by rw [hr]) (fun h => by simp [World.req, hr])
    (by rw [hf]) (by rw [ht]) (fun s h => by rw [← hs]; exact h) hl ⟨hti, hnd⟩ htr

theorem G_ite {w a b : World} {c : Prop} [Decidable c] (ha : Good w a) (hb : Good w b) :
    Good w (if c then a else b) := by
  split
  · exact ha
  · exact hb

theorem G_emit {w x : World} (ev : Event) (hev : responses [ev] = []) (hk : Good w x) :
    Good w (x.emit ev) :=
  G_of_eq hk _ rfl rfl rfl rfl rfl rfl rfl (by simp [hev])

theorem G_ref {w x : World} (h : Nat) (hk : Good w x) : Good w (grilio_request_ref x h) :=
  G_frame hk _ (ref_length _ _) (fun k => ⟨ref_id _ _ _, ref_status _ _ _, ref_deadline _ _ _⟩)
    (by simp) (by simp) (fun s hs => by simpa using hs) (by simp) (by simp) (by simp)

theorem G_unref {w x : World} (h : Nat) (hk : Good w x) : Good w (grilio_request_unref x h) :=
  G_frame hk _ (unref_length _ _)
    (fun k => ⟨unref_id _ _ _, unref_status _ _ _, unref_deadline _ _ _⟩)
    (by simp) (by simp) (fun s hs => by simpa using hs) (by simp) (by simp) (by simp)

theorem G_log {w x : World} (t : GRILIO_PACKET_TYPE) (id code : Nat) (data : List Nat)
    (hk : Good w x) : Good w (grilio_channel_log x t id code data) :=
  G_of_eq hk _ rfl rfl rfl rfl rfl rfl rfl (by simp)

theorem G_queue_remove {w x : World} (r : Nat) (hk : Good w x) :
    Good w (grilio_queue_remove x r) :=
  G_frame hk _ (queue_remove_length _ _)
    (fun k => ⟨queue_remove_id _ _ _, queue_remove_status _ _ _, queue_remove_deadline _ _ _⟩)
    (by simp) (by simp) (fun s hs => by simpa using hs) (by simp) (by simp) (by simp)

theorem G_steal {w x : World} (key : Nat) (hk : Good w x) :
    Good w (g_hash_table_steal x key) :=
  G_frame hk _ rfl (fun _ => ⟨rfl, rfl, rfl⟩) (List.Sublist.refl _)
    (List.filter_sublist _) (fun _ hs => hs) rfl ⟨rfl, rfl⟩ rfl

theorem G_hash_remove {w x : World} (key : Nat) (hk : Good w x) :
    Good w (g_hash_table_remove x key).2 := by
  unfold g_hash_table_remove
  split
  · exact G_unref _ (G_steal key hk)
  · exact hk

theorem G_shutdown {w x : World} (flush : Bool) (hk : Good w x) :
    Good w (grilio_channel_shutdown x flush) :=
  G_of_eq hk _ rfl rfl rfl rfl rfl rfl rfl rfl

theorem G_handle_error {w x : World} (t : GRILIO_ERROR_TYPE) (inv : Bool) (hk : Good w x) :
    Good w (grilio_channel_handle_error x t inv) := by
  unfold grilio_channel_handle_error
  cases t
  · exact G_emit _ rfl (G_shutdown _ (G_of_eq hk _ rfl rfl rfl rfl rfl rfl rfl rfl))
  · exact G_emit _ rfl (G_shutdown _ (G_of_eq hk _ rfl rfl rfl rfl rfl rfl rfl rfl))

theorem G_handle_eof {w x : World} (hk : Good w x) : Good w (grilio_channel_handle_eof x) :=
  G_emit _ rfl (G_shutdown _ hk)

theorem G_write_chars {w x : World} (buf : List Nat) (hk : Good w x) :
    Good w (g_io_channel_write_chars x buf).2 := by
  unfold g_io_channel_write_chars
  split <;> exact G_of_eq hk _ rfl rfl rfl rfl rfl rfl rfl rfl

/-- The status of a submitted request changes, not to NEW; a retired request
can only become CANCELLED. -/
theorem G_status {w x : World} (req : Nat) (s : GRILIO_REQUEST_STATUS) (hk : Good w x)
    (hs : s ≠ .NEW) (hx : (x.req req).status ≠ .NEW) (hd : Retired w req → s = .CANCELLED) :
    Good w (x.setReq req { x.req req with status := s }) := by
  refine G_step hk _ (by simp) (fun h => ?_) (by simp) (by simp)
    (fun k hk2 => by simpa using hk2) (by simp) (by simp) (by simp)
  rw [req_setReq]
  split
  · rename_i hc
    rw [hc.1]
    exact ⟨rfl, rfl, Or.inr ⟨hx, hs, hd⟩⟩
  · exact ⟨rfl, rfl, Or.inl rfl⟩

/-- A response callback for a request that was not retired. -/
theorem G_respond {w x : World} (req : Nat) (s : Int) (d : List Nat) (hk : Good w x)
    (hn : ¬ Retired w req) : Good w (x.emit (.response req s d)) := by
  have h := G_of_eq hk x rfl rfl rfl rfl rfl rfl rfl rfl
  obtain ⟨cb, h1, h2⟩ := hk.quiet
  exact { h with
    core := ⟨h.core.pending, h.core.ids, h.core.fifo, h.core.send, h.core.table, h.core.last,
      h.core.timer⟩
    quiet := ⟨cb ++ [(req, s, d)], by
      rw [emit_trace, responses_append, h1, List.append_assoc]; rfl, by
      intro c hc
      rcases List.mem_append.1 hc with h3 | h3
      · exact h2 c h3
      · rw [List.mem_singleton.1 h3]; exact hn⟩ }
theorem not_retired_of_pending {w x : World} (hk : Good w x) {req : Nat}
    (hp : req ∈ x.chan.fifo ∨ (∃ kv ∈ x.chan.resp_table, kv.2 = req) ∨
      (x.chan.send_req = some req ∧ (x.req req).status ≠ .CANCELLED)) : ¬ Retired w req := by
  intro hr
  obtain ⟨_, h2, h3, h4⟩ := hk.retired req hr
  rcases hp with h | ⟨kv, hm, he⟩ | ⟨h5, h6⟩
  · exact h2 h
  · exact h3 kv hm he
  · exact h6 (h4 h5)

theorem G_cancel_found {w x : World} (req id : Nat) (notify : Bool) (hk : Good w x)
    (hx : (x.req req).status ≠ .NEW) (hn : ¬ Retired w req) :
    Good w (grilio_channel_cancel_found x req id notify) := by
  unfold grilio_channel_cancel_found
  dsimp only
  have h3 : Good w (((g_hash_table_remove (grilio_queue_remove x req) id).2).setReq req
      { ((g_hash_table_remove (grilio_queue_remove x req) id).2).req req with
        status := .CANCELLED }) :=
    G_status req .CANCELLED (G_hash_remove id (G_queue_remove req hk)) (by simp)
      (by simpa using hx) (fun _ => rfl)
  exact G_ite (G_respond _ _ _ h3 hn) h3

theorem G_cancel_sending {w x : World} (req id : Nat) (notify : Bool) (hk : Good w x)
    (hs : x.chan.send_req = some req) :
    Good w (grilio_channel_cancel_sending x req id notify) := by
  have hx : (x.req req).status ≠ .NEW :=
    (hk.core.pending req ((mem_pending x req).2 (Or.inl hs))).2
  unfold grilio_channel_cancel_sending
  dsimp only
  have h2 := G_hash_remove id (G_queue_remove req hk)
  refine G_unref _ ?_
  split
  · rename_i hc
    have hc2 : (x.req req).status ≠ .CANCELLED := by simpa using hc
    have hn := not_retired_of_pending hk (Or.inr (Or.inr ⟨hs, hc2⟩))
    have h3 := G_status req .CANCELLED h2 (by simp) (by simpa using hx) (fun _ => rfl)
    exact G_ite (G_respond _ _ _ h3 hn) h3
  · exact h2

theorem G_cancel_queued {w x : World} (req id : Nat) (notify : Bool) (hk : Good w x)
    (hm : req ∈ x.chan.fifo) :
    Good w (grilio_channel_cancel_queued x req id notify) := by
  have hx : (x.req req).status ≠ .NEW :=
    (hk.core.pending req ((mem_pending x req).2 (Or.inr (Or.inl hm)))).2
  have hn := not_retired_of_pending hk (Or.inl hm)
  unfold grilio_channel_cancel_queued
  dsimp only
  refine G_unref _ (G_cancel_found req id notify ?_ hx hn)
  exact G_frame (G_emit (.cancelled req) rfl hk) _ rfl (fun _ => ⟨rfl, rfl, rfl⟩)
    (List.erase_sublist _ _) (List.Sublist.refl _) (fun _ h => h) rfl ⟨rfl, rfl⟩ rfl

theorem G_cancel_request {w x : World} (id : Nat) (notify : Bool) (hk : Good w x) :
    Good w (grilio_channel_cancel_request x id notify).2 := by
  by_cases hid : id = 0
  · simp only [grilio_channel_cancel_request, hid, ne_eq, not_true_eq_false, if_false]
    exact hk
  rcases cancel_request_cases x id notify hid with
    ⟨req, hs, _, hr⟩ | ⟨req, _, hm, _, hr⟩ | ⟨req, _, _, hl, hr⟩ | ⟨_, _, _, hr⟩
  · rw [hr]; exact G_cancel_sending req id notify hk hs
  · rw [hr]; exact G_cancel_queued req id notify hk hm
  · rw [hr]
    have hkv := lookup_some_mem _ _ _ hl
    have hp : req ∈ Pending x := (mem_pending x req).2 (Or.inr (Or.inr ⟨_, hkv, rfl⟩))
    have hn := not_retired_of_pending hk (Or.inr (Or.inl ⟨_, hkv, rfl⟩))
    exact G_unref _ (G_cancel_found req id notify (G_ref req hk)
      (by simpa using (hk.core.pending req hp).2) hn)
  · rw [hr]; exact hk
/-- A step that changes the timer only. -/
theorem G_timer {w x : World} (hk : Good w x) (x' : World) (hr : x'.reqs = x.reqs)
    (hf : x'.chan.fifo = x.chan.fifo) (ht : x'.chan.resp_table = x.chan.resp_table)
    (hs : x'.chan.send_req = x.chan.send_req)
    (hl : x'.chan.last_req_id = x.chan.last_req_id)
    (htr : responses x'.trace = responses x.trace)
    (hti : x'.chan.timeout_id.isSome = true ↔ x'.chan.next_deadline ≠ 0)
    (hb : Bound w → Bound x') : Good w x' := by
  have hg := G_of_eq hk
    { x' with chan := { x'.chan with
        timeout_id := x.chan.timeout_id
        next_deadline := x.chan.next_deadline } }
    hr hf ht hs hl rfl rfl htr
  exact { hg with
    core := ⟨hg.core.pending, hg.core.ids, hg.core.fifo, hg.core.send, hg.core.table,
      hg.core.last, hti⟩
    bound := hb }

theorem earliest_fold (w : World) (l : List (Nat × Nat)) : ∀ acc : Int,
    (l.foldl (fun deadline kv =>
        if (w.req kv.2).deadline ≠ 0 ∧ (deadline = 0 ∨ deadline > (w.req kv.2).deadline)
        then (w.req kv.2).deadline else deadline) acc = 0
      ↔ acc = 0 ∧ ∀ kv ∈ l, (w.req kv.2).deadline = 0) ∧
    (l.foldl (fun deadline kv =>
        if (w.req kv.2).deadline ≠ 0 ∧ (deadline = 0 ∨ deadline > (w.req kv.2).deadline)
        then (w.req kv.2).deadline else deadline) acc ≠ 0 →
      (acc ≠ 0 → l.foldl (fun deadline kv =>
        if (w.req kv.2).deadline ≠ 0 ∧ (deadline = 0 ∨ deadline > (w.req kv.2).deadline)
        then (w.req kv.2).deadline else deadline) acc ≤ acc) ∧
      ∀ kv ∈ l, (w.req kv.2).deadline ≠ 0 →
        l.foldl (fun deadline kv =>
          if (w.req kv.2).deadline ≠ 0 ∧ (deadline = 0 ∨ deadline > (w.req kv.2).deadline)
          then (w.req kv.2).deadline else deadline) acc ≤ (w.req kv.2).deadline) := by
  induction l with
  | nil => intro acc; simp
  | cons a l ih =>
      intro acc
      simp only [List.foldl_cons, List.mem_cons, forall_eq_or_imp]
      by_cases hc : (w.req a.2).deadline ≠ 0 ∧ (acc = 0 ∨ acc > (w.req a.2).deadline)
      · rw [if_pos hc]
        obtain ⟨h1, h2⟩ := ih (w.req a.2).deadline
        refine ⟨⟨fun h => absurd (h1.1 h).1 hc.1, fun h => absurd h.2.1 hc.1⟩, fun hm => ?_⟩
        obtain ⟨h3, h4⟩ := h2 hm
        have h5 := h3 hc.1
        refine ⟨fun ha => ?_, fun _ => h5, h4⟩
        rcases hc.2 with h6 | h6
        · exact absurd h6 ha
        · omega
      · rw [if_neg hc]
        obtain ⟨h1, h2⟩ := ih acc
        refine ⟨⟨fun h => ?_, fun h => h1.2 ⟨h.1, h.2.2⟩⟩, fun hm => ?_⟩
        · obtain ⟨h3, h4⟩ := h1.1 h
          refine ⟨h3, ?_, h4⟩
          by_contra h5
          exact hc ⟨h5, Or.inl h3⟩
        · obtain ⟨h3, h4⟩ := h2 hm
          refine ⟨h3, fun ha => ?_, h4⟩
          have hacc : acc ≠ 0 := by
            intro h0
            exact hc ⟨ha, Or.inl h0⟩
          have h6 : ¬ acc > (w.req a.2).deadline := fun h7 => hc ⟨ha, Or.inr h7⟩
          have := h3 hacc
          omega

/-- After `grilio_channel_reset_timeout` the timer is within the deadlines
of the table, whatever it was before. -/
theorem reset_timeout_bound (x : World)
    (hti : x.chan.timeout_id.isSome = true ↔ x.chan.next_deadline ≠ 0) :
    ((grilio_channel_reset_timeout x).chan.timeout_id.isSome = true
      ↔ (grilio_channel_reset_timeout x).chan.next_deadline ≠ 0) ∧
    Bound (grilio_channel_reset_timeout x) := by
  obtain ⟨h1, h2⟩ := earliest_fold x x.chan.resp_table 0
  have hb : ∀ x' : World, x'.reqs = x.reqs → x'.chan.resp_table = x.chan.resp_table →
      (earliest_deadline x ≠ 0 → x'.chan.next_deadline ≠ 0 ∧
        x'.chan.next_deadline ≤ earliest_deadline x) → Bound x' := by
    intro x' hr ht hx kv hm hd
    have hq : x'.req kv.2 = x.req kv.2 := by simp [World.req, hr]
    rw [hq] at hd ⊢
    rw [ht] at hm
    have hne : earliest_deadline x ≠ 0 := fun h0 => hd ((h1.1 h0).2 kv hm)
    have := (h2 hne).2 kv hm hd
    have h3 := hx hne
    exact ⟨h3.1, by unfold earliest_deadline at h3; omega⟩
  unfold grilio_channel_reset_timeout
  dsimp only
  split
  · rename_i hd
    split
    · rename_i hc
      refine ⟨by simp [hd], hb _ rfl rfl (fun _ => ⟨hd, Int.le_refl _⟩)⟩
    · rename_i hc
      refine ⟨hti, hb _ rfl rfl (fun _ => ?_)⟩
      have : x.chan.next_deadline ≠ 0 := fun h0 => hc (Or.inl h0)
      exact ⟨this, by
        by_contra h4
        exact hc (Or.inr (by omega))⟩
  · rename_i hd
    split
    · exact ⟨by simp, hb _ rfl rfl (fun hne => absurd hne hd)⟩
    · exact ⟨hti, hb _ rfl rfl (fun hne => absurd hne hd)⟩

theorem G_reset_timeout {w x : World} (hk : Good w x) :
    Good w (grilio_channel_reset_timeout x) :=
  G_timer hk _ (reset_timeout_reqs x) (reset_timeout_table x).2.1 (reset_timeout_table x).1
    (reset_timeout_table x).2.2.1 (reset_timeout_table x).2.2.2 (by simp)
    (reset_timeout_bound x hk.core.timer).1 (fun _ => (reset_timeout_bound x hk.core.timer).2)

/-- In `grilio_channel_write_sent`: the deadline of a submitted request is
set, and the timer is reset when the deadline is before the timer. -/
theorem G_deadline {w x : World} (req : Nat) (D : Int) (hk : Good w x)
    (hx : (x.req req).status ≠ .NEW) :
    Good w (if (x.setReq req { x.req req with deadline := D }).chan.next_deadline = 0 ∨
        ((x.setReq req { x.req req with deadline := D }).req req).deadline
          < (x.setReq req { x.req req with deadline := D }).chan.next_deadline
      then grilio_channel_reset_timeout (x.setReq req { x.req req with deadline := D })
      else x.setReq req { x.req req with deadline := D }) := by
  have hreq : ∀ h, ((x.setReq req { x.req req with deadline := D }).req h).id = (x.req h).id ∧
      (((x.setReq req { x.req req with deadline := D }).req h).deadline = (x.req h).deadline ∨
        (x.req h).status ≠ .NEW) ∧
      (((x.setReq req { x.req req with deadline := D }).req h).status = (x.req h).status ∨
        ((x.req h).status ≠ .NEW ∧
          ((x.setReq req { x.req req with deadline := D }).req h).status ≠ .NEW ∧
          (Retired w h →
            ((x.setReq req { x.req req with deadline := D }).req h).status = .CANCELLED))) := by
    intro h
    rw [req_setReq]
    split
    · rename_i hc
      rw [hc.1]
      exact ⟨rfl, Or.inr hx, Or.inl rfl⟩
    · exact ⟨rfl, Or.inl rfl, Or.inl rfl⟩
  have hother : ∀ h, h ≠ req →
      (x.setReq req { x.req req with deadline := D }).req h = x.req h :=
    fun h hh => req_setReq_other x req h _ hh
  split
  · -- the timer is reset
    have hti : (x.setReq req { x.req req with deadline := D }).chan.timeout_id.isSome = true ↔
        (x.setReq req { x.req req with deadline := D }).chan.next_deadline ≠ 0 := hk.core.timer
    have hr := reset_timeout_bound (x.setReq req { x.req req with deadline := D }) hti
    have ht := reset_timeout_table (x.setReq req { x.req req with deadline := D })
    refine G_gen hk _ (by simp) (fun h => by simpa using hreq h) (by rw [ht.2.1]; simp)
      (by rw [ht.1]; simp) (fun s hs => by rw [ht.2.2.1] at hs; simpa using hs)
      (by rw [ht.2.2.2]; simp) hr.1 (by simp) (fun _ => hr.2)
  · rename_i hc
    refine G_gen hk _ (by simp) hreq (by simp) (by simp) (fun s hs => by simpa using hs)
      (by simp) hk.core.timer (by simp) ?_
    intro hb kv hm hd
    have hm2 : kv ∈ x.chan.resp_table := by simpa using hm
    have hnz : x.chan.next_deadline ≠ 0 := fun h0 => hc (Or.inl (by simpa using h0))
    by_cases hkv : kv.2 = req
    · rw [hkv] at hd ⊢
      refine ⟨hnz, ?_⟩
      by_contra h4
      exact hc (Or.inr (by
        show _ < x.chan.next_deadline
        omega))
    · rw [hother kv.2 hkv] at hd ⊢
      exact hb kv hm2 hd
/-- A submitted request that is in no part of the send queue becomes the
request in transmission. -/
theorem G_send_req {w x : World} (req : Nat) (pos : Nat) (hk : Good w x)
    (hl : req < x.reqs.length) (hx : (x.req req).status ≠ .NEW) (hf : req ∉ x.chan.fifo)
    (hn : ¬ Retired w req) :
    Good w { x with chan := { x.chan with send_req := some req, send_pos := pos } } := by
  have hg := G_of_eq hk { x with chan := { x.chan with send_pos := pos } }
    rfl rfl rfl rfl rfl rfl rfl rfl
  refine { hg with core := ⟨?_, hg.core.ids, hg.core.fifo, ?_, hg.core.table, hg.core.last,
    hg.core.timer⟩, retired := ?_ }
  · intro h hh
    rw [mem_pending] at hh
    rcases hh with h1 | h1 | h1
    · have : req = h := by simpa using h1
      rw [← this]; exact ⟨hl, hx⟩
    · exact hk.core.pending h ((mem_pending x h).2 (Or.inr (Or.inl h1)))
    · exact hk.core.pending h ((mem_pending x h).2 (Or.inr (Or.inr h1)))
  · intro s hs
    have : req = s := by simpa using hs
    rw [← this]; exact hf
  · intro h hr
    obtain ⟨h1, h2, h3, _⟩ := hk.retired h hr
    refine ⟨h1, h2, h3, fun hs => ?_⟩
    have : req = h := by simpa using hs
    rw [this] at hn
    exact absurd hr hn

/-- A request is stored back with the same id, status and deadline. -/
theorem G_setReq {w x : World} (req : Nat) (r : GRilIoRequest) (hk : Good w x)
    (hr : r.id = (x.req req).id ∧ r.status = (x.req req).status ∧
      r.deadline = (x.req req).deadline) : Good w (x.setReq req r) := by
  refine G_frame hk _ (by simp) (fun k => ?_) (by simp) (by simp)
    (fun s hs => by simpa using hs) (by simp) (by simp) (by simp)
  rw [req_setReq]
  split
  · rename_i hc; rw [hc.1]; exact hr
  · exact ⟨rfl, rfl, rfl⟩

theorem G_write_prepare {w x : World} (e : Endian) (req : Nat) (hk : Good w x)
    (hl : req < x.reqs.length) (hx : (x.req req).status ≠ .NEW) (hf : req ∉ x.chan.fifo)
    (hn : ¬ Retired w req) :
    Good w (grilio_channel_write_prepare e x req) ∧
      (grilio_channel_write_prepare e x req).chan.send_req = some req := by
  unfold grilio_channel_write_prepare
  dsimp only
  refine ⟨?_, rfl⟩
  refine G_send_req (x := World.setReq _ _ _) req 0 (G_setReq req _ hk ⟨rfl, rfl, rfl⟩)
    (by simpa using hl) ?_ (by simpa using hf) hn
  rw [req_setReq_same _ _ _ hl]
  exact hx

theorem G_dequeue {w x x1 : World} {req : Nat} (hk : Good w x)
    (hp : grilio_channel_dequeue_request x = (some req, x1)) :
    Good w x1 ∧ req < x1.reqs.length ∧ (x1.req req).status ≠ .NEW ∧ req ∉ x1.chan.fifo ∧
      ¬ Retired w req ∧ x1.chan.send_req = x.chan.send_req := by
  unfold grilio_channel_dequeue_request at hp
  cases hf : x.chan.fifo with
  | nil => rw [hf] at hp; simp at hp
  | cons h rest =>
      rw [hf] at hp
      simp only [Prod.mk.injEq, Option.some.injEq] at hp
      have hm : h ∈ x.chan.fifo := by rw [hf]; exact List.mem_cons_self _ _
      have hpd := hk.core.pending h ((mem_pending x h).2 (Or.inr (Or.inl hm)))
      have hn := not_retired_of_pending hk (Or.inl hm)
      have hnd : h ∉ rest := by
        have := hk.core.fifo
        rw [hf] at this
        exact (List.nodup_cons.1 this).1
      have h1 : Good w { x with chan := { x.chan with fifo := rest } } :=
        G_frame hk _ rfl (fun _ => ⟨rfl, rfl, rfl⟩)
          (by rw [hf]; exact List.sublist_cons_self _ _) (List.Sublist.refl _)
          (fun _ hh => hh) rfl ⟨rfl, rfl⟩ rfl
      have h2 := G_emit (.sending h) rfl
        (G_status h .SENDING h1 (by simp) hpd.2 (fun hr => absurd hr hn))
      rw [← hp.2, ← hp.1]
      refine ⟨h2, by simpa using hpd.1, ?_, by simpa using hnd, hn, rfl⟩
      rw [emit_req, req_setReq]
      split
      · simp
      · exact hpd.2

theorem G_write_pick {w x x1 : World} {req : Nat} (e : Endian) (hk : Good w x)
    (hp : grilio_channel_write_pick e x = some (req, x1)) :
    Good w x1 ∧ x1.chan.send_req = some req := by
  unfold grilio_channel_write_pick at hp
  cases hs : x.chan.send_req with
  | some r =>
      rw [hs] at hp
      simp only [Option.some.injEq, Prod.mk.injEq] at hp
      rw [← hp.2, ← hp.1]; exact ⟨hk, hs⟩
  | none =>
      rw [hs] at hp
      dsimp only at hp
      split at hp
      · rename_i r x2 hd
        simp only [Option.some.injEq, Prod.mk.injEq] at hp
        obtain ⟨h2, hl, hx, hf, hn, _⟩ := G_dequeue hk hd
        rw [← hp.2, ← hp.1]
        exact G_write_prepare e r h2 hl hx hf hn
      · simp at hp
theorem G_write_sent {w x : World} (req : Nat) (hk : Good w x)
    (hs : x.chan.send_req = some req) :
    Good w (grilio_channel_write_sent x req).2 := by
  have hx : (x.req req).status ≠ .NEW :=
    (hk.core.pending req ((mem_pending x req).2 (Or.inl hs))).2
  have h1 : Good w (if (x.req req).status = .SENDING
      then x.setReq req { x.req req with status := .SENT } else x) := by
    split
    · rename_i hc
      have hn := not_retired_of_pending hk (Or.inr (Or.inr ⟨hs, by rw [hc]; simp⟩))
      exact G_status req .SENT hk (by simp) hx (fun hr => absurd hr hn)
    · exact hk
  have h1s : (if (x.req req).status = .SENDING
      then x.setReq req { x.req req with status := .SENT } else x).chan.send_req = some req := by
    split <;> simpa using hs
  unfold grilio_channel_write_sent
  dsimp only
  revert h1 h1s
  generalize (if (x.req req).status = .SENDING
      then x.setReq req { x.req req with status := .SENT } else x) = W1
  intro h1 h1s
  have h2 := G_log .REQ (W1.req req).id (W1.req req).code ((W1.req req).bytes.drop 4) h1
  have h2x : ((grilio_channel_log W1 .REQ (W1.req req).id (W1.req req).code
      ((W1.req req).bytes.drop 4)).req req).status ≠ .NEW := by
    rw [log_req]
    exact (h1.core.pending req ((mem_pending W1 req).2 (Or.inl h1s))).2
  revert h2 h2x
  generalize grilio_channel_log W1 .REQ (W1.req req).id (W1.req req).code
      ((W1.req req).bytes.drop 4) = W2
  intro h2 h2x
  refine G_frame (x := grilio_request_unref _ req) (G_unref req ?_) _ rfl
    (fun _ => ⟨rfl, rfl, rfl⟩) (List.Sublist.refl _) (List.Sublist.refl _)
    (fun s hs2 => by simp at hs2) rfl ⟨rfl, rfl⟩ rfl
  refine G_ite (G_queue_remove _ h2) (G_ite ?_ h2)
  exact G_deadline req _ h2 h2x

theorem G_write_data {w x : World} (req : Nat) (hk : Good w x)
    (hs : x.chan.send_req = some req) :
    Good w (grilio_channel_write_data x req).2 := by
  unfold grilio_channel_write_data
  have hc := G_write_chars ((x.req req).bytes.drop x.chan.send_pos) hk
  have hcs : (g_io_channel_write_chars x ((x.req req).bytes.drop x.chan.send_pos)).2.chan
      = x.chan := by
    unfold g_io_channel_write_chars
    split <;> rfl
  split
  · split
    · rename_i h1 h2
      rw [h2] at hc
      exact G_handle_error .WRITE false hc
    · rename_i h1 n w1 h2
      rw [h2] at hc hcs
      dsimp only at hc hcs ⊢
      split
      · exact G_of_eq hc _ rfl rfl rfl rfl rfl rfl rfl rfl
      · exact G_write_sent _ (G_of_eq hc _ rfl rfl rfl rfl rfl rfl rfl rfl)
          (by show w1.chan.send_req = some req; rw [hcs]; exact hs)
  · exact G_write_sent _ hk hs

theorem G_write_request {w x : World} (e : Endian) (hk : Good w x) :
    Good w (grilio_channel_write_request e x).2 := by
  unfold grilio_channel_write_request
  split
  · exact hk
  · rename_i req x1 hp
    obtain ⟨h1, h2⟩ := G_write_pick e hk hp
    exact G_write_data req h1 h2

theorem G_write {w x : World} (e : Endian) (hk : Good w x) :
    Good w (grilio_channel_write e x).2 := by
  unfold grilio_channel_write
  have hc := G_write_chars
    ((x.chan.sub.drop x.chan.sub_pos).take (GRILIO_SUB_LEN - x.chan.sub_pos)) hk
  split
  · split
    · rename_i h1 h2
      rw [h2] at hc
      exact G_handle_error .WRITE false hc
    · rename_i h1 n w1 h2
      rw [h2] at hc
      dsimp only
      split
      · exact G_of_eq hc _ rfl rfl rfl rfl rfl rfl rfl rfl
      · exact G_write_request e (G_of_eq hc _ rfl rfl rfl rfl rfl rfl rfl rfl)
  · exact G_write_request e hk

theorem G_schedule_write {w x : World} (e : Endian) (hk : Good w x) :
    Good w (grilio_channel_schedule_write e x) := by
  unfold grilio_channel_schedule_write
  split
  · dsimp only
    split
    · exact G_of_eq (G_write e hk) _ rfl rfl rfl rfl rfl rfl rfl rfl
    · exact G_write e hk
  · exact hk

theorem G_write_callback {w x : World} (e : Endian) (hk : Good w x) :
    Good w (grilio_channel_write_callback e x) := by
  unfold grilio_channel_write_callback
  split
  · dsimp only
    split
    · exact G_write e hk
    · exact G_of_eq (G_write e hk) _ rfl rfl rfl rfl rfl rfl rfl rfl
  · exact hk

theorem G_connected {w x : World} (e : Endian) (hk : Good w x) :
    Good w (grilio_channel_connected e x) := by
  unfold grilio_channel_connected
  split
  · dsimp only
    split
    · exact G_schedule_write e
        (G_emit .connected rfl (G_of_eq hk _ rfl rfl rfl rfl rfl rfl rfl rfl))
    · exact G_emit .connect_failed rfl hk
  · exact hk

theorem G_handle_packet {w x : World} (e : Endian) (hk : Good w x) :
    Good w (grilio_channel_handle_packet e x).2 := by
  unfold grilio_channel_handle_packet
  dsimp only
  split
  · split
    · exact G_emit _ rfl (G_ite (G_connected e (G_log _ _ _ _ hk)) (G_log _ _ _ _ hk))
    · split
      · split
        · rename_i req hl
          have hkv := lookup_some_mem _ _ _ hl
          have hn := not_retired_of_pending hk (Or.inr (Or.inl ⟨_, hkv, rfl⟩))
          exact G_unref _ (G_respond _ _ _
            (G_hash_remove _ (G_queue_remove _ (G_ref _ (G_log _ _ _ _ hk)))) hn)
        · exact G_log _ _ _ _ hk
      · exact G_handle_error .READ true hk
  · exact G_handle_error .READ true hk

theorem G_read_chars {w x : World} (inp : Input) (count : Nat) (hk : Good w x) :
    Good w (grilio_channel_read_chars x inp count).2.1 := by
  unfold grilio_channel_read_chars
  split
  · exact hk
  · exact G_handle_error .READ false hk
  · exact G_handle_eof hk
  · exact hk

theorem G_read_body {w x : World} (e : Endian) (inp : Input) (hk : Good w x) :
    Good w (grilio_channel_read_body e x inp).2.1 := by
  unfold grilio_channel_read_body
  have hc := G_read_chars inp (x.chan.read_len - x.chan.read_buf_pos) hk
  split
  · split
    · rename_i h1 w1 inp1 h2
      rw [h2] at hc
      exact hc
    · rename_i h1 bytes w1 inp1 h2
      rw [h2] at hc
      dsimp only at hc ⊢
      split
      · exact G_of_eq hc _ rfl rfl rfl rfl rfl rfl rfl rfl
      · exact G_handle_packet e (G_of_eq hc _ rfl rfl rfl rfl rfl rfl rfl rfl)
  · exact G_handle_packet e (G_of_eq hk _ rfl rfl rfl rfl rfl rfl rfl rfl)

theorem G_read {w x : World} (e : Endian) (inp : Input) (hk : Good w x) :
    Good w (grilio_channel_read e x inp).2.1 := by
  unfold grilio_channel_read
  have hc := G_read_chars inp (4 - x.chan.read_len_pos) hk
  split
  · split
    · rename_i h1 w1 inp1 h2
      rw [h2] at hc
      exact hc
    · rename_i h1 bytes w1 inp1 h2
      rw [h2] at hc
      dsimp only at hc ⊢
      split
      · exact G_of_eq hc _ rfl rfl rfl rfl rfl rfl rfl rfl
      · split
        · refine G_read_body e inp1 (G_ite ?_ ?_)
          · exact G_of_eq hc _ rfl rfl rfl rfl rfl rfl rfl rfl
          · exact G_of_eq hc _ rfl rfl rfl rfl rfl rfl rfl rfl
        · exact G_of_eq hc _ rfl rfl rfl rfl rfl rfl rfl rfl
  · exact G_read_body e inp hk

theorem G_read_callback {w x : World} (e : Endian) (inp : Input) (hk : Good w x) :
    Good w (grilio_channel_read_callback e x inp).1 := by
  unfold grilio_channel_read_callback
  split
  · dsimp only
    split
    · exact G_read e inp hk
    · exact G_of_eq (G_read e inp hk) _ rfl rfl rfl rfl rfl rfl rfl rfl
  · exact hk
/-- The step is seen from a world that differs from `w1` in the timer and
`last_req_id` at most. -/
theorem G_rebase {w w1 y : World} (hk : Good w1 y) (hr : w1.reqs = w.reqs)
    (hf : w1.chan.fifo = w.chan.fifo) (ht : w1.chan.resp_table = w.chan.resp_table)
    (hs : w1.chan.send_req = w.chan.send_req) (htr : w1.trace = w.trace)
    (hl : y.chan.last_req_id = w.chan.last_req_id) (hb : Bound w → Bound y) : Good w y := by
  have hq : ∀ h, w1.req h = w.req h := fun h => by simp [World.req, hr]
  have hret : ∀ h, Retired w h → Retired w1 h := by
    intro h hh
    unfold Retired at hh ⊢
    rw [hq, hf, ht, hs]
    exact hh
  refine ⟨hk.core, by rw [← hr]; exact hk.len, fun h hn => ?_, fun h hh => hk.retired h (hret h hh),
    ?_, hl, hb⟩
  · rw [← hq h] at hn ⊢
    exact hk.ids h hn
  · obtain ⟨cb, h1, h2⟩ := hk.quiet
    refine ⟨cb, by rw [h1, htr], fun c hc hr2 => h2 c hc (hret _ hr2)⟩

theorem G_foldl_ref {w : World} (l : List Nat) : ∀ x : World, Good w x →
    Good w (l.foldl grilio_request_ref x) := by
  induction l with
  | nil => intro x hk; exact hk
  | cons a l ih => intro x hk; exact ih _ (G_ref a hk)

theorem G_timeout_expired {w : World} (l : List Nat) : ∀ x : World, Good w x →
    (∀ req ∈ l, ¬ Retired w req) → Good w (grilio_channel_timeout_expired x l) := by
  induction l with
  | nil => intro x hk _; exact hk
  | cons req l ih =>
      intro x hk hn
      unfold grilio_channel_timeout_expired
      dsimp only
      refine ih _ (G_unref _ ?_) (fun r hr => hn r (List.mem_cons_of_mem _ hr))
      have h1 := G_hash_remove (x.req req).id hk
      exact G_ite (G_respond _ _ _ (G_queue_remove _ h1) (hn req (List.mem_cons_self _ _))) h1

theorem core_clear_timer {w : World} (h : Core w) :
    Core { w with chan := { w.chan with timeout_id := none, next_deadline := 0 } } :=
  ⟨h.pending, h.ids, h.fifo, h.send, h.table, h.last, by simp⟩

theorem G_timeout_body {w1 : World} (hc : Core w1) (now : Int) :
    Good w1 (grilio_channel_reset_timeout (grilio_channel_timeout_expired
      (((w1.chan.resp_table.map (fun kv => kv.2)).filter
        (fun req => decide ((w1.req req).deadline ≠ 0 ∧ (w1.req req).deadline < now))).foldl
          grilio_request_ref w1)
      ((w1.chan.resp_table.map (fun kv => kv.2)).filter
        (fun req => decide ((w1.req req).deadline ≠ 0 ∧ (w1.req req).deadline < now))).reverse)) ∧
    Bound (grilio_channel_reset_timeout (grilio_channel_timeout_expired
      (((w1.chan.resp_table.map (fun kv => kv.2)).filter
        (fun req => decide ((w1.req req).deadline ≠ 0 ∧ (w1.req req).deadline < now))).foldl
          grilio_request_ref w1)
      ((w1.chan.resp_table.map (fun kv => kv.2)).filter
        (fun req => decide ((w1.req req).deadline ≠ 0 ∧ (w1.req req).deadline < now))).reverse)) := by
  have h1 := good_refl hc
  have hn : ∀ req ∈ ((w1.chan.resp_table.map (fun kv => kv.2)).filter
      (fun req => decide ((w1.req req).deadline ≠ 0 ∧ (w1.req req).deadline < now))).reverse,
      ¬ Retired w1 req := by
    intro req hr
    rw [List.mem_reverse, List.mem_filter, List.mem_map] at hr
    obtain ⟨⟨kv, hm, he⟩, _⟩ := hr
    exact not_retired_of_pending h1 (Or.inr (Or.inl ⟨kv, hm, he⟩))
  have h3 := G_timeout_expired _ _ (G_foldl_ref
    ((w1.chan.resp_table.map (fun kv => kv.2)).filter
      (fun req => decide ((w1.req req).deadline ≠ 0 ∧ (w1.req req).deadline < now))) _ h1) hn
  exact ⟨G_reset_timeout h3, (reset_timeout_bound _ h3.core.timer).2⟩

theorem G_timeout {w : World} (hc : Core w) : Good w (grilio_channel_timeout w) := by
  unfold grilio_channel_timeout
  dsimp only
  have h4 := G_timeout_body (core_clear_timer hc) w.now
  exact G_rebase h4.1 rfl rfl rfl rfl rfl h4.1.last (fun _ => h4.2)
theorem hash_remove_fields (x : World) (key : Nat) :
    (g_hash_table_remove x key).2.chan.fifo = x.chan.fifo ∧
    (g_hash_table_remove x key).2.chan.send_req = x.chan.send_req ∧
    (g_hash_table_remove x key).2.chan.timeout_id = x.chan.timeout_id ∧
    (g_hash_table_remove x key).2.chan.next_deadline = x.chan.next_deadline ∧
    (g_hash_table_remove x key).2.chan.last_req_id = x.chan.last_req_id ∧
    (g_hash_table_remove x key).2.chan.resp_table
      = x.chan.resp_table.filter (fun kv => kv.1 ≠ key) := by
  rw [hash_remove_chan]
  exact ⟨rfl, rfl, rfl, rfl, rfl, rfl⟩

/-- One round of the loop of `grilio_channel_cancel_all` over the send
queue. -/
theorem cancel_all_queued_round {w x : World} (notify : Bool) (req : Nat) (rest : List Nat)
    (hk : Good w x) (hf : x.chan.fifo = req :: rest) :
    let w3 : World :=
      { (g_hash_table_remove (grilio_queue_remove (x.emit (.cancelled req)) req)
          ((grilio_queue_remove (x.emit (.cancelled req)) req).req req).id).2 with
        chan := { (g_hash_table_remove (grilio_queue_remove (x.emit (.cancelled req)) req)
          ((grilio_queue_remove (x.emit (.cancelled req)) req).req req).id).2.chan with
            fifo := rest } }
    let y := grilio_request_unref
      (if notify = true ∧ (w3.req req).response = true then
        (w3.setReq req { w3.req req with status := .CANCELLED }).emit
          (.response req GRILIO_STATUS_CANCELLED [])
      else w3) req
    Good w y ∧ y.chan.fifo = rest ∧ y.chan.send_req = x.chan.send_req ∧
      y.chan.timeout_id = x.chan.timeout_id ∧ y.chan.next_deadline = x.chan.next_deadline ∧
      (∀ s, (x.req s).status = .CANCELLED → (y.req s).status = .CANCELLED) := by
  intro w3 y
  have hm : req ∈ x.chan.fifo := by rw [hf]; exact List.mem_cons_self _ _
  have hx : (x.req req).status ≠ .NEW :=
    (hk.core.pending req ((mem_pending x req).2 (Or.inr (Or.inl hm)))).2
  have hn := not_retired_of_pending hk (Or.inl hm)
  have hflds := hash_remove_fields (grilio_queue_remove (x.emit (.cancelled req)) req)
    ((grilio_queue_remove (x.emit (.cancelled req)) req).req req).id
  have h2 := G_hash_remove ((grilio_queue_remove (x.emit (.cancelled req)) req).req req).id
    (G_queue_remove req (G_emit (.cancelled req) rfl hk))
  have h3 : Good w w3 :=
    G_frame h2 w3 rfl (fun _ => ⟨rfl, rfl, rfl⟩)
      (by
        show rest.Sublist _
        rw [hflds.1]
        simp only [queue_remove_chan, emit_chan, hf]
        exact List.sublist_cons_self _ _)
      (List.Sublist.refl _) (fun _ h => h) rfl ⟨rfl, rfl⟩ rfl
  have h3s : ∀ s, (w3.req s).status = (x.req s).status := by
    intro s
    show ((g_hash_table_remove _ _).2.req s).status = _
    simp
  have h3c : w3.chan.send_req = x.chan.send_req ∧ w3.chan.timeout_id = x.chan.timeout_id ∧
      w3.chan.next_deadline = x.chan.next_deadline := by
    refine ⟨?_, ?_, ?_⟩
    · show (g_hash_table_remove _ _).2.chan.send_req = _
      rw [hflds.2.1]; simp
    · show (g_hash_table_remove _ _).2.chan.timeout_id = _
      rw [hflds.2.2.1]; simp
    · show (g_hash_table_remove _ _).2.chan.next_deadline = _
      rw [hflds.2.2.2.1]; simp
  have h4 : Good w (if notify = true ∧ (w3.req req).response = true then
        (w3.setReq req { w3.req req with status := .CANCELLED }).emit
          (.response req GRILIO_STATUS_CANCELLED [])
      else w3) :=
    G_ite (G_respond _ _ _ (G_status req .CANCELLED h3 (by simp) (by rw [h3s]; exact hx)
      (fun _ => rfl)) hn) h3
  refine ⟨G_unref req h4, ?_, ?_, ?_, ?_, ?_⟩
  · show (grilio_request_unref _ req).chan.fifo = rest
    rw [unref_chan]
    split <;> rfl
  · show (grilio_request_unref _ req).chan.send_req = _
    rw [unref_chan]
    split
    · exact h3c.1
    · exact h3c.1
  · show (grilio_request_unref _ req).chan.timeout_id = _
    rw [unref_chan]
    split
    · exact h3c.2.1
    · exact h3c.2.1
  · show (grilio_request_unref _ req).chan.next_deadline = _
    rw [unref_chan]
    split
    · exact h3c.2.2
    · exact h3c.2.2
  · intro s hs
    show ((grilio_request_unref _ req).req s).status = _
    rw [unref_status]
    split
    · rw [emit_req, req_setReq]
      split
      · rfl
      · rw [h3s]; exact hs
    · rw [h3s]; exact hs

theorem G_cancel_all_queued {w : World} (notify : Bool) (l : List Nat) : ∀ x : World,
    Good w x → x.chan.fifo = l →
    Good w (grilio_channel_cancel_all_queued x notify l) ∧
    (grilio_channel_cancel_all_queued x notify l).chan.fifo = [] ∧
    (grilio_channel_cancel_all_queued x notify l).chan.send_req = x.chan.send_req ∧
    (grilio_channel_cancel_all_queued x notify l).chan.timeout_id = x.chan.timeout_id ∧
    (grilio_channel_cancel_all_queued x notify l).chan.next_deadline = x.chan.next_deadline ∧
    (∀ s, (x.req s).status = .CANCELLED →
      ((grilio_channel_cancel_all_queued x notify l).req s).status = .CANCELLED) := by
  induction l with
  | nil =>
      intro x hk hf
      exact ⟨hk, hf, rfl, rfl, rfl, fun _ h => h⟩
  | cons req rest ih =>
      intro x hk hf
      obtain ⟨r1, r2, r3, r4, r5, r6⟩ := cancel_all_queued_round notify req rest hk hf
      obtain ⟨i1, i2, i3, i4, i5, i6⟩ := ih _ r1 r2
      unfold grilio_channel_cancel_all_queued
      exact ⟨i1, i2, i3.trans r3, i4.trans r4, i5.trans r5, fun s hs => i6 s (r6 s hs)⟩
theorem G_cancel_all_sent {w : World} (keys : List Nat) : ∀ x : World, Good w x →
    Good w (grilio_channel_cancel_all_sent x keys) ∧
    (grilio_channel_cancel_all_sent x keys).chan.resp_table
      = x.chan.resp_table.filter (fun kv => kv.1 ∉ keys) ∧
    (grilio_channel_cancel_all_sent x keys).chan.fifo = x.chan.fifo ∧
    (grilio_channel_cancel_all_sent x keys).chan.send_req = x.chan.send_req ∧
    (grilio_channel_cancel_all_sent x keys).chan.timeout_id = x.chan.timeout_id ∧
    (grilio_channel_cancel_all_sent x keys).chan.next_deadline = x.chan.next_deadline ∧
    (∀ s, ((grilio_channel_cancel_all_sent x keys).req s).status = (x.req s).status) := by
  induction keys with
  | nil =>
      intro x hk
      exact ⟨hk, by show x.chan.resp_table = _; simp, rfl, rfl, rfl, rfl, fun _ => rfl⟩
  | cons key keys ih =>
      intro x hk
      unfold grilio_channel_cancel_all_sent
      cases hl : g_hash_table_lookup x.chan.resp_table key with
      | none =>
          dsimp only
          obtain ⟨i1, i2, i3, i4, i5, i6, i7⟩ := ih x hk
          refine ⟨i1, ?_, i3, i4, i5, i6, i7⟩
          rw [i2]
          have hnone := lookup_none_filter _ _ hl
          rw [List.filter_eq_self] at hnone
          apply List.filter_congr
          intro kv hm
          have := hnone kv hm
          simp only [ne_eq, decide_not, Bool.not_eq_true', decide_eq_false_iff_not] at this
          simp [this]
      | some req =>
          dsimp only
          have hkv := lookup_some_mem _ _ _ hl
          have hn := not_retired_of_pending hk (Or.inr (Or.inl ⟨_, hkv, rfl⟩))
          have h1 := G_unref req (G_respond req GRILIO_STATUS_CANCELLED []
            (G_steal key (G_queue_remove req hk)) hn)
          obtain ⟨i1, i2, i3, i4, i5, i6, i7⟩ := ih _ h1
          refine ⟨i1, ?_, ?_, ?_, ?_, ?_, ?_⟩
          · rw [i2]
            simp only [unref_chan, emit_chan, g_hash_table_steal, queue_remove_chan,
              List.filter_filter]
            apply List.filter_congr
            intro kv _
            by_cases hkk : kv.1 = key <;> simp [hkk]
          · rw [i3]; simp [g_hash_table_steal]
          · rw [i4]; simp [g_hash_table_steal]
          · rw [i5]; simp [g_hash_table_steal]
          · rw [i6]; simp [g_hash_table_steal]
          · intro s
            rw [i7]; simp

theorem G_cancel_all_current {w x : World} (notify : Bool) (hk : Good w x) :
    Good w (grilio_channel_cancel_all_current x notify) ∧
    (grilio_channel_cancel_all_current x notify).chan = x.chan ∧
    (∀ s, x.chan.send_req = some s →
      ((grilio_channel_cancel_all_current x notify).req s).status = .CANCELLED) := by
  unfold grilio_channel_cancel_all_current
  cases hs : x.chan.send_req with
  | none => exact ⟨hk, rfl, fun s h => by cases h⟩
  | some req =>
      dsimp only
      have hp := hk.core.pending req ((mem_pending x req).2 (Or.inl hs))
      split
      · rename_i hc
        have hn := not_retired_of_pending hk (Or.inr (Or.inr ⟨hs, hc⟩))
        have h2 := G_queue_remove req
          (G_status req .CANCELLED hk (by simp) hp.2 (fun _ => rfl))
        have hst : ((grilio_queue_remove
            (x.setReq req { x.req req with status := .CANCELLED }) req).req req).status
              = .CANCELLED := by
          rw [queue_remove_status, req_setReq_same _ _ _ hp.1]
        refine ⟨G_ite (G_respond _ _ _ h2 hn) h2, ?_, ?_⟩
        · split <;> simp
        · intro s hs2
          have : req = s := by simpa using hs2
          rw [← this]
          split
          · rw [emit_req]; exact hst
          · exact hst
      · rename_i hc
        refine ⟨hk, rfl, ?_⟩
        intro s hs2
        have : req = s := by simpa using hs2
        rw [← this]
        by_contra h4
        exact hc h4

theorem G_cancel_all {w x : World} (notify : Bool) (hk : Good w x) :
    Good w (grilio_channel_cancel_all x notify) ∧
    (grilio_channel_cancel_all x notify).chan.fifo = [] ∧
    (grilio_channel_cancel_all x notify).chan.resp_table = [] ∧
    (grilio_channel_cancel_all x notify).chan.timeout_id = none ∧
    (grilio_channel_cancel_all x notify).chan.next_deadline = 0 ∧
    (grilio_channel_cancel_all x notify).chan.send_req = x.chan.send_req ∧
    (∀ s, x.chan.send_req = some s →
      ((grilio_channel_cancel_all x notify).req s).status = .CANCELLED) := by
  obtain ⟨g1, c1, s1⟩ := G_cancel_all_current notify hk
  unfold grilio_channel_cancel_all
  dsimp only
  revert g1 c1 s1
  generalize grilio_channel_cancel_all_current x notify = W1
  intro g1 c1 s1
  obtain ⟨g2, f2, sr2, ti2, nd2, st2⟩ := G_cancel_all_queued notify W1.chan.fifo W1 g1 rfl
  obtain ⟨g3, t3, f3, sr3, ti3, nd3, st3⟩ := G_cancel_all_sent
    ((grilio_channel_cancel_all_queued W1 notify W1.chan.fifo).chan.resp_table.map
      (fun kv => kv.1)) _ g2
  have t3e : (grilio_channel_cancel_all_sent
      (grilio_channel_cancel_all_queued W1 notify W1.chan.fifo)
      ((grilio_channel_cancel_all_queued W1 notify W1.chan.fifo).chan.resp_table.map
        (fun kv => kv.1))).chan.resp_table = [] := by
    rw [t3, List.filter_eq_nil_iff]
    intro kv hm
    simp only [List.mem_map, not_exists, not_and, decide_eq_true_eq, not_forall,
      Classical.not_imp, not_not]
    exact ⟨kv, hm, rfl⟩
  have hsend : ∀ s, x.chan.send_req = some s → ((grilio_channel_cancel_all_sent
      (grilio_channel_cancel_all_queued W1 notify W1.chan.fifo)
      ((grilio_channel_cancel_all_queued W1 notify W1.chan.fifo).chan.resp_table.map
        (fun kv => kv.1))).req s).status = .CANCELLED := by
    intro s hs
    rw [st3]
    exact st2 s (s1 s hs)
  split
  · refine ⟨?_, f3.trans f2, t3e, rfl, rfl, (sr3.trans sr2).trans (by rw [c1]), hsend⟩
    refine G_timer g3 _ rfl rfl rfl rfl ?_ rfl (by simp) ?_
    · rw [g3.last]
    · intro _ kv hm
      have : kv ∈ (grilio_channel_cancel_all_sent
          (grilio_channel_cancel_all_queued W1 notify W1.chan.fifo)
          ((grilio_channel_cancel_all_queued W1 notify W1.chan.fifo).chan.resp_table.map
            (fun kv => kv.1))).chan.resp_table := hm
      rw [t3e] at this
      cases this
  · rename_i hti
    have hnone : (grilio_channel_cancel_all_sent
        (grilio_channel_cancel_all_queued W1 notify W1.chan.fifo)
        ((grilio_channel_cancel_all_queued W1 notify W1.chan.fifo).chan.resp_table.map
          (fun kv => kv.1))).chan.timeout_id = none := by
      cases h : (grilio_channel_cancel_all_sent
        (grilio_channel_cancel_all_queued W1 notify W1.chan.fifo)
        ((grilio_channel_cancel_all_queued W1 notify W1.chan.fifo).chan.resp_table.map
          (fun kv => kv.1))).chan.timeout_id with
      | none => rfl
      | some t => rw [h] at hti; simp at hti
    refine ⟨g3, f3.trans f2, t3e, hnone, ?_, (sr3.trans sr2).trans (by rw [c1]), hsend⟩
    by_contra h0
    have := g3.core.timer.2 h0
    rw [hnone] at this
    simp at this

theorem alloc_req_eq (x : World) (r : GRilIoRequest) (h : Nat) :
    (x.alloc r).2.req h = if h = x.reqs.length then r else x.req h := by
  unfold World.alloc World.req
  dsimp only
  by_cases hh : h = x.reqs.length
  · rw [if_pos hh, hh]
    simp [List.getD_eq_getElem?_getD]
  · rw [if_neg hh]
    rcases Nat.lt_or_gt_of_ne hh with h1 | h1
    · simp [List.getD_eq_getElem?_getD, List.getElem?_append_left h1]
    · have h2 : x.reqs.length ≤ h := Nat.le_of_lt h1
      have h3 : (x.reqs ++ [r]).length ≤ h := by simp; omega
      simp [List.getD_eq_getElem?_getD, List.getElem?_eq_none h2, List.getElem?_eq_none h3]

theorem req_oob (x : World) (h : Nat) (hh : x.reqs.length ≤ h) :
    x.req h = grilio_request_new := by
  unfold World.req
  simp [List.getD_eq_getElem?_getD, List.getElem?_eq_none hh]
  rfl

/-- A new request enters the heap. -/
theorem G_alloc {w x : World} (r : GRilIoRequest) (hk : Good w x)
    (hr : r.id = 0 ∧ r.status = .NEW ∧ r.deadline = 0) : Good w (x.alloc r).2 := by
  have hq : ∀ h, ((x.alloc r).2.req h).id = (x.req h).id ∧
      ((x.alloc r).2.req h).status = (x.req h).status ∧
      ((x.alloc r).2.req h).deadline = (x.req h).deadline := by
    intro h
    rw [alloc_req_eq]
    split
    · rename_i hh
      rw [req_oob x h (Nat.le_of_eq hh.symm), hr.1, hr.2.1, hr.2.2]
      exact ⟨rfl, rfl, rfl⟩
    · exact ⟨rfl, rfl, rfl⟩
  refine G_gen hk _ (by simp [World.alloc]) (fun h => ⟨(hq h).1, Or.inl (hq h).2.2,
    Or.inl (hq h).2.1⟩) (List.Sublist.refl _) (List.Sublist.refl _) (fun _ h => h) rfl
    hk.core.timer rfl ?_
  intro hb kv hm hd
  rw [(hq kv.2).2.2] at hd ⊢
  exact hb kv hm hd

theorem G_setQueue {w x : World} (q : Nat) (v : GRilIoQueue) (hk : Good w x) :
    Good w (x.setQueue q v) :=
  G_of_eq hk _ (by simp) (by simp) (by simp) (by simp) (by simp) (by simp) (by simp) (by simp)

theorem G_queue_add {w x : World} (q h : Nat) (hk : Good w x) :
    Good w (grilio_queue_add x q h) := by
  unfold grilio_queue_add
  dsimp only
  exact G_setQueue _ _ (G_setReq h _ hk ⟨rfl, rfl, rfl⟩)

theorem G_channel_unref {w x : World} (hk : Good w x) : Good w (grilio_channel_unref x) := by
  unfold grilio_channel_unref grilio_channel_dispose
  split
  · exact G_of_eq (G_cancel_all true (G_shutdown false hk)).1 _ rfl rfl rfl rfl rfl rfl rfl rfl
  · exact G_of_eq hk _ rfl rfl rfl rfl rfl rfl rfl rfl

theorem G_foldl_unqueue {w : World} (l : List Nat) : ∀ x : World, Good w x →
    Good w (l.foldl (fun w req => w.setReq req { w.req req with queue := none }) x) := by
  induction l with
  | nil => intro x hk; exact hk
  | cons a l ih => intro x hk; exact ih _ (G_setReq a _ hk ⟨rfl, rfl, rfl⟩)

theorem G_queue_free {w x : World} (q : Nat) (hk : Good w x) :
    Good w (grilio_queue_free x q) := by
  unfold grilio_queue_free
  dsimp only
  exact G_channel_unref (G_setQueue _ _ (G_foldl_unqueue _ _ hk))

theorem G_queue_unref {w x : World} (q : Nat) (hk : Good w x) :
    Good w (grilio_queue_unref x q) := by
  unfold grilio_queue_unref
  dsimp only
  exact G_ite (G_queue_free q (G_setQueue _ _ hk)) (G_setQueue _ _ hk)

theorem G_queue_cancel_request {w x : World} (q id : Nat) (notify : Bool) (hk : Good w x) :
    Good w (grilio_queue_cancel_request x q id notify).2 := by
  unfold grilio_queue_cancel_request
  split
  · split
    · split
      · exact G_cancel_request id notify hk
      · exact hk
    · exact hk
  · exact hk

theorem G_queue_cancel_all_loop {w : World} (q : Nat) (notify : Bool) (n : Nat) :
    ∀ x : World, Good w x → Good w (grilio_queue_cancel_all_loop x q notify n) := by
  induction n with
  | zero => intro x hk; exact hk
  | succ n ih =>
      intro x hk
      unfold grilio_queue_cancel_all_loop
      split
      · exact hk
      · dsimp only
        exact ih _ (G_cancel_request _ notify (G_setReq _ _ (G_setQueue _ _ hk) ⟨rfl, rfl, rfl⟩))
theorem hash_insert_fields (x : World) (key value : Nat) :
    (g_hash_table_insert x key value).chan.fifo = x.chan.fifo ∧
    (g_hash_table_insert x key value).chan.send_req = x.chan.send_req ∧
    (g_hash_table_insert x key value).chan.timeout_id = x.chan.timeout_id ∧
    (g_hash_table_insert x key value).chan.next_deadline = x.chan.next_deadline ∧
    (g_hash_table_insert x key value).chan.last_req_id = x.chan.last_req_id ∧
    responses (g_hash_table_insert x key value).trace = responses x.trace ∧
    (∀ k, ((g_hash_table_insert x key value).req k).id = (x.req k).id ∧
      ((g_hash_table_insert x key value).req k).status = (x.req k).status ∧
      ((g_hash_table_insert x key value).req k).deadline = (x.req k).deadline) := by
  unfold g_hash_table_insert
  split
  · dsimp only
    refine ⟨by simp, by simp, by simp, by simp, by simp, by simp, fun k => ?_⟩
    rw [unref_id, unref_status, unref_deadline]
    exact ⟨rfl, rfl, rfl⟩
  · exact ⟨rfl, rfl, rfl, rfl, rfl, rfl, fun _ => ⟨rfl, rfl, rfl⟩⟩

theorem hash_insert_mem (x : World) (key value : Nat) (kv : Nat × Nat)
    (hm : kv ∈ (g_hash_table_insert x key value).chan.resp_table) :
    kv = (key, value) ∨ kv ∈ x.chan.resp_table := by
  unfold g_hash_table_insert at hm
  split at hm
  · simp only [unref_chan, List.mem_map] at hm
    obtain ⟨a, ha, he⟩ := hm
    split at he
    · exact Or.inl he.symm
    · exact Or.inr (he ▸ ha)
  · simp only [List.mem_append, List.mem_singleton] at hm
    rcases hm with h | h
    · exact Or.inr h
    · exact Or.inl h

theorem hash_insert_keys (x : World) (key value : Nat)
    (hnd : (x.chan.resp_table.map (fun kv => kv.1)).Nodup) :
    ((g_hash_table_insert x key value).chan.resp_table.map (fun kv => kv.1)).Nodup := by
  unfold g_hash_table_insert
  split
  · simp only [unref_chan, List.map_map]
    have : ((fun kv : Nat × Nat => kv.1) ∘ fun kv => if kv.1 = key then (key, value) else kv)
        = fun kv => kv.1 := by
      funext kv
      simp only [Function.comp]
      split
      · rename_i h; exact h.symm
      · rfl
    rw [this]
    exact hnd
  · rename_i hl
    simp only [List.map_append, List.map_cons, List.map_nil]
    rw [List.nodup_append]
    refine ⟨hnd, List.nodup_singleton _, ?_⟩
    intro a ha hb
    rw [List.mem_singleton.1 hb] at ha
    rw [List.mem_map] at ha
    obtain ⟨kv, hkv, hk⟩ := ha
    have := (lookup_isSome x.chan.resp_table key).2 ⟨kv, hkv, hk⟩
    rw [hl] at this
    simp at this

/-- What a submission does, seen from outside: the request `h`, NEW until
then, gets the id and becomes QUEUED at the end of the send queue, and the
response table may get the entry for it. -/
theorem good_of_submit {w x Y : World} (hk : Good w x) (h id : Nat)
    (hl : h < x.reqs.length) (hnew : (x.req h).status = .NEW) (hid : id ≠ 0)
    (hid2 : id < 4294967296)
    (hlen : Y.reqs.length = x.reqs.length)
    (hreq : ∀ k, (Y.req k).id = (if k = h then id else (x.req k).id) ∧
      (Y.req k).status = (if k = h then .QUEUED else (x.req k).status) ∧
      (Y.req k).deadline = (x.req k).deadline)
    (hfifo : Y.chan.fifo = x.chan.fifo ++ [h])
    (htab : ∀ kv ∈ Y.chan.resp_table, kv = (id, h) ∨ kv ∈ x.chan.resp_table)
    (hkeys : (Y.chan.resp_table.map (fun kv => kv.1)).Nodup)
    (hsend : Y.chan.send_req = x.chan.send_req)
    (hlast : Y.chan.last_req_id = x.chan.last_req_id)
    (hti : Y.chan.timeout_id = x.chan.timeout_id)
    (hnd : Y.chan.next_deadline = x.chan.next_deadline)
    (htr : responses Y.trace = responses x.trace) : Good w Y := by
  have hd0 : (x.req h).deadline = 0 := (hk.core.ids h).2.2 hnew
  have hne : ∀ k, k ∈ Pending x → k ≠ h :=
    fun k hp hkh => (hk.core.pending k hp).2 (hkh ▸ hnew)
  have hother : ∀ k, k ≠ h → (Y.req k).id = (x.req k).id ∧
      (Y.req k).status = (x.req k).status ∧ (Y.req k).deadline = (x.req k).deadline := by
    intro k hkh
    have := hreq k
    rw [if_neg hkh, if_neg hkh] at this
    exact this
  have hself : (Y.req h).id = id ∧ (Y.req h).status = .QUEUED ∧ (Y.req h).deadline = 0 := by
    have := hreq h
    rw [if_pos rfl, if_pos rfl, hd0] at this
    exact this
  have hnf : h ∉ x.chan.fifo :=
    fun hm => hne h ((mem_pending x h).2 (Or.inr (Or.inl hm))) rfl
  have hpend : ∀ k ∈ Pending Y, k = h ∨ k ∈ Pending x := by
    intro k hp
    rw [mem_pending] at hp
    rcases hp with h1 | h1 | ⟨kv, h1, h2⟩
    · exact Or.inr ((mem_pending x k).2 (Or.inl (hsend ▸ h1)))
    · rw [hfifo, List.mem_append, List.mem_singleton] at h1
      rcases h1 with h1 | h1
      · exact Or.inr ((mem_pending x k).2 (Or.inr (Or.inl h1)))
      · exact Or.inl h1
    · rcases htab kv h1 with h3 | h3
      · left; rw [← h2, h3]
      · exact Or.inr ((mem_pending x k).2 (Or.inr (Or.inr ⟨kv, h3, h2⟩)))
  refine ⟨⟨?_, ?_, ?_, ?_, ⟨hkeys, ?_⟩, ?_, ?_⟩, ?_, ?_, ?_, ?_, ?_, ?_⟩
  · intro k hp
    rcases hpend k hp with h1 | h1
    · rw [h1, hself.2.1, hlen]; exact ⟨hl, by simp⟩
    · have := hk.core.pending k h1
      rw [(hother k (hne k h1)).2.1, hlen]
      exact this
  · intro k
    by_cases hkh : k = h
    · rw [hkh, hself.1, hself.2.1]
      exact ⟨⟨fun h0 => absurd h0 hid, fun h0 => by cases h0⟩, hid2, fun h0 => by cases h0⟩
    · rw [(hother k hkh).1, (hother k hkh).2.1, (hother k hkh).2.2]
      exact hk.core.ids k
  · rw [hfifo, List.nodup_append]
    refine ⟨hk.core.fifo, List.nodup_singleton _, ?_⟩
    intro a ha hb
    rw [List.mem_singleton.1 hb] at ha
    exact hnf ha
  · intro s hs hm
    rw [hsend] at hs
    rw [hfifo, List.mem_append, List.mem_singleton] at hm
    rcases hm with h1 | h1
    · exact hk.core.send s hs h1
    · exact hne s ((mem_pending x s).2 (Or.inl hs)) h1
  · intro kv hm
    rcases htab kv hm with h1 | h1
    · rw [h1]; exact hself.1
    · have hv : kv.2 ≠ h := hne kv.2 ((mem_pending x kv.2).2 (Or.inr (Or.inr ⟨kv, h1, rfl⟩)))
      rw [(hother kv.2 hv).1]
      exact hk.core.table.2 kv h1
  · rw [hlast]; exact hk.core.last
  · rw [hti, hnd]; exact hk.core.timer
  · rw [hlen]; exact hk.len
  · intro k hn
    have h1 := hk.ids k hn
    have hkh : k ≠ h := fun hkh => h1.2 (hkh ▸ hnew)
    rw [(hother k hkh).1, (hother k hkh).2.1]
    exact h1
  · intro k hr
    obtain ⟨h1, h2, h3, h4⟩ := hk.retired k hr
    have hkh : k ≠ h := fun hkh => h1 (hkh ▸ hnew)
    refine ⟨by rw [(hother k hkh).2.1]; exact h1, ?_, ?_, ?_⟩
    · rw [hfifo, List.mem_append, List.mem_singleton]
      rintro (h5 | h5)
      · exact h2 h5
      · exact hkh h5
    · intro kv hm hv
      rcases htab kv hm with h5 | h5
      · rw [h5] at hv; exact hkh hv.symm
      · exact h3 kv h5 hv
    · intro hs
      rw [(hother k hkh).2.1]
      exact h4 (hsend ▸ hs)
  · rw [htr]; exact hk.quiet
  · rw [hlast]; exact hk.last
  · intro hb kv hm hd
    rcases htab kv hm with h1 | h1
    · rw [h1] at hd
      exact absurd hself.2.2 hd
    · have hv : kv.2 ≠ h := hne kv.2 ((mem_pending x kv.2).2 (Or.inr (Or.inr ⟨kv, h1, rfl⟩)))
      rw [(hother kv.2 hv).2.2] at hd ⊢
      rw [hnd]
      exact hk.bound hb kv h1 hd

/-- The submission of a NEW request `h` under the id `id`: the part of
`grilio_channel_send_request_full` from the assignment of the id to
`grilio_channel_queue_request`. -/
theorem G_submit {w x : World} (h id code : Nat) (response destroy : Bool) (hk : Good w x)
    (hl : h < x.reqs.length) (hnew : (x.req h).status = .NEW) (hid : id ≠ 0)
    (hid2 : id < 4294967296) :
    Good w (grilio_channel_queue_request (grilio_request_ref
      (if response = true then
        g_hash_table_insert (grilio_request_ref
          (x.setReq h { x.req h with
            id := id, code := code, response := response, destroy := destroy }) h)
          ((x.setReq h { x.req h with
            id := id, code := code, response := response, destroy := destroy }).req h).id h
      else x.setReq h { x.req h with
        id := id, code := code, response := response, destroy := destroy }) h) h) ∧
    (((grilio_channel_queue_request (grilio_request_ref
      (if response = true then
        g_hash_table_insert (grilio_request_ref
          (x.setReq h { x.req h with
            id := id, code := code, response := response, destroy := destroy }) h)
          ((x.setReq h { x.req h with
            id := id, code := code, response := response, destroy := destroy }).req h).id h
      else x.setReq h { x.req h with
        id := id, code := code, response := response, destroy := destroy }) h) h)).req h).id = id ∧
    (((grilio_channel_queue_request (grilio_request_ref
      (if response = true then
        g_hash_table_insert (grilio_request_ref
          (x.setReq h { x.req h with
            id := id, code := code, response := response, destroy := destroy }) h)
          ((x.setReq h { x.req h with
            id := id, code := code, response := response, destroy := destroy }).req h).id h
      else x.setReq h { x.req h with
        id := id, code := code, response := response, destroy := destroy }) h) h)).req h).status = .QUEUED := by
  have hd0 : (x.req h).deadline = 0 := (hk.core.ids h).2.2 hnew
  -- the world with the id stored
  have e3 : ∀ k, ((x.setReq h { x.req h with
      id := id, code := code, response := response, destroy := destroy }).req k)
      = if k = h then { x.req h with
          id := id, code := code, response := response, destroy := destroy } else x.req k := by
    intro k
    rw [req_setReq]
    by_cases hkh : k = h
    · simp [hkh, hl]
    · simp [hkh]
  revert e3
  generalize hW3 : x.setReq h { x.req h with
      id := id, code := code, response := response, destroy := destroy } = W3
  intro e3
  have c3 : W3.chan = x.chan := by rw [← hW3]; rfl
  have t3 : W3.trace = x.trace := by rw [← hW3]; rfl
  have l3 : W3.reqs.length = x.reqs.length := by rw [← hW3]; simp
  -- the world with the table entry
  have h4 : ∃ W4, W4 = (if response = true then
        g_hash_table_insert (grilio_request_ref W3 h) (W3.req h).id h else W3) ∧
      W4.chan.fifo = x.chan.fifo ∧ W4.chan.send_req = x.chan.send_req ∧
      W4.chan.timeout_id = x.chan.timeout_id ∧ W4.chan.next_deadline = x.chan.next_deadline ∧
      W4.chan.last_req_id = x.chan.last_req_id ∧ responses W4.trace = responses x.trace ∧
      W4.reqs.length = x.reqs.length ∧
      (∀ k, (W4.req k).id = (W3.req k).id ∧ (W4.req k).status = (W3.req k).status ∧
        (W4.req k).deadline = (W3.req k).deadline) ∧
      (∀ kv ∈ W4.chan.resp_table, kv = (id, h) ∨ kv ∈ x.chan.resp_table) ∧
      (W4.chan.resp_table.map (fun kv => kv.1)).Nodup := by
    refine ⟨_, rfl, ?_⟩
    split
    · have hf := hash_insert_fields (grilio_request_ref W3 h) (W3.req h).id h
      have hidh : (W3.req h).id = id := by rw [e3]; simp
      refine ⟨by rw [hf.1]; simp [c3], by rw [hf.2.1]; simp [c3], by rw [hf.2.2.1]; simp [c3],
        by rw [hf.2.2.2.1]; simp [c3], by rw [hf.2.2.2.2.1]; simp [c3],
        by rw [hf.2.2.2.2.2.1]; simp [t3], by simp [l3], fun k => ?_, fun kv hm => ?_, ?_⟩
      · have := hf.2.2.2.2.2.2 k
        simpa using this
      · rcases hash_insert_mem _ _ _ _ hm with h1 | h1
        · rw [hidh] at h1; exact Or.inl h1
        · exact Or.inr (by simpa [c3] using h1)
      · exact hash_insert_keys _ _ _ (by simpa [c3] using hk.core.table.1)
    · exact ⟨by rw [c3], by rw [c3], by rw [c3], by rw [c3], by rw [c3], by rw [t3], l3,
        fun _ => ⟨rfl, rfl, rfl⟩, fun kv hm => Or.inr (by rw [← c3]; exact hm),
        by rw [c3]; exact hk.core.table.1⟩
  obtain ⟨W4, hW4, f4, s4, ti4, nd4, la4, tr4, l4, r4, m4, k4⟩ := h4
  rw [← hW4]
  clear hW4
  -- the request after `grilio_channel_queue_request`
  unfold grilio_channel_queue_request
  dsimp only
  have hl5 : h < (grilio_request_ref W4 h).reqs.length := by simp [l4, hl]
  have e6 : ∀ k, ((((grilio_request_ref W4 h).setReq h
      { (grilio_request_ref W4 h).req h with status := .QUEUED })).req k).id
        = (if k = h then id else (x.req k).id) ∧
      ((((grilio_request_ref W4 h).setReq h
      { (grilio_request_ref W4 h).req h with status := .QUEUED })).req k).status
        = (if k = h then .QUEUED else (x.req k).status) ∧
      ((((grilio_request_ref W4 h).setReq h
      { (grilio_request_ref W4 h).req h with status := .QUEUED })).req k).deadline
        = (x.req k).deadline := by
    intro k
    rw [req_setReq]
    by_cases hkh : k = h
    · rw [if_pos ⟨hkh, hl5⟩, if_pos hkh, if_pos hkh]
      refine ⟨?_, rfl, ?_⟩
      · show ((grilio_request_ref W4 h).req h).id = id
        rw [ref_id, (r4 h).1, e3]; simp
      · show ((grilio_request_ref W4 h).req h).deadline = _
        rw [ref_deadline, (r4 h).2.2, e3, hkh]; simp
    · have hc : ¬ (k = h ∧ h < (grilio_request_ref W4 h).reqs.length) := fun hc => hkh hc.1
      rw [if_neg hc, if_neg hkh, if_neg hkh, ref_id, ref_status, ref_deadline,
        (r4 k).1, (r4 k).2.1, (r4 k).2.2, e3, if_neg hkh]
      exact ⟨rfl, rfl, rfl⟩
  have hi6 := (e6 h).1
  have hs6 := (e6 h).2.1
  rw [if_pos rfl] at hi6 hs6
  exact ⟨good_of_submit hk h id hl hnew hid hid2 (by simp [l4]) e6
    (by show W4.chan.fifo ++ [h] = _; rw [f4])
    (fun kv hm => m4 kv hm) k4 s4 la4 ti4 nd4 (by
      show responses (_ ++ [Event.queued h]) = _
      rw [responses_append]
      show responses W4.trace ++ [] = _
      rw [List.append_nil, tr4]), hi6, hs6⟩
theorem next_id_lt (last : Nat) :
    (if (last + 1) % 4294967296 = 0 then ((last + 1) % 4294967296 + 1) % 4294967296
      else (last + 1) % 4294967296) < 4294967296 := by
  split
  · exact Nat.mod_lt _ (by decide)
  · exact Nat.mod_lt _ (by decide)

/-- Both worlds get the same `last_req_id`. -/
theorem G_set_last {w x : World} (L : Nat) (hL : L < 4294967296) (hk : Good w x) :
    Good { w with chan := { w.chan with last_req_id := L } }
      { x with chan := { x.chan with last_req_id := L } } :=
  ⟨⟨hk.core.pending, hk.core.ids, hk.core.fifo, hk.core.send, hk.core.table, hL,
      hk.core.timer⟩, hk.len, hk.ids, hk.retired, hk.quiet, rfl, hk.bound⟩

theorem G_send {w x : World} (e : Endian) (req : Option Nat) (code : Nat)
    (response destroy : Bool) (hk : Good w x) (hh : ∀ h, req = some h → h < x.reqs.length) :
    Good { w with chan := { w.chan with last_req_id :=
        (grilio_channel_send_request_full e x true req code response destroy).2.chan.last_req_id } }
      (grilio_channel_send_request_full e x true req code response destroy).2 ∧
    (((grilio_channel_send_request_full e x true req code response destroy).1 = 0 ∧
        (grilio_channel_send_request_full e x true req code response destroy).2.chan.last_req_id
          = x.chan.last_req_id) ∨
      ((grilio_channel_send_request_full e x true req code response destroy).1
          = (if (x.chan.last_req_id + 1) % 4294967296 = 0
            then ((x.chan.last_req_id + 1) % 4294967296 + 1) % 4294967296
            else (x.chan.last_req_id + 1) % 4294967296) ∧
        (grilio_channel_send_request_full e x true req code response destroy).2.chan.last_req_id
          = (grilio_channel_send_request_full e x true req code response destroy).1)) := by
  by_cases hc : (true = true ∧ (req.isNone = true ∨
      req.map (fun h => (x.req h).status) = some GRILIO_REQUEST_STATUS.NEW))
  · have hid := next_id_pos x.chan.last_req_id
    have hid2 := next_id_lt x.chan.last_req_id
    have h1 := G_set_last _ hid2 hk
    revert hid hid2 h1
    generalize hidv : (if (x.chan.last_req_id + 1) % 4294967296 = 0
        then ((x.chan.last_req_id + 1) % 4294967296 + 1) % 4294967296
        else (x.chan.last_req_id + 1) % 4294967296) = id
    intro hid hid2 h1
    have hG : Good { w with chan := { w.chan with last_req_id := id } }
        (grilio_channel_send_request_full e x true req code response destroy).2 ∧
        (grilio_channel_send_request_full e x true req code response destroy).1 = id := by
      unfold grilio_channel_send_request_full
      rw [if_pos hc]
      dsimp only
      rw [hidv]
      cases req with
      | some h =>
          dsimp only
          have hl : h < x.reqs.length := hh h rfl
          have hnew : (x.req h).status = .NEW := by
            rcases hc.2 with h0 | h0
            · simp at h0
            · simpa using h0
          refine ⟨G_schedule_write e (G_submit h id (code % 4294967296) response destroy h1
            hl hnew hid hid2).1, rfl⟩
      | none =>
          dsimp only
          have h2 := G_alloc grilio_request_new h1 ⟨rfl, rfl, rfl⟩
          have hl : (World.alloc { x with chan := { x.chan with last_req_id := id } }
              grilio_request_new).1 < (World.alloc
              { x with chan := { x.chan with last_req_id := id } }
              grilio_request_new).2.reqs.length := by
            simp [World.alloc]
          have hnew : ((World.alloc { x with chan := { x.chan with last_req_id := id } }
              grilio_request_new).2.req (World.alloc
              { x with chan := { x.chan with last_req_id := id } }
              grilio_request_new).1).status = .NEW := by
            rw [alloc_req]; rfl
          refine ⟨G_unref _ (G_schedule_write e (G_submit _ id (code % 4294967296) response
            destroy h2 hl hnew hid hid2).1), rfl⟩
    have hL := hG.1.last
    refine ⟨?_, Or.inr ⟨hG.2, ?_⟩⟩
    · rw [hL]; exact hG.1
    · rw [hL, hG.2]
  · have hr : grilio_channel_send_request_full e x true req code response destroy = (0, x) := by
      unfold grilio_channel_send_request_full
      rw [if_neg hc]
    rw [hr]
    refine ⟨?_, Or.inl ⟨rfl, rfl⟩⟩
    show Good { w with chan := { w.chan with last_req_id := x.chan.last_req_id } } x
    rw [hk.last]
    exact hk
theorem queue_add_fields (x : World) (q h : Nat) :
    (grilio_queue_add x q h).chan = x.chan ∧
    (grilio_queue_add x q h).reqs.length = x.reqs.length := by
  unfold grilio_queue_add
  dsimp only
  exact ⟨by simp, by simp⟩

theorem G_queue_send {w x : World} (e : Endian) (q : Nat) (req : Option Nat) (code : Nat)
    (response destroy : Bool) (hk : Good w x) (hh : ∀ h, req = some h → h < x.reqs.length) :
    Good { w with chan := { w.chan with last_req_id :=
        (grilio_queue_send_request_full e x (some q) req code response
          destroy).2.chan.last_req_id } }
      (grilio_queue_send_request_full e x (some q) req code response destroy).2 ∧
    (((grilio_queue_send_request_full e x (some q) req code response destroy).1 = 0 ∧
        (grilio_queue_send_request_full e x (some q) req code response
          destroy).2.chan.last_req_id = x.chan.last_req_id) ∨
      ((grilio_queue_send_request_full e x (some q) req code response destroy).1
          = (if (x.chan.last_req_id + 1) % 4294967296 = 0
            then ((x.chan.last_req_id + 1) % 4294967296 + 1) % 4294967296
            else (x.chan.last_req_id + 1) % 4294967296) ∧
        (grilio_queue_send_request_full e x (some q) req code response
          destroy).2.chan.last_req_id
          = (grilio_queue_send_request_full e x (some q) req code response destroy).1)) := by
  unfold grilio_queue_send_request_full
  dsimp only
  split
  · cases req with
    | some h =>
        dsimp only
        have h1 := G_queue_add q h hk
        have hf := queue_add_fields x q h
        obtain ⟨g, d⟩ := G_send e (some h) code response destroy h1
          (fun k hk2 => by
            have : h = k := by simpa using hk2
            rw [← this, hf.2]; exact hh h rfl)
        rw [hf.1] at d
        exact ⟨g, d⟩
    | none =>
        dsimp only
        have h1 := G_queue_add q (x.alloc grilio_request_new).1
          (G_alloc grilio_request_new hk ⟨rfl, rfl, rfl⟩)
        have hf := queue_add_fields (x.alloc grilio_request_new).2 q
          (x.alloc grilio_request_new).1
        obtain ⟨g, d⟩ := G_send e (some (x.alloc grilio_request_new).1) code response destroy h1
          (fun k hk2 => by
            have : (x.alloc grilio_request_new).1 = k := by simpa using hk2
            rw [← this, hf.2]; simp [World.alloc])
        rw [hf.1] at d
        have hx : (x.alloc grilio_request_new).2.chan = x.chan := rfl
        rw [hx] at d
        refine ⟨?_, ?_⟩
        · rw [unref_chan]
          exact G_unref _ g
        · rw [unref_chan]
          exact d
  · refine ⟨?_, Or.inl ⟨rfl, rfl⟩⟩
    show Good { w with chan := { w.chan with last_req_id := x.chan.last_req_id } } x
    rw [hk.last]
    exact hk

theorem append_bytes_fields (r : GRilIoRequest) (data : Option (List Nat)) (len : Nat) :
    (grilio_request_append_bytes r data len).id = r.id ∧
    (grilio_request_append_bytes r data len).status = r.status ∧
    (grilio_request_append_bytes r data len).deadline = r.deadline := by
  unfold grilio_request_append_bytes
  split
  · split
    · exact ⟨rfl, rfl, rfl⟩
    · exact ⟨rfl, rfl, rfl⟩
  · exact ⟨rfl, rfl, rfl⟩

/-- A step that does not submit: seen from the world it started in. -/
theorem good_plain {w y : World} (hk : Good w y) :
    Good { w with chan := { w.chan with last_req_id := y.chan.last_req_id } } y ∧
    (((0 : Nat) = 0 ∧ y.chan.last_req_id = w.chan.last_req_id) ∨
      ((0 : Nat) = (if (w.chan.last_req_id + 1) % 4294967296 = 0
            then ((w.chan.last_req_id + 1) % 4294967296 + 1) % 4294967296
            else (w.chan.last_req_id + 1) % 4294967296) ∧
        y.chan.last_req_id = 0)) := by
  refine ⟨?_, Or.inl ⟨rfl, hk.last⟩⟩
  rw [hk.last]
  exact hk

/-- Every step of the machine, from a consistent world: the new world is
consistent, and `last_req_id` changes exactly when the step is a submission
that returns an id, which is then the next id. -/
theorem step_good (e : Endian) (w : World) (op : Op) (hc : Core w) :
    Good { w with chan := { w.chan with last_req_id := (step e w op).chan.last_req_id } }
      (step e w op) ∧
    ((op.result e w = 0 ∧ (step e w op).chan.last_req_id = w.chan.last_req_id) ∨
      (op.result e w = (if (w.chan.last_req_id + 1) % 4294967296 = 0
            then ((w.chan.last_req_id + 1) % 4294967296 + 1) % 4294967296
            else (w.chan.last_req_id + 1) % 4294967296) ∧
        (step e w op).chan.last_req_id = op.result e w)) := by
  have h0 := good_refl hc
  cases op with
  | request_new payload timeout =>
      exact good_plain (G_alloc _ h0
        ⟨(append_bytes_fields grilio_request_new (some payload) payload.length).1,
          (append_bytes_fields grilio_request_new (some payload) payload.length).2.1,
          (append_bytes_fields grilio_request_new (some payload) payload.length).2.2⟩)
  | request_ref req => exact good_plain (G_ite (G_ref req h0) h0)
  | request_unref req => exact good_plain (G_ite (G_unref req h0) h0)
  | send req code response destroy =>
      by_cases hh : w.holds req
      · have hs : step e w (.send req code response destroy)
            = (grilio_channel_send_request_full e w true req code response destroy).2 := by
          show (if _ then _ else _) = _
          rw [if_pos hh]
        have hr : Op.result e w (.send req code response destroy)
            = (grilio_channel_send_request_full e w true req code response destroy).1 := by
          show (if _ then _ else _) = _
          rw [if_pos hh]
        rw [hs, hr]
        exact G_send e req code response destroy h0 (fun h hr => (hh h hr).1)
      · have hs : step e w (.send req code response destroy) = w := by
          show (if _ then _ else _) = _
          rw [if_neg hh]
        have hr : Op.result e w (.send req code response destroy) = 0 := by
          show (if _ then _ else _) = _
          rw [if_neg hh]
        rw [hs, hr]
        exact good_plain h0
  | cancel id notify => exact good_plain (G_cancel_request id notify h0)
  | cancel_all notify => exact good_plain (G_cancel_all notify h0).1
  | set_timeout timeout =>
      exact good_plain (G_of_eq h0 (grilio_channel_set_timeout w timeout)
        rfl rfl rfl rfl rfl rfl rfl rfl)
  | shutdown flush => exact good_plain (G_shutdown flush h0)
  | channel_ref =>
      exact good_plain (G_of_eq h0 (grilio_channel_ref w) rfl rfl rfl rfl rfl rfl rfl rfl)
  | channel_unref => exact good_plain (G_ite (G_channel_unref h0) h0)
  | add_logger =>
      exact good_plain (G_of_eq h0 (grilio_channel_add_logger w true).2
        rfl rfl rfl rfl rfl rfl rfl rfl)
  | remove_logger id =>
      refine good_plain (y := grilio_channel_remove_logger w id) ?_
      unfold grilio_channel_remove_logger
      exact G_ite (G_ite (G_of_eq h0 _ rfl rfl rfl rfl rfl rfl rfl rfl)
        (G_emit _ rfl h0)) h0
  | queue_new =>
      exact good_plain (G_of_eq h0 (grilio_queue_new w).2 rfl rfl rfl rfl rfl rfl rfl rfl)
  | queue_ref queue =>
      refine good_plain (y := step e w (.queue_ref queue)) ?_
      exact G_ite (G_setQueue _ _ h0) h0
  | queue_unref queue => exact good_plain (G_ite (G_queue_unref queue h0) h0)
  | queue_send queue req code response destroy =>
      by_cases hh : w.holdsQueue queue ∧ w.holds req
      · have hs : step e w (.queue_send queue req code response destroy)
            = (grilio_queue_send_request_full e w (some queue) req code response destroy).2 := by
          show (if _ then _ else _) = _
          rw [if_pos hh]
        have hr : Op.result e w (.queue_send queue req code response destroy)
            = (grilio_queue_send_request_full e w (some queue) req code response destroy).1 := by
          show (if _ then _ else _) = _
          rw [if_pos hh]
        rw [hs, hr]
        exact G_queue_send e queue req code response destroy h0 (fun h hr => (hh.2 h hr).1)
      · have hs : step e w (.queue_send queue req code response destroy) = w := by
          show (if _ then _ else _) = _
          rw [if_neg hh]
        have hr : Op.result e w (.queue_send queue req code response destroy) = 0 := by
          show (if _ then _ else _) = _
          rw [if_neg hh]
        rw [hs, hr]
        exact good_plain h0
  | queue_cancel queue id notify =>
      exact good_plain (G_ite (G_queue_cancel_request queue id notify h0) h0)
  | queue_cancel_all queue notify =>
      exact good_plain (G_ite (G_queue_cancel_all_loop queue notify _ w h0) h0)
  | writable => exact good_plain (G_write_callback e h0)
  | readable inp => exact good_plain (G_read_callback e inp h0)
  | timer => exact good_plain (G_ite (G_timeout hc) h0)
  | tick us =>
      exact good_plain (G_of_eq h0 { w with now := w.now + us } rfl rfl rfl rfl rfl rfl rfl rfl)
theorem step_core (e : Endian) (w : World) (op : Op) (hc : Core w) : Core (step e w op) :=
  (step_good e w op hc).1.core

theorem step_bound (e : Endian) (w : World) (op : Op) (hc : Core w) (hb : Bound w) :
    Bound (step e w op) :=
  (step_good e w op hc).1.bound hb

theorem step_ids (e : Endian) (w : World) (op : Op) (hc : Core w) (h : Nat)
    (hn : (w.req h).status ≠ .NEW) :
    ((step e w op).req h).id = (w.req h).id ∧ ((step e w op).req h).status ≠ .NEW :=
  (step_good e w op hc).1.ids h hn

theorem step_retired (e : Endian) (w : World) (op : Op) (hc : Core w) (h : Nat)
    (hr : Retired w h) :
    Retired (step e w op) h ∧
    ∃ cb, responses (step e w op).trace = responses w.trace ++ cb ∧ ∀ c ∈ cb, c.1 ≠ h := by
  refine ⟨(step_good e w op hc).1.retired h hr, ?_⟩
  obtain ⟨cb, h1, h2⟩ := (step_good e w op hc).1.quiet
  exact ⟨cb, h1, fun c hm hch => h2 c hm (hch ▸ hr)⟩

theorem run_core (e : Endian) (ops : List Op) : ∀ w : World, Core w → Core (run e w ops) := by
  induction ops with
  | nil => intro w hc; exact hc
  | cons op ops ih => intro w hc; exact ih _ (step_core e w op hc)

theorem run_bound (e : Endian) (ops : List Op) : ∀ w : World, Core w → Bound w →
    Bound (run e w ops) := by
  induction ops with
  | nil => intro w _ hb; exact hb
  | cons op ops ih => intro w hc hb; exact ih _ (step_core e w op hc) (step_bound e w op hc hb)

theorem run_ids (e : Endian) (ops : List Op) : ∀ w : World, Core w → ∀ h,
    (w.req h).status ≠ .NEW →
    ((run e w ops).req h).id = (w.req h).id ∧ ((run e w ops).req h).status ≠ .NEW := by
  induction ops with
  | nil => intro w _ h hn; exact ⟨rfl, hn⟩
  | cons op ops ih =>
      intro w hc h hn
      have h1 := step_ids e w op hc h hn
      have h2 := ih _ (step_core e w op hc) h h1.2
      exact ⟨h2.1.trans h1.1, h2.2⟩

theorem run_retired (e : Endian) (ops : List Op) : ∀ w : World, Core w → ∀ h, Retired w h →
    Retired (run e w ops) h ∧
    ∃ cb, responses (run e w ops).trace = responses w.trace ++ cb ∧ ∀ c ∈ cb, c.1 ≠ h := by
  induction ops with
  | nil => intro w _ h hr; exact ⟨hr, [], by simp [run], by simp⟩
  | cons op ops ih =>
      intro w hc h hr
      obtain ⟨h1, cb1, e1, n1⟩ := step_retired e w op hc h hr
      obtain ⟨h2, cb2, e2, n2⟩ := ih _ (step_core e w op hc) h h1
      refine ⟨h2, cb1 ++ cb2, ?_, ?_⟩
      · show responses (run e (step e w op) ops).trace = _
        rw [e2, e1, List.append_assoc]
      · intro c hm
        rcases List.mem_append.1 hm with h3 | h3
        · exact n1 c h3
        · exact n2 c h3

theorem run_append (e : Endian) (w : World) (a b : List Op) :
    run e w (a ++ b) = run e (run e w a) b := by
  simp [run, List.foldl_append]

theorem core_of_empty (w : World) (hr : w.reqs = []) (hf : w.chan.fifo = [])
    (ht : w.chan.resp_table = []) (hs : w.chan.send_req = none) (hl : w.chan.last_req_id = 0)
    (hti : w.chan.timeout_id = none) (hnd : w.chan.next_deadline = 0) : Core w ∧ Bound w := by
  have hq : ∀ h, w.req h = grilio_request_new := by
    intro h
    exact req_oob w h (by rw [hr]; exact Nat.zero_le _)
  refine ⟨⟨?_, ?_, ?_, ?_, ⟨?_, ?_⟩, ?_, ?_⟩, ?_⟩
  · intro h hh
    simp [Pending, hf, ht, hs] at hh
  · intro h
    rw [hq h]
    exact ⟨⟨fun _ => rfl, fun _ => rfl⟩, by decide, fun _ => rfl⟩
  · rw [hf]; exact List.nodup_nil
  · intro s hs2
    rw [hs] at hs2
    cases hs2
  · rw [ht]; exact List.nodup_nil
  · intro kv hm
    rw [ht] at hm
    cases hm
  · rw [hl]; decide
  · rw [hti, hnd]; simp
  · intro kv hm
    rw [ht] at hm
    cases hm

/-- The world a channel starts in is consistent. -/
theorem start_core (sub : Option (List Nat)) (writes : List IoWrite) (now : Int) (w : World)
    (hs : World.start sub writes now = some w) : Core w ∧ Bound w := by
  unfold World.start grilio_channel_new_fd at hs
  split at hs
  · cases sub with
    | none =>
        simp only [Option.map_some', Option.some.injEq] at hs
        rw [← hs]
        exact core_of_empty _ rfl rfl rfl rfl rfl rfl rfl
    | some s =>
        simp only [Option.map_some', Option.some.injEq] at hs
        rw [← hs]
        exact core_of_empty _ rfl rfl rfl rfl rfl rfl rfl
  · simp at hs

theorem next_id_closed (L : Nat) (hL : L < 4294967296) :
    (if (L + 1) % 4294967296 = 0 then ((L + 1) % 4294967296 + 1) % 4294967296
      else (L + 1) % 4294967296) = L % 4294967295 + 1 := by
  split <;> omega

/-- The ids a run returns, in closed form. -/
theorem results_closed (e : Endian) (ops : List Op) : ∀ w : World, Core w → ∀ i v,
    (results e w ops)[i]? = some v → v = (w.chan.last_req_id + i) % 4294967295 + 1 := by
  induction ops with
  | nil => intro w _ i v h; simp [results] at h
  | cons op ops ih =>
      intro w hc i v h
      have hL := hc.last
      have hc1 := step_core e w op hc
      rcases (step_good e w op hc).2 with ⟨h0, hl⟩ | ⟨h1, hl⟩
      · have hr : results e w (op :: ops) = results e (step e w op) ops := by
          show (if _ then _ else _) ++ _ = _
          rw [if_neg (by rw [h0]; simp)]
          rfl
        rw [hr] at h
        have := ih _ hc1 i v h
        rw [hl] at this
        exact this
      · have hcl := next_id_closed _ hL
        rw [hcl] at h1
        have hne : op.result e w ≠ 0 := by rw [h1]; omega
        have hr : results e w (op :: ops) = op.result e w :: results e (step e w op) ops := by
          show (if _ then _ else _) ++ _ = _
          rw [if_pos hne]
          rfl
        rw [hr] at h
        cases i with
        | zero =>
            simp only [List.getElem?_cons_zero, Option.some.injEq] at h
            rw [← h, h1]
            simp
        | succ k =>
            simp only [List.getElem?_cons_succ] at h
            have := ih _ hc1 k v h
            rw [hl, h1] at this
            rw [this]
            omega

/-- C8: on a channel in any state it can reach from its creation, a
submission that returns an id returns `last_req_id + 1` modulo 2^32, or 1 if
that is 0, and stores it in `last_req_id`; every other step leaves
`last_req_id` alone. Hence the ids returned in the rest of the run are, in
order, `(last_req_id + i) mod (2^32 - 1) + 1` for `i = 0, 1, ...`: none is
0, each is the one before plus one except that 1 follows 0xFFFFFFFF, and two
of them that are less than 2^32 - 1 submissions apart are different. -/
theorem request_ids (e : Endian) (sub : Option (List Nat)) (writes : List IoWrite) (now : Int)
    (w0 : World) (hs : World.start sub writes now = some w0) (pre ops : List Op) :
    (∀ op : Op,
      (op.result e (run e w0 pre) = 0 ∧
        (step e (run e w0 pre) op).chan.last_req_id = (run e w0 pre).chan.last_req_id) ∨
      (op.result e (run e w0 pre)
          = (if ((run e w0 pre).chan.last_req_id + 1) % 4294967296 = 0 then 1
            else ((run e w0 pre).chan.last_req_id + 1) % 4294967296) ∧
        (step e (run e w0 pre) op).chan.last_req_id = op.result e (run e w0 pre))) ∧
    (∀ i v, (results e (run e w0 pre) ops)[i]? = some v →
      v = ((run e w0 pre).chan.last_req_id + i) % 4294967295 + 1 ∧ v ≠ 0 ∧ v < 4294967296) ∧
    (∀ i v v2, (results e (run e w0 pre) ops)[i]? = some v →
      (results e (run e w0 pre) ops)[i + 1]? = some v2 →
      v2 = if v = 4294967295 then 1 else v + 1) ∧
    (∀ i j v v2, i < j → j - i < 4294967295 →
      (results e (run e w0 pre) ops)[i]? = some v →
      (results e (run e w0 pre) ops)[j]? = some v2 → v ≠ v2) := by
  have hc := run_core e pre w0 (start_core sub writes now w0 hs).1
  refine ⟨fun op => ?_, fun i v h => ?_, fun i v v2 h1 h2 => ?_, fun i j v v2 hij hd h1 h2 => ?_⟩
  · rcases (step_good e _ op hc).2 with h | h
    · exact Or.inl h
    · refine Or.inr ⟨?_, h.2⟩
      rw [h.1]
      split <;> omega
  · have := results_closed e ops _ hc i v h
    omega
  · have a1 := results_closed e ops _ hc i v h1
    have a2 := results_closed e ops _ hc (i + 1) v2 h2
    split <;> omega
  · have a1 := results_closed e ops _ hc i v h1
    have a2 := results_closed e ops _ hc j v2 h2
    omega

/-- Witness of `request_ids`: three submissions on a new channel, the first
of an internal request, return the ids 1, 2 and 3. -/
theorem request_ids_witness :
    World.start none [] 0 = some sampleIdle ∧
    results .little sampleIdle
      [.send none 5 false false, .request_new [] 0, .send (some 1) 6 true false,
        .send (some 1) 6 true false, .cancel 1 false, .send none 7 false false] = [1, 2, 3] ∧
    ∀ i v, (results .little (run .little sampleIdle [])
        [.send none 5 false false, .request_new [] 0, .send (some 1) 6 true false,
          .send (some 1) 6 true false, .cancel 1 false, .send none 7 false false])[i]? = some v →
      v = ((run .little sampleIdle []).chan.last_req_id + i) % 4294967295 + 1 ∧ v ≠ 0 ∧
        v < 4294967296 :=
  ⟨rfl, by decide, (request_ids .little none [] 0 sampleIdle rfl [] _).2.1⟩

/-- An accepted submission gives the request the id it returns. -/
theorem send_assigns (e : Endian) (w : World) (h code : Nat) (response destroy : Bool)
    (hc : Core w) (hl : h < w.reqs.length) (hnew : (w.req h).status = .NEW) :
    (grilio_channel_send_request_full e w true (some h) code response destroy).1 ≠ 0 ∧
    ((grilio_channel_send_request_full e w true (some h) code response destroy).2.req h).id
      = (grilio_channel_send_request_full e w true (some h) code response destroy).1 ∧
    ((grilio_channel_send_request_full e w true (some h) code response destroy).2.req h).status
      ≠ .NEW := by
  have hcond : (true = true ∧ ((some h).isNone = true ∨
      (some h).map (fun h => (w.req h).status) = some GRILIO_REQUEST_STATUS.NEW)) := by
    simp [hnew]
  have hid := next_id_pos w.chan.last_req_id
  have hid2 := next_id_lt w.chan.last_req_id
  have h1 := G_set_last _ hid2 (good_refl hc)
  unfold grilio_channel_send_request_full
  rw [if_pos hcond]
  dsimp only
  revert hid hid2 h1
  generalize (if (w.chan.last_req_id + 1) % 4294967296 = 0
      then ((w.chan.last_req_id + 1) % 4294967296 + 1) % 4294967296
      else (w.chan.last_req_id + 1) % 4294967296) = id
  intro hid hid2 h1
  obtain ⟨g, gi, gs⟩ := G_submit h id (code % 4294967296) response destroy
    (good_refl h1.core) hl hnew hid hid2
  have g7 := (G_schedule_write e (good_refl g.core)).ids h (by rw [gs]; simp)
  exact ⟨hid, g7.1.trans gi, g7.2⟩

/-- C29: in every state the channel can reach from its creation, a request
has the id 0 exactly while its status is NEW. A submitted request has an id
that is not 0, and no later step changes the id or makes the request NEW
again. An accepted `grilio_channel_send_request_full` of a NEW request
stores the id it returns in the request; a submission of a request that is
not NEW returns 0 and changes nothing. -/
theorem request_id_status (e : Endian) (sub : Option (List Nat)) (writes : List IoWrite)
    (now : Int) (w0 : World) (hs : World.start sub writes now = some w0)
    (ops more : List Op) (h : Nat) :
    (grilio_request_id ((run e w0 ops).req h) = 0
      ↔ grilio_request_status ((run e w0 ops).req h) = .NEW) ∧
    (grilio_request_status ((run e w0 ops).req h) ≠ .NEW →
      grilio_request_id ((run e w0 ops).req h) ≠ 0 ∧
      grilio_request_id ((run e (run e w0 ops) more).req h)
        = grilio_request_id ((run e w0 ops).req h) ∧
      grilio_request_status ((run e (run e w0 ops) more).req h) ≠ .NEW) ∧
    (∀ code response destroy, (run e w0 ops).holds (some h) →
      grilio_request_status ((run e w0 ops).req h) = .NEW →
      Op.result e (run e w0 ops) (.send (some h) code response destroy) ≠ 0 ∧
      grilio_request_id ((step e (run e w0 ops) (.send (some h) code response destroy)).req h)
        = Op.result e (run e w0 ops) (.send (some h) code response destroy) ∧
      grilio_request_status
        ((step e (run e w0 ops) (.send (some h) code response destroy)).req h) ≠ .NEW) ∧
    (∀ code response destroy,
      grilio_request_status ((run e w0 ops).req h) ≠ .NEW →
      Op.result e (run e w0 ops) (.send (some h) code response destroy) = 0 ∧
      step e (run e w0 ops) (.send (some h) code response destroy) = run e w0 ops) := by
  have hc := run_core e ops w0 (start_core sub writes now w0 hs).1
  unfold grilio_request_id grilio_request_status
  refine ⟨(hc.ids h).1, fun hn => ?_, fun code response destroy hh hnew => ?_,
    fun code response destroy hn => ?_⟩
  · have := run_ids e more _ hc h hn
    exact ⟨fun h0 => hn ((hc.ids h).1.1 h0), this.1, this.2⟩
  · have hs1 : step e (run e w0 ops) (.send (some h) code response destroy)
        = (grilio_channel_send_request_full e (run e w0 ops) true (some h) code response
            destroy).2 := by
      show (if _ then _ else _) = _
      rw [if_pos hh]
    have hr1 : Op.result e (run e w0 ops) (.send (some h) code response destroy)
        = (grilio_channel_send_request_full e (run e w0 ops) true (some h) code response
            destroy).1 := by
      show (if _ then _ else _) = _
      rw [if_pos hh]
    rw [hs1, hr1]
    exact send_assigns e _ h code response destroy hc (hh h rfl).1 hnew
  · have hrej : grilio_channel_send_request_full e (run e w0 ops) true (some h) code response
        destroy = (0, run e w0 ops) := by
      unfold grilio_channel_send_request_full
      rw [if_neg]
      simp [hn]
    constructor
    · show (if _ then _ else _) = _
      split
      · rw [hrej]
      · rfl
    · show (if _ then _ else _) = _
      split
      · rw [hrej]
      · rfl

/-- Witness of `request_id_status`: a request made, submitted and cancelled
on a new channel. -/
theorem request_id_status_witness :
    World.start none [] 0 = some sampleIdle ∧
    grilio_request_status ((run .little sampleIdle
      [.request_new [] 0, .send (some 0) 6 true false]).req 0) ≠ .NEW ∧
    grilio_request_id ((run .little (run .little sampleIdle
        [.request_new [] 0, .send (some 0) 6 true false]) [.cancel 1 true]).req 0)
      = grilio_request_id ((run .little sampleIdle
        [.request_new [] 0, .send (some 0) 6 true false]).req 0) :=
  ⟨rfl, by decide,
    ((request_id_status .little none [] 0 sampleIdle rfl
      [.request_new [] 0, .send (some 0) 6 true false] [.cancel 1 true] 0).2.1
      (by decide)).2.1⟩

theorem earliest_le (w : World) (hb : Bound w) (hne : earliest_deadline w ≠ 0) :
    w.chan.next_deadline ≠ 0 ∧ w.chan.next_deadline ≤ earliest_deadline w := by
  obtain ⟨h1, h2⟩ := earliest_fold w w.chan.resp_table 0
  -- the minimum is the deadline of some entry
  have hex : ∀ (l : List (Nat × Nat)) (acc : Int),
      l.foldl (fun deadline kv =>
        if (w.req kv.2).deadline ≠ 0 ∧ (deadline = 0 ∨ deadline > (w.req kv.2).deadline)
        then (w.req kv.2).deadline else deadline) acc = acc ∨
      ∃ kv ∈ l, (w.req kv.2).deadline ≠ 0 ∧
        l.foldl (fun deadline kv =>
          if (w.req kv.2).deadline ≠ 0 ∧ (deadline = 0 ∨ deadline > (w.req kv.2).deadline)
          then (w.req kv.2).deadline else deadline) acc = (w.req kv.2).deadline := by
    intro l
    induction l with
    | nil => intro acc; exact Or.inl rfl
    | cons a l ih =>
        intro acc
        simp only [List.foldl_cons, List.mem_cons, exists_eq_or_imp]
        by_cases hc : (w.req a.2).deadline ≠ 0 ∧ (acc = 0 ∨ acc > (w.req a.2).deadline)
        · rw [if_pos hc]
          rcases ih (w.req a.2).deadline with h | ⟨kv, hm, hd, he⟩
          · exact Or.inr (Or.inl ⟨hc.1, h⟩)
          · exact Or.inr (Or.inr ⟨kv, hm, hd, he⟩)
        · rw [if_neg hc]
          rcases ih acc with h | ⟨kv, hm, hd, he⟩
          · exact Or.inl h
          · exact Or.inr (Or.inr ⟨kv, hm, hd, he⟩)
  rcases hex w.chan.resp_table 0 with h | ⟨kv, hm, hd, he⟩
  · exact absurd h hne
  · have := hb kv hm hd
    unfold earliest_deadline
    rw [he]
    exact this

/-- C30: in every state the channel can reach from its creation, a timer is
pending exactly when `next_deadline` is not 0, and `next_deadline` is not
after the deadline of any request in the response table: when a request in
the table has a deadline, `next_deadline` is set and at most the earliest of
them (the value `grilio_channel_reset_timeout` computes). -/
theorem timer_within_deadlines (e : Endian) (sub : Option (List Nat)) (writes : List IoWrite)
    (now : Int) (w0 : World) (hs : World.start sub writes now = some w0) (ops : List Op) :
    ((run e w0 ops).chan.timeout_id.isSome = true ↔ (run e w0 ops).chan.next_deadline ≠ 0) ∧
    (∀ kv ∈ (run e w0 ops).chan.resp_table, ((run e w0 ops).req kv.2).deadline ≠ 0 →
      (run e w0 ops).chan.next_deadline ≠ 0 ∧
      (run e w0 ops).chan.next_deadline ≤ ((run e w0 ops).req kv.2).deadline) ∧
    (earliest_deadline (run e w0 ops) ≠ 0 →
      (run e w0 ops).chan.next_deadline ≠ 0 ∧
      (run e w0 ops).chan.next_deadline ≤ earliest_deadline (run e w0 ops)) := by
  have h0 := start_core sub writes now w0 hs
  have hc := run_core e ops w0 h0.1
  have hb := run_bound e ops w0 h0.1 h0.2
  exact ⟨hc.timer, hb, earliest_le _ hb⟩

/-- The run of the examples for the timer: a channel with the timeout 7 ms
is connected, and two requests with a response callback are sent at the time
0, the first with the default timeout and the second with none. -/
theorem timer_within_deadlines_witness :
    World.start none [.written 100, .written 100] 0
      = some (World.init sampleChan [.written 100, .written 100] 0) ∧
    (run .little (World.init sampleChan [.written 100, .written 100] 0)
      [.set_timeout 7,
        .readable { inbox := packet sampleHandshake, reads := [.avail 100, .avail 100] },
        .request_new [] (-1), .request_new [] 0,
        .send (some 0) 10 true false, .send (some 1) 11 true false]).chan.next_deadline
      = 7000 ∧
    ((run .little (World.init sampleChan [.written 100, .written 100] 0)
      [.set_timeout 7,
        .readable { inbox := packet sampleHandshake, reads := [.avail 100, .avail 100] },
        .request_new [] (-1), .request_new [] 0,
        .send (some 0) 10 true false, .send (some 1) 11 true false]).chan.timeout_id.isSome
          = true ↔
      (run .little (World.init sampleChan [.written 100, .written 100] 0)
      [.set_timeout 7,
        .readable { inbox := packet sampleHandshake, reads := [.avail 100, .avail 100] },
        .request_new [] (-1), .request_new [] 0,
        .send (some 0) 10 true false, .send (some 1) 11 true false]).chan.next_deadline ≠ 0) :=
  ⟨rfl, by decide,
    (timer_within_deadlines .little none [.written 100, .written 100] 0 _ rfl _).1⟩

/-- C30, counterexample: in the run above the first request is in the
response table with the deadline 7000 and the second with none, and the
timer is set for 7000. After the first request has been cancelled, and just
so after its response has arrived, the table holds the second request only,
so that no request in the table has a deadline, but `next_deadline` is still
7000 and the timer is still pending. -/
theorem next_deadline_is_stale :
    (step .little (run .little (World.init sampleChan [.written 100, .written 100] 0)
      [.set_timeout 7,
        .readable { inbox := packet sampleHandshake, reads := [.avail 100, .avail 100] },
        .request_new [] (-1), .request_new [] 0,
        .send (some 0) 10 true false, .send (some 1) 11 true false])
      (.cancel 1 false)).chan.resp_table = [(2, 1)] ∧
    earliest_deadline (step .little
      (run .little (World.init sampleChan [.written 100, .written 100] 0)
      [.set_timeout 7,
        .readable { inbox := packet sampleHandshake, reads := [.avail 100, .avail 100] },
        .request_new [] (-1), .request_new [] 0,
        .send (some 0) 10 true false, .send (some 1) 11 true false])
      (.cancel 1 false)) = 0 ∧
    (step .little (run .little (World.init sampleChan [.written 100, .written 100] 0)
      [.set_timeout 7,
        .readable { inbox := packet sampleHandshake, reads := [.avail 100, .avail 100] },
        .request_new [] (-1), .request_new [] 0,
        .send (some 0) 10 true false, .send (some 1) 11 true false])
      (.cancel 1 false)).chan.next_deadline = 7000 ∧
    (step .little (run .little (World.init sampleChan [.written 100, .written 100] 0)
      [.set_timeout 7,
        .readable { inbox := packet sampleHandshake, reads := [.avail 100, .avail 100] },
        .request_new [] (-1), .request_new [] 0,
        .send (some 0) 10 true false, .send (some 1) 11 true false])
      (.cancel 1 false)).chan.timeout_id = some (.timeout 7) ∧
    earliest_deadline (step .little
      (run .little (World.init sampleChan [.written 100, .written 100] 0)
      [.set_timeout 7,
        .readable { inbox := packet sampleHandshake, reads := [.avail 100, .avail 100] },
        .request_new [] (-1), .request_new [] 0,
        .send (some 0) 10 true false, .send (some 1) 11 true false])
      (.readable { inbox := packet sampleResponse, reads := [.avail 100, .avail 100] })) = 0 ∧
    (step .little (run .little (World.init sampleChan [.written 100, .written 100] 0)
      [.set_timeout 7,
        .readable { inbox := packet sampleHandshake, reads := [.avail 100, .avail 100] },
        .request_new [] (-1), .request_new [] 0,
        .send (some 0) 10 true false, .send (some 1) 11 true false])
      (.readable { inbox := packet sampleResponse, reads := [.avail 100, .avail 100] })
      ).chan.next_deadline = 7000 := by
  decide

theorem cancel_sending_fields (w : World) (req id : Nat) (notify : Bool)
    (hr : req < w.reqs.length) :
    (grilio_channel_cancel_sending w req id notify).chan = (g_hash_table_steal w id).chan ∧
    ((grilio_channel_cancel_sending w req id notify).req req).status = .CANCELLED ∧
    responses (grilio_channel_cancel_sending w req id notify).trace
      = responses w.trace ++
        (if (w.req req).status ≠ .CANCELLED ∧ notify = true ∧ (w.req req).response = true
          then [(req, GRILIO_STATUS_CANCELLED, [])] else []) := by
  unfold grilio_channel_cancel_sending
  dsimp only
  have hl : req < (g_hash_table_remove (grilio_queue_remove w req) id).2.reqs.length := by
    simpa using hr
  have hch : (g_hash_table_remove (grilio_queue_remove w req) id).2.chan
      = (g_hash_table_steal w id).chan := by
    rw [hash_remove_chan]; simp [g_hash_table_steal]
  by_cases hst : (w.req req).status = .CANCELLED
  · have hst2 : ¬ ((g_hash_table_remove (grilio_queue_remove w req) id).2.req req).status
        ≠ .CANCELLED := by simp [hst]
    rw [if_neg hst2]
    refine ⟨by rw [unref_chan, hch], by simp [hst], ?_⟩
    simp [hst]
  · have hst2 : ((g_hash_table_remove (grilio_queue_remove w req) id).2.req req).status
        ≠ .CANCELLED := by simpa using hst
    rw [if_pos hst2]
    by_cases hn : notify = true ∧ (w.req req).response = true
    · have hn2 : notify = true ∧ (((g_hash_table_remove (grilio_queue_remove w req) id).2.setReq
          req { (g_hash_table_remove (grilio_queue_remove w req) id).2.req req with
            status := .CANCELLED }).req req).response = true := by
        rw [req_setReq_same _ _ _ hl]
        simpa using hn
      rw [if_pos hn2]
      refine ⟨by rw [unref_chan, emit_chan, setReq_chan, hch], ?_, ?_⟩
      · rw [unref_status, emit_req, req_setReq_same _ _ _ hl]
      · rw [unref_responses, emit_trace, responses_append, setReq_trace, hash_remove_responses,
          queue_remove_trace, if_pos ⟨hst, hn⟩]
        rfl
    · have hn2 : ¬ (notify = true ∧ (((g_hash_table_remove (grilio_queue_remove w req) id).2.setReq
          req { (g_hash_table_remove (grilio_queue_remove w req) id).2.req req with
            status := .CANCELLED }).req req).response = true) := by
        rw [req_setReq_same _ _ _ hl]
        simpa using hn
      rw [if_neg hn2]
      refine ⟨by rw [unref_chan, setReq_chan, hch], ?_, ?_⟩
      · rw [unref_status, req_setReq_same _ _ _ hl]
      · rw [unref_responses, setReq_trace, hash_remove_responses, queue_remove_trace,
          if_neg (fun h => hn h.2)]
        simp

/-- What a cancellation that returns TRUE does, in a consistent world: the
request it found is held by the channel and has the id; it gets the
CANCELLED callback when asked for and there is one, unless it is the request
in transmission and was cancelled before; afterwards it is retired. -/
theorem cancel_outcome (w : World) (id : Nat) (notify : Bool) (hc : Core w)
    (hret : (grilio_channel_cancel_request w id notify).1 = true) :
    ∃ h, h ∈ Pending w ∧ (w.req h).id = id ∧
      responses (grilio_channel_cancel_request w id notify).2.trace
        = responses w.trace ++
          (if notify = true ∧ (w.req h).response = true ∧
              ¬ (w.chan.send_req = some h ∧ (w.req h).status = .CANCELLED)
            then [(h, GRILIO_STATUS_CANCELLED, [])] else []) ∧
      Retired (grilio_channel_cancel_request w id notify).2 h := by
  have hid : id ≠ 0 := by
    intro h0
    rw [h0] at hret
    simp [grilio_channel_cancel_request] at hret
  have htable : ∀ req, (w.req req).id = id →
      ∀ kv ∈ w.chan.resp_table.filter (fun kv => kv.1 ≠ id), kv.2 ≠ req := by
    intro req hi kv hm hv
    rw [List.mem_filter] at hm
    have := hc.table.2 kv hm.1
    rw [hv, hi] at this
    simp [this] at hm
  rcases cancel_request_cases w id notify hid with
    ⟨req, hs, hi, hr⟩ | ⟨req, hns, hm, hi, hr⟩ | ⟨req, hns, hnf, hl, hr⟩ | ⟨_, _, _, hr⟩
  · -- the request in transmission
    have hp : req ∈ Pending w := (mem_pending w req).2 (Or.inl hs)
    obtain ⟨f1, f2, f3⟩ := cancel_sending_fields w req id notify (hc.pending req hp).1
    rw [hr]
    refine ⟨req, hp, hi, ?_, ?_⟩
    · rw [f3]
      congr 1
      by_cases hst : (w.req req).status = .CANCELLED
      · simp [hst, hs]
      · simp [hst]
    · refine ⟨by rw [f2]; simp, ?_, ?_, fun _ => f2⟩
      · show req ∉ (grilio_channel_cancel_sending w req id notify).chan.fifo
        rw [f1]
        exact hc.send req hs
      · show ∀ kv ∈ (grilio_channel_cancel_sending w req id notify).chan.resp_table, _
        rw [f1]
        exact htable req hi
  · -- a request in the send queue
    have hp : req ∈ Pending w := (mem_pending w req).2 (Or.inr (Or.inl hm))
    have hl := (hc.pending req hp).1
    have hne : w.chan.send_req ≠ some req := fun h => hc.send req h hm
    rw [hr]
    have hch : (grilio_channel_cancel_queued w req id notify).chan.fifo
          = w.chan.fifo.erase req ∧
        (grilio_channel_cancel_queued w req id notify).chan.resp_table
          = w.chan.resp_table.filter (fun kv => kv.1 ≠ id) ∧
        (grilio_channel_cancel_queued w req id notify).chan.send_req = w.chan.send_req := by
      unfold grilio_channel_cancel_queued
      dsimp only
      rw [unref_chan, cancel_found_chan]
      exact ⟨rfl, rfl, rfl⟩
    refine ⟨req, hp, hi, ?_, ?_⟩
    · unfold grilio_channel_cancel_queued
      dsimp only
      rw [unref_responses, cancel_found_responses]
      show responses (w.trace ++ [Event.cancelled req]) ++
        (if notify = true ∧ (w.req req).response = true
          then [(req, GRILIO_STATUS_CANCELLED, [])] else []) = _
      rw [responses_append]
      show responses w.trace ++ [] ++ _ = _
      rw [List.append_nil]
      congr 1
      by_cases hn : notify = true ∧ (w.req req).response = true
      · rw [if_pos hn, if_pos ⟨hn.1, hn.2, fun h => hne h.1⟩]
      · rw [if_neg hn, if_neg (fun h => hn ⟨h.1, h.2.1⟩)]
    · refine ⟨?_, ?_, ?_, ?_⟩
      · unfold grilio_channel_cancel_queued
        dsimp only
        rw [unref_status, cancel_found_status _ _ _ _ (by simpa using hl)]
        simp
      · show req ∉ (grilio_channel_cancel_queued w req id notify).chan.fifo
        rw [hch.1]
        exact fun h => ((List.Nodup.mem_erase_iff hc.fifo).1 h).1 rfl
      · show ∀ kv ∈ (grilio_channel_cancel_queued w req id notify).chan.resp_table, _
        rw [hch.2.1]
        exact htable req hi
      · show (grilio_channel_cancel_queued w req id notify).chan.send_req = some req → _
        rw [hch.2.2]
        exact fun h => absurd h hne
  · -- a request that waits for its response
    have hkv := lookup_some_mem _ _ _ hl
    have hp : req ∈ Pending w := (mem_pending w req).2 (Or.inr (Or.inr ⟨_, hkv, rfl⟩))
    have hlen := (hc.pending req hp).1
    have hi : (w.req req).id = id := hc.table.2 _ hkv
    have hne : w.chan.send_req ≠ some req := fun h => hns req h hi
    rw [hr]
    have hch : (grilio_request_unref (grilio_channel_cancel_found
          (grilio_request_ref w req) req id notify) req).chan.fifo = w.chan.fifo ∧
        (grilio_request_unref (grilio_channel_cancel_found
          (grilio_request_ref w req) req id notify) req).chan.resp_table
          = w.chan.resp_table.filter (fun kv => kv.1 ≠ id) ∧
        (grilio_request_unref (grilio_channel_cancel_found
          (grilio_request_ref w req) req id notify) req).chan.send_req = w.chan.send_req := by
      rw [unref_chan, cancel_found_chan]
      exact ⟨rfl, rfl, rfl⟩
    refine ⟨req, hp, hi, ?_, ?_⟩
    · rw [unref_responses, cancel_found_responses, ref_trace, ref_response]
      congr 1
      by_cases hn : notify = true ∧ (w.req req).response = true
      · rw [if_pos hn, if_pos ⟨hn.1, hn.2, fun h => hne h.1⟩]
      · rw [if_neg hn, if_neg (fun h => hn ⟨h.1, h.2.1⟩)]
    · refine ⟨?_, ?_, ?_, ?_⟩
      · rw [unref_status, cancel_found_status _ _ _ _ (by simpa using hlen)]
        simp
      · show req ∉ (grilio_request_unref (grilio_channel_cancel_found
          (grilio_request_ref w req) req id notify) req).chan.fifo
        rw [hch.1]
        exact fun h => hnf req h hi
      · show ∀ kv ∈ (grilio_request_unref (grilio_channel_cancel_found
          (grilio_request_ref w req) req id notify) req).chan.resp_table, _
        rw [hch.2.1]
        exact htable req hi
      · show (grilio_request_unref (grilio_channel_cancel_found
          (grilio_request_ref w req) req id notify) req).chan.send_req = some req → _
        rw [hch.2.2]
        exact fun h => absurd h hne
  · rw [hr] at hret
    cases hret
/-- C13: in every state the channel can reach from its creation, a call
`grilio_channel_cancel_request(id, TRUE)` that returns TRUE has found a
request with that id that the channel holds. If the request has a response
callback, the call makes exactly one response callback, for that request and
with the status CANCELLED, except when the request is the one in
transmission and has been cancelled before: then it makes none. If the
request has no response callback it makes none. In the rest of the run, no
response callback is made for that request. -/
theorem cancel_notifies_once (e : Endian) (sub : Option (List Nat)) (writes : List IoWrite)
    (now : Int) (w0 : World) (hs : World.start sub writes now = some w0)
    (ops more : List Op) (id : Nat)
    (hret : (grilio_channel_cancel_request (run e w0 ops) id true).1 = true) :
    ∃ h, h ∈ Pending (run e w0 ops) ∧ ((run e w0 ops).req h).id = id ∧
      responses (step e (run e w0 ops) (.cancel id true)).trace
        = responses (run e w0 ops).trace ++
          (if ((run e w0 ops).req h).response = true ∧
              ¬ ((run e w0 ops).chan.send_req = some h ∧
                ((run e w0 ops).req h).status = .CANCELLED)
            then [(h, GRILIO_STATUS_CANCELLED, [])] else []) ∧
      ∃ cb, responses (run e (step e (run e w0 ops) (.cancel id true)) more).trace
          = responses (step e (run e w0 ops) (.cancel id true)).trace ++ cb ∧
        ∀ c ∈ cb, c.1 ≠ h := by
  have hc := run_core e ops w0 (start_core sub writes now w0 hs).1
  obtain ⟨h, hp, hi, hr, hd⟩ := cancel_outcome _ id true hc hret
  refine ⟨h, hp, hi, ?_, ?_⟩
  · show responses (grilio_channel_cancel_request (run e w0 ops) id true).2.trace = _
    rw [hr]
    congr 1
    by_cases hn : ((run e w0 ops).req h).response = true ∧
        ¬ ((run e w0 ops).chan.send_req = some h ∧
          ((run e w0 ops).req h).status = .CANCELLED)
    · rw [if_pos hn, if_pos ⟨rfl, hn⟩]
    · rw [if_neg hn, if_neg (fun h2 => hn h2.2)]
  · exact (run_retired e more _ (step_core e _ (.cancel id true) hc) h hd).2

/-- Witness of `cancel_notifies_once`: a request is sent on a connected
channel and cancelled while it waits for its response. -/
theorem cancel_notifies_once_witness :
    World.start none [.written 100] 0 = some (World.init sampleChan [.written 100] 0) ∧
    (grilio_channel_cancel_request (run .little (World.init sampleChan [.written 100] 0)
      [.readable { inbox := packet sampleHandshake, reads := [.avail 100, .avail 100] },
        .request_new [] 0, .send (some 0) 10 true false]) 1 true).1 = true ∧
    ∃ h, h ∈ Pending (run .little (World.init sampleChan [.written 100] 0)
        [.readable { inbox := packet sampleHandshake, reads := [.avail 100, .avail 100] },
          .request_new [] 0, .send (some 0) 10 true false]) ∧
      ((run .little (World.init sampleChan [.written 100] 0)
        [.readable { inbox := packet sampleHandshake, reads := [.avail 100, .avail 100] },
          .request_new [] 0, .send (some 0) 10 true false]).req h).id = 1 := by
  obtain ⟨h, h1, h2, _⟩ := cancel_notifies_once .little none [.written 100] 0
    (World.init sampleChan [.written 100] 0) rfl
    [.readable { inbox := packet sampleHandshake, reads := [.avail 100, .avail 100] },
      .request_new [] 0, .send (some 0) 10 true false] [] 1 (by decide)
  exact ⟨rfl, by decide, h, h1, h2⟩

/-- C13, counterexample: on a connected channel whose socket takes five
bytes, a request with a response callback is submitted and stays in
transmission; it is cancelled with `notify` FALSE. A second
`grilio_channel_cancel_request` with the same id and `notify` TRUE returns
TRUE and makes no response callback; so does a third. -/
theorem second_cancel_is_silent :
    (run .little (World.init sampleChan [.written 5] 0)
      [.readable { inbox := packet sampleHandshake, reads := [.avail 100, .avail 100] },
        .request_new [] 0, .send (some 0) 10 true false, .cancel 1 false]).chan.send_req
      = some 0 ∧
    ((run .little (World.init sampleChan [.written 5] 0)
      [.readable { inbox := packet sampleHandshake, reads := [.avail 100, .avail 100] },
        .request_new [] 0, .send (some 0) 10 true false, .cancel 1 false]).req 0).response
      = true ∧
    (grilio_channel_cancel_request (run .little (World.init sampleChan [.written 5] 0)
      [.readable { inbox := packet sampleHandshake, reads := [.avail 100, .avail 100] },
        .request_new [] 0, .send (some 0) 10 true false, .cancel 1 false]) 1 true).1 = true ∧
    responses (grilio_channel_cancel_request (run .little (World.init sampleChan [.written 5] 0)
      [.readable { inbox := packet sampleHandshake, reads := [.avail 100, .avail 100] },
        .request_new [] 0, .send (some 0) 10 true false, .cancel 1 false]) 1 true).2.trace
      = [] ∧
    (grilio_channel_cancel_request (grilio_channel_cancel_request
      (run .little (World.init sampleChan [.written 5] 0)
      [.readable { inbox := packet sampleHandshake, reads := [.avail 100, .avail 100] },
        .request_new [] 0, .send (some 0) 10 true false, .cancel 1 false]) 1 true).2 1 true).1
      = true := by
  decide

/-- C14: in every state the channel can reach from its creation, after
`grilio_channel_cancel_all` with `notify` TRUE the send queue and the
response table are empty, no timer is pending and `next_deadline` is 0; and
in the rest of the run, whatever it is, no response callback is made for a
request that had been submitted before the call. -/
theorem cancel_all_is_final (e : Endian) (sub : Option (List Nat)) (writes : List IoWrite)
    (now : Int) (w0 : World) (hs : World.start sub writes now = some w0)
    (ops more : List Op) :
    (step e (run e w0 ops) (.cancel_all true)).chan.fifo = [] ∧
    (step e (run e w0 ops) (.cancel_all true)).chan.resp_table = [] ∧
    (step e (run e w0 ops) (.cancel_all true)).chan.timeout_id = none ∧
    (step e (run e w0 ops) (.cancel_all true)).chan.next_deadline = 0 ∧
    ∀ h, ((run e w0 ops).req h).status ≠ .NEW →
      ∃ cb, responses (run e (step e (run e w0 ops) (.cancel_all true)) more).trace
          = responses (step e (run e w0 ops) (.cancel_all true)).trace ++ cb ∧
        ∀ c ∈ cb, c.1 ≠ h := by
  have hc := run_core e ops w0 (start_core sub writes now w0 hs).1
  obtain ⟨g, f, t, ti, nd, sr, st⟩ := G_cancel_all true (good_refl hc)
  refine ⟨f, t, ti, nd, fun h hn => ?_⟩
  have hd : Retired (grilio_channel_cancel_all (run e w0 ops) true) h := by
    refine ⟨(g.ids h hn).2, by rw [f]; simp, by rw [t]; simp, fun hs2 => ?_⟩
    rw [sr] at hs2
    exact st h hs2
  exact (run_retired e more _ g.core h hd).2

/-- Witness of `cancel_all_is_final`: two requests wait for their responses
when everything is cancelled; the response to the first arrives afterwards,
and the timer fires. -/
theorem cancel_all_is_final_witness :
    World.start none [.written 100, .written 100] 0
      = some (World.init sampleChan [.written 100, .written 100] 0) ∧
    responses (run .little (step .little
      (run .little (World.init sampleChan [.written 100, .written 100] 0)
        [.set_timeout 7,
          .readable { inbox := packet sampleHandshake, reads := [.avail 100, .avail 100] },
          .request_new [] (-1), .request_new [] 0,
          .send (some 0) 10 true false, .send (some 1) 11 true false])
      (.cancel_all true))
      [.readable { inbox := packet sampleResponse, reads := [.avail 100, .avail 100] },
        .tick 8000, .timer, .writable, .cancel 1 true]).trace
      = [(0, GRILIO_STATUS_CANCELLED, []), (1, GRILIO_STATUS_CANCELLED, [])] ∧
    (step .little
      (run .little (World.init sampleChan [.written 100, .written 100] 0)
        [.set_timeout 7,
          .readable { inbox := packet sampleHandshake, reads := [.avail 100, .avail 100] },
          .request_new [] (-1), .request_new [] 0,
          .send (some 0) 10 true false, .send (some 1) 11 true false])
      (.cancel_all true)).chan.next_deadline = 0 :=
  ⟨rfl, by decide,
    (cancel_all_is_final .little none [.written 100, .written 100] 0 _ rfl _ []).2.2.2.1⟩

theorem skip_get_position (e : Endian) (p : GRilIoParser) :
    (grilio_parser_skip_string e p).2 = (grilio_parser_get_utf8 e p).2 := by
  unfold grilio_parser_skip_string grilio_parser_get_utf8
  dsimp only
  split
  · split
    · rfl
    · split
      · split <;> rfl
      · rfl
  · rfl

/-- C35: `grilio_parser_skip_string` and `grilio_parser_get_utf8` agree on
every buffer and position. Both leave the parser at the same position; skip
returns TRUE exactly when the decoder consumes the data (it moves the
parser), which is exactly when four bytes remain and the length word is the
null marker -1 or a length that is not negative whose padded string (as the
code computes it) fits in what remains; whenever the decoder returns a string,
skip returns TRUE; when skip returns FALSE the decoder returns null; and
skipping a number of strings ends at the position where decoding them ends. -/
theorem skip_string_agrees (e : Endian) (p : GRilIoParser) :
    (grilio_parser_skip_string e p).2 = (grilio_parser_get_utf8 e p).2 ∧
    ((grilio_parser_skip_string e p).1 = true ↔ (grilio_parser_get_utf8 e p).2.ptr ≠ p.ptr) ∧
    ((grilio_parser_skip_string e p).1 = true ↔
      (p.ptr + 4 ≤ p.endp ∧
        (toInt32 (loadU32 e p.data p.ptr) = -1 ∨
          (0 ≤ toInt32 (loadU32 e p.data p.ptr) ∧
            p.ptr + G_ALIGN4 ((((toInt32 (loadU32 e p.data p.ptr)).toNat + 1) * 2) % 4294967296)
              % 4294967296 + 4 ≤ p.endp)))) ∧
    ((grilio_parser_get_utf8 e p).1.isSome = true → (grilio_parser_skip_string e p).1 = true) ∧
    ((grilio_parser_skip_string e p).1 = false → grilio_parser_get_utf8 e p = (none, p)) ∧
    ∀ n, (skipStrings e p n).2 = (getUtf8s e p n).2 := by
  refine ⟨skip_get_position e p, ?_, ?_, ?_, ?_, ?_⟩
  · rw [← skip_get_position]
    unfold grilio_parser_skip_string
    dsimp only
    split
    · split
      · simp
      · split
        · split
          · simp; omega
          · simp
        · simp
    · simp
  · unfold grilio_parser_skip_string
    dsimp only
    split
    · rename_i h4
      split
      · rename_i h1
        simp [h4, h1]
      · rename_i h1
        split
        · rename_i h0
          split
          · rename_i hf
            simp [h4, h0, hf]
          · rename_i hf
            simp [h4, h1, hf]
        · rename_i h0
          simp [h1, h0]
    · rename_i h4
      simp [h4]
  · unfold grilio_parser_skip_string grilio_parser_get_utf8
    dsimp only
    split
    · split
      · simp
      · split
        · split
          · simp
          · simp
        · simp
    · simp
  · unfold grilio_parser_skip_string grilio_parser_get_utf8
    dsimp only
    split
    · split
      · simp
      · split
        · split
          · simp
          · simp
        · simp
    · simp
  · intro n
    induction n generalizing p with
    | zero => rfl
    | succ n ih =>
        show (skipStrings e (grilio_parser_skip_string e p).2 n).2
          = (getUtf8s e (grilio_parser_get_utf8 e p).2 n).2
        rw [skip_get_position, ih]

/-- C37: the claim fails for the two largest declared lengths. The padded
length the parser computes, `G_ALIGN4((len+1)*2)` in 32 bits, is at least
`2*(len+1)` for every `len` below `2^31 - 2`, but it is zero for
`len = 2^31 - 2` (the alignment wraps) and for `len = 2^31 - 1` (the product
wraps). With the four bytes `FE FF FF 7F` on a little-endian host and nothing
after them, `grilio_parser_skip_string` returns TRUE and
`grilio_parser_get_utf8` converts `2^31 - 2` code units starting at offset 4,
the end of the input; both move the parser by four bytes only. -/
theorem padded_length_wraps :
    (∀ len : Nat, len < 2147483646 →
      2 * (len + 1) ≤ G_ALIGN4 (((len + 1) * 2) % 4294967296) % 4294967296) ∧
    G_ALIGN4 (((2147483646 + 1) * 2) % 4294967296) % 4294967296 = 0 ∧
    G_ALIGN4 (((2147483647 + 1) * 2) % 4294967296) % 4294967296 = 0 ∧
    toInt32 (loadU32 Endian.little [254, 255, 255, 127] 0) = 2147483646 ∧
    grilio_parser_skip_string Endian.little (grilio_parser_init [254, 255, 255, 127] 4)
      = (true, { data := [254, 255, 255, 127], ptr := 4, endp := 4 }) ∧
    grilio_parser_get_utf8 Endian.little (grilio_parser_init [254, 255, 255, 127] 4)
      = (g_utf16_to_utf8 (loadU16s Endian.little [254, 255, 255, 127] 4 2147483646),
          { data := [254, 255, 255, 127], ptr := 4, endp := 4 }) := by
  refine ⟨?_, by decide, by decide, by decide, by decide, ?_⟩
  · intro len h
    unfold G_ALIGN4
    omega
  · unfold grilio_parser_get_utf8
    have h1 : toInt32 (loadU32 Endian.little (grilio_parser_init [254, 255, 255, 127] 4).data
        (grilio_parser_init [254, 255, 255, 127] 4).ptr) = 2147483646 := by decide
    simp only [h1]
    rfl

/-- C38: the claim fails for every timeout above 2147483 ms. The product
`timeout * 1000` is a product of two `int`: it is exact for
`0 < t ≤ 2147483`, and for `2147483 < t ≤ 2^31 - 1` it does not fit 32 bits,
so that what is added to the time is not `1000 * t`. On a channel with the
timeout 2147484 ms a request sent at the time 5000000000 gets the deadline
2852516704, which is before the time of the send, where the claim says
5002147484000; the timer is started as an idle source, which fires at once. -/
theorem deadline_product_overflows :
    (∀ t : Int, 0 < t → t ≤ 2147483 → toInt32 ((t * 1000) % 4294967296).toNat = 1000 * t) ∧
    (∀ t : Int, 2147483 < t → t ≤ 2147483647 →
      toInt32 ((t * 1000) % 4294967296).toNat ≠ 1000 * t) ∧
    sampleLongTimeout.now = 5000000000 ∧
    sampleLongTimeout.chan.timeout = 2147484 ∧
    (sampleLongTimeout.req 0).timeout = GRILIO_TIMEOUT_DEFAULT ∧
    (sampleLongTimeout.req 0).status = .SENT ∧
    sampleLongTimeout.chan.resp_table = [(1, 0)] ∧
    (sampleLongTimeout.req 0).deadline = 2852516704 ∧
    (sampleLongTimeout.req 0).deadline < sampleLongTimeout.now ∧
    sampleLongTimeout.chan.timeout_id = some Timer.idle := by
  refine ⟨?_, ?_, by decide, by decide, by decide, by decide, by decide, by decide, by decide,
    by decide⟩
  · intro t h0 h1
    unfold toInt32
    have h2 : ((t * 1000) % 4294967296).toNat = (t * 1000).toNat := by omega
    rw [h2]
    split <;> omega
  · intro t h0 h1
    unfold toInt32
    split <;> omega

/-- C31 (amended): in every state the channel can reach from its creation,
no request is linked twice in the send queue, the request in transmission is
not in the send queue, and no request is stored twice in the response table,
whose keys are distinct and are the ids of the requests stored. (A request
may be in the send queue, or in transmission, and in the response table at
the same time.) -/
theorem request_places (e : Endian) (sub : Option (List Nat)) (writes : List IoWrite)
    (now : Int) (w0 : World) (hs : World.start sub writes now = some w0) (ops : List Op) :
    (run e w0 ops).chan.fifo.Nodup ∧
    (∀ s, (run e w0 ops).chan.send_req = some s → s ∉ (run e w0 ops).chan.fifo) ∧
    ((run e w0 ops).chan.resp_table.map (fun kv => kv.2)).Nodup ∧
    ((run e w0 ops).chan.resp_table.map (fun kv => kv.1)).Nodup ∧
    (∀ kv ∈ (run e w0 ops).chan.resp_table, ((run e w0 ops).req kv.2).id = kv.1) := by
  have hc := run_core e ops w0 (start_core sub writes now w0 hs).1
  exact ⟨hc.fifo, hc.send, TableOk.values_nodup hc.table, hc.table.1, hc.table.2⟩

/-- A new channel that is not connected; two requests with a response
callback are submitted. -/
theorem request_places_witness :
    World.start none [] 0 = some (World.init sampleChan [] 0) ∧
    (run .little (World.init sampleChan [] 0)
      [.request_new [] (-1), .request_new [] (-1), .send (some 0) 10 true false,
        .send (some 1) 11 true false]).chan.fifo = [0, 1] ∧
    ((run .little (World.init sampleChan [] 0)
      [.request_new [] (-1), .request_new [] (-1), .send (some 0) 10 true false,
        .send (some 1) 11 true false]).chan.resp_table.map (fun kv => kv.2)).Nodup :=
  ⟨rfl, by decide, (request_places .little none [] 0 _ rfl _).2.2.1⟩

/-- C31, counterexample: a request submitted with a response callback is put
in the response table at once. On a new channel that is not connected yet,
the request waits in the send queue and is in the response table; once the
channel is connected and the socket has taken five bytes of the frame, the
request is the one in transmission and is still in the response table. -/
theorem queued_request_in_table :
    (run .little (World.init sampleChan [.written 5] 0)
      [.request_new [7, 8, 9] (-1), .send (some 0) 10 true false]).chan.fifo = [0] ∧
    (run .little (World.init sampleChan [.written 5] 0)
      [.request_new [7, 8, 9] (-1), .send (some 0) 10 true false]).chan.resp_table = [(1, 0)] ∧
    (run .little (World.init sampleChan [.written 5] 0)
      [.request_new [7, 8, 9] (-1), .send (some 0) 10 true false,
        .readable { inbox := packet sampleHandshake, reads := [.avail 100, .avail 100] }]
      ).chan.send_req = some 0 ∧
    (run .little (World.init sampleChan [.written 5] 0)
      [.request_new [7, 8, 9] (-1), .send (some 0) 10 true false,
        .readable { inbox := packet sampleHandshake, reads := [.avail 100, .avail 100] }]
      ).chan.send_pos = 5 ∧
    (run .little (World.init sampleChan [.written 5] 0)
      [.request_new [7, 8, 9] (-1), .send (some 0) 10 true false,
        .readable { inbox := packet sampleHandshake, reads := [.avail 100, .avail 100] }]
      ).chan.resp_table = [(1, 0)] := by
  decide

/-- C34: the count is not balanced after a cancellation of the request in
transmission. In `sampleSending` request 0 is in transmission and in the
response table and its owner holds a handle: the count is 3. After
`grilio_channel_cancel_request` the request is still the one in transmission
and its owner still holds the handle, but the count is 1: the call has
released the reference of the table and the reference held for the
transmission. When the rest of the frame is written, the send completion
releases that reference again: the count reaches zero and the request is
freed under the hands of its owner, whose own release then makes the count
negative. -/
theorem cancel_releases_transmission_reference :
    sampleSending.chan.send_req = some 0 ∧
    sampleSending.chan.resp_table = [(1, 0), (2, 1)] ∧
    (sampleSending.req 0).refcount = 3 ∧
    (grilio_channel_cancel_request sampleSending 1 false).2.chan.send_req = some 0 ∧
    (grilio_channel_cancel_request sampleSending 1 false).2.chan.resp_table = [(2, 1)] ∧
    ((grilio_channel_cancel_request sampleSending 1 false).2.req 0).refcount = 1 ∧
    (grilio_channel_write_callback .little
      (grilio_channel_cancel_request sampleSending 1 false).2).chan.send_req = none ∧
    ((grilio_channel_write_callback .little
      (grilio_channel_cancel_request sampleSending 1 false).2).req 0).refcount = 0 ∧
    Event.freed 0 ∈ (grilio_channel_write_callback .little
      (grilio_channel_cancel_request sampleSending 1 false).2).trace ∧
    ((grilio_request_unref (grilio_channel_write_callback .little
      (grilio_channel_cancel_request sampleSending 1 false).2) 0).req 0).refcount = -1 := by
  decide

theorem cancel_sending_silent (w : World) (req id : Nat) :
    responses (grilio_channel_cancel_sending w req id false).trace = responses w.trace := by
  unfold grilio_channel_cancel_sending
  dsimp only
  rw [unref_responses]
  split
  · simp
  · simp

theorem cancel_request_silent (w : World) (id : Nat) :
    responses (grilio_channel_cancel_request w id false).2.trace = responses w.trace := by
  by_cases hid : id = 0
  · simp [grilio_channel_cancel_request, hid]
  rcases cancel_request_cases w id false hid with
    ⟨req, _, _, hr⟩ | ⟨req, _, _, _, hr⟩ | ⟨req, _, _, _, hr⟩ | ⟨_, _, _, hr⟩
  · rw [hr]; exact cancel_sending_silent w req id
  · rw [hr]
    unfold grilio_channel_cancel_queued
    dsimp only
    rw [unref_responses, cancel_found_responses]
    simp [responses]
  · rw [hr, unref_responses, cancel_found_responses]
    simp
  · rw [hr]

theorem queue_cancel_all_loop_silent (queue : Nat) (n : Nat) : ∀ w : World,
    responses (grilio_queue_cancel_all_loop w queue false n).trace = responses w.trace := by
  induction n with
  | zero => intro w; rfl
  | succ n ih =>
      intro w
      unfold grilio_queue_cancel_all_loop
      split
      · rfl
      · dsimp only
        rw [ih, cancel_request_silent]
        rfl

/-- C36: `grilio_channel_cancel_all` does not always obey `notify`. With
`notify` FALSE it still calls the response callback of every request it
finds in the response table in its last loop: in `sampleSent` the two
requests that wait for their responses both get the CANCELLED callback, and
in `sampleSending` the request in transmission gets it. The other two
functions obey the flag: in every world, `grilio_channel_cancel_request` and
`grilio_queue_cancel_all` with `notify` FALSE make no response callback. -/
theorem cancel_all_ignores_notify :
    responses sampleSent.trace = [] ∧
    responses (grilio_channel_cancel_all sampleSent false).trace
      = [(0, GRILIO_STATUS_CANCELLED, []), (1, GRILIO_STATUS_CANCELLED, [])] ∧
    responses sampleSending.trace = [] ∧
    sampleSending.chan.send_req = some 0 ∧
    responses (grilio_channel_cancel_all sampleSending false).trace
      = [(0, GRILIO_STATUS_CANCELLED, [])] ∧
    (∀ (w : World) (id : Nat),
      responses (grilio_channel_cancel_request w id false).2.trace = responses w.trace) ∧
    (∀ (w : World) (queue : Nat),
      responses (grilio_queue_cancel_all w queue false).trace = responses w.trace) := by
  refine ⟨by decide, by decide, by decide, by decide, by decide, cancel_request_silent, ?_⟩
  intro w queue
  exact queue_cancel_all_loop_silent queue _ w

theorem tidy_refl {E : Nat → Prop} {w : World} (hc : Core w) (hl : Links E w) : Tidy E w w :=
  ⟨hc, hl, fun _ => rfl, fun _ _ h => h⟩

theorem readOk_of_eq {w w' : World} (h : ReadOk w) (hr : readState w' = readState w)
    (hw : w'.chan.read_watch_id = true → w.chan.read_watch_id = true) : ReadOk w' := by
  simp only [readState, Prod.mk.injEq] at hr
  obtain ⟨h1, h2, h3, h4, h5, h6⟩ := hr
  unfold ReadOk at h ⊢
  rw [h1, h2, h3, h4, h5, h6]
  exact ⟨h.1, h.2.1, h.2.2.1, fun hw2 => h.2.2.2 (hw hw2)⟩

theorem uniqueIds_of_eq {w w' : World} (hi : ∀ h, (w'.req h).id = (w.req h).id)
    (h : UniqueIds w') : UniqueIds w := by
  intro a b hab ha
  exact h a b (by rw [hi, hi]; exact hab) (by rw [hi]; exact ha)

theorem awaited_of_eq {w w' : World} {h : Nat} (ha : Awaited w h)
    (ht : w'.chan.resp_table = w.chan.resp_table) (hf : w'.chan.fifo = w.chan.fifo)
    (hs : w'.chan.send_req = w.chan.send_req)
    (hr : (w'.req h).response = (w.req h).response) : Awaited w' h := by
  unfold Awaited at ha ⊢
  rw [ht, hf, hs, hr]
  exact ha

/-- The general step inside the engine, seen from the links: ids, response
callbacks, queue links and buffer sizes stay; a status changes to CANCELLED
only, or for a request the step is working on, and not for a request in the
send queue; entries of the send queue and of the response table may go and
the request in transmission may be forgotten, as long as the members of the
queues stay awaited. -/
theorem T_gen {E : Nat → Prop} {w x : World} (ht : Tidy E w x) (x' : World) (hc : Core x')
    (hreq : ∀ h, (x'.req h).id = (x.req h).id ∧ (x'.req h).response = (x.req h).response ∧
      (x'.req h).queue = (x.req h).queue ∧
      (x'.req h).bytes.length = (x.req h).bytes.length ∧
      ((x'.req h).status = (x.req h).status ∨
        ((x'.req h).status ≠ .NEW ∧ h ∉ x'.chan.fifo ∧
          ((x'.req h).status = .CANCELLED ∨ E h))))
    (hq : ∀ q, (x'.queue q).reqs = (x.queue q).reqs)
    (hfifo : x'.chan.fifo.Sublist x.chan.fifo)
    (htable : x'.chan.resp_table.Sublist x.chan.resp_table)
    (hsend : ∀ s, x'.chan.send_req = some s →
      x.chan.send_req = some s ∧ x'.chan.send_pos = x.chan.send_pos)
    (hmem : UniqueIds x → ∀ q, ∀ h ∈ (x.queue q).reqs, ¬ E h → Awaited x h → Awaited x' h)
    (hread : readState x' = readState x)
    (hwatch : x'.chan.read_watch_id = true → x.chan.read_watch_id = true) : Tidy E w x' := by
  have hl := ht.links
  refine ⟨hc, ⟨?_, ?_, ?_, ?_, ?_, ?_, readOk_of_eq hl.read hread hwatch⟩, ?_, ?_⟩
  · intro kv hm
    rw [(hreq kv.2).2.1]
    exact hl.callback kv (htable.subset hm)
  · intro s hs hE
    obtain ⟨h1, h2⟩ := hsend s hs
    obtain ⟨h3, h4⟩ := hl.sending s h1 hE
    rw [h2, (hreq s).2.2.2.1]
    refine ⟨?_, h4⟩
    rcases (hreq s).2.2.2.2 with h5 | ⟨_, _, h5 | h5⟩
    · rw [h5]; exact h3
    · exact Or.inr h5
    · exact absurd h5 hE
  · intro h hm
    rcases (hreq h).2.2.2.2 with h5 | ⟨_, h5, _⟩
    · rw [h5]; exact hl.queued h (hfifo.subset hm)
    · exact absurd hm h5
  · refine ⟨fun h q hh => ?_, fun h q hh => ?_, fun q => ?_⟩
    · rw [hq]; rw [(hreq h).2.2.1] at hh; exact hl.linked.1 h q hh
    · rw [hq] at hh; rw [(hreq h).2.2.1]; exact hl.linked.2.1 h q hh
    · rw [hq]; exact hl.linked.2.2 q
  · intro h hE hn
    rw [(hreq h).2.2.1]
    rcases (hreq h).2.2.2.2 with h5 | ⟨h5, _, _⟩
    · rw [h5] at hn; exact hl.fresh h hE hn
    · exact absurd hn h5
  · intro hu q h hm hE
    have hu2 : UniqueIds x := uniqueIds_of_eq (fun k => (hreq k).1) hu
    rw [hq] at hm
    exact hmem hu2 q h hm hE (hl.members hu2 q h hm hE)
  · intro h
    rw [(hreq h).1]; exact ht.ids h
  · intro q h hm
    rw [hq] at hm
    exact ht.mono q h hm

/-- A step that changes nothing the links look at. -/
theorem T_frame {E : Nat → Prop} {w x : World} (ht : Tidy E w x) (x' : World) (hc : Core x')
    (hreq : ∀ h, (x'.req h).id = (x.req h).id ∧ (x'.req h).response = (x.req h).response ∧
      (x'.req h).queue = (x.req h).queue ∧
      (x'.req h).bytes.length = (x.req h).bytes.length ∧
      (x'.req h).status = (x.req h).status)
    (hq : ∀ q, (x'.queue q).reqs = (x.queue q).reqs)
    (hfifo : x'.chan.fifo = x.chan.fifo)
    (htable : x'.chan.resp_table = x.chan.resp_table)
    (hsend : x'.chan.send_req = x.chan.send_req)
    (hpos : x'.chan.send_pos = x.chan.send_pos)
    (hread : readState x' = readState x)
    (hwatch : x'.chan.read_watch_id = true → x.chan.read_watch_id = true) : Tidy E w x' :=
  T_gen ht x' hc
    (fun h => ⟨(hreq h).1, (hreq h).2.1, (hreq h).2.2.1, (hreq h).2.2.2.1,
      Or.inl (hreq h).2.2.2.2⟩)
    hq (by rw [hfifo]) (by rw [htable]) (fun s hs => ⟨by rw [← hsend]; exact hs, hpos⟩)
    (fun _ q h _ _ ha => awaited_of_eq ha htable hfifo hsend (hreq h).2.1) hread hwatch

/-- A step that leaves the requests, the queues and the channel fields of
the links alone. -/
theorem T_of_eq {E : Nat → Prop} {w x : World} (ht : Tidy E w x) (x' : World) (hc : Core x')
    (hr : x'.reqs = x.reqs) (hq : x'.queues = x.queues)
    (hfifo : x'.chan.fifo = x.chan.fifo)
    (htable : x'.chan.resp_table = x.chan.resp_table)
    (hsend : x'.chan.send_req = x.chan.send_req)
    (hpos : x'.chan.send_pos = x.chan.send_pos)
    (hread : readState x' = readState x)
    (hwatch : x'.chan.read_watch_id = true → x.chan.read_watch_id = true) : Tidy E w x' :=
  T_frame ht x' hc (fun h => by simp [World.req, hr]) (fun q => by simp [World.queue, hq])
    hfifo htable hsend hpos hread hwatch

theorem T_ite {E : Nat → Prop} {w a b : World} {c : Prop} [Decidable c] (ha : Tidy E w a)
    (hb : Tidy E w b) : Tidy E w (if c then a else b) := by
  split
  · exact ha
  · exact hb

theorem T_emit {E : Nat → Prop} {w x : World} (ev : Event) (ht : Tidy E w x) :
    Tidy E w (x.emit ev) :=
  T_of_eq ht _ ⟨ht.core.pending, ht.core.ids, ht.core.fifo, ht.core.send, ht.core.table,
    ht.core.last, ht.core.timer⟩ rfl rfl rfl rfl rfl rfl rfl (fun h => h)

theorem T_ref {E : Nat → Prop} {w x : World} (h : Nat) (ht : Tidy E w x) :
    Tidy E w (grilio_request_ref x h) :=
  T_frame ht _ (G_ref h (good_refl ht.core)).core
    (fun k => ⟨ref_id _ _ _, ref_response _ _ _, ref_queue _ _ _,
      by rw [ref_bytes], ref_status _ _ _⟩)
    (fun q => by simp [World.queue]) (by simp) (by simp) (by simp) (by simp)
    (by simp [readState]) (by simp)

theorem T_unref {E : Nat → Prop} {w x : World} (h : Nat) (ht : Tidy E w x) :
    Tidy E w (grilio_request_unref x h) :=
  T_frame ht _ (G_unref h (good_refl ht.core)).core
    (fun k => ⟨unref_id _ _ _, unref_response _ _ _, unref_queue _ _ _,
      by rw [unref_bytes], unref_status _ _ _⟩)
    (fun q => by simp [World.queue]) (by simp) (by simp) (by simp) (by simp)
    (by simp [readState]) (by simp)

theorem T_log {E : Nat → Prop} {w x : World} (t : GRILIO_PACKET_TYPE) (id code : Nat)
    (data : List Nat) (ht : Tidy E w x) : Tidy E w (grilio_channel_log x t id code data) :=
  T_emit _ ht

theorem T_shutdown {E : Nat → Prop} {w x : World} (flush : Bool) (ht : Tidy E w x) :
    Tidy E w (grilio_channel_shutdown x flush) :=
  T_of_eq ht _ (G_shutdown flush (good_refl ht.core)).core rfl rfl rfl rfl rfl rfl rfl
    (fun h => by simp [grilio_channel_shutdown] at h)

theorem T_handle_error {E : Nat → Prop} {w x : World} (t : GRILIO_ERROR_TYPE) (inv : Bool)
    (ht : Tidy E w x) : Tidy E w (grilio_channel_handle_error x t inv) := by
  refine T_of_eq ht _ (G_handle_error t inv (good_refl ht.core)).core ?_ ?_ ?_ ?_ ?_ ?_ ?_ ?_
  all_goals cases t
  all_goals first
    | rfl
    | (intro h; simp [grilio_channel_handle_error, grilio_channel_shutdown, World.emit] at h)

theorem T_handle_eof {E : Nat → Prop} {w x : World} (ht : Tidy E w x) :
    Tidy E w (grilio_channel_handle_eof x) :=
  T_emit _ (T_shutdown _ ht)

theorem T_write_chars {E : Nat → Prop} {w x : World} (buf : List Nat) (ht : Tidy E w x) :
    Tidy E w (g_io_channel_write_chars x buf).2 := by
  have hc := (G_write_chars buf (good_refl ht.core)).core
  revert hc
  unfold g_io_channel_write_chars
  split <;> intro hc <;> exact T_of_eq ht _ hc rfl rfl rfl rfl rfl rfl rfl (fun h => h)

theorem T_reset_timeout {E : Nat → Prop} {w x : World} (ht : Tidy E w x) :
    Tidy E w (grilio_channel_reset_timeout x) := by
  have hc := (G_reset_timeout (good_refl ht.core)).core
  have h := reset_timeout_table x
  refine T_of_eq ht _ hc (reset_timeout_reqs x) ?_ h.2.1 h.1 h.2.2.1 ?_ ?_ ?_
  all_goals
    unfold grilio_channel_reset_timeout
    dsimp only
    split
    · split <;> first | rfl | exact fun h => h
    · split <;> first | rfl | exact fun h => h
theorem T_exempt {E E' : Nat → Prop} {w x : World} (ht : Tidy E w x)
    (hE : ∀ h, E h → E' h) : Tidy E' w x :=
  ⟨ht.core,
    ⟨ht.links.callback, fun s hs hn => ht.links.sending s hs (fun h => hn (hE s h)),
      ht.links.queued, ht.links.linked, fun h hn => ht.links.fresh h (fun h2 => hn (hE h h2)),
      fun hu q h hm hn => ht.links.members hu q h hm (fun h2 => hn (hE h h2)), ht.links.read⟩,
    ht.ids, ht.mono⟩

/-- The work on the request `r` is done: what the links say of it holds
again. -/
theorem T_discharge {E : Nat → Prop} {w x : World} (r : Nat)
    (ht : Tidy (fun h => E h ∨ h = r) w x)
    (hs : x.chan.send_req = some r → ¬ E r →
      ((x.req r).status = .SENDING ∨ (x.req r).status = .CANCELLED) ∧
        x.chan.send_pos ≤ (x.req r).bytes.length)
    (hf : ¬ E r → (x.req r).status = .NEW → (x.req r).queue = none)
    (hm : UniqueIds x → ¬ E r → ∀ q, r ∈ (x.queue q).reqs → Awaited x r) : Tidy E w x := by
  refine ⟨ht.core, ⟨ht.links.callback, ?_, ht.links.queued, ht.links.linked, ?_, ?_,
    ht.links.read⟩, ht.ids, ht.mono⟩
  · intro s h1 hE
    by_cases hr : s = r
    · rw [hr] at h1 hE ⊢; exact hs h1 hE
    · exact ht.links.sending s h1 (fun h => h.elim hE hr)
  · intro h hE
    by_cases hr : h = r
    · rw [hr] at hE ⊢; exact hf hE
    · exact ht.links.fresh h (fun h2 => h2.elim hE hr)
  · intro hu q h hq hE
    by_cases hr : h = r
    · rw [hr] at hE hq ⊢; exact hm hu hE q hq
    · exact ht.links.members hu q h hq (fun h2 => h2.elim hE hr)

theorem T_trans {E : Nat → Prop} {w x y : World} (h0 : Tidy E w x) (h1 : Tidy E x y) :
    Tidy E w y :=
  ⟨h1.core, h1.links, fun h => (h1.ids h).trans (h0.ids h),
    fun q h hm => h0.mono q h (h1.mono q h hm)⟩

/-- An entry leaves the response table; if its request is a member of a
queue, the step is working on it. -/
theorem T_steal {E : Nat → Prop} {w x : World} (key : Nat) (ht : Tidy E w x)
    (hkey : UniqueIds x → ∀ kv ∈ x.chan.resp_table, kv.1 = key →
      ∀ q, kv.2 ∈ (x.queue q).reqs → E kv.2) :
    Tidy E w (g_hash_table_steal x key) := by
  refine T_gen ht _ (G_steal key (good_refl ht.core)).core
    (fun h => ⟨rfl, rfl, rfl, rfl, Or.inl rfl⟩) (fun _ => rfl) (List.Sublist.refl _)
    (List.filter_sublist _) (fun s hs => ⟨hs, rfl⟩) ?_ rfl (fun h => h)
  intro hu q h hm hE ha
  rcases ha with ⟨kv, hkv, he⟩ | ha
  · refine Or.inl ⟨kv, ?_, he⟩
    show kv ∈ x.chan.resp_table.filter (fun kv => kv.1 ≠ key)
    rw [List.mem_filter]
    refine ⟨hkv, ?_⟩
    simp only [ne_eq, decide_not, Bool.not_eq_true', decide_eq_false_iff_not]
    intro hk
    exact hE (he ▸ hkey hu kv hkv hk q (he ▸ hm))
  · exact Or.inr ha

theorem T_hash_remove {E : Nat → Prop} {w x : World} (key : Nat) (ht : Tidy E w x)
    (hkey : UniqueIds x → ∀ kv ∈ x.chan.resp_table, kv.1 = key →
      ∀ q, kv.2 ∈ (x.queue q).reqs → E kv.2) :
    Tidy E w (g_hash_table_remove x key).2 := by
  unfold g_hash_table_remove
  split
  · exact T_unref _ (T_steal key ht hkey)
  · exact ht

theorem queue_remove_queue_cases (w : World) (r x : Nat) :
    ((grilio_queue_remove w r).req x).queue = (w.req x).queue ∨
      ((grilio_queue_remove w r).req x).queue = none := by
  rw [queue_remove_req]
  split
  · exact Or.inr rfl
  · exact Or.inl rfl

theorem queue_remove_mem (w : World) (r q h : Nat)
    (hm : h ∈ ((grilio_queue_remove w r).queue q).reqs) : h ∈ (w.queue q).reqs := by
  rw [queue_remove_reqs] at hm
  split at hm
  · exact List.mem_of_mem_erase hm
  · exact hm

theorem T_queue_remove {E : Nat → Prop} {w x : World} (r : Nat) (ht : Tidy E w x) :
    Tidy E w (grilio_queue_remove x r) ∧ ∀ q, r ∉ ((grilio_queue_remove x r).queue q).reqs := by
  have hl := ht.links
  have hlr := linked_remove hl.linked r
  refine ⟨⟨(G_queue_remove r (good_refl ht.core)).core, ⟨?_, ?_, ?_, hlr.1, ?_, ?_, ?_⟩, ?_, ?_⟩,
    hlr.2.1.2⟩
  · intro kv hm
    rw [queue_remove_response]
    exact hl.callback kv (by simpa using hm)
  · intro s hs hE
    rw [queue_remove_status, queue_remove_bytes, queue_remove_chan]
    exact hl.sending s (by simpa using hs) hE
  · intro h hm
    rw [queue_remove_status]
    exact hl.queued h (by simpa using hm)
  · intro h hE hn
    rw [queue_remove_status] at hn
    rcases queue_remove_queue_cases x r h with h1 | h1
    · rw [h1]; exact hl.fresh h hE hn
    · exact h1
  · intro hu q h hm hE
    have hu2 : UniqueIds x := uniqueIds_of_eq (fun k => queue_remove_id x r k) hu
    exact awaited_of_eq (hl.members hu2 q h (queue_remove_mem x r q h hm) hE)
      (by simp) (by simp) (by simp) (queue_remove_response x r h)
  · exact readOk_of_eq hl.read (by simp [readState]) (by simp)
  · intro h
    rw [queue_remove_id]; exact ht.ids h
  · intro q h hm
    exact ht.mono q h (queue_remove_mem x r q h hm)

/-- The status of a submitted request that is not in the send queue becomes
CANCELLED, or changes while the step is working on the request. -/
theorem T_status {E : Nat → Prop} {w x : World} (req : Nat) (s : GRILIO_REQUEST_STATUS)
    (ht : Tidy E w x) (hc0 : Core (x.setReq req { x.req req with status := s }))
    (hs : s ≠ .NEW) (hf : req ∉ x.chan.fifo) (hc : s = .CANCELLED ∨ E req) :
    Tidy E w (x.setReq req { x.req req with status := s }) := by
  refine T_gen ht _ hc0 (fun h => ?_)
    (fun _ => rfl) (List.Sublist.refl _) (List.Sublist.refl _) (fun k hk => ⟨hk, rfl⟩)
    (fun _ q h _ _ ha => awaited_of_eq ha rfl rfl rfl ?_) rfl (fun h => h)
  · rw [req_setReq]
    split
    · rename_i hc2
      rw [hc2.1]
      exact ⟨rfl, rfl, rfl, rfl, Or.inr ⟨hs, hf, hc⟩⟩
    · exact ⟨rfl, rfl, rfl, rfl, Or.inl rfl⟩
  · rw [req_setReq]
    split
    · rename_i hc2; rw [hc2.1]
    · rfl

theorem T_cancelled {E : Nat → Prop} {w x : World} (req : Nat) (ht : Tidy E w x)
    (hx : (x.req req).status ≠ .NEW) (hf : req ∉ x.chan.fifo) :
    Tidy E w (x.setReq req { x.req req with status := .CANCELLED }) :=
  T_status req .CANCELLED ht
    (G_status req .CANCELLED (good_refl ht.core) (by simp) hx (fun _ => rfl)).core (by simp) hf
    (Or.inl rfl)

/-- The entry of the response table under the id of a request is the entry
of that request, when the ids are unique. -/
theorem key_of_unique {x : World} (hc : Core x) {req id : Nat} (hid : (x.req req).id = id)
    (hid0 : id ≠ 0) (hu : UniqueIds x) :
    ∀ kv ∈ x.chan.resp_table, kv.1 = id → kv.2 = req := by
  intro kv hm hk
  have h1 := hc.table.2 kv hm
  exact hu kv.2 req (by rw [h1, hk, hid]) (by rw [h1, hk]; exact hid0)

theorem T_cancel_found {E : Nat → Prop} {w x : World} (req id : Nat) (notify : Bool)
    (ht : Tidy E w x) (hx : (x.req req).status ≠ .NEW) (hid : (x.req req).id = id)
    (hid0 : id ≠ 0) (hnf : req ∉ x.chan.fifo) :
    Tidy E w (grilio_channel_cancel_found x req id notify) ∧
    ∀ q, req ∉ ((grilio_channel_cancel_found x req id notify).queue q).reqs := by
  obtain ⟨t1, u1⟩ := T_queue_remove req ht
  have t2 : Tidy E w (g_hash_table_remove (grilio_queue_remove x req) id).2 := by
    refine T_hash_remove id t1 (fun hu kv hm hk q hq => ?_)
    have := key_of_unique t1.core (by rw [queue_remove_id]; exact hid) hid0 hu kv hm hk
    rw [this] at hq
    exact absurd hq (u1 q)
  have t3 := T_cancelled req t2 (by simpa using hx)
    (by rw [(hash_remove_fields _ id).1]; simpa using hnf)
  unfold grilio_channel_cancel_found
  dsimp only
  constructor
  · exact T_ite (T_emit _ t3) t3
  · intro q
    have : ∀ y : World, y.queues = (grilio_queue_remove x req).queues →
        req ∉ (y.queue q).reqs := by
      intro y hy
      rw [queue_of_eq hy]
      exact u1 q
    split
    · exact this _ (by simp [World.emit, World.setReq])
    · exact this _ (by simp [World.setReq])

theorem T_cancel_sending {E : Nat → Prop} {w x : World} (req id : Nat) (notify : Bool)
    (ht : Tidy E w x) (hs : x.chan.send_req = some req) (hid : (x.req req).id = id)
    (hid0 : id ≠ 0) : Tidy E w (grilio_channel_cancel_sending x req id notify) := by
  have hx : (x.req req).status ≠ .NEW :=
    (ht.core.pending req ((mem_pending x req).2 (Or.inl hs))).2
  have hnf : req ∉ x.chan.fifo := ht.core.send req hs
  obtain ⟨t1, u1⟩ := T_queue_remove req ht
  have t2 : Tidy E w (g_hash_table_remove (grilio_queue_remove x req) id).2 := by
    refine T_hash_remove id t1 (fun hu kv hm hk q hq => ?_)
    have := key_of_unique t1.core (by rw [queue_remove_id]; exact hid) hid0 hu kv hm hk
    rw [this] at hq
    exact absurd hq (u1 q)
  unfold grilio_channel_cancel_sending
  dsimp only
  refine T_unref _ ?_
  split
  · have t3 := T_cancelled req t2 (by simpa using hx)
      (by rw [(hash_remove_fields _ id).1]; simpa using hnf)
    exact T_ite (T_emit _ t3) t3
  · exact t2

theorem T_erase {E : Nat → Prop} {w x : World} (req : Nat) (ht : Tidy E w x) (hE : E req) :
    Tidy E w { x with chan := { x.chan with fifo := x.chan.fifo.erase req } } := by
  have hc : Core { x with chan := { x.chan with fifo := x.chan.fifo.erase req } } :=
    (G_frame (good_refl ht.core)
      { x with chan := { x.chan with fifo := x.chan.fifo.erase req } } rfl
      (fun _ => ⟨rfl, rfl, rfl⟩) (List.erase_sublist _ _) (List.Sublist.refl _)
      (fun _ h => h) rfl ⟨rfl, rfl⟩ rfl).core
  refine T_gen ht _ hc
    (fun h => ⟨rfl, rfl, rfl, rfl, Or.inl rfl⟩) (fun _ => rfl) (List.erase_sublist _ _)
    (List.Sublist.refl _) (fun s hs => ⟨hs, rfl⟩) ?_ rfl (fun h => h)
  intro _ q h _ hn ha
  rcases ha with ha | ⟨h1, h2 | h2⟩
  · exact Or.inl ha
  · refine Or.inr ⟨h1, Or.inl ?_⟩
    have hne : h ≠ req := fun he => hn (he ▸ hE)
    exact (List.mem_erase_of_ne hne).2 h2
  · exact Or.inr ⟨h1, Or.inr h2⟩

/-- A request that has left the send queue is cancelled and released. -/
theorem T_cancel_unlinked {E : Nat → Prop} {w y : World} (req id : Nat) (notify : Bool)
    (ht : Tidy (fun h => E h ∨ h = req) w y) (hl : req < y.reqs.length)
    (hx : (y.req req).status ≠ .NEW) (hid : (y.req req).id = id) (hid0 : id ≠ 0)
    (hnf : req ∉ y.chan.fifo) (hns : y.chan.send_req ≠ some req) :
    Tidy E w (grilio_request_unref (grilio_channel_cancel_found y req id notify) req) := by
  obtain ⟨t2, u2⟩ := T_cancel_found req id notify ht hx hid hid0 hnf
  refine T_discharge req (T_unref req t2) (fun hs _ => ?_) (fun _ hn => ?_) (fun _ _ q hq => ?_)
  · exfalso
    rw [unref_chan, cancel_found_chan] at hs
    exact hns hs
  · exfalso
    rw [unref_status, cancel_found_status _ _ _ _ hl] at hn
    cases hn
  · exfalso
    rw [queue_of_eq (unref_queues _ _)] at hq
    exact u2 q hq

theorem T_cancel_queued {E : Nat → Prop} {w x : World} (req id : Nat) (notify : Bool)
    (ht : Tidy E w x) (hm : req ∈ x.chan.fifo) (hid : (x.req req).id = id) (hid0 : id ≠ 0) :
    Tidy E w (grilio_channel_cancel_queued x req id notify) := by
  have hp := ht.core.pending req ((mem_pending x req).2 (Or.inr (Or.inl hm)))
  have hns : x.chan.send_req ≠ some req := fun hs => ht.core.send req hs hm
  have t0 : Tidy (fun h => E h ∨ h = req) w (x.emit (.cancelled req)) :=
    T_exempt (T_emit _ ht) (fun _ h => Or.inl h)
  have t1 := T_erase req t0 (Or.inr rfl)
  have hnf : req ∉ ((x.emit (.cancelled req)).chan.fifo.erase req) := by
    have hnd : x.chan.fifo.Nodup := ht.core.fifo
    exact fun h => ((List.Nodup.mem_erase_iff hnd).1 h).1 rfl
  unfold grilio_channel_cancel_queued
  dsimp only
  exact T_cancel_unlinked req id notify t1 hp.1 hp.2 hid hid0 hnf hns

theorem T_cancel_request {E : Nat → Prop} {w x : World} (id : Nat) (notify : Bool)
    (ht : Tidy E w x) : Tidy E w (grilio_channel_cancel_request x id notify).2 := by
  by_cases hid : id = 0
  · simp only [grilio_channel_cancel_request, hid, ne_eq, not_true_eq_false, if_false]
    exact ht
  rcases cancel_request_cases x id notify hid with
    ⟨req, hs, hi, hr⟩ | ⟨req, _, hm, hi, hr⟩ | ⟨req, _, hnf, hl, hr⟩ | ⟨_, _, _, hr⟩
  · rw [hr]; exact T_cancel_sending req id notify ht hs hi hid
  · rw [hr]; exact T_cancel_queued req id notify ht hm hi hid
  · rw [hr]
    have hkv := lookup_some_mem _ _ _ hl
    have hp : req ∈ Pending x := (mem_pending x req).2 (Or.inr (Or.inr ⟨_, hkv, rfl⟩))
    have hi : (x.req req).id = id := ht.core.table.2 _ hkv
    exact T_unref _ (T_cancel_found req id notify (T_ref req ht)
      (by simpa using (ht.core.pending req hp).2) (by simpa using hi) hid
      (by
        show req ∉ x.chan.fifo
        exact fun hm => hnf req hm hi)).1
  · rw [hr]; exact ht
/-- A step on the channel that leaves the requests, the queues, the send
queue, the response table and the request in transmission alone, and after
which the receive state is within its buffers. -/
theorem T_chan {E : Nat → Prop} {w x : World} (ht : Tidy E w x) (x' : World)
    (hr : x'.reqs = x.reqs) (hq : x'.queues = x.queues)
    (hfifo : x'.chan.fifo = x.chan.fifo)
    (htable : x'.chan.resp_table = x.chan.resp_table)
    (hsend : x'.chan.send_req = x.chan.send_req)
    (hpos : x'.chan.send_pos = x.chan.send_pos)
    (hl : x'.chan.last_req_id = x.chan.last_req_id)
    (hti : x'.chan.timeout_id = x.chan.timeout_id)
    (hnd : x'.chan.next_deadline = x.chan.next_deadline)
    (htr : responses x'.trace = responses x.trace)
    (hread : ReadOk x') : Tidy E w x' := by
  have hc := (G_of_eq (good_refl ht.core) x' hr hfifo htable hsend hl hti hnd htr).core
  have hrq : ∀ h, x'.req h = x.req h := fun h => by simp [World.req, hr]
  have hqq : ∀ q, x'.queue q = x.queue q := fun q => by simp [World.queue, hq]
  have hl := ht.links
  refine ⟨hc, ⟨?_, ?_, ?_, ?_, ?_, ?_, hread⟩, ?_, ?_⟩
  · intro kv hm
    rw [hrq]; rw [htable] at hm; exact hl.callback kv hm
  · intro s hs hE
    rw [hrq, hpos]; rw [hsend] at hs; exact hl.sending s hs hE
  · intro h hm
    rw [hrq]; rw [hfifo] at hm; exact hl.queued h hm
  · refine ⟨fun h q hh => ?_, fun h q hh => ?_, fun q => ?_⟩
    · rw [hqq]; rw [hrq] at hh; exact hl.linked.1 h q hh
    · rw [hqq] at hh; rw [hrq]; exact hl.linked.2.1 h q hh
    · rw [hqq]; exact hl.linked.2.2 q
  · intro h hE hn
    rw [hrq] at hn ⊢; exact hl.fresh h hE hn
  · intro hu q h hm hE
    rw [hqq] at hm
    have hu2 : UniqueIds x := uniqueIds_of_eq (fun k => by rw [hrq]) hu
    exact awaited_of_eq (hl.members hu2 q h hm hE) htable hfifo hsend (by rw [hrq])
  · intro h
    rw [hrq]; exact ht.ids h
  · intro q h hm
    rw [hqq] at hm; exact ht.mono q h hm

theorem T_unwatch {E : Nat → Prop} {w x : World} (ht : Tidy E w x) :
    Tidy E w { x with chan := { x.chan with read_watch_id := false } } :=
  T_of_eq ht _ (G_of_eq (good_refl ht.core)
    { x with chan := { x.chan with read_watch_id := false } } rfl rfl rfl rfl rfl rfl rfl rfl).core
    rfl rfl rfl rfl rfl rfl rfl (fun h => by simp at h)

theorem T_set_write_watch {E : Nat → Prop} {w x : World} (b : Bool) (ht : Tidy E w x) :
    Tidy E w { x with chan := { x.chan with write_watch_id := b } } :=
  T_of_eq ht _ (G_of_eq (good_refl ht.core)
    { x with chan := { x.chan with write_watch_id := b } } rfl rfl rfl rfl rfl rfl rfl rfl).core
    rfl rfl rfl rfl rfl rfl rfl (fun h => h)

/-- A request is stored back with the same id, status, deadline, response
callback, queue and buffer size. -/
theorem T_setReq {E : Nat → Prop} {w x : World} (req : Nat) (r : GRilIoRequest)
    (ht : Tidy E w x)
    (hr : r.id = (x.req req).id ∧ r.status = (x.req req).status ∧
      r.deadline = (x.req req).deadline)
    (hr2 : r.response = (x.req req).response ∧ r.queue = (x.req req).queue ∧
      r.bytes.length = (x.req req).bytes.length) : Tidy E w (x.setReq req r) := by
  refine T_frame ht _ (G_setReq req r (good_refl ht.core) hr).core (fun k => ?_)
    (fun _ => rfl) rfl rfl rfl rfl rfl (fun h => h)
  rw [req_setReq]
  split
  · rename_i hc; rw [hc.1]; exact ⟨hr.1, hr2.1, hr2.2.1, hr2.2.2, hr.2.1⟩
  · exact ⟨rfl, rfl, rfl, rfl, rfl⟩

theorem core_deadline {x : World} (hc : Core x) (req : Nat) (D : Int)
    (hx : (x.req req).status ≠ .NEW) :
    Core (x.setReq req { x.req req with deadline := D }) := by
  have hreq : ∀ h, ((x.setReq req { x.req req with deadline := D }).req h).id = (x.req h).id ∧
      ((x.setReq req { x.req req with deadline := D }).req h).status = (x.req h).status ∧
      (((x.setReq req { x.req req with deadline := D }).req h).deadline = (x.req h).deadline ∨
        (x.req h).status ≠ .NEW) := by
    intro h
    rw [req_setReq]
    split
    · rename_i hc2; rw [hc2.1]; exact ⟨rfl, rfl, Or.inr hx⟩
    · exact ⟨rfl, rfl, Or.inl rfl⟩
  refine ⟨?_, ?_, hc.fifo, hc.send, ⟨hc.table.1, ?_⟩, hc.last, hc.timer⟩
  · intro h hh
    have := hc.pending h hh
    exact ⟨by simpa using this.1, by rw [(hreq h).2.1]; exact this.2⟩
  · intro h
    rw [(hreq h).1, (hreq h).2.1]
    refine ⟨(hc.ids h).1, (hc.ids h).2.1, fun hn => ?_⟩
    rcases (hreq h).2.2 with h1 | h1
    · rw [h1]; exact (hc.ids h).2.2 hn
    · exact absurd hn h1
  · intro kv hm
    rw [(hreq kv.2).1]
    exact hc.table.2 kv hm

theorem T_deadline {E : Nat → Prop} {w x : World} (req : Nat) (D : Int) (ht : Tidy E w x)
    (hx : (x.req req).status ≠ .NEW) :
    Tidy E w (x.setReq req { x.req req with deadline := D }) := by
  refine T_frame ht _ (core_deadline ht.core req D hx) (fun k => ?_)
    (fun _ => rfl) rfl rfl rfl rfl rfl (fun h => h)
  rw [req_setReq]
  split
  · rename_i hc; rw [hc.1]; exact ⟨rfl, rfl, rfl, rfl, rfl⟩
  · exact ⟨rfl, rfl, rfl, rfl, rfl⟩

/-- The request in transmission is forgotten, while the step is working on
it. -/
theorem T_forget {E : Nat → Prop} {w x : World} (ht : Tidy E w x)
    (hE : ∀ s, x.chan.send_req = some s → E s) :
    Tidy E w { x with chan := { x.chan with send_req := none } } := by
  have hc : Core { x with chan := { x.chan with send_req := none } } :=
    (G_frame (good_refl ht.core) { x with chan := { x.chan with send_req := none } } rfl
      (fun _ => ⟨rfl, rfl, rfl⟩) (List.Sublist.refl _) (List.Sublist.refl _)
      (fun s hs => by simp at hs) rfl ⟨rfl, rfl⟩ rfl).core
  refine T_gen ht _ hc (fun h => ⟨rfl, rfl, rfl, rfl, Or.inl rfl⟩) (fun _ => rfl)
    (List.Sublist.refl _) (List.Sublist.refl _) (fun s hs => by simp at hs) ?_ rfl (fun h => h)
  intro _ q h _ hn ha
  rcases ha with ha | ⟨h1, h2 | h2⟩
  · exact Or.inl ha
  · exact Or.inr ⟨h1, Or.inl h2⟩
  · exact absurd (hE h h2) hn

theorem ite_world {c : Prop} [Decidable c] {a b : World} (P : World → Prop) (ha : P a)
    (hb : P b) : P (if c then a else b) := by
  split
  · exact ha
  · exact hb

theorem setReq_deadline_fields (x : World) (req : Nat) (D : Int) (h : Nat) :
    ((x.setReq req { x.req req with deadline := D }).req h).response = (x.req h).response ∧
    ((x.setReq req { x.req req with deadline := D }).req h).status = (x.req h).status := by
  rw [req_setReq]
  split
  · rename_i hc; rw [hc.1]; exact ⟨rfl, rfl⟩
  · exact ⟨rfl, rfl⟩

theorem setReq_status_fields (x : World) (req : Nat) (s : GRILIO_REQUEST_STATUS) (h : Nat) :
    ((x.setReq req { x.req req with status := s }).req h).response = (x.req h).response ∧
    ((x.setReq req { x.req req with status := s }).req h).queue = (x.req h).queue ∧
    ((x.setReq req { x.req req with status := s }).req h).bytes = (x.req h).bytes ∧
    ((x.setReq req { x.req req with status := s }).req h).id = (x.req h).id := by
  rw [req_setReq]
  split
  · rename_i hc; rw [hc.1]; exact ⟨rfl, rfl, rfl, rfl⟩
  · exact ⟨rfl, rfl, rfl, rfl⟩

theorem write_sent_fields (x : World) (req : Nat) :
    (grilio_channel_write_sent x req).2.chan.resp_table = x.chan.resp_table ∧
    (grilio_channel_write_sent x req).2.chan.send_req = none ∧
    (∀ h, ((grilio_channel_write_sent x req).2.req h).response = (x.req h).response) ∧
    (∀ h, (x.req h).status ≠ .NEW → ((grilio_channel_write_sent x req).2.req h).status ≠ .NEW) ∧
    ((x.req req).response = false →
      ∀ q, ((grilio_channel_write_sent x req).2.queue q).reqs
        = ((grilio_queue_remove x req).queue q).reqs) := by
  have hst : ∀ h, ((if (x.req req).status = .SENDING
      then x.setReq req { x.req req with status := .SENT } else x).req h).response
        = (x.req h).response ∧
      ((x.req h).status ≠ .NEW → ((if (x.req req).status = .SENDING
      then x.setReq req { x.req req with status := .SENT } else x).req h).status ≠ .NEW) := by
    intro h
    split
    · rw [req_setReq]
      split
      · rename_i hc; rw [hc.1]; exact ⟨rfl, fun _ => by simp⟩
      · exact ⟨rfl, fun h => h⟩
    · exact ⟨rfl, fun h => h⟩
  have hch : (if (x.req req).status = .SENDING
      then x.setReq req { x.req req with status := .SENT } else x).chan = x.chan := by
    split <;> rfl
  have hqu : (if (x.req req).status = .SENDING
      then x.setReq req { x.req req with status := .SENT } else x).queues = x.queues := by
    split <;> rfl
  have hqf : ∀ h, ((if (x.req req).status = .SENDING
      then x.setReq req { x.req req with status := .SENT } else x).req h).queue
        = (x.req h).queue := by
    intro h
    split
    · exact (setReq_status_fields x req _ h).2.1
    · rfl
  unfold grilio_channel_write_sent
  dsimp only
  revert hst hch hqu hqf
  generalize (if (x.req req).status = .SENDING
      then x.setReq req { x.req req with status := .SENT } else x) = W1
  intro hst hch hqu hqf
  have hst2 : ∀ h, ((grilio_channel_log W1 .REQ (W1.req req).id (W1.req req).code
      ((W1.req req).bytes.drop 4)).req h).response = (x.req h).response ∧
      ((x.req h).status ≠ .NEW → ((grilio_channel_log W1 .REQ (W1.req req).id (W1.req req).code
      ((W1.req req).bytes.drop 4)).req h).status ≠ .NEW) := hst
  have hch2 : (grilio_channel_log W1 .REQ (W1.req req).id (W1.req req).code
      ((W1.req req).bytes.drop 4)).chan = x.chan := hch
  have hqu2 : (grilio_channel_log W1 .REQ (W1.req req).id (W1.req req).code
      ((W1.req req).bytes.drop 4)).queues = x.queues := hqu
  have hqf2 : ∀ h, ((grilio_channel_log W1 .REQ (W1.req req).id (W1.req req).code
      ((W1.req req).bytes.drop 4)).req h).queue = (x.req h).queue := hqf
  revert hst2 hch2 hqu2 hqf2
  generalize grilio_channel_log W1 .REQ (W1.req req).id (W1.req req).code
      ((W1.req req).bytes.drop 4) = W2
  intro hst2 hch2 hqu2 hqf2
  refine ⟨?_, rfl, fun h => ?_, fun h hn => ?_, fun hr q => ?_⟩
  · show (grilio_request_unref _ req).chan.resp_table = _
    rw [unref_chan]
    refine ite_world (fun y => y.chan.resp_table = x.chan.resp_table) ?_
      (ite_world (fun y => y.chan.resp_table = x.chan.resp_table)
        (ite_world (fun y => y.chan.resp_table = x.chan.resp_table) ?_ ?_) ?_)
    all_goals beta_reduce
    · rw [queue_remove_chan, hch2]
    · rw [(reset_timeout_table _).1]; show W2.chan.resp_table = _; rw [hch2]
    · show W2.chan.resp_table = _; rw [hch2]
    · rw [hch2]
  · show ((grilio_request_unref _ req).req h).response = _
    rw [unref_response]
    refine ite_world (fun y => (y.req h).response = (x.req h).response) ?_
      (ite_world (fun y => (y.req h).response = (x.req h).response)
        (ite_world (fun y => (y.req h).response = (x.req h).response) ?_ ?_) ?_)
    all_goals beta_reduce
    · rw [queue_remove_response]; exact (hst2 h).1
    · rw [reset_timeout_req]; exact ((setReq_deadline_fields W2 req _ h).1).trans (hst2 h).1
    · exact ((setReq_deadline_fields W2 req _ h).1).trans (hst2 h).1
    · exact (hst2 h).1
  · show ((grilio_request_unref _ req).req h).status ≠ _
    rw [unref_status]
    refine ite_world (fun y => (y.req h).status ≠ .NEW) ?_
      (ite_world (fun y => (y.req h).status ≠ .NEW)
        (ite_world (fun y => (y.req h).status ≠ .NEW) ?_ ?_) ?_)
    all_goals beta_reduce
    · rw [queue_remove_status]; exact (hst2 h).2 hn
    · rw [reset_timeout_req, (setReq_deadline_fields W2 req _ h).2]; exact (hst2 h).2 hn
    · rw [(setReq_deadline_fields W2 req _ h).2]; exact (hst2 h).2 hn
    · exact (hst2 h).2 hn
  · show ((grilio_request_unref _ req).queue q).reqs = _
    rw [queue_of_eq (unref_queues _ _)]
    have hr1 : (W2.req req).response = false := by rw [(hst2 req).1]; exact hr
    rw [if_pos (by simpa using hr1)]
    rw [queue_remove_reqs, queue_remove_reqs, hqf2, queue_of_eq hqu2]

theorem T_write_sent {E : Nat → Prop} {w x : World} (req : Nat) (ht : Tidy E w x)
    (hs : x.chan.send_req = some req) :
    Tidy E w (grilio_channel_write_sent x req).2 := by
  have hp := ht.core.pending req ((mem_pending x req).2 (Or.inl hs))
  have hnf : req ∉ x.chan.fifo := ht.core.send req hs
  obtain ⟨f1, f2, f3, f4, f5⟩ := write_sent_fields x req
  have t0 : Tidy (fun h => E h ∨ h = req) x x :=
    tidy_refl ht.core (T_exempt ht (fun _ h => Or.inl h)).links
  have key : Tidy (fun h => E h ∨ h = req) x (grilio_channel_write_sent x req).2 := by
    have h1 : Tidy (fun h => E h ∨ h = req) x (if (x.req req).status = .SENDING
        then x.setReq req { x.req req with status := .SENT } else x) := by
      split
      · rename_i hc
        refine T_status req .SENT t0 (G_status req .SENT (good_refl ht.core) (by simp) hp.2
          (fun hr => ?_)).core (by simp) hnf (Or.inr (Or.inr rfl))
        have := hr.2.2.2 hs
        rw [hc] at this
        cases this
      · exact t0
    have h1s : (if (x.req req).status = .SENDING
        then x.setReq req { x.req req with status := .SENT } else x).chan.send_req
          = some req := by
      split <;> simpa using hs
    unfold grilio_channel_write_sent
    dsimp only
    revert h1 h1s
    generalize (if (x.req req).status = .SENDING
        then x.setReq req { x.req req with status := .SENT } else x) = W1
    intro h1 h1s
    have h2 := T_log .REQ (W1.req req).id (W1.req req).code ((W1.req req).bytes.drop 4) h1
    have h2x : ((grilio_channel_log W1 .REQ (W1.req req).id (W1.req req).code
        ((W1.req req).bytes.drop 4)).req req).status ≠ .NEW := by
      rw [log_req]
      exact (h1.core.pending req ((mem_pending W1 req).2 (Or.inl h1s))).2
    have h2s : (grilio_channel_log W1 .REQ (W1.req req).id (W1.req req).code
        ((W1.req req).bytes.drop 4)).chan.send_req = some req := h1s
    revert h2 h2x h2s
    generalize grilio_channel_log W1 .REQ (W1.req req).id (W1.req req).code
        ((W1.req req).bytes.drop 4) = W2
    intro h2 h2x h2s
    refine T_forget (x := grilio_request_unref _ req) (T_unref req ?_) ?_
    · refine T_ite (T_queue_remove req h2).1 (T_ite ?_ h2)
      exact T_ite (T_reset_timeout (T_deadline req _ h2 h2x)) (T_deadline req _ h2 h2x)
    · intro s hs2
      rw [unref_chan] at hs2
      refine Or.inr (Option.some.inj ?_).symm
      rw [← hs2]
      symm
      refine ite_world (fun y => y.chan.send_req = some req) ?_
        (ite_world (fun y => y.chan.send_req = some req)
          (ite_world (fun y => y.chan.send_req = some req) ?_ ?_) ?_)
      all_goals beta_reduce
      · rw [queue_remove_chan]; exact h2s
      · rw [(reset_timeout_table _).2.2.1]; exact h2s
      · exact h2s
      · exact h2s
  refine T_trans ht (T_discharge req key (fun hs2 _ => ?_) (fun _ hn => ?_)
    (fun hu hE q hq => ?_))
  · rw [f2] at hs2; cases hs2
  · exact absurd hn (f4 req hp.2)
  · have hq0 : req ∈ (x.queue q).reqs := key.mono q req hq
    cases hr : (x.req req).response with
    | false =>
        exfalso
        rw [f5 hr q] at hq
        exact (T_queue_remove req ht).2 q hq
    | true =>
        have hu2 : UniqueIds x := uniqueIds_of_eq key.ids hu
        rcases ht.links.members hu2 q req hq0 hE with ⟨kv, hkv, he⟩ | ⟨h1, _⟩
        · exact Or.inl ⟨kv, by rw [f1]; exact hkv, he⟩
        · rw [hr] at h1; cases h1
theorem core_of_emit {x : World} {ev : Event} (h : Core (x.emit ev)) : Core x :=
  ⟨h.pending, h.ids, h.fifo, h.send, h.table, h.last, h.timer⟩

/-- A request the step is working on becomes the request in transmission,
when there is none. -/
theorem T_set_send_req {E : Nat → Prop} {w x : World} (req pos : Nat) (ht : Tidy E w x)
    (hc : Core { x with chan := { x.chan with send_req := some req, send_pos := pos } })
    (hsn : x.chan.send_req = none) (hE : E req) :
    Tidy E w { x with chan := { x.chan with send_req := some req, send_pos := pos } } := by
  have hl := ht.links
  refine ⟨hc, ⟨hl.callback, ?_, hl.queued, hl.linked, hl.fresh, ?_, hl.read⟩, ht.ids, ht.mono⟩
  · intro s hs hn
    have : req = s := by simpa using hs
    exact absurd (this ▸ hE) hn
  · intro hu q h hm hn
    rcases hl.members hu q h hm hn with ha | ⟨h1, h2 | h2⟩
    · exact Or.inl ha
    · exact Or.inr ⟨h1, Or.inl h2⟩
    · rw [hsn] at h2; cases h2

theorem T_dequeue {E : Nat → Prop} {w x x2 : World} {h : Nat} (ht : Tidy E w x)
    (hd : grilio_channel_dequeue_request x = (some h, x2)) :
    Tidy (fun k => E k ∨ k = h) w x2 ∧ h < x2.reqs.length ∧ (x2.req h).status = .SENDING ∧
      h ∈ x.chan.fifo ∧ x2.chan.send_req = x.chan.send_req ∧
      x2.chan.resp_table = x.chan.resp_table ∧ (x2.req h).response = (x.req h).response ∧
      x2.queues = x.queues := by
  have hcx2 := (G_dequeue (good_refl ht.core) hd).1.core
  unfold grilio_channel_dequeue_request at hd
  cases hf : x.chan.fifo with
  | nil => rw [hf] at hd; simp at hd
  | cons h0 rest =>
      rw [hf] at hd
      simp only [Prod.mk.injEq, Option.some.injEq] at hd
      obtain ⟨hd1, hd2⟩ := hd
      subst hd1
      have hm : h0 ∈ x.chan.fifo := by rw [hf]; exact List.mem_cons_self _ _
      have hpd := ht.core.pending h0 ((mem_pending x h0).2 (Or.inr (Or.inl hm)))
      have hnd : h0 ∉ rest := by
        have := ht.core.fifo
        rw [hf] at this
        exact (List.nodup_cons.1 this).1
      have t0 : Tidy (fun k => E k ∨ k = h0) w x := T_exempt ht (fun _ hh => Or.inl hh)
      -- the request leaves the send queue
      have ta : Tidy (fun k => E k ∨ k = h0) w
          { x with chan := { x.chan with fifo := rest } } := by
        have hca : Core { x with chan := { x.chan with fifo := rest } } :=
          (G_frame (good_refl ht.core) { x with chan := { x.chan with fifo := rest } } rfl
            (fun _ => ⟨rfl, rfl, rfl⟩) (by rw [hf]; exact List.sublist_cons_self _ _)
            (List.Sublist.refl _) (fun _ hh => hh) rfl ⟨rfl, rfl⟩ rfl).core
        refine T_gen t0 _ hca (fun k => ⟨rfl, rfl, rfl, rfl, Or.inl rfl⟩) (fun _ => rfl)
          (by rw [hf]; exact List.sublist_cons_self _ _) (List.Sublist.refl _)
          (fun s hs2 => ⟨hs2, rfl⟩) ?_ rfl (fun hh => hh)
        intro _ q k _ hn ha
        rcases ha with ha | ⟨h1, h2 | h2⟩
        · exact Or.inl ha
        · refine Or.inr ⟨h1, Or.inl ?_⟩
          rw [hf] at h2
          rcases List.mem_cons.1 h2 with h3 | h3
          · exact absurd (Or.inr h3) hn
          · exact h3
        · exact Or.inr ⟨h1, Or.inr h2⟩
      -- it becomes SENDING
      rw [← hd2] at hcx2 ⊢
      have tb := T_status h0 .SENDING ta (core_of_emit hcx2) (by simp) hnd (Or.inr (Or.inr rfl))
      refine ⟨T_emit (.sending h0) tb, by simpa using hpd.1, ?_, List.mem_cons_self _ _, rfl, rfl,
        ?_, rfl⟩
      · simp only [emit_req, req_setReq, hpd.1, and_self, if_true]
      · simp only [emit_req, req_setReq, hpd.1, and_self, if_true]
        rfl

theorem write_prepare_req (e : Endian) (y : World) (h k : Nat) :
    ((grilio_channel_write_prepare e y h).req k).status = (y.req k).status ∧
    ((grilio_channel_write_prepare e y h).req k).response = (y.req k).response ∧
    ((grilio_channel_write_prepare e y h).req k).bytes.length = (y.req k).bytes.length := by
  unfold grilio_channel_write_prepare
  dsimp only
  show ((y.setReq h _).req k).status = _ ∧ ((y.setReq h _).req k).response = _ ∧
    ((y.setReq h _).req k).bytes.length = _
  rw [req_setReq]
  split
  · rename_i hc; rw [hc.1]; exact ⟨rfl, rfl, by simp [poke_length]⟩
  · exact ⟨rfl, rfl, rfl⟩

theorem T_write_prepare {E : Nat → Prop} {w y : World} (e : Endian) (h : Nat)
    (ht : Tidy E w y) (hc : Core (grilio_channel_write_prepare e y h))
    (hsn : y.chan.send_req = none) (hE : E h) :
    Tidy E w (grilio_channel_write_prepare e y h) := by
  revert hc
  unfold grilio_channel_write_prepare
  dsimp only
  intro hc
  exact T_set_send_req h 0 (T_setReq h _ ht ⟨rfl, rfl, rfl⟩ ⟨rfl, rfl, by simp [poke_length]⟩) hc
    hsn hE

theorem T_write_pick {E : Nat → Prop} {w x x1 : World} {req : Nat} (e : Endian)
    (ht : Tidy E w x) (hp : grilio_channel_write_pick e x = some (req, x1)) :
    Tidy E w x1 ∧ x1.chan.send_req = some req := by
  have hcy := (G_write_pick e (good_refl ht.core) hp).1.core
  have hsy := (G_write_pick e (good_refl ht.core) hp).2
  refine ⟨?_, hsy⟩
  unfold grilio_channel_write_pick at hp
  cases hs : x.chan.send_req with
  | some r =>
      rw [hs] at hp
      simp only [Option.some.injEq, Prod.mk.injEq] at hp
      rw [← hp.2]; exact ht
  | none =>
      rw [hs] at hp
      dsimp only at hp
      split at hp
      · rename_i r x2 hd
        simp only [Option.some.injEq, Prod.mk.injEq] at hp
        obtain ⟨hp1, hp2⟩ := hp
        subst hp1
        obtain ⟨t2, d1, d2, d3, d4, d5, d6, d7⟩ :=
          T_dequeue (tidy_refl ht.core ht.links) hd
        rw [← hp2] at hcy hsy ⊢
        have te := T_write_prepare e r t2 hcy (by rw [d4]; exact hs) (Or.inr rfl)
        have f := write_prepare_req e x2 r r
        have hq : ∀ q, ((grilio_channel_write_prepare e x2 r).queue q).reqs
            = (x.queue q).reqs := by
          intro q
          rw [← queue_of_eq d7 q]
          rfl
        refine T_trans ht (T_discharge r te (fun _ _ => ⟨Or.inl ?_, ?_⟩)
          (fun _ hn => ?_) (fun hu hE q hq2 => ?_))
        · rw [f.1]; exact d2
        · show 0 ≤ _
          exact Nat.zero_le _
        · exfalso
          rw [f.1, d2] at hn
          cases hn
        · have hu2 : UniqueIds x := uniqueIds_of_eq te.ids hu
          rw [hq] at hq2
          rcases ht.links.members hu2 q r hq2 hE with ⟨kv, hkv, he⟩ | ⟨h1, _⟩
          · refine Or.inl ⟨kv, ?_, he⟩
            show kv ∈ x2.chan.resp_table
            rw [d5]; exact hkv
          · refine Or.inr ⟨?_, Or.inr hsy⟩
            rw [f.2.1, d6]; exact h1
      · simp at hp

theorem T_advance {E : Nat → Prop} {w x : World} (n : Nat) (ht : Tidy E w x)
    (hb : ∀ s, x.chan.send_req = some s → x.chan.send_pos + n ≤ (x.req s).bytes.length) :
    Tidy E w { x with chan := { x.chan with send_pos := x.chan.send_pos + n } } := by
  have hc : Core { x with chan := { x.chan with send_pos := x.chan.send_pos + n } } :=
    (G_of_eq (good_refl ht.core)
      { x with chan := { x.chan with send_pos := x.chan.send_pos + n } }
      rfl rfl rfl rfl rfl rfl rfl rfl).core
  have hl := ht.links
  refine ⟨hc, ⟨hl.callback, ?_, hl.queued, hl.linked, hl.fresh, hl.members, hl.read⟩, ht.ids,
    ht.mono⟩
  intro s hs hE
  exact ⟨(hl.sending s hs hE).1, hb s hs⟩

theorem T_write_data {E : Nat → Prop} {w x : World} (req : Nat) (ht : Tidy E w x)
    (hs : x.chan.send_req = some req) :
    Tidy E w (grilio_channel_write_data x req).2 := by
  unfold grilio_channel_write_data
  have hc := T_write_chars ((x.req req).bytes.drop x.chan.send_pos) ht
  split
  · rename_i hlt
    rcases write_chars_cases x ((x.req req).bytes.drop x.chan.send_pos) with
      ⟨W, hW, _⟩ | ⟨m, ws, hW⟩
    · rw [hW] at hc ⊢
      exact T_handle_error .WRITE false hc
    · rw [hW] at hc ⊢
      dsimp only at hc ⊢
      have ha := T_advance (min m ((x.req req).bytes.drop x.chan.send_pos).length) hc (by
        intro s hs2
        have : req = s := by
          have h3 : x.chan.send_req = some s := hs2
          rw [hs] at h3
          exact Option.some.inj h3
        subst this
        show x.chan.send_pos + _ ≤ (x.req req).bytes.length
        have := Nat.min_le_right m ((x.req req).bytes.drop x.chan.send_pos).length
        rw [List.length_drop] at this ⊢
        omega)
      split
      · exact ha
      · exact T_write_sent _ ha hs
  · exact T_write_sent _ ht hs

theorem T_write_request {E : Nat → Prop} {w x : World} (e : Endian) (ht : Tidy E w x) :
    Tidy E w (grilio_channel_write_request e x).2 := by
  unfold grilio_channel_write_request
  split
  · exact ht
  · rename_i req x1 hp
    obtain ⟨h1, h2⟩ := T_write_pick e ht hp
    exact T_write_data req h1 h2

theorem T_set_sub_pos {E : Nat → Prop} {w x : World} (n : Nat) (ht : Tidy E w x) :
    Tidy E w { x with chan := { x.chan with sub_pos := n } } :=
  T_of_eq ht _ (G_of_eq (good_refl ht.core)
    { x with chan := { x.chan with sub_pos := n } } rfl rfl rfl rfl rfl rfl rfl rfl).core
    rfl rfl rfl rfl rfl rfl rfl (fun h => h)

theorem T_write {E : Nat → Prop} {w x : World} (e : Endian) (ht : Tidy E w x) :
    Tidy E w (grilio_channel_write e x).2 := by
  unfold grilio_channel_write
  have hc := T_write_chars
    ((x.chan.sub.drop x.chan.sub_pos).take (GRILIO_SUB_LEN - x.chan.sub_pos)) ht
  split
  · split
    · rename_i h1 h2
      rw [h2] at hc
      exact T_handle_error .WRITE false hc
    · rename_i h1 n w1 h2
      rw [h2] at hc
      dsimp only
      split
      · exact T_set_sub_pos _ hc
      · exact T_write_request e (T_set_sub_pos _ hc)
  · exact T_write_request e ht

theorem T_schedule_write {E : Nat → Prop} {w x : World} (e : Endian) (ht : Tidy E w x) :
    Tidy E w (grilio_channel_schedule_write e x) := by
  unfold grilio_channel_schedule_write
  split
  · dsimp only
    split
    · exact T_set_write_watch true (T_write e ht)
    · exact T_write e ht
  · exact ht

theorem T_write_callback {E : Nat → Prop} {w x : World} (e : Endian) (ht : Tidy E w x) :
    Tidy E w (grilio_channel_write_callback e x) := by
  unfold grilio_channel_write_callback
  split
  · dsimp only
    split
    · exact T_write e ht
    · exact T_set_write_watch false (T_write e ht)
  · exact ht

theorem T_connected {E : Nat → Prop} {w x : World} (e : Endian) (ht : Tidy E w x) :
    Tidy E w (grilio_channel_connected e x) := by
  unfold grilio_channel_connected
  split
  · dsimp only
    split
    · exact T_schedule_write e (T_emit .connected (T_chan ht _ rfl rfl rfl rfl rfl rfl rfl rfl
        rfl rfl (readOk_of_eq ht.links.read rfl (fun h => h))))
    · exact T_emit .connect_failed ht
  · exact ht

theorem table_key_unique {t : List (Nat × Nat)} (hn : (t.map (fun kv => kv.1)).Nodup)
    {a b : Nat × Nat} (ha : a ∈ t) (hb : b ∈ t) (hk : a.1 = b.1) : a = b := by
  induction t with
  | nil => cases ha
  | cons c t ih =>
      rw [List.map_cons, List.nodup_cons] at hn
      rcases List.mem_cons.1 ha with h1 | h1 <;> rcases List.mem_cons.1 hb with h2 | h2
      · rw [h1, h2]
      · exfalso
        apply hn.1
        rw [← h1, hk]
        exact List.mem_map_of_mem _ h2
      · exfalso
        apply hn.1
        rw [← h2, ← hk]
        exact List.mem_map_of_mem _ h1
      · exact ih hn.2 h1 h2

theorem T_handle_packet {E : Nat → Prop} {w x : World} (e : Endian) (ht : Tidy E w x) :
    Tidy E w (grilio_channel_handle_packet e x).2 := by
  unfold grilio_channel_handle_packet
  dsimp only
  split
  · split
    · exact T_emit _ (T_ite (T_connected e (T_log _ _ _ _ ht)) (T_log _ _ _ _ ht))
    · split
      · split
        · rename_i req hl
          have hkv := lookup_some_mem _ _ _ hl
          obtain ⟨t1, u1⟩ := T_queue_remove req (T_ref req (T_log .RESP
            (loadU32 e x.chan.read_buf 4) (loadU32 e x.chan.read_buf 8)
            (x.chan.read_buf.take x.chan.read_len) ht))
          refine T_unref _ (T_emit _ (T_hash_remove _ t1 (fun _ kv hm hk q hq => ?_)))
          exfalso
          have hm2 : kv ∈ x.chan.resp_table := by simpa using hm
          have := table_key_unique ht.core.table.1 hm2 hkv hk
          rw [this] at hq
          exact u1 q hq
        · exact T_log _ _ _ _ ht
      · exact T_handle_error .READ true ht
  · exact T_handle_error .READ true ht

theorem key_of_table {x : World} (hc : Core x) {req : Nat} (hu : UniqueIds x) :
    ∀ kv ∈ x.chan.resp_table, kv.1 = (x.req req).id → kv.2 = req := by
  intro kv hm hk
  have h1 := hc.table.2 kv hm
  have hp := hc.pending kv.2 ((mem_pending x kv.2).2 (Or.inr (Or.inr ⟨kv, hm, rfl⟩)))
  exact hu kv.2 req (by rw [h1, hk]) (fun h0 => hp.2 ((hc.ids kv.2).1.1 h0))

/-! ### The timer -/

theorem T_foldl_ref {E : Nat → Prop} {w : World} (l : List Nat) : ∀ x : World, Tidy E w x →
    Tidy E w (l.foldl grilio_request_ref x) := by
  induction l with
  | nil => intro x hk; exact hk
  | cons a l ih => intro x hk; exact ih _ (T_ref a hk)

theorem T_timeout_round {E : Nat → Prop} {w x : World} (req : Nat) (ht : Tidy E w x) :
    Tidy E w (grilio_request_unref
      (if (g_hash_table_remove x (x.req req).id).1 = true then
        (grilio_queue_remove (g_hash_table_remove x (x.req req).id).2 req).emit
          (.response req GRILIO_STATUS_TIMEOUT [])
      else (g_hash_table_remove x (x.req req).id).2) req) := by
  cases hl : g_hash_table_lookup x.chan.resp_table (x.req req).id with
  | none =>
      have h1 : g_hash_table_remove x (x.req req).id = (false, x) := by
        unfold g_hash_table_remove
        rw [hl]
      rw [h1]
      exact T_unref req ht
  | some r =>
      have h1 : (g_hash_table_remove x (x.req req).id).1 = true := by
        rw [hash_remove_found, hl]; rfl
      rw [if_pos h1]
      have t0 : Tidy (fun h => E h ∨ h = req) w x := T_exempt ht (fun _ h => Or.inl h)
      have t1 := T_hash_remove (x.req req).id t0
        (fun hu kv hm hk _ _ => Or.inr (key_of_table ht.core hu kv hm hk))
      obtain ⟨t2, u2⟩ := T_queue_remove req t1
      have t3 := T_unref req (T_emit (.response req GRILIO_STATUS_TIMEOUT []) t2)
      have hch : (grilio_request_unref
          ((grilio_queue_remove (g_hash_table_remove x (x.req req).id).2 req).emit
            (.response req GRILIO_STATUS_TIMEOUT [])) req).chan
          = (g_hash_table_steal x (x.req req).id).chan := by
        rw [unref_chan, emit_chan, queue_remove_chan, hash_remove_chan]
      have hst : ((grilio_request_unref
          ((grilio_queue_remove (g_hash_table_remove x (x.req req).id).2 req).emit
            (.response req GRILIO_STATUS_TIMEOUT [])) req).req req).status
          = (x.req req).status := by
        rw [unref_status, emit_req, queue_remove_status, hash_remove_status]
      have hby : ((grilio_request_unref
          ((grilio_queue_remove (g_hash_table_remove x (x.req req).id).2 req).emit
            (.response req GRILIO_STATUS_TIMEOUT [])) req).req req).bytes
          = (x.req req).bytes := by
        rw [unref_bytes, emit_req, queue_remove_bytes, hash_remove_bytes]
      refine T_discharge req t3 (fun hs hE => ?_) (fun hE hn => ?_) (fun _ _ q hq => ?_)
      · rw [hch] at hs ⊢
        rw [hst, hby]
        exact ht.links.sending req hs hE
      · rw [hst] at hn
        rw [unref_queue, emit_req]
        rcases queue_remove_queue_cases (g_hash_table_remove x (x.req req).id).2 req req with
          h3 | h3
        · rw [h3, hash_remove_queue]; exact ht.links.fresh req hE hn
        · exact h3
      · exfalso
        rw [queue_of_eq (unref_queues _ _)] at hq
        exact u2 q hq

theorem T_timeout_expired {E : Nat → Prop} {w : World} (l : List Nat) : ∀ x : World,
    Tidy E w x → Tidy E w (grilio_channel_timeout_expired x l) := by
  induction l with
  | nil => intro x hk; exact hk
  | cons req l ih =>
      intro x hk
      unfold grilio_channel_timeout_expired
      dsimp only
      exact ih _ (T_timeout_round req hk)

theorem T_timeout {E : Nat → Prop} {w x : World} (ht : Tidy E w x) :
    Tidy E w (grilio_channel_timeout x) := by
  unfold grilio_channel_timeout
  dsimp only
  have h1 : Tidy E w { x with chan := { x.chan with timeout_id := none, next_deadline := 0 } } :=
    T_of_eq ht _ (core_clear_timer ht.core) rfl rfl rfl rfl rfl rfl rfl (fun h => h)
  exact T_reset_timeout (T_timeout_expired _ _ (T_foldl_ref _ _ h1))

/-! ### Cancellation of everything -/

theorem T_cancel_all_current {E : Nat → Prop} {w x : World} (notify : Bool) (ht : Tidy E w x) :
    Tidy E w (grilio_channel_cancel_all_current x notify) := by
  unfold grilio_channel_cancel_all_current
  cases hs : x.chan.send_req with
  | none => exact ht
  | some req =>
      dsimp only
      have hp := ht.core.pending req ((mem_pending x req).2 (Or.inl hs))
      split
      · have h2 := (T_queue_remove req (T_cancelled req ht hp.2 (ht.core.send req hs))).1
        exact T_ite (T_emit _ h2) h2
      · exact ht

/-- The first request leaves the send queue, after it has left its queue. -/
theorem T_pop_fifo {E : Nat → Prop} {w x : World} (req : Nat) (rest : List Nat)
    (ht : Tidy E w x) (hf : x.chan.fifo = req :: rest)
    (hu : ∀ q, req ∉ (x.queue q).reqs) :
    Tidy E w { x with chan := { x.chan with fifo := rest } } := by
  have hca : Core { x with chan := { x.chan with fifo := rest } } :=
    (G_frame (good_refl ht.core) { x with chan := { x.chan with fifo := rest } } rfl
      (fun _ => ⟨rfl, rfl, rfl⟩) (by rw [hf]; exact List.sublist_cons_self _ _)
      (List.Sublist.refl _) (fun _ hh => hh) rfl ⟨rfl, rfl⟩ rfl).core
  refine T_gen ht _ hca (fun k => ⟨rfl, rfl, rfl, rfl, Or.inl rfl⟩) (fun _ => rfl)
    (by rw [hf]; exact List.sublist_cons_self _ _) (List.Sublist.refl _)
    (fun s hs2 => ⟨hs2, rfl⟩) ?_ rfl (fun hh => hh)
  intro _ q k hk _ ha
  rcases ha with ha | ⟨h1, h2 | h2⟩
  · exact Or.inl ha
  · refine Or.inr ⟨h1, Or.inl ?_⟩
    rw [hf] at h2
    rcases List.mem_cons.1 h2 with h3 | h3
    · rw [h3] at hk; exact absurd hk (hu q)
    · exact h3
  · exact Or.inr ⟨h1, Or.inr h2⟩

theorem T_cancel_all_queued {E : Nat → Prop} {w : World} (notify : Bool) (l : List Nat) :
    ∀ x : World, Tidy E w x → x.chan.fifo = l →
      Tidy E w (grilio_channel_cancel_all_queued x notify l) := by
  induction l with
  | nil => intro x hk _; exact hk
  | cons req rest ih =>
      intro x ht hf
      have hr := cancel_all_queued_round notify req rest (good_refl ht.core) hf
      unfold grilio_channel_cancel_all_queued
      dsimp only at hr ⊢
      refine ih _ ?_ hr.2.1
      have hm : req ∈ x.chan.fifo := by rw [hf]; exact List.mem_cons_self _ _
      have hp := ht.core.pending req ((mem_pending x req).2 (Or.inr (Or.inl hm)))
      have hnd : req ∉ rest := by
        have := ht.core.fifo
        rw [hf] at this
        exact (List.nodup_cons.1 this).1
      obtain ⟨t1, u1⟩ := T_queue_remove req (T_emit (.cancelled req) ht)
      have t2 := T_hash_remove ((grilio_queue_remove (x.emit (.cancelled req)) req).req req).id t1
        (fun hu kv hm2 hk q hq => by
          exfalso
          have := key_of_table t1.core hu kv hm2 hk
          rw [this] at hq
          exact u1 q hq)
      have hf2 : (g_hash_table_remove (grilio_queue_remove (x.emit (.cancelled req)) req)
          ((grilio_queue_remove (x.emit (.cancelled req)) req).req req).id).2.chan.fifo
            = req :: rest := by
        rw [(hash_remove_fields _ _).1, queue_remove_chan]
        exact hf
      have t3 := T_pop_fifo req rest t2 hf2 (fun q => by
        rw [queue_of_eq (hash_remove_queues _ _)]
        exact u1 q)
      refine T_unref req (T_ite (T_emit _ (T_cancelled req t3 ?_ hnd)) t3)
      show ((g_hash_table_remove _ _).2.req req).status ≠ _
      rw [hash_remove_status, queue_remove_status]
      exact hp.2

theorem T_cancel_all_sent {E : Nat → Prop} {w : World} (keys : List Nat) : ∀ x : World,
    Tidy E w x → Tidy E w (grilio_channel_cancel_all_sent x keys) := by
  induction keys with
  | nil => intro x hk; exact hk
  | cons key keys ih =>
      intro x ht
      unfold grilio_channel_cancel_all_sent
      cases hl : g_hash_table_lookup x.chan.resp_table key with
      | none => exact ih x ht
      | some req =>
          dsimp only
          have hkv := lookup_some_mem _ _ _ hl
          obtain ⟨t1, u1⟩ := T_queue_remove req ht
          refine ih _ (T_unref req (T_emit _ (T_steal key t1 (fun _ kv hm hk q hq => ?_))))
          exfalso
          have hm2 : kv ∈ x.chan.resp_table := by simpa using hm
          have := table_key_unique ht.core.table.1 hm2 hkv hk
          rw [this] at hq
          exact u1 q hq

theorem T_cancel_all {E : Nat → Prop} {w x : World} (notify : Bool) (ht : Tidy E w x) :
    Tidy E w (grilio_channel_cancel_all x notify) := by
  unfold grilio_channel_cancel_all
  dsimp only
  have h3 := T_cancel_all_sent
    ((grilio_channel_cancel_all_queued (grilio_channel_cancel_all_current x notify) notify
      (grilio_channel_cancel_all_current x notify).chan.fifo).chan.resp_table.map
        (fun kv => kv.1)) _
    (T_cancel_all_queued notify _ _ (T_cancel_all_current notify ht) rfl)
  split
  · exact T_of_eq h3 _ (core_clear_timer h3.core) rfl rfl rfl rfl rfl rfl rfl (fun h => h)
  · exact h3

/-- A step that leaves alone all that the invariants look at. -/
theorem T_plain {E : Nat → Prop} {w x : World} (ht : Tidy E w x) (x' : World)
    (hr : x'.reqs = x.reqs) (hq : x'.queues = x.queues)
    (hfifo : x'.chan.fifo = x.chan.fifo)
    (htable : x'.chan.resp_table = x.chan.resp_table)
    (hsend : x'.chan.send_req = x.chan.send_req)
    (hpos : x'.chan.send_pos = x.chan.send_pos)
    (hl : x'.chan.last_req_id = x.chan.last_req_id)
    (hti : x'.chan.timeout_id = x.chan.timeout_id)
    (hnd : x'.chan.next_deadline = x.chan.next_deadline)
    (htr : responses x'.trace = responses x.trace)
    (hread : readState x' = readState x)
    (hwatch : x'.chan.read_watch_id = true → x.chan.read_watch_id = true) : Tidy E w x' :=
  T_chan ht x' hr hq hfifo htable hsend hpos hl hti hnd htr
    (readOk_of_eq ht.links.read hread hwatch)

theorem T_channel_unref {E : Nat → Prop} {w x : World} (ht : Tidy E w x) :
    Tidy E w (grilio_channel_unref x) := by
  unfold grilio_channel_unref grilio_channel_dispose
  split
  · dsimp only
    exact T_plain (T_cancel_all true (T_shutdown false ht)) _ rfl rfl rfl rfl rfl rfl rfl rfl rfl
      rfl rfl (fun h => h)
  · exact T_plain ht _ rfl rfl rfl rfl rfl rfl rfl rfl rfl rfl rfl (fun h => h)

/-! ### The read side -/

theorem read_chars_some (x : World) (inp : Input) (count : Nat) (bytes : List Nat)
    (w1 : World) (inp1 : Input)
    (h : grilio_channel_read_chars x inp count = (some bytes, w1, inp1)) :
    w1 = x ∧ bytes.length ≤ count := by
  unfold grilio_channel_read_chars at h
  split at h
  · simp only [Prod.mk.injEq, Option.some.injEq] at h
    exact ⟨h.2.1.symm, by rw [← h.1]; exact Nat.zero_le _⟩
  · simp at h
  · simp at h
  · simp only [Prod.mk.injEq, Option.some.injEq] at h
    refine ⟨h.2.1.symm, ?_⟩
    rw [← h.1, List.length_take]
    exact Nat.le_trans (Nat.min_le_left _ _) (Nat.min_le_right _ _)

theorem T_read_chars {E : Nat → Prop} {w x : World} (inp : Input) (count : Nat)
    (ht : Tidy E w x) : Tidy E w (grilio_channel_read_chars x inp count).2.1 := by
  unfold grilio_channel_read_chars
  split
  · exact ht
  · exact T_handle_error .READ false ht
  · exact T_handle_eof ht
  · exact ht

theorem T_dispatch {E : Nat → Prop} {w x : World} (e : Endian) (ht : Tidy E w x) :
    Tidy E w (grilio_channel_handle_packet e
      { x with chan := { x.chan with read_len_pos := 0 } }).2 := by
  refine T_handle_packet e (T_chan ht _ rfl rfl rfl rfl rfl rfl rfl rfl rfl rfl ?_)
  have h := ht.links.read
  exact ⟨Nat.zero_le _, h.2.1, h.2.2.1, fun _ h0 => by cases h0⟩

theorem T_read_body {E : Nat → Prop} {w x : World} (e : Endian) (inp : Input)
    (ht : Tidy E w x) (hb : BodyOk x) :
    Tidy E w (grilio_channel_read_body e x inp).2.1 := by
  unfold grilio_channel_read_body
  have hc := T_read_chars inp (x.chan.read_len - x.chan.read_buf_pos) ht
  split
  · split
    · rename_i h1 w1 inp1 h2
      rw [h2] at hc
      exact hc
    · rename_i h1 bytes w1 inp1 h2
      obtain ⟨e1, e2⟩ := read_chars_some _ _ _ _ _ _ h2
      subst e1
      dsimp only
      have hr := ht.links.read
      have t2 : Tidy E w { w1 with chan := { w1.chan with
          read_buf := poke w1.chan.read_buf w1.chan.read_buf_pos bytes
          read_buf_pos := w1.chan.read_buf_pos + bytes.length } } := by
        refine T_chan ht _ rfl rfl rfl rfl rfl rfl rfl rfl rfl rfl ?_
        refine ⟨hr.1, hr.2.1, ?_, fun _ _ => ⟨hb.1, ?_, hb.2.2⟩⟩
        · show (poke _ _ _).length = _
          rw [poke_length]; exact hr.2.2.1
        · show w1.chan.read_buf_pos + bytes.length ≤ w1.chan.read_len
          omega
      split
      · exact t2
      · exact T_dispatch e t2
  · exact T_dispatch e ht

theorem T_read {E : Nat → Prop} {w x : World} (e : Endian) (inp : Input)
    (ht : Tidy E w x) (hw : x.chan.read_watch_id = true) :
    ((grilio_channel_read e x inp).1 = true → Tidy E w (grilio_channel_read e x inp).2.1) ∧
    Tidy E w { (grilio_channel_read e x inp).2.1 with
      chan := { (grilio_channel_read e x inp).2.1.chan with read_watch_id := false } } := by
  have hr := ht.links.read
  have key : ((grilio_channel_read e x inp).1 = true →
        Tidy E w (grilio_channel_read e x inp).2.1) ∧
      ((grilio_channel_read e x inp).1 = false →
        Tidy E w { (grilio_channel_read e x inp).2.1 with
          chan := { (grilio_channel_read e x inp).2.1.chan with read_watch_id := false } }) := by
    unfold grilio_channel_read
    have hc := T_read_chars inp (4 - x.chan.read_len_pos) ht
    split
    · rename_i hlt
      split
      · rename_i w1 inp1 h2
        rw [h2] at hc
        exact ⟨fun _ => hc, fun _ => T_unwatch hc⟩
      · rename_i bytes w1 inp1 h2
        obtain ⟨e1, e2⟩ := read_chars_some _ _ _ _ _ _ h2
        subst e1
        dsimp only
        split
        · rename_i hlt2
          have t2 : Tidy E w { w1 with chan := { w1.chan with
              read_len_buf := poke w1.chan.read_len_buf w1.chan.read_len_pos bytes
              read_len_pos := w1.chan.read_len_pos + bytes.length } } := by
            refine T_chan ht _ rfl rfl rfl rfl rfl rfl rfl rfl rfl rfl ?_
            refine ⟨?_, ?_, hr.2.2.1, fun _ h4 => ?_⟩
            · exact Nat.le_of_lt hlt2
            · show (poke _ _ _).length = _
              rw [poke_length]; exact hr.2.1
            · exfalso
              have h5 : w1.chan.read_len_pos + bytes.length = 4 := h4
              have h6 : w1.chan.read_len_pos + bytes.length < 4 := hlt2
              omega
          exact ⟨fun _ => t2, fun _ => T_unwatch t2⟩
        · rename_i hge
          have hpos : w1.chan.read_len_pos + bytes.length = 4 := by
            have h6 : ¬ w1.chan.read_len_pos + bytes.length < 4 := hge
            omega
          split
          · rename_i hmax
            have hmax2 : loadU32 .big
                (poke w1.chan.read_len_buf w1.chan.read_len_pos bytes) 0
                  ≤ GRILIO_MAX_PACKET_LEN := hmax
            have t5 : Tidy E w (if w1.chan.read_buf_alloc < loadU32 .big
                  (poke w1.chan.read_len_buf w1.chan.read_len_pos bytes) 0 then
                { w1 with chan := { w1.chan with
                    read_len_buf := poke w1.chan.read_len_buf w1.chan.read_len_pos bytes
                    read_len_pos := w1.chan.read_len_pos + bytes.length
                    read_len := loadU32 .big
                      (poke w1.chan.read_len_buf w1.chan.read_len_pos bytes) 0
                    read_buf_pos := 0
                    read_buf_alloc := loadU32 .big
                      (poke w1.chan.read_len_buf w1.chan.read_len_pos bytes) 0
                    read_buf := List.replicate (loadU32 .big
                      (poke w1.chan.read_len_buf w1.chan.read_len_pos bytes) 0) 0 } }
                else
                { w1 with chan := { w1.chan with
                    read_len_buf := poke w1.chan.read_len_buf w1.chan.read_len_pos bytes
                    read_len_pos := w1.chan.read_len_pos + bytes.length
                    read_len := loadU32 .big
                      (poke w1.chan.read_len_buf w1.chan.read_len_pos bytes) 0
                    read_buf_pos := 0 } }) ∧
              BodyOk (if w1.chan.read_buf_alloc < loadU32 .big
                  (poke w1.chan.read_len_buf w1.chan.read_len_pos bytes) 0 then
                { w1 with chan := { w1.chan with
                    read_len_buf := poke w1.chan.read_len_buf w1.chan.read_len_pos bytes
                    read_len_pos := w1.chan.read_len_pos + bytes.length
                    read_len := loadU32 .big
                      (poke w1.chan.read_len_buf w1.chan.read_len_pos bytes) 0
                    read_buf_pos := 0
                    read_buf_alloc := loadU32 .big
                      (poke w1.chan.read_len_buf w1.chan.read_len_pos bytes) 0
                    read_buf := List.replicate (loadU32 .big
                      (poke w1.chan.read_len_buf w1.chan.read_len_pos bytes) 0) 0 } }
                else
                { w1 with chan := { w1.chan with
                    read_len_buf := poke w1.chan.read_len_buf w1.chan.read_len_pos bytes
                    read_len_pos := w1.chan.read_len_pos + bytes.length
                    read_len := loadU32 .big
                      (poke w1.chan.read_len_buf w1.chan.read_len_pos bytes) 0
                    read_buf_pos := 0 } }) := by
              split
              · refine ⟨T_chan ht _ rfl rfl rfl rfl rfl rfl rfl rfl rfl rfl ?_,
                  hmax2, Nat.zero_le _, Nat.le_refl _⟩
                refine ⟨Nat.le_of_eq hpos, ?_, ?_, fun _ _ => ⟨hmax2, Nat.zero_le _,
                  Nat.le_refl _⟩⟩
                · show (poke _ _ _).length = _
                  rw [poke_length]; exact hr.2.1
                · show (List.replicate _ _).length = _
                  simp
              · rename_i hal
                have hal2 : loadU32 .big
                    (poke w1.chan.read_len_buf w1.chan.read_len_pos bytes) 0
                      ≤ w1.chan.read_buf_alloc := Nat.le_of_not_lt hal
                refine ⟨T_chan ht _ rfl rfl rfl rfl rfl rfl rfl rfl rfl rfl ?_,
                  hmax2, Nat.zero_le _, hal2⟩
                refine ⟨Nat.le_of_eq hpos, ?_, hr.2.2.1, fun _ _ => ⟨hmax2, Nat.zero_le _,
                  hal2⟩⟩
                show (poke _ _ _).length = _
                rw [poke_length]; exact hr.2.1
            have t6 := T_read_body e inp1 t5.1 t5.2
            exact ⟨fun _ => t6, fun _ => T_unwatch t6⟩
          · refine ⟨(fun h => by cases h), fun _ => ?_⟩
            refine T_chan ht _ rfl rfl rfl rfl rfl rfl rfl rfl rfl rfl ?_
            refine ⟨Nat.le_of_eq hpos, ?_, hr.2.2.1, fun h4 => by cases h4⟩
            show (poke _ _ _).length = _
            rw [poke_length]; exact hr.2.1
    · rename_i hge
      have hpos : x.chan.read_len_pos = 4 := by
        have := hr.1
        omega
      have t6 := T_read_body e inp ht (hr.2.2.2 hw hpos)
      exact ⟨fun _ => t6, fun _ => T_unwatch t6⟩
  refine ⟨key.1, ?_⟩
  cases h : (grilio_channel_read e x inp).1 with
  | true => exact T_unwatch (key.1 h)
  | false => exact key.2 h

theorem T_read_callback {E : Nat → Prop} {w x : World} (e : Endian) (inp : Input)
    (ht : Tidy E w x) : Tidy E w (grilio_channel_read_callback e x inp).1 := by
  unfold grilio_channel_read_callback
  split
  · rename_i hw
    dsimp only
    have h := T_read e inp ht hw
    split
    · rename_i h1
      exact h.1 h1
    · exact h.2
  · exact ht

/-! ### Requests and queues come and go -/

/-- The links between requests and queues change, the rest stays. -/
theorem links_relink {E : Nat → Prop} {x x' : World} (hl : Links E x) (hch : x'.chan = x.chan)
    (hreq : ∀ h, (x'.req h).id = (x.req h).id ∧ (x'.req h).response = (x.req h).response ∧
      (x'.req h).bytes = (x.req h).bytes ∧ (x'.req h).status = (x.req h).status)
    (hlinked : QueueLinked x')
    (hfresh : ∀ h, ¬ E h → (x'.req h).status = .NEW → (x'.req h).queue = none)
    (hsub : ∀ q, ∀ h ∈ (x'.queue q).reqs, ¬ E h → h ∈ (x.queue q).reqs) : Links E x' := by
  refine ⟨?_, ?_, ?_, hlinked, hfresh, ?_, ?_⟩
  · intro kv hm
    rw [(hreq kv.2).2.1]; rw [hch] at hm; exact hl.callback kv hm
  · intro s hs hE
    rw [(hreq s).2.2.2, (hreq s).2.2.1, hch]; rw [hch] at hs; exact hl.sending s hs hE
  · intro h hm
    rw [(hreq h).2.2.2]; rw [hch] at hm; exact hl.queued h hm
  · intro hu q h hm hE
    have hu2 : UniqueIds x := uniqueIds_of_eq (fun k => (hreq k).1) hu
    exact awaited_of_eq (hl.members hu2 q h (hsub q h hm hE) hE) (by rw [hch]) (by rw [hch])
      (by rw [hch]) (hreq h).2.1
  · exact readOk_of_eq hl.read (by simp [readState, hch]) (by rw [hch]; exact fun h => h)

theorem T_alloc {E : Nat → Prop} {w x : World} (r : GRilIoRequest) (ht : Tidy E w x)
    (hr : r.id = 0 ∧ r.status = .NEW ∧ r.deadline = 0) (hq : r.queue = none) :
    Tidy E w (x.alloc r).2 := by
  have hc := (G_alloc r (good_refl ht.core) hr).core
  have hl := ht.links
  have hold : ∀ h, h < x.reqs.length → (x.alloc r).2.req h = x.req h := by
    intro h hh
    rw [alloc_req_eq, if_neg (Nat.ne_of_lt hh)]
  have hnew : ∀ h, ¬ h < x.reqs.length →
      ((x.alloc r).2.req h).id = (x.req h).id ∧ ((x.alloc r).2.req h).status = (x.req h).status ∧
      ((x.alloc r).2.req h).queue = (x.req h).queue := by
    intro h hh
    rw [alloc_req_eq, req_oob x h (Nat.le_of_not_lt hh)]
    split
    · rw [hr.1, hr.2.1, hq]; exact ⟨rfl, rfl, rfl⟩
    · exact ⟨rfl, rfl, rfl⟩
  have hall : ∀ h, ((x.alloc r).2.req h).id = (x.req h).id ∧
      ((x.alloc r).2.req h).status = (x.req h).status ∧
      ((x.alloc r).2.req h).queue = (x.req h).queue := by
    intro h
    by_cases hh : h < x.reqs.length
    · rw [hold h hh]; exact ⟨rfl, rfl, rfl⟩
    · exact hnew h hh
  have hpend : ∀ h ∈ Pending x, (x.alloc r).2.req h = x.req h :=
    fun h hh => hold h (ht.core.pending h hh).1
  have hmemb : ∀ q, ∀ h ∈ (x.queue q).reqs, (x.alloc r).2.req h = x.req h :=
    fun q h hh => hold h (queue_some_lt x h q (hl.linked.2.1 h q hh))
  refine ⟨hc, ⟨?_, ?_, ?_, ⟨?_, ?_, hl.linked.2.2⟩, ?_, ?_, hl.read⟩, ?_, ht.mono⟩
  · intro kv hm
    rw [hpend kv.2 ((mem_pending x kv.2).2 (Or.inr (Or.inr ⟨kv, hm, rfl⟩)))]
    exact hl.callback kv hm
  · intro s hs hE
    rw [hpend s ((mem_pending x s).2 (Or.inl hs))]
    exact hl.sending s hs hE
  · intro h hm
    rw [hpend h ((mem_pending x h).2 (Or.inr (Or.inl hm)))]
    exact hl.queued h hm
  · intro h q hh
    rw [(hall h).2.2] at hh
    exact hl.linked.1 h q hh
  · intro h q hh
    rw [(hall h).2.2]
    exact hl.linked.2.1 h q hh
  · intro h hE hn
    rw [(hall h).2.1] at hn
    rw [(hall h).2.2]
    exact hl.fresh h hE hn
  · intro hu q h hm hE
    have hu2 : UniqueIds x := uniqueIds_of_eq (fun k => (hall k).1) hu
    exact awaited_of_eq (hl.members hu2 q h hm hE) rfl rfl rfl (by rw [hmemb q h hm])
  · intro h
    rw [(hall h).1]; exact ht.ids h

theorem queue_new_reqs (x : World) (v : GRilIoQueue) (hv : v.reqs = []) (q : Nat) :
    (({ x with queues := x.queues ++ [v] } : World).queue q).reqs = (x.queue q).reqs := by
  unfold World.queue
  dsimp only
  by_cases h1 : q < x.queues.length
  · rw [List.getD_eq_getElem?_getD, List.getD_eq_getElem?_getD, List.getElem?_append_left h1]
  · by_cases h2 : q = x.queues.length
    · rw [List.getD_eq_getElem?_getD, List.getD_eq_getElem?_getD, h2,
        List.getElem?_append_right (Nat.le_refl _), List.getElem?_eq_none (Nat.le_refl _)]
      simp [hv]
      rfl
    · have h3 : x.queues.length + 1 ≤ q := by omega
      rw [List.getD_eq_getElem?_getD, List.getD_eq_getElem?_getD,
        List.getElem?_eq_none (by simpa using h3), List.getElem?_eq_none (by omega)]

theorem T_queue_new {E : Nat → Prop} {w x : World} (ht : Tidy E w x) :
    Tidy E w (grilio_queue_new x).2 := by
  unfold grilio_queue_new grilio_channel_ref
  dsimp only
  refine T_frame ht _ (G_of_eq (good_refl ht.core)
      { x with
        chan := { x.chan with refcount := x.chan.refcount + 1 }
        queues := x.queues ++ [{ refcount := 1, reqs := [] }] }
      rfl rfl rfl rfl rfl rfl rfl rfl).core
    (fun h => ⟨rfl, rfl, rfl, rfl, rfl⟩) ?_ rfl rfl rfl rfl rfl (fun h => h)
  intro q
  exact queue_new_reqs { x with chan := { x.chan with refcount := x.chan.refcount + 1 } }
    { refcount := 1, reqs := [] } rfl q

theorem T_setQueue {E : Nat → Prop} {w x : World} (q : Nat) (v : GRilIoQueue)
    (ht : Tidy E w x) (hv : v.reqs = (x.queue q).reqs) : Tidy E w (x.setQueue q v) := by
  refine T_frame ht _ (G_setQueue q v (good_refl ht.core)).core
    (fun h => ⟨rfl, rfl, rfl, rfl, rfl⟩) (fun k => ?_) rfl rfl rfl rfl rfl (fun h => h)
  rw [queue_setQueue]
  split
  · rename_i hc; rw [hc.1]; exact hv
  · rfl

theorem T_queue_ref {E : Nat → Prop} {w x : World} (q : Nat) (ht : Tidy E w x) :
    Tidy E w (grilio_queue_ref x q) :=
  T_setQueue q _ ht rfl

/-- The loop of `grilio_queue_free` and the end of the list of the queue. -/
theorem T_queue_clear {E : Nat → Prop} {w x : World} (q : Nat) (ht : Tidy E w x) :
    Tidy E w (((x.queue q).reqs.foldl
      (fun w req => w.setReq req { w.req req with queue := none }) x).setQueue q
        { ((x.queue q).reqs.foldl
          (fun w req => w.setReq req { w.req req with queue := none }) x).queue q with
            reqs := [] }) := by
  have hc := (G_setQueue q
    { ((x.queue q).reqs.foldl
        (fun w req => w.setReq req { w.req req with queue := none }) x).queue q with reqs := [] }
    (G_foldl_unqueue (x.queue q).reqs x (good_refl ht.core))).core
  obtain ⟨f1, _, f3, f4, f5⟩ := foldl_clear_queue (x.queue q).reqs x
  revert hc f1 f3 f4 f5
  generalize (x.queue q).reqs.foldl
    (fun w req => w.setReq req { w.req req with queue := none }) x = X1
  intro hc f1 f3 f4 f5
  have hl := ht.links
  have hqq : ∀ k, ((X1.setQueue q { X1.queue q with reqs := [] }).queue k).reqs
      = if k = q ∧ q < x.queues.length then [] else (x.queue k).reqs := by
    intro k
    rw [queue_setQueue, f3]
    split
    · rfl
    · rw [queue_of_eq f3]
  have hrq : ∀ h, (X1.setQueue q { X1.queue q with reqs := [] }).req h
      = if h ∈ (x.queue q).reqs ∧ h < x.reqs.length then { x.req h with queue := none }
        else x.req h := fun h => by rw [setQueue_req, f5]
  have hfields : ∀ h, ((X1.setQueue q { X1.queue q with reqs := [] }).req h).id = (x.req h).id ∧
      ((X1.setQueue q { X1.queue q with reqs := [] }).req h).response = (x.req h).response ∧
      ((X1.setQueue q { X1.queue q with reqs := [] }).req h).bytes = (x.req h).bytes ∧
      ((X1.setQueue q { X1.queue q with reqs := [] }).req h).status = (x.req h).status := by
    intro h
    rw [hrq]
    split <;> exact ⟨rfl, rfl, rfl, rfl⟩
  have hqf : ∀ h, ((X1.setQueue q { X1.queue q with reqs := [] }).req h).queue
      = if h ∈ (x.queue q).reqs ∧ h < x.reqs.length then none else (x.req h).queue := by
    intro h
    rw [hrq]
    split <;> rfl
  have hlinks : Links E (X1.setQueue q { X1.queue q with reqs := [] }) := by
    refine links_relink hl (by rw [setQueue_chan, f1]) hfields ⟨?_, ?_, ?_⟩ ?_ ?_
    · intro h q' hh
      rw [hqf] at hh
      split at hh
      · cases hh
      · rename_i hn
        have hm := hl.linked.1 h q' hh
        rw [hqq, if_neg]
        · exact hm
        · intro hc2
          rw [hc2.1] at hm
          exact hn ⟨hm, queue_some_lt x h q' hh⟩
    · intro h q' hh
      rw [hqq] at hh
      split at hh
      · cases hh
      · rename_i hn
        have hq2 := hl.linked.2.1 h q' hh
        rw [hqf, if_neg]
        · exact hq2
        · intro hc2
          have hq3 := hl.linked.2.1 h q hc2.1
          rw [hq2] at hq3
          have : q' = q := Option.some.inj hq3
          exact hn ⟨this, this ▸ mem_queue_lt x q' h hh⟩
    · intro k
      rw [hqq]
      split
      · exact List.nodup_nil
      · exact hl.linked.2.2 k
    · intro h hE hn
      rw [(hfields h).2.2.2] at hn
      rw [hqf]
      split
      · rfl
      · exact hl.fresh h hE hn
    · intro k h hh _
      rw [hqq] at hh
      split at hh
      · cases hh
      · exact hh
  refine ⟨hc, hlinks, fun h => by rw [(hfields h).1]; exact ht.ids h, ?_⟩
  intro k h hh
  rw [hqq] at hh
  split at hh
  · cases hh
  · exact ht.mono k h hh

theorem T_queue_free {E : Nat → Prop} {w x : World} (q : Nat) (ht : Tidy E w x) :
    Tidy E w (grilio_queue_free x q) := by
  unfold grilio_queue_free
  dsimp only
  exact T_channel_unref (T_queue_clear q ht)

theorem T_queue_unref {E : Nat → Prop} {w x : World} (q : Nat) (ht : Tidy E w x) :
    Tidy E w (grilio_queue_unref x q) := by
  unfold grilio_queue_unref
  dsimp only
  exact T_ite (T_queue_free q (T_setQueue q _ ht rfl)) (T_setQueue q _ ht rfl)

theorem T_queue_cancel_request {E : Nat → Prop} {w x : World} (q id : Nat) (notify : Bool)
    (ht : Tidy E w x) : Tidy E w (grilio_queue_cancel_request x q id notify).2 := by
  unfold grilio_queue_cancel_request
  split
  · split
    · split
      · exact T_cancel_request id notify ht
      · exact ht
    · exact ht
  · exact ht

/-- One round of the loop of `grilio_queue_cancel_all` takes the first
member off the queue. -/
theorem T_queue_pop {E : Nat → Prop} {w x : World} (q req : Nat) (rest : List Nat)
    (ht : Tidy E w x) (hf : (x.queue q).reqs = req :: rest) :
    Tidy E w ((x.setQueue q { x.queue q with reqs := rest }).setReq req
      { (x.setQueue q { x.queue q with reqs := rest }).req req with queue := none }) := by
  have hc := (G_setReq req
    { (x.setQueue q { x.queue q with reqs := rest }).req req with queue := none }
    (G_setQueue q { x.queue q with reqs := rest } (good_refl ht.core)) ⟨rfl, rfl, rfl⟩).core
  have hl := ht.links
  have hmq : req ∈ (x.queue q).reqs := by rw [hf]; exact List.mem_cons_self _ _
  have hql : q < x.queues.length := mem_queue_lt x q req hmq
  have hrq0 : (x.req req).queue = some q := hl.linked.2.1 req q hmq
  have hrl : req < x.reqs.length := queue_some_lt x req q hrq0
  have hnd : req ∉ rest ∧ rest.Nodup := by
    have := hl.linked.2.2 q
    rw [hf] at this
    exact List.nodup_cons.1 this
  have hqq : ∀ k, ((((x.setQueue q { x.queue q with reqs := rest }).setReq req
      { (x.setQueue q { x.queue q with reqs := rest }).req req with queue := none })).queue
        k).reqs = if k = q then rest else (x.queue k).reqs := by
    intro k
    rw [setReq_queue, queue_setQueue]
    by_cases hk : k = q
    · rw [if_pos ⟨hk, hql⟩, if_pos hk]
    · rw [if_neg (fun hc2 => hk hc2.1), if_neg hk]
  have hrq : ∀ h, (((x.setQueue q { x.queue q with reqs := rest }).setReq req
      { (x.setQueue q { x.queue q with reqs := rest }).req req with queue := none })).req h
        = if h = req then { x.req req with queue := none } else x.req h := by
    intro h
    rw [req_setReq]
    by_cases hh : h = req
    · rw [if_pos ⟨hh, by simpa using hrl⟩, if_pos hh]; rfl
    · rw [if_neg (fun hc2 => hh hc2.1), if_neg hh]; rfl
  have hfields : ∀ h, ((((x.setQueue q { x.queue q with reqs := rest }).setReq req
      { (x.setQueue q { x.queue q with reqs := rest }).req req with queue := none })).req h).id
        = (x.req h).id ∧
      ((((x.setQueue q { x.queue q with reqs := rest }).setReq req
      { (x.setQueue q { x.queue q with reqs := rest }).req req with queue := none })).req
        h).response = (x.req h).response ∧
      ((((x.setQueue q { x.queue q with reqs := rest }).setReq req
      { (x.setQueue q { x.queue q with reqs := rest }).req req with queue := none })).req
        h).bytes = (x.req h).bytes ∧
      ((((x.setQueue q { x.queue q with reqs := rest }).setReq req
      { (x.setQueue q { x.queue q with reqs := rest }).req req with queue := none })).req
        h).status = (x.req h).status := by
    intro h
    rw [hrq]
    split
    · rename_i hh; rw [hh]; exact ⟨rfl, rfl, rfl, rfl⟩
    · exact ⟨rfl, rfl, rfl, rfl⟩
  have hqf : ∀ h, ((((x.setQueue q { x.queue q with reqs := rest }).setReq req
      { (x.setQueue q { x.queue q with reqs := rest }).req req with queue := none })).req
        h).queue = if h = req then none else (x.req h).queue := by
    intro h
    rw [hrq]
    split <;> rfl
  have hlinks : Links E ((x.setQueue q { x.queue q with reqs := rest }).setReq req
      { (x.setQueue q { x.queue q with reqs := rest }).req req with queue := none }) := by
    refine links_relink hl rfl hfields ⟨?_, ?_, ?_⟩ ?_ ?_
    · intro h q' hh
      rw [hqf] at hh
      split at hh
      · cases hh
      · rename_i hn
        have hm := hl.linked.1 h q' hh
        rw [hqq]
        split
        · rename_i hk
          rw [hk, hf] at hm
          rcases List.mem_cons.1 hm with h1 | h1
          · exact absurd h1 hn
          · exact h1
        · exact hm
    · intro h q' hh
      rw [hqq] at hh
      rw [hqf]
      split at hh
      · rename_i hk
        have hne : h ≠ req := fun he => hnd.1 (he ▸ hh)
        rw [if_neg hne, hk]
        exact hl.linked.2.1 h q (by rw [hf]; exact List.mem_cons_of_mem _ hh)
      · rename_i hk
        have hq2 := hl.linked.2.1 h q' hh
        have hne : h ≠ req := by
          intro he
          rw [he, hrq0] at hq2
          exact hk (Option.some.inj hq2).symm
        rw [if_neg hne]
        exact hq2
    · intro k
      rw [hqq]
      split
      · exact hnd.2
      · exact hl.linked.2.2 k
    · intro h hE hn
      rw [(hfields h).2.2.2] at hn
      rw [hqf]
      split
      · rfl
      · exact hl.fresh h hE hn
    · intro k h hh _
      rw [hqq] at hh
      split at hh
      · rename_i hk
        rw [hk, hf]; exact List.mem_cons_of_mem _ hh
      · exact hh
  refine ⟨hc, hlinks, fun h => by rw [(hfields h).1]; exact ht.ids h, ?_⟩
  intro k h hh
  rw [hqq] at hh
  split at hh
  · rename_i hk
    exact ht.mono k h (by rw [hk, hf]; exact List.mem_cons_of_mem _ hh)
  · exact ht.mono k h hh

theorem T_queue_cancel_all_loop {E : Nat → Prop} {w : World} (q : Nat) (notify : Bool)
    (n : Nat) : ∀ x : World, Tidy E w x →
      Tidy E w (grilio_queue_cancel_all_loop x q notify n) := by
  induction n with
  | zero => intro x hk; exact hk
  | succ n ih =>
      intro x hk
      unfold grilio_queue_cancel_all_loop
      split
      · exact hk
      · rename_i req rest hf
        dsimp only
        exact ih _ (T_cancel_request _ notify (T_queue_pop q req rest hk hf))

/-! ### Submission -/

theorem hash_insert_more (x : World) (key value : Nat) :
    (∀ k, sameReq ((g_hash_table_insert x key value).req k) (x.req k)) ∧
    (g_hash_table_insert x key value).queues = x.queues ∧
    (g_hash_table_insert x key value).chan.send_pos = x.chan.send_pos ∧
    readState (g_hash_table_insert x key value) = readState x ∧
    (g_hash_table_insert x key value).chan.read_watch_id = x.chan.read_watch_id ∧
    (∀ kv ∈ x.chan.resp_table, kv.1 ≠ key →
      kv ∈ (g_hash_table_insert x key value).chan.resp_table) ∧
    (key, value) ∈ (g_hash_table_insert x key value).chan.resp_table := by
  unfold g_hash_table_insert
  split
  · rename_i old hl
    dsimp only
    refine ⟨fun k => unref_req _ _ _, by simp, by simp, by simp [readState], by simp, ?_, ?_⟩
    · intro kv hm hne
      simp only [unref_chan, List.mem_map]
      exact ⟨kv, hm, by rw [if_neg hne]⟩
    · simp only [unref_chan, List.mem_map]
      exact ⟨_, lookup_some_mem _ _ _ hl, by simp⟩
  · refine ⟨fun k => sameReq_refl _, rfl, rfl, rfl, rfl, ?_, ?_⟩
    · intro kv hm _
      exact List.mem_append_left _ hm
    · exact List.mem_append_right _ (List.mem_singleton.2 rfl)

/-- The fields of the world after a submission: the part of
`grilio_channel_send_request_full` from the assignment of the id to
`grilio_channel_queue_request`. -/
theorem submit_fields (x : World) (h id code : Nat) (response destroy : Bool)
    (hl : h < x.reqs.length) (Y : World)
    (hY : Y = grilio_channel_queue_request (grilio_request_ref
      (if response = true then
        g_hash_table_insert (grilio_request_ref
          (x.setReq h { x.req h with
            id := id, code := code, response := response, destroy := destroy }) h)
          ((x.setReq h { x.req h with
            id := id, code := code, response := response, destroy := destroy }).req h).id h
      else x.setReq h { x.req h with
        id := id, code := code, response := response, destroy := destroy }) h) h) :
    (∀ k, k ≠ h → sameReq (Y.req k) (x.req k)) ∧
    ((Y.req h).id = id ∧ (Y.req h).status = .QUEUED ∧ (Y.req h).response = response ∧
      (Y.req h).queue = (x.req h).queue ∧ (Y.req h).bytes = (x.req h).bytes) ∧
    Y.queues = x.queues ∧ Y.chan.fifo = x.chan.fifo ++ [h] ∧
    Y.chan.send_req = x.chan.send_req ∧ Y.chan.send_pos = x.chan.send_pos ∧
    readState Y = readState x ∧ Y.chan.read_watch_id = x.chan.read_watch_id ∧
    (∀ kv ∈ Y.chan.resp_table, (kv = (id, h) ∧ response = true) ∨ kv ∈ x.chan.resp_table) ∧
    (∀ kv ∈ x.chan.resp_table, kv.1 ≠ id → kv ∈ Y.chan.resp_table) ∧
    (response = true → (id, h) ∈ Y.chan.resp_table) := by
  subst hY
  have e3 : ∀ k, ((x.setReq h { x.req h with
      id := id, code := code, response := response, destroy := destroy }).req k)
      = if k = h then { x.req h with
          id := id, code := code, response := response, destroy := destroy } else x.req k := by
    intro k
    rw [req_setReq]
    by_cases hkh : k = h
    · simp [hkh, hl]
    · simp [hkh]
  revert e3
  generalize hW3 : x.setReq h { x.req h with
      id := id, code := code, response := response, destroy := destroy } = W3
  intro e3
  have c3 : W3.chan = x.chan := by rw [← hW3]; rfl
  have q3 : W3.queues = x.queues := by rw [← hW3]; simp
  have l3 : W3.reqs.length = x.reqs.length := by rw [← hW3]; simp
  have hidh : (W3.req h).id = id := by rw [e3]; simp
  have h4 : ∃ W4, W4 = (if response = true then
        g_hash_table_insert (grilio_request_ref W3 h) (W3.req h).id h else W3) ∧
      (∀ k, sameReq (W4.req k) (W3.req k)) ∧ W4.queues = x.queues ∧
      W4.reqs.length = x.reqs.length ∧
      W4.chan.fifo = x.chan.fifo ∧ W4.chan.send_req = x.chan.send_req ∧
      W4.chan.send_pos = x.chan.send_pos ∧ readState W4 = readState x ∧
      W4.chan.read_watch_id = x.chan.read_watch_id ∧
      (∀ kv ∈ W4.chan.resp_table, (kv = (id, h) ∧ response = true) ∨
        kv ∈ x.chan.resp_table) ∧
      (∀ kv ∈ x.chan.resp_table, kv.1 ≠ id → kv ∈ W4.chan.resp_table) ∧
      (response = true → (id, h) ∈ W4.chan.resp_table) := by
    refine ⟨_, rfl, ?_⟩
    split
    · rename_i hr
      have hf := hash_insert_fields (grilio_request_ref W3 h) (W3.req h).id h
      have hm := hash_insert_more (grilio_request_ref W3 h) (W3.req h).id h
      rw [hidh] at hf hm ⊢
      refine ⟨fun k => sameReq_trans (hm.1 k) (ref_req _ _ _), by rw [hm.2.1]; simp [q3],
        by simp [l3], by rw [hf.1]; simp [c3], by rw [hf.2.1]; simp [c3],
        by rw [hm.2.2.1]; simp [c3], by rw [hm.2.2.2.1]; simp [readState, c3],
        by rw [hm.2.2.2.2.1]; simp [c3], fun kv hkv => ?_, fun kv hkv hne => ?_, fun _ => ?_⟩
      · rcases hash_insert_mem _ _ _ _ hkv with h1 | h1
        · exact Or.inl ⟨h1, hr⟩
        · exact Or.inr (by simpa [c3] using h1)
      · exact hm.2.2.2.2.2.1 kv (by simpa [c3] using hkv) hne
      · exact hm.2.2.2.2.2.2
    · rename_i hr
      exact ⟨fun _ => sameReq_refl _, q3, l3, by rw [c3], by rw [c3], by rw [c3],
        by simp [readState, c3], by rw [c3], fun kv hm => Or.inr (by rw [← c3]; exact hm),
        fun kv hm _ => by rw [c3]; exact hm, fun hc => absurd hc hr⟩
  obtain ⟨W4, hW4, r4, q4, l4, f4, s4, p4, rs4, rw4, m4, m5, m6⟩ := h4
  rw [← hW4]
  clear hW4
  unfold grilio_channel_queue_request
  dsimp only
  have hl5 : h < (grilio_request_ref W4 h).reqs.length := by simp [l4, hl]
  have e6 : ∀ k, ((grilio_request_ref W4 h).setReq h
      { (grilio_request_ref W4 h).req h with status := .QUEUED }).req k
        = if k = h then { (grilio_request_ref W4 h).req h with status := .QUEUED }
          else (grilio_request_ref W4 h).req k := by
    intro k
    rw [req_setReq]
    by_cases hkh : k = h
    · rw [if_pos ⟨hkh, hl5⟩, if_pos hkh]
    · rw [if_neg (fun hc => hkh hc.1), if_neg hkh]
  have h5 : ∀ k, sameReq ((grilio_request_ref W4 h).req k) (W3.req k) :=
    fun k => sameReq_trans (ref_req _ _ _) (r4 k)
  refine ⟨?_, ?_, ?_, ?_, s4, p4, ?_, rw4, m4, m5, m6⟩
  · intro k hk
    show sameReq (((grilio_request_ref W4 h).setReq h
      { (grilio_request_ref W4 h).req h with status := .QUEUED }).req k) (x.req k)
    rw [e6, if_neg hk]
    have := h5 k
    rw [e3, if_neg hk] at this
    exact this
  · show (((grilio_request_ref W4 h).setReq h
        { (grilio_request_ref W4 h).req h with status := .QUEUED }).req h).id = id ∧
      (((grilio_request_ref W4 h).setReq h
        { (grilio_request_ref W4 h).req h with status := .QUEUED }).req h).status = .QUEUED ∧
      (((grilio_request_ref W4 h).setReq h
        { (grilio_request_ref W4 h).req h with status := .QUEUED }).req h).response
          = response ∧
      (((grilio_request_ref W4 h).setReq h
        { (grilio_request_ref W4 h).req h with status := .QUEUED }).req h).queue
          = (x.req h).queue ∧
      (((grilio_request_ref W4 h).setReq h
        { (grilio_request_ref W4 h).req h with status := .QUEUED }).req h).bytes
          = (x.req h).bytes
    rw [e6, if_pos rfl]
    have := h5 h
    rw [e3, if_pos rfl] at this
    exact ⟨this.2.1, rfl, this.2.2.2.2.2.1, this.2.2.2.2.1, this.2.2.2.1⟩
  · simp [q4]
  · show W4.chan.fifo ++ [h] = _
    rw [f4]
  · exact rs4

/-- What a submission does to the links: the request `h`, NEW until then and
set aside in `x`, is QUEUED at the end of the send queue of `Y`. -/
theorem links_of_submit {E : Nat → Prop} {x Y : World} (h id : Nat) (response : Bool)
    (hc : Core x) (hl : Links (fun k => E k ∨ k = h) x)
    (hnew : (x.req h).status = .NEW) (hid : id ≠ 0)
    (hreq : ∀ k, k ≠ h → sameReq (Y.req k) (x.req k))
    (hself : (Y.req h).id = id ∧ (Y.req h).status = .QUEUED ∧ (Y.req h).response = response ∧
      (Y.req h).queue = (x.req h).queue ∧ (Y.req h).bytes = (x.req h).bytes)
    (hq : Y.queues = x.queues) (hfifo : Y.chan.fifo = x.chan.fifo ++ [h])
    (hsend : Y.chan.send_req = x.chan.send_req) (hpos : Y.chan.send_pos = x.chan.send_pos)
    (hread : readState Y = readState x)
    (hwatch : Y.chan.read_watch_id = x.chan.read_watch_id)
    (htab : ∀ kv ∈ Y.chan.resp_table,
      (kv = (id, h) ∧ response = true) ∨ kv ∈ x.chan.resp_table)
    (htab2 : ∀ kv ∈ x.chan.resp_table, kv.1 ≠ id → kv ∈ Y.chan.resp_table)
    (htab3 : response = true → (id, h) ∈ Y.chan.resp_table) : Links E Y := by
  have hne : ∀ k, k ∈ Pending x → k ≠ h :=
    fun k hp hkh => (hc.pending k hp).2 (hkh ▸ hnew)
  have hid0 : (x.req h).id = 0 := (hc.ids h).1.2 hnew
  have hqueue : ∀ k, (Y.req k).queue = (x.req k).queue := by
    intro k
    by_cases hk : k = h
    · rw [hk]; exact hself.2.2.2.1
    · exact (hreq k hk).2.2.2.2.1
  refine ⟨?_, ?_, ?_, ⟨?_, ?_, ?_⟩, ?_, ?_, ?_⟩
  · intro kv hm
    rcases htab kv hm with h1 | h1
    · rw [h1.1, hself.2.2.1]; exact h1.2
    · have hv : kv.2 ≠ h := hne kv.2 ((mem_pending x kv.2).2 (Or.inr (Or.inr ⟨kv, h1, rfl⟩)))
      rw [(hreq kv.2 hv).2.2.2.2.2.1]
      exact hl.callback kv h1
  · intro s hs hE
    rw [hsend] at hs
    have hv : s ≠ h := hne s ((mem_pending x s).2 (Or.inl hs))
    rw [(hreq s hv).2.2.1, (hreq s hv).2.2.2.1, hpos]
    exact hl.sending s hs (fun hc2 => hc2.elim hE hv)
  · intro k hm
    rw [hfifo, List.mem_append, List.mem_singleton] at hm
    rcases hm with h1 | h1
    · have hv : k ≠ h := hne k ((mem_pending x k).2 (Or.inr (Or.inl h1)))
      rw [(hreq k hv).2.2.1]
      exact hl.queued k h1
    · rw [h1]; exact hself.2.1
  · intro k q hh
    rw [hqueue] at hh
    rw [queue_of_eq hq]
    exact hl.linked.1 k q hh
  · intro k q hh
    rw [queue_of_eq hq] at hh
    rw [hqueue]
    exact hl.linked.2.1 k q hh
  · intro q
    rw [queue_of_eq hq]
    exact hl.linked.2.2 q
  · intro k hE hn
    have hv : k ≠ h := by
      intro hk
      rw [hk, hself.2.1] at hn
      cases hn
    rw [(hreq k hv).2.2.1] at hn
    rw [hqueue]
    exact hl.fresh k (fun hc2 => hc2.elim hE hv) hn
  · intro hu q k hm hE
    rw [queue_of_eq hq] at hm
    by_cases hk : k = h
    · rw [hk]
      cases hr : response
      · right
        rw [hself.2.2.1, hfifo]
        exact ⟨hr, Or.inl (List.mem_append_right _ (List.mem_singleton.2 rfl))⟩
      · left
        exact ⟨(id, h), htab3 hr, rfl⟩
    · have hu2 : UniqueIds x := by
        intro a b hab ha
        have ha2 : a ≠ h := fun hc2 => ha (hc2 ▸ hid0)
        have hb2 : b ≠ h := fun hc2 => ha (by rw [hab, hc2]; exact hid0)
        exact hu a b (by rw [(hreq a ha2).2.1, (hreq b hb2).2.1]; exact hab)
          (by rw [(hreq a ha2).2.1]; exact ha)
      rcases hl.members hu2 q k hm (fun hc2 => hc2.elim hE hk) with ⟨kv, h1, h2⟩ | ⟨h1, h2⟩
      · left
        refine ⟨kv, htab2 kv h1 ?_, h2⟩
        intro hkey
        have h3 := hc.table.2 kv h1
        rw [h2, hkey] at h3
        have : (Y.req k).id = (Y.req h).id := by
          rw [(hreq k hk).2.1, h3, hself.1]
        exact hk (hu k h this (by rw [this, hself.1]; exact hid))
      · right
        rw [(hreq k hk).2.2.2.2.2.1, hfifo, hsend]
        refine ⟨h1, ?_⟩
        rcases h2 with h2 | h2
        · exact Or.inl (List.mem_append_left _ h2)
        · exact Or.inr h2
  · exact readOk_of_eq hl.read hread (by rw [hwatch]; exact fun h => h)

/-- The submission of a NEW request `h` under the id `id`, up to
`grilio_channel_schedule_write`. -/
theorem L_submit {E : Nat → Prop} {x : World} (e : Endian) (h id code : Nat)
    (response destroy : Bool) (hc : Core x) (hl : Links (fun k => E k ∨ k = h) x)
    (hlt : h < x.reqs.length) (hnew : (x.req h).status = .NEW) (hid : id ≠ 0)
    (hid2 : id < 4294967296) :
    Core (grilio_channel_schedule_write e (grilio_channel_queue_request (grilio_request_ref
      (if response = true then
        g_hash_table_insert (grilio_request_ref
          (x.setReq h { x.req h with
            id := id, code := code, response := response, destroy := destroy }) h)
          ((x.setReq h { x.req h with
            id := id, code := code, response := response, destroy := destroy }).req h).id h
      else x.setReq h { x.req h with
        id := id, code := code, response := response, destroy := destroy }) h) h)) ∧
    Links E (grilio_channel_schedule_write e (grilio_channel_queue_request (grilio_request_ref
      (if response = true then
        g_hash_table_insert (grilio_request_ref
          (x.setReq h { x.req h with
            id := id, code := code, response := response, destroy := destroy }) h)
          ((x.setReq h { x.req h with
            id := id, code := code, response := response, destroy := destroy }).req h).id h
      else x.setReq h { x.req h with
        id := id, code := code, response := response, destroy := destroy }) h) h)) ∧
    (grilio_channel_schedule_write e (grilio_channel_queue_request (grilio_request_ref
      (if response = true then
        g_hash_table_insert (grilio_request_ref
          (x.setReq h { x.req h with
            id := id, code := code, response := response, destroy := destroy }) h)
          ((x.setReq h { x.req h with
            id := id, code := code, response := response, destroy := destroy }).req h).id h
      else x.setReq h { x.req h with
        id := id, code := code, response := response, destroy := destroy }) h)
          h)).chan.last_req_id = x.chan.last_req_id ∧
    ∀ k, ((grilio_channel_schedule_write e (grilio_channel_queue_request (grilio_request_ref
      (if response = true then
        g_hash_table_insert (grilio_request_ref
          (x.setReq h { x.req h with
            id := id, code := code, response := response, destroy := destroy }) h)
          ((x.setReq h { x.req h with
            id := id, code := code, response := response, destroy := destroy }).req h).id h
      else x.setReq h { x.req h with
        id := id, code := code, response := response, destroy := destroy }) h) h)).req k).id
          = if k = h then id else (x.req k).id := by
  have hg := (G_submit h id code response destroy (good_refl hc) hlt hnew hid hid2).1
  have hf := submit_fields x h id code response destroy hlt _ rfl
  revert hg hf
  generalize grilio_channel_queue_request (grilio_request_ref
      (if response = true then
        g_hash_table_insert (grilio_request_ref
          (x.setReq h { x.req h with
            id := id, code := code, response := response, destroy := destroy }) h)
          ((x.setReq h { x.req h with
            id := id, code := code, response := response, destroy := destroy }).req h).id h
      else x.setReq h { x.req h with
        id := id, code := code, response := response, destroy := destroy }) h) h = Y
  intro hg hf
  obtain ⟨f1, f2, f3, f4, f5, f6, f7, f8, f9, f10, f11⟩ := hf
  have hlY : Links E Y :=
    links_of_submit h id response hc hl hnew hid f1 f2 f3 f4 f5 f6 f7 f8 f9 f10 f11
  have ht := T_schedule_write e (tidy_refl hg.core hlY)
  refine ⟨ht.core, ht.links, (G_schedule_write e hg).last, fun k => ?_⟩
  rw [ht.ids k]
  split
  · rename_i hk; rw [hk]; exact f2.1
  · rename_i hk; exact (f1 k hk).2.1

/-- More requests may be set aside. -/
theorem links_exempt_raw {E E' : Nat → Prop} {x : World} (hl : Links E x)
    (hE : ∀ h, E h → E' h) : Links E' x :=
  ⟨hl.callback, fun s hs hn => hl.sending s hs (fun h0 => hn (hE s h0)), hl.queued, hl.linked,
    fun h hn => hl.fresh h (fun h0 => hn (hE h h0)),
    fun hu q h hm hn => hl.members hu q h hm (fun h0 => hn (hE h h0)), hl.read⟩

theorem links_exempt {E E' : Nat → Prop} {x : World} (hc : Core x) (hl : Links E x)
    (hE : ∀ h, E h → E' h) : Links E' x :=
  (T_exempt (tidy_refl hc hl) hE).links

theorem L_send {E : Nat → Prop} {x : World} (e : Endian) (req : Option Nat) (code : Nat)
    (response destroy : Bool) (hc : Core x) (hl : Links (fun k => E k ∨ req = some k) x)
    (hh : ∀ h, req = some h → h < x.reqs.length)
    (hacc : req.isNone = true ∨
      req.map (fun h => (x.req h).status) = some GRILIO_REQUEST_STATUS.NEW) :
    Links E (grilio_channel_send_request_full e x true req code response destroy).2 ∧
    IdStep x (grilio_channel_send_request_full e x true req code response destroy).2
      (grilio_channel_send_request_full e x true req code response destroy).1 := by
  have hid := next_id_pos x.chan.last_req_id
  have hid2 := next_id_lt x.chan.last_req_id
  have hc1 := (G_set_last _ hid2 (good_refl hc)).core
  have hl1 := (T_of_eq (tidy_refl hc hl)
    { x with chan := { x.chan with last_req_id :=
      (if (x.chan.last_req_id + 1) % 4294967296 = 0
        then ((x.chan.last_req_id + 1) % 4294967296 + 1) % 4294967296
        else (x.chan.last_req_id + 1) % 4294967296) } } hc1 rfl rfl rfl rfl rfl rfl rfl
    (fun h => h)).links
  revert hid hid2 hc1 hl1
  generalize hidv : (if (x.chan.last_req_id + 1) % 4294967296 = 0
      then ((x.chan.last_req_id + 1) % 4294967296 + 1) % 4294967296
      else (x.chan.last_req_id + 1) % 4294967296) = id
  intro hid hid2 hc1 hl1
  unfold grilio_channel_send_request_full
  rw [if_pos ⟨rfl, hacc⟩]
  dsimp only
  rw [hidv]
  cases req with
  | some h =>
      dsimp only
      have hlt : h < x.reqs.length := hh h rfl
      have hnew : (x.req h).status = .NEW := by
        rcases hacc with h0 | h0
        · simp at h0
        · simpa using h0
      have hl2 : Links (fun k => E k ∨ k = h)
          { x with chan := { x.chan with last_req_id := id } } :=
        links_exempt hc1 hl1 (fun k hk => hk.elim Or.inl (fun h0 => Or.inr (Option.some.inj h0).symm))
      obtain ⟨_, g2, g3, g4⟩ := L_submit e h id (code % 4294967296) response destroy hc1 hl2
        hlt hnew hid hid2
      refine ⟨g2, Or.inr ⟨h, (hc.ids h).1.2 hnew, ?_, hid, fun k hk => ?_⟩⟩
      · rw [g3, g4, if_pos rfl]
      · rw [g4, if_neg hk]; rfl
  | none =>
      dsimp only
      have hl0 : Links E { x with chan := { x.chan with last_req_id := id } } :=
        links_exempt hc1 hl1 (fun k hk => hk.elim (fun h0 => h0) (fun h0 => by cases h0))
      have ht2 := T_alloc grilio_request_new (tidy_refl hc1 hl0) ⟨rfl, rfl, rfl⟩ rfl
      have hlt : (World.alloc { x with chan := { x.chan with last_req_id := id } }
          grilio_request_new).1 < (World.alloc
          { x with chan := { x.chan with last_req_id := id } }
          grilio_request_new).2.reqs.length := by
        simp [World.alloc]
      have hnew : ((World.alloc { x with chan := { x.chan with last_req_id := id } }
          grilio_request_new).2.req (World.alloc
          { x with chan := { x.chan with last_req_id := id } }
          grilio_request_new).1).status = .NEW := by
        rw [alloc_req]; rfl
      have hl2 := @links_exempt E (fun k => E k ∨ k = (World.alloc
          { x with chan := { x.chan with last_req_id := id } } grilio_request_new).1) _
        ht2.core ht2.links (fun k hk => Or.inl hk)
      obtain ⟨g1, g2, g3, g4⟩ := L_submit e _ id (code % 4294967296) response destroy ht2.core
        hl2 hlt hnew hid hid2
      have ht3 := T_unref (World.alloc { x with chan := { x.chan with last_req_id := id } }
          grilio_request_new).1 (tidy_refl g1 g2)
      have hid0 : (x.req (World.alloc { x with chan := { x.chan with last_req_id := id } }
          grilio_request_new).1).id = 0 := by
        have h1 := (ht2.core.ids (World.alloc
          { x with chan := { x.chan with last_req_id := id } } grilio_request_new).1).1.2 hnew
        rw [ht2.ids] at h1
        exact h1
      refine ⟨ht3.links, Or.inr ⟨_, hid0, ?_, hid, fun k hk => ?_⟩⟩
      · rw [ht3.ids, g4, if_pos rfl, unref_chan, g3]; rfl
      · rw [ht3.ids, g4, if_neg hk, ht2.ids]; rfl

theorem queue_add_req (x : World) (q h k : Nat) (hlt : h < x.reqs.length) :
    (grilio_queue_add x q h).req k
      = if k = h then { x.req h with queue := some q } else x.req k := by
  unfold grilio_queue_add
  dsimp only
  rw [setQueue_req, req_setReq]
  by_cases hk : k = h
  · rw [if_pos ⟨hk, hlt⟩, if_pos hk]
  · rw [if_neg (fun hc2 => hk hc2.1), if_neg hk]

theorem queue_add_reqs (x : World) (q h k : Nat) (hq : q < x.queues.length) :
    ((grilio_queue_add x q h).queue k).reqs
      = if k = q then (x.queue q).reqs ++ [h] else (x.queue k).reqs := by
  unfold grilio_queue_add
  dsimp only
  rw [queue_setQueue, setReq_queues]
  by_cases hk : k = q
  · rw [if_pos ⟨hk, hq⟩, if_pos hk]
    show ((x.setReq h _).queue q).reqs ++ [h] = _
    rw [setReq_queue]
  · rw [if_neg (fun hc2 => hk hc2.1), if_neg hk, setReq_queue]

/-- The function `grilio_queue_add` puts a request that is in no queue at
the end of the queue. -/
theorem links_queue_add {E : Nat → Prop} {x : World} (q h : Nat) (hl : Links E x)
    (hq : q < x.queues.length) (hlt : h < x.reqs.length) (hn : (x.req h).queue = none) :
    Links (fun k => E k ∨ k = h) (grilio_queue_add x q h) := by
  have hrq := fun k => queue_add_req x q h k hlt
  have hqq := fun k => queue_add_reqs x q h k hq
  have hch := (queue_add_fields x q h).1
  revert hrq hqq hch
  generalize grilio_queue_add x q h = X1
  intro hrq hqq hch
  have hnm : ∀ q', h ∉ (x.queue q').reqs := by
    intro q' hm
    have := hl.linked.2.1 h q' hm
    rw [hn] at this
    cases this
  have hfields : ∀ k, (X1.req k).id = (x.req k).id ∧ (X1.req k).response = (x.req k).response ∧
      (X1.req k).bytes = (x.req k).bytes ∧ (X1.req k).status = (x.req k).status := by
    intro k
    rw [hrq]
    split
    · rename_i hk; rw [hk]; exact ⟨rfl, rfl, rfl, rfl⟩
    · exact ⟨rfl, rfl, rfl, rfl⟩
  have hqf : ∀ k, (X1.req k).queue = if k = h then some q else (x.req k).queue := by
    intro k
    rw [hrq]
    split <;> rfl
  refine links_relink (links_exempt_raw hl (fun k hk => Or.inl hk)) hch hfields
    ⟨?_, ?_, ?_⟩ ?_ ?_
  · intro k q' hh
    rw [hqf] at hh
    rw [hqq]
    split at hh
    · rename_i hk
      rw [if_pos (Option.some.inj hh).symm, hk]
      exact List.mem_append_right _ (List.mem_singleton.2 rfl)
    · have hm := hl.linked.1 k q' hh
      split
      · rename_i hk2
        rw [hk2] at hm
        exact List.mem_append_left _ hm
      · exact hm
  · intro k q' hh
    rw [hqq] at hh
    rw [hqf]
    split at hh
    · rename_i hk
      rw [List.mem_append, List.mem_singleton] at hh
      rcases hh with h1 | h1
      · have hne : k ≠ h := fun hc2 => hnm q (hc2 ▸ h1)
        rw [if_neg hne, hk]
        exact hl.linked.2.1 k q h1
      · rw [if_pos h1, hk]
    · have hne : k ≠ h := fun hc2 => hnm q' (hc2 ▸ hh)
      rw [if_neg hne]
      exact hl.linked.2.1 k q' hh
  · intro k
    rw [hqq]
    split
    · rw [List.nodup_append]
      refine ⟨hl.linked.2.2 q, List.nodup_singleton _, ?_⟩
      intro a ha hb
      rw [List.mem_singleton.1 hb] at ha
      exact hnm q ha
    · exact hl.linked.2.2 k
  · intro k hE hs
    have hne : k ≠ h := fun hc2 => hE (Or.inr hc2)
    rw [(hfields k).2.2.2] at hs
    rw [hqf, if_neg hne]
    exact hl.fresh k (fun hc2 => hE (Or.inl hc2)) hs
  · intro q' k hh hE
    have hne : k ≠ h := fun hc2 => hE (Or.inr hc2)
    rw [hqq] at hh
    split at hh
    · rename_i hk
      rw [List.mem_append, List.mem_singleton] at hh
      rcases hh with h1 | h1
      · rw [hk]; exact h1
      · exact absurd h1 hne
    · exact hh

theorem idStep_pre {w w' x : World} {res : Nat} (h : IdStep w' x res)
    (hid : ∀ k, (w'.req k).id = (w.req k).id) : IdStep w x res := by
  rcases h with h | ⟨h0, h1, h2, h3, h4⟩
  · exact Or.inl (fun k => by rw [h k, hid k])
  · exact Or.inr ⟨h0, by rw [← hid]; exact h1, h2, h3, fun k hk => by rw [h4 k hk, hid k]⟩

theorem idStep_post {w x x' : World} {res : Nat} (h : IdStep w x res)
    (hid : ∀ k, (x'.req k).id = (x.req k).id)
    (hl : x'.chan.last_req_id = x.chan.last_req_id) : IdStep w x' res := by
  rcases h with h | ⟨h0, h1, h2, h3, h4⟩
  · exact Or.inl (fun k => by rw [hid k, h k])
  · exact Or.inr ⟨h0, h1, by rw [hid, hl]; exact h2, h3, fun k hk => by rw [hid k, h4 k hk]⟩

theorem L_queue_send {x : World} (e : Endian) (q : Nat) (req : Option Nat) (code : Nat)
    (response destroy : Bool) (hc : Core x) (hl : Links (fun _ => False) x)
    (hq : q < x.queues.length) (hh : ∀ h, req = some h → h < x.reqs.length) :
    Links (fun _ => False)
      (grilio_queue_send_request_full e x (some q) req code response destroy).2 ∧
    IdStep x (grilio_queue_send_request_full e x (some q) req code response destroy).2
      (grilio_queue_send_request_full e x (some q) req code response destroy).1 := by
  unfold grilio_queue_send_request_full
  dsimp only
  split
  · rename_i hacc
    cases req with
    | some h =>
        dsimp only
        have hlt : h < x.reqs.length := hh h rfl
        have hnew : (x.req h).status = .NEW := by
          rcases hacc with h0 | h0
          · simp at h0
          · simpa using h0
        have hn := hl.fresh h (fun h0 => h0) hnew
        have hl1 := links_queue_add q h hl hq hlt hn
        have hc1 := (G_queue_add q h (good_refl hc)).core
        have hf := queue_add_fields x q h
        have hrq := fun k => queue_add_req x q h k hlt
        have hs := L_send (E := fun _ => False) e (some h) code response destroy hc1
          (links_exempt_raw hl1 (fun k hk => hk.elim Or.inl (fun h0 => Or.inr (by rw [h0]))))
          (fun k hk2 => by
            have : h = k := by simpa using hk2
            rw [← this, hf.2]; exact hlt)
          (Or.inr (by
            show some ((grilio_queue_add x q h).req h).status = _
            rw [hrq, if_pos rfl]
            exact congrArg some hnew))
        refine ⟨hs.1, idStep_pre hs.2 (fun k => ?_)⟩
        rw [hrq]
        split
        · rename_i hk; rw [hk]
        · rfl
    | none =>
        dsimp only
        have ht2 := T_alloc grilio_request_new (tidy_refl hc hl) ⟨rfl, rfl, rfl⟩ rfl
        have hlt : (x.alloc grilio_request_new).1 < (x.alloc grilio_request_new).2.reqs.length := by
          simp [World.alloc]
        have hnew : ((x.alloc grilio_request_new).2.req (x.alloc grilio_request_new).1).status
            = .NEW := by
          rw [alloc_req]; rfl
        have hn := ht2.links.fresh _ (fun h0 => h0) hnew
        have hl1 := links_queue_add q (x.alloc grilio_request_new).1 ht2.links
          (by simpa [World.alloc] using hq) hlt hn
        have hc1 := (G_queue_add q (x.alloc grilio_request_new).1 (good_refl ht2.core)).core
        have hf := queue_add_fields (x.alloc grilio_request_new).2 q
          (x.alloc grilio_request_new).1
        have hrq := fun k => queue_add_req (x.alloc grilio_request_new).2 q
          (x.alloc grilio_request_new).1 k hlt
        have hh2 : ∀ k, some (x.alloc grilio_request_new).1 = some k →
            k < (grilio_queue_add (x.alloc grilio_request_new).2 q
              (x.alloc grilio_request_new).1).reqs.length := by
          intro k hk2
          have : (x.alloc grilio_request_new).1 = k := by simpa using hk2
          rw [← this, hf.2]; exact hlt
        have hs := L_send (E := fun _ => False) e (some (x.alloc grilio_request_new).1) code
          response destroy hc1
          (links_exempt_raw hl1 (fun k hk => hk.elim Or.inl (fun h0 => Or.inr (by rw [h0]))))
          hh2
          (Or.inr (by
            show some ((grilio_queue_add (x.alloc grilio_request_new).2 q
              (x.alloc grilio_request_new).1).req (x.alloc grilio_request_new).1).status = _
            rw [hrq, if_pos rfl]
            exact congrArg some hnew))
        have hg := (G_send e (some (x.alloc grilio_request_new).1) code response destroy
          (good_refl hc1) hh2).1.core
        have ht3 := T_unref (x.alloc grilio_request_new).1 (tidy_refl hg hs.1)
        refine ⟨ht3.links, idStep_post (idStep_pre hs.2 (fun k => ?_)) ht3.ids
          (by rw [unref_chan])⟩
        rw [hrq, ← ht2.ids k]
        split
        · rename_i hk; rw [hk]
        · rfl
  · exact ⟨hl, Or.inl (fun _ => rfl)⟩

theorem append_bytes_queue (r : GRilIoRequest) (data : Option (List Nat)) (len : Nat) :
    (grilio_request_append_bytes r data len).queue = r.queue := by
  unfold grilio_request_append_bytes
  split
  · split
    · rfl
    · rfl
  · rfl

/-- Every step of the machine keeps the links, and changes the id of at
most one request: of one that is submitted. -/
theorem step_links (e : Endian) (w : World) (op : Op) (hc : Core w)
    (hl : Links (fun _ => False) w) :
    Links (fun _ => False) (step e w op) ∧ IdStep w (step e w op) (op.result e w) := by
  have h0 := tidy_refl hc hl
  have plain : ∀ {y : World} {res : Nat}, Tidy (fun _ => False) w y →
      Links (fun _ => False) y ∧ IdStep w y res :=
    fun ht => ⟨ht.links, Or.inl ht.ids⟩
  cases op with
  | request_new payload timeout =>
      exact plain (T_alloc _ h0
        ⟨(append_bytes_fields grilio_request_new (some payload) payload.length).1,
          (append_bytes_fields grilio_request_new (some payload) payload.length).2.1,
          (append_bytes_fields grilio_request_new (some payload) payload.length).2.2⟩
        (append_bytes_queue grilio_request_new (some payload) payload.length))
  | request_ref req => exact plain (T_ite (T_ref req h0) h0)
  | request_unref req => exact plain (T_ite (T_unref req h0) h0)
  | send req code response destroy =>
      by_cases hh : w.holds req
      · have hs : step e w (.send req code response destroy)
            = (grilio_channel_send_request_full e w true req code response destroy).2 := by
          show (if _ then _ else _) = _
          rw [if_pos hh]
        have hr : Op.result e w (.send req code response destroy)
            = (grilio_channel_send_request_full e w true req code response destroy).1 := by
          show (if _ then _ else _) = _
          rw [if_pos hh]
        rw [hs, hr]
        by_cases hacc : req.isNone = true ∨
            req.map (fun h => (w.req h).status) = some GRILIO_REQUEST_STATUS.NEW
        · exact L_send e req code response destroy hc
            (links_exempt_raw hl (fun k hk => Or.inl hk)) (fun h hr => (hh h hr).1) hacc
        · have hrj : grilio_channel_send_request_full e w true req code response destroy
              = (0, w) := by
            unfold grilio_channel_send_request_full
            rw [if_neg (fun hc2 => hacc hc2.2)]
          rw [hrj]
          exact ⟨hl, Or.inl (fun _ => rfl)⟩
      · have hs : step e w (.send req code response destroy) = w := by
          show (if _ then _ else _) = _
          rw [if_neg hh]
        rw [hs]
        exact ⟨hl, Or.inl (fun _ => rfl)⟩
  | cancel id notify => exact plain (T_cancel_request id notify h0)
  | cancel_all notify => exact plain (T_cancel_all notify h0)
  | set_timeout timeout =>
      exact plain (T_plain h0 (grilio_channel_set_timeout w timeout)
        rfl rfl rfl rfl rfl rfl rfl rfl rfl rfl rfl (fun h => h))
  | shutdown flush => exact plain (T_shutdown flush h0)
  | channel_ref =>
      exact plain (T_plain h0 (grilio_channel_ref w) rfl rfl rfl rfl rfl rfl rfl rfl rfl rfl rfl
        (fun h => h))
  | channel_unref => exact plain (T_ite (T_channel_unref h0) h0)
  | add_logger =>
      exact plain (T_plain h0 (grilio_channel_add_logger w true).2
        rfl rfl rfl rfl rfl rfl rfl rfl rfl rfl rfl (fun h => h))
  | remove_logger id =>
      refine plain (y := grilio_channel_remove_logger w id) ?_
      unfold grilio_channel_remove_logger
      exact T_ite (T_ite (T_plain h0 _ rfl rfl rfl rfl rfl rfl rfl rfl rfl rfl rfl (fun h => h))
        (T_emit _ h0)) h0
  | queue_new => exact plain (T_queue_new h0)
  | queue_ref queue =>
      refine plain (y := step e w (.queue_ref queue)) ?_
      exact T_ite (T_queue_ref queue h0) h0
  | queue_unref queue => exact plain (T_ite (T_queue_unref queue h0) h0)
  | queue_send queue req code response destroy =>
      by_cases hh : w.holdsQueue queue ∧ w.holds req
      · have hs : step e w (.queue_send queue req code response destroy)
            = (grilio_queue_send_request_full e w (some queue) req code response destroy).2 := by
          show (if _ then _ else _) = _
          rw [if_pos hh]
        have hr : Op.result e w (.queue_send queue req code response destroy)
            = (grilio_queue_send_request_full e w (some queue) req code response destroy).1 := by
          show (if _ then _ else _) = _
          rw [if_pos hh]
        rw [hs, hr]
        exact L_queue_send e queue req code response destroy hc hl hh.1.1
          (fun h hr => (hh.2 h hr).1)
      · have hs : step e w (.queue_send queue req code response destroy) = w := by
          show (if _ then _ else _) = _
          rw [if_neg hh]
        rw [hs]
        exact ⟨hl, Or.inl (fun _ => rfl)⟩
  | queue_cancel queue id notify =>
      exact plain (T_ite (T_queue_cancel_request queue id notify h0) h0)
  | queue_cancel_all queue notify =>
      exact plain (T_ite (T_queue_cancel_all_loop queue notify _ w h0) h0)
  | writable => exact plain (T_write_callback e h0)
  | readable inp => exact plain (T_read_callback e inp h0)
  | timer => exact plain (T_ite (T_timeout h0) h0)
  | tick us =>
      exact plain (T_plain h0 { w with now := w.now + us } rfl rfl rfl rfl rfl rfl rfl rfl rfl
        rfl rfl (fun h => h))

/-! ### Every reachable state -/

theorem links_of_empty (w : World) (hr : w.reqs = []) (hq : w.queues = [])
    (hf : w.chan.fifo = []) (ht : w.chan.resp_table = []) (hs : w.chan.send_req = none)
    (h1 : w.chan.read_len_pos = 0) (h2 : w.chan.read_len_buf.length = 4)
    (h3 : w.chan.read_buf.length = w.chan.read_buf_alloc) : Links (fun _ => False) w := by
  have hreq : ∀ h, w.req h = default := fun h => by simp [World.req, hr]
  have hqueue : ∀ q, w.queue q = default := fun q => by simp [World.queue, hq]
  refine ⟨?_, ?_, ?_, ⟨?_, ?_, ?_⟩, ?_, ?_, ⟨?_, h2, h3, ?_⟩⟩
  · intro kv hm; rw [ht] at hm; cases hm
  · intro s h0; rw [hs] at h0; cases h0
  · intro h hm; rw [hf] at hm; cases hm
  · intro h q hh; rw [hreq] at hh; cases hh
  · intro h q hh; rw [hqueue] at hh; cases hh
  · intro q; rw [hqueue]; exact List.nodup_nil
  · intro h _ _; rw [hreq]; rfl
  · intro _ q h hm; rw [hqueue] at hm; cases hm
  · rw [h1]; exact Nat.zero_le _
  · intro _ h0; rw [h1] at h0; cases h0

theorem start_links (sub : Option (List Nat)) (writes : List IoWrite) (now : Int) (w : World)
    (hs : World.start sub writes now = some w) : Links (fun _ => False) w := by
  unfold World.start grilio_channel_new_fd at hs
  split at hs
  · cases sub with
    | none =>
        simp only [Option.map_some', Option.some.injEq] at hs
        rw [← hs]
        exact links_of_empty _ rfl rfl rfl rfl rfl rfl rfl rfl
    | some s =>
        simp only [Option.map_some', Option.some.injEq] at hs
        rw [← hs]
        exact links_of_empty _ rfl rfl rfl rfl rfl rfl rfl rfl
  · simp at hs

theorem run_links (e : Endian) (ops : List Op) : ∀ w : World, Core w →
    Links (fun _ => False) w → Links (fun _ => False) (run e w ops) := by
  induction ops with
  | nil => intro w _ hl; exact hl
  | cons op ops ih => intro w hc hl; exact ih _ (step_core e w op hc) (step_links e w op hc hl).1

/-- As long as the ids have not wrapped around, no two requests have the
same id, and `last_req_id` counts the submissions. -/
theorem run_unique (e : Endian) (ops : List Op) : ∀ w : World, Core w →
    Links (fun _ => False) w → (∀ h, (w.req h).id ≤ w.chan.last_req_id) → UniqueIds w →
    w.chan.last_req_id + (results e w ops).length < 4294967296 →
    (∀ h, ((run e w ops).req h).id ≤ (run e w ops).chan.last_req_id) ∧
      UniqueIds (run e w ops) ∧
      (run e w ops).chan.last_req_id = w.chan.last_req_id + (results e w ops).length := by
  induction ops with
  | nil => intro w _ _ hle hu _; exact ⟨hle, hu, rfl⟩
  | cons op ops ih =>
      intro w hc hl hle hu hn
      have hc1 := step_core e w op hc
      have hst := step_links e w op hc hl
      have hL := hc.last
      rcases (step_good e w op hc).2 with ⟨h0, hlast⟩ | ⟨h1, hlast⟩
      · have hr : results e w (op :: ops) = results e (step e w op) ops := by
          show (if _ then _ else _) ++ _ = _
          rw [if_neg (by rw [h0]; simp)]
          rfl
        rw [hr] at hn ⊢
        have hids : ∀ k, ((step e w op).req k).id = (w.req k).id := by
          rcases hst.2 with h2 | ⟨_, _, _, h3, _⟩
          · exact h2
          · exact absurd h0 h3
        have := ih (step e w op) hc1 hst.1 (fun h => by rw [hids, hlast]; exact hle h)
          (@uniqueIds_of_eq (step e w op) w (fun k => (hids k).symm) hu)
          (by rw [hlast]; exact hn)
        rw [hlast] at this
        exact this
      · have hcl := next_id_closed _ hL
        rw [hcl] at h1
        have hne : op.result e w ≠ 0 := by rw [h1]; omega
        have hr : results e w (op :: ops) = op.result e w :: results e (step e w op) ops := by
          show (if _ then _ else _) ++ _ = _
          rw [if_pos hne]
          rfl
        rw [hr] at hn ⊢
        simp only [List.length_cons] at hn ⊢
        have hmod : w.chan.last_req_id % 4294967295 = w.chan.last_req_id :=
          Nat.mod_eq_of_lt (by omega)
        rw [hmod] at h1
        have hlast2 : (step e w op).chan.last_req_id = w.chan.last_req_id + 1 := by
          rw [hlast, h1]
        have hle1 : ∀ h, ((step e w op).req h).id ≤ (step e w op).chan.last_req_id := by
          intro h
          rcases hst.2 with h2 | ⟨h3, _, h4, _, h5⟩
          · rw [h2, hlast2]; exact Nat.le_succ_of_le (hle h)
          · by_cases hk : h = h3
            · rw [hk, h4]
            · rw [h5 h hk, hlast2]; exact Nat.le_succ_of_le (hle h)
        have hu1 : UniqueIds (step e w op) := by
          rcases hst.2 with h2 | ⟨h3, _, h4, _, h5⟩
          · intro a b hab ha
            exact hu a b (by rw [← h2 a, ← h2 b]; exact hab) (by rw [← h2 a]; exact ha)
          · intro a b hab ha
            by_cases ha3 : a = h3
            · by_cases hb3 : b = h3
              · rw [ha3, hb3]
              · have h6 := hle b
                rw [← h5 b hb3, ← hab, ha3, h4, hlast2] at h6
                omega
            · by_cases hb3 : b = h3
              · have h6 := hle a
                rw [← h5 a ha3, hab, hb3, h4, hlast2] at h6
                omega
              · exact hu a b (by rw [← h5 a ha3, ← h5 b hb3]; exact hab)
                  (by rw [← h5 a ha3]; exact ha)
        have := ih (step e w op) hc1 hst.1 hle1 hu1 (by rw [hlast2]; omega)
        rw [hlast2] at this
        refine ⟨this.1, this.2.1, ?_⟩
        show (run e (step e w op) ops).chan.last_req_id = _
        rw [this.2.2]
        omega

theorem start_unique (sub : Option (List Nat)) (writes : List IoWrite) (now : Int) (w : World)
    (hs : World.start sub writes now = some w) :
    w.chan.last_req_id = 0 ∧ (∀ h, (w.req h).id = 0) := by
  unfold World.start grilio_channel_new_fd at hs
  split at hs
  · cases sub with
    | none =>
        simp only [Option.map_some', Option.some.injEq] at hs
        rw [← hs]
        exact ⟨rfl, fun h => by simp [World.req, World.init]; rfl⟩
    | some s =>
        simp only [Option.map_some', Option.some.injEq] at hs
        rw [← hs]
        exact ⟨rfl, fun h => by simp [World.req, World.init]; rfl⟩
  · simp at hs

/-- C32: in every state the channel can reach from its creation, through
any calls of the interface and any events of the main loop, every request in
the response table (the in-flight map) has a response callback and is stored
under its own id. -/
theorem inflight_has_callback (e : Endian) (sub : Option (List Nat)) (writes : List IoWrite)
    (now : Int) (w0 : World) (hs : World.start sub writes now = some w0) (ops : List Op) :
    ∀ kv ∈ (run e w0 ops).chan.resp_table,
      ((run e w0 ops).req kv.2).response = true ∧ kv.1 = ((run e w0 ops).req kv.2).id := by
  have hc := start_core sub writes now w0 hs
  have hl := run_links e ops w0 hc.1 (start_links sub writes now w0 hs)
  have hc2 := run_core e ops w0 hc.1
  exact fun kv hm => ⟨hl.callback kv hm, (hc2.table.2 kv hm).symm⟩

/-- A new channel; two requests are submitted, the second one with a response
callback: it is the one in the response table. -/
theorem inflight_has_callback_witness :
    World.start none [] 0 = some (World.init sampleChan [] 0) ∧
    (run .little (World.init sampleChan [] 0)
      [.request_new [] (-1), .request_new [] (-1), .send (some 0) 10 false false,
        .send (some 1) 11 true false]).chan.resp_table = [(2, 1)] ∧
    ∀ kv ∈ (run .little (World.init sampleChan [] 0)
      [.request_new [] (-1), .request_new [] (-1), .send (some 0) 10 false false,
        .send (some 1) 11 true false]).chan.resp_table,
      ((run .little (World.init sampleChan [] 0)
        [.request_new [] (-1), .request_new [] (-1), .send (some 0) 10 false false,
          .send (some 1) 11 true false]).req kv.2).response = true ∧
      kv.1 = ((run .little (World.init sampleChan [] 0)
        [.request_new [] (-1), .request_new [] (-1), .send (some 0) 10 false false,
          .send (some 1) 11 true false]).req kv.2).id :=
  ⟨rfl, by decide, inflight_has_callback .little none [] 0 _ rfl _⟩

/-! ## The linked lists -/

theorem ReqList.ext_fields {p q : ReqList} (h1 : p.first_req = q.first_req)
    (h2 : p.last_req = q.last_req) (h3 : ∀ k, p.next k = q.next k) : p = q := by
  cases p; cases q
  simp only [ReqList.mk.injEq]
  exact ⟨h1, h2, funext h3⟩

theorem nextOf_not_mem (l : List Nat) (k : Nat) (h : k ∉ l) : nextOf l k = none := by
  induction l with
  | nil => rfl
  | cons a l ih =>
      have h1 : k ≠ a := fun hc => h (hc ▸ List.mem_cons_self _ _)
      have h2 : k ∉ l := fun hc => h (List.mem_cons_of_mem _ hc)
      show (if k = a then l.head? else nextOf l k) = none
      rw [if_neg h1, ih h2]

/-- The successor of the last request is null. -/
theorem nextOf_last (l : List Nat) (hn : l.Nodup) (k : Nat) (h : l.getLast? = some k) :
    nextOf l k = none := by
  induction l with
  | nil => rfl
  | cons a l ih =>
      cases l with
      | nil =>
          show (if k = a then none else nextOf [] k) = none
          split <;> rfl
      | cons b t =>
          have hnd := List.nodup_cons.1 hn
          have hl : (b :: t).getLast? = some k := by
            rw [List.getLast?_cons_cons] at h; exact h
          have hk : k ∈ b :: t := List.mem_of_getLast?_eq_some hl
          have hka : k ≠ a := fun hc => hnd.1 (hc ▸ hk)
          show (if k = a then _ else nextOf (b :: t) k) = none
          rw [if_neg hka]
          exact ih hnd.2 hl

theorem nextOf_append (l : List Nat) (hn : l.Nodup) (h k : Nat) (hh : h ∉ l) :
    nextOf (l ++ [h]) k = if l.getLast? = some k then some h else nextOf l k := by
  induction l with
  | nil =>
      show (if k = h then none else none) = _
      simp [nextOf]
  | cons a l ih =>
      have hnd := List.nodup_cons.1 hn
      have hh2 : h ∉ l := fun hc => hh (List.mem_cons_of_mem _ hc)
      show (if k = a then (l ++ [h]).head? else nextOf (l ++ [h]) k)
        = if (a :: l).getLast? = some k then some h
          else (if k = a then l.head? else nextOf l k)
      cases l with
      | nil =>
          simp only [List.nil_append, List.head?_cons, List.getLast?_singleton,
            Option.some.injEq, List.head?_nil]
          by_cases hka : k = a
          · rw [if_pos hka, if_pos hka.symm]
          · rw [if_neg hka, if_neg (fun hc => hka hc.symm), if_neg hka]
            show (if k = h then none else none) = _
            simp [nextOf]
      | cons b t =>
          rw [ih hnd.2 hh2, List.getLast?_cons_cons]
          by_cases hka : k = a
          · have hne : (b :: t).getLast? ≠ some k := by
              intro hc
              exact hnd.1 (hka ▸ List.mem_of_getLast?_eq_some hc)
            rw [if_pos hka, if_neg hne, if_pos hka]
            rfl
          · rw [if_neg hka, if_neg hka]

/-- Appending to the linked list, as `grilio_channel_queue_request` and
`grilio_queue_add` do it, gives the linked list of the longer list. -/
theorem append_links (l : List Nat) (hn : l.Nodup) (h : Nat) (hh : h ∉ l) :
    (match (linksOf l).last_req with
      | some last => { (linksOf l).setNext last (some h) with last_req := some h }
      | none => { linksOf l with first_req := some h, last_req := some h })
      = linksOf (l ++ [h]) := by
  cases hl : l.getLast? with
  | none =>
      have : l = [] := List.getLast?_eq_none_iff.1 hl
      subst this
      exact ReqList.ext_fields rfl rfl (fun k => by
        show none = (if k = h then none else none)
        simp)
  | some last =>
      have hne : l ≠ [] := by
        intro hc; rw [hc] at hl; cases hl
      show (match l.getLast? with
        | some last => ({ (linksOf l).setNext last (some h) with last_req := some h } : ReqList)
        | none => { linksOf l with first_req := some h, last_req := some h }) = _
      rw [hl]
      refine ReqList.ext_fields ?_ ?_ (fun k => ?_)
      · show l.head? = (l ++ [h]).head?
        cases l with
        | nil => exact absurd rfl hne
        | cons a t => rfl
      · show some h = (l ++ [h]).getLast?
        simp
      · show (if k = last then some h else nextOf l k) = nextOf (l ++ [h]) k
        rw [nextOf_append l hn h k hh, hl]
        by_cases hk : k = last
        · rw [if_pos hk, if_pos (by rw [hk])]
        · rw [if_neg hk, if_neg (fun hc => hk (Option.some.inj hc).symm)]

/-- Taking the first request off the linked list. -/
theorem nextOf_tail (r : Nat) (l : List Nat) (hn : (r :: l).Nodup) (k : Nat) :
    (if k = r then none else nextOf (r :: l) k) = nextOf l k := by
  have hnd := List.nodup_cons.1 hn
  by_cases hk : k = r
  · rw [if_pos hk, hk, nextOf_not_mem l r hnd.1]
  · rw [if_neg hk]
    show (if k = r then _ else nextOf l k) = _
    rw [if_neg hk]

theorem linksOf_next_head (r : Nat) (l : List Nat) : (linksOf (r :: l)).next r = l.head? := by
  show (if r = r then l.head? else _) = _
  rw [if_pos rfl]

theorem dequeue_links (l : List Nat) (hn : l.Nodup) :
    grilio_channel_dequeue_request_list (linksOf l) = (l.head?, linksOf l.tail) := by
  cases l with
  | nil => rfl
  | cons r l =>
      unfold grilio_channel_dequeue_request_list
      show (match (linksOf (r :: l)).next r with
        | some n => (some r, ({ linksOf (r :: l) with first_req := some n } :
            ReqList).setNext r none)
        | none => (some r, { linksOf (r :: l) with first_req := none, last_req := none }))
          = _
      rw [linksOf_next_head]
      cases l with
      | nil =>
          refine Prod.ext rfl (ReqList.ext_fields rfl rfl (fun k => ?_))
          show (if k = r then none else nextOf [] k) = nextOf [] k
          simp [nextOf]
      | cons b t =>
          refine Prod.ext rfl (ReqList.ext_fields rfl ?_ (fun k => ?_))
          · show (r :: b :: t).getLast? = (b :: t).getLast?
            rw [List.getLast?_cons_cons]
          · exact nextOf_tail r (b :: t) hn k

theorem dropFirst_links (l : List Nat) (hn : l.Nodup) :
    (linksOf l).dropFirst = linksOf l.tail := by
  cases l with
  | nil => rfl
  | cons r l =>
      unfold ReqList.dropFirst
      show (match (linksOf (r :: l)).next r with
        | some _ => ({ linksOf (r :: l) with
            first_req := (linksOf (r :: l)).next r } : ReqList).setNext r none
        | none => { ({ linksOf (r :: l) with
            first_req := (linksOf (r :: l)).next r } : ReqList) with last_req := none })
          = _
      rw [linksOf_next_head]
      cases l with
      | nil =>
          refine ReqList.ext_fields rfl rfl (fun k => ?_)
          show (if k = r then none else nextOf [] k) = nextOf [] k
          simp [nextOf]
      | cons b t =>
          refine ReqList.ext_fields rfl ?_ (fun k => ?_)
          · show (r :: b :: t).getLast? = (b :: t).getLast?
            rw [List.getLast?_cons_cons]
          · exact nextOf_tail r (b :: t) hn k

/-- The requests reached from the first one are those of the list, in
order, and the last of them has no successor. -/
theorem walk_links (p : ReqList) (l : List Nat) (hn : l.Nodup)
    (hp : ∀ k ∈ l, p.next k = nextOf l k) : ∀ n, l.length ≤ n → p.walk n l.head? = l := by
  induction l with
  | nil =>
      intro n _
      cases n <;> rfl
  | cons a l ih =>
      intro n hle
      have hnd := List.nodup_cons.1 hn
      cases n with
      | zero => simp at hle
      | succ m =>
          show a :: p.walk m (p.next a) = _
          have h1 : p.next a = l.head? := by
            rw [hp a (List.mem_cons_self _ _)]
            show (if a = a then l.head? else _) = _
            rw [if_pos rfl]
          rw [h1, ih hnd.2 (fun k hk => by
            rw [hp k (List.mem_cons_of_mem _ hk)]
            show (if k = a then _ else nextOf l k) = _
            rw [if_neg (fun (hc : k = a) => hnd.1 (hc ▸ hk))]) m (by simpa using hle)]

theorem nextOf_cons (a : Nat) (l : List Nat) (k : Nat) :
    nextOf (a :: l) k = if k = a then l.head? else nextOf l k := rfl

theorem nextOf_mid (pre : List Nat) (r : Nat) (t : List Nat) (hn : (pre ++ r :: t).Nodup) :
    nextOf (pre ++ r :: t) r = t.head? := by
  induction pre with
  | nil => exact linksOf_next_head r t
  | cons a pre ih =>
      have hnd := List.nodup_cons.1 hn
      have hra : r ≠ a := fun hc => hnd.1 (by rw [← hc]; simp)
      show (if r = a then _ else nextOf (pre ++ r :: t) r) = _
      rw [if_neg hra]
      exact ih hnd.2

theorem getLast_cons_ne (a : Nat) (l : List Nat) (k : Nat) (hk : k ≠ a) :
    (a :: l).getLast? = some k ↔ l.getLast? = some k := by
  cases l with
  | nil =>
      simp only [List.getLast?_singleton, Option.some.injEq, List.getLast?_nil]
      exact ⟨fun h => absurd h.symm hk, fun h => by cases h⟩
  | cons b t => rw [List.getLast?_cons_cons]

theorem nextOf_remove (pre : List Nat) (r : Nat) (t : List Nat) (hn : (pre ++ r :: t).Nodup)
    (k : Nat) :
    nextOf (pre ++ t) k = if k = r then none
      else if pre.getLast? = some k then t.head? else nextOf (pre ++ r :: t) k := by
  induction pre with
  | nil =>
      have hnd := List.nodup_cons.1 hn
      show nextOf t k = if k = r then none
        else if none = some k then t.head? else nextOf (r :: t) k
      by_cases hk : k = r
      · rw [if_pos hk, hk]; exact nextOf_not_mem t r hnd.1
      · rw [if_neg hk, if_neg (by simp), nextOf_cons, if_neg hk]
  | cons a pre ih =>
      have hnd := List.nodup_cons.1 hn
      have har : a ≠ r := fun hc => hnd.1 (by rw [hc]; simp)
      show nextOf (a :: (pre ++ t)) k = if k = r then none
        else if (a :: pre).getLast? = some k then t.head? else nextOf (a :: (pre ++ r :: t)) k
      rw [nextOf_cons, nextOf_cons]
      by_cases hka : k = a
      · rw [if_pos hka, if_neg (by rw [hka]; exact har), if_pos hka]
        cases pre with
        | nil =>
            rw [if_pos (by rw [hka]; rfl)]
            rfl
        | cons b p =>
            have hne : (a :: b :: p).getLast? ≠ some k := by
              intro hc
              rw [List.getLast?_cons_cons] at hc
              have := List.mem_of_getLast?_eq_some hc
              exact hnd.1 (by rw [← hka]; exact List.mem_append_left _ this)
            rw [if_neg hne]
            rfl
      · rw [if_neg hka, if_neg hka, ih hnd.2]
        by_cases hkr : k = r
        · rw [if_pos hkr, if_pos hkr]
        · rw [if_neg hkr, if_neg hkr]
          by_cases hl : pre.getLast? = some k
          · rw [if_pos hl, if_pos ((getLast_cons_ne a pre k hka).2 hl)]
          · rw [if_neg hl, if_neg (fun hc => hl ((getLast_cons_ne a pre k hka).1 hc))]

/-- The request found is unlinked: what is left is the linked list of the
list without it. -/
theorem unlink_hit (pre : List Nat) (r : Nat) (t : List Nat) (hn : (pre ++ r :: t).Nodup) :
    (match (match pre.getLast? with
        | some pr => (linksOf (pre ++ r :: t)).setNext pr ((linksOf (pre ++ r :: t)).next r)
        | none => { linksOf (pre ++ r :: t) with
            first_req := (linksOf (pre ++ r :: t)).next r } : ReqList).next r with
      | some _ => (match pre.getLast? with
        | some pr => (linksOf (pre ++ r :: t)).setNext pr ((linksOf (pre ++ r :: t)).next r)
        | none => { linksOf (pre ++ r :: t) with
            first_req := (linksOf (pre ++ r :: t)).next r } : ReqList).setNext r none
      | none => { (match pre.getLast? with
        | some pr => (linksOf (pre ++ r :: t)).setNext pr ((linksOf (pre ++ r :: t)).next r)
        | none => { linksOf (pre ++ r :: t) with
            first_req := (linksOf (pre ++ r :: t)).next r } : ReqList) with
              last_req := pre.getLast? })
      = linksOf (pre ++ t) := by
  have hmid : (linksOf (pre ++ r :: t)).next r = t.head? := nextOf_mid pre r t hn
  rw [hmid]
  have hrpre : r ∉ pre := by
    intro hc
    have := (List.nodup_append.1 hn).2.2
    exact this hc (List.mem_cons_self _ _) 
  cases hp : pre.getLast? with
  | none =>
      have hpre : pre = [] := List.getLast?_eq_none_iff.1 hp
      subst hpre
      have h1 : ({ linksOf ([] ++ r :: t) with first_req := t.head? } : ReqList).next r
          = t.head? := hmid
      dsimp only
      rw [h1]
      cases t with
      | nil =>
          refine ReqList.ext_fields rfl rfl (fun k => ?_)
          show nextOf [r] k = nextOf [] k
          rw [nextOf_cons]
          simp [nextOf]
      | cons b t =>
          refine ReqList.ext_fields rfl ?_ (fun k => ?_)
          · show (r :: b :: t).getLast? = (b :: t).getLast?
            rw [List.getLast?_cons_cons]
          · exact nextOf_tail r (b :: t) hn k
  | some pr =>
      have hprm : pr ∈ pre := List.mem_of_getLast?_eq_some hp
      have hne : r ≠ pr := fun hc => hrpre (hc ▸ hprm)
      have hpne : pre ≠ [] := fun hc => by rw [hc] at hprm; cases hprm
      have h1 : ((linksOf (pre ++ r :: t)).setNext pr t.head?).next r = t.head? := by
        show (if r = pr then _ else (linksOf (pre ++ r :: t)).next r) = _
        rw [if_neg hne, hmid]
      dsimp only
      rw [h1]
      have hfirst : (pre ++ r :: t).head? = (pre ++ t).head? := by
        cases pre with
        | nil => exact absurd rfl hpne
        | cons a p => rfl
      have hnext := fun k => nextOf_remove pre r t hn k
      cases t with
      | nil =>
          simp only [List.head?_nil]
          refine ReqList.ext_fields hfirst ?_ (fun k => ?_)
          · show some pr = (pre ++ []).getLast?
            rw [List.append_nil, hp]
          · show (if k = pr then none else nextOf (pre ++ [r]) k) = nextOf (pre ++ []) k
            rw [hnext k, hp]
            by_cases hkr : k = r
            · rw [if_pos hkr, if_neg (by rw [hkr]; exact hne), hkr]
              exact nextOf_last _ hn r (by simp)
            · rw [if_neg hkr]
              by_cases hkp : k = pr
              · rw [if_pos hkp, if_pos (by rw [hkp])]
                rfl
              · rw [if_neg hkp, if_neg (fun hc => hkp (Option.some.inj hc).symm)]
      | cons b t =>
          simp only [List.head?_cons]
          refine ReqList.ext_fields hfirst ?_ (fun k => ?_)
          · show (pre ++ r :: b :: t).getLast? = (pre ++ b :: t).getLast?
            rw [List.getLast?_append_cons, List.getLast?_append_cons, List.getLast?_cons_cons]
          · show (if k = r then none else if k = pr then some b
              else nextOf (pre ++ r :: b :: t) k) = nextOf (pre ++ b :: t) k
            rw [hnext k, hp]
            by_cases hkr : k = r
            · rw [if_pos hkr, if_pos hkr]
            · rw [if_neg hkr, if_neg hkr]
              by_cases hkp : k = pr
              · rw [if_pos hkp, if_pos (by rw [hkp])]
                rfl
              · rw [if_neg hkp, if_neg (fun hc => hkp (Option.some.inj hc).symm)]

/-- The loop that unlinks a request, started anywhere in the list with the
requests before it passed over: it ends, with the first hit unlinked. -/
theorem unlink_links (hit : Nat → Bool) : ∀ (suf pre : List Nat) (fuel : Nat),
    (pre ++ suf).Nodup → (∀ k ∈ pre, hit k = false) → suf.length < fuel →
    (linksOf (pre ++ suf)).unlink hit fuel pre.getLast? suf.head?
      = some (suf.find? hit, linksOf (pre ++ suf.eraseP hit)) := by
  intro suf
  induction suf with
  | nil =>
      intro pre fuel _ _ hf
      cases fuel with
      | zero => simp at hf
      | succ f => rfl
  | cons r t ih =>
      intro pre fuel hn hpre hf
      cases fuel with
      | zero => simp at hf
      | succ f =>
          show (if hit r = true then _ else
            (linksOf (pre ++ r :: t)).unlink hit f (some r) ((linksOf (pre ++ r :: t)).next r))
              = _
          by_cases hh : hit r = true
          · rw [if_pos hh]
            have hfind : (r :: t).find? hit = some r := by simp [List.find?, hh]
            have herase : (r :: t).eraseP hit = t := by simp [List.eraseP, hh]
            rw [hfind, herase]
            dsimp only
            rw [unlink_hit pre r t hn]
          · rw [if_neg hh]
            have hh2 : hit r = false := by simpa using hh
            have hfind : (r :: t).find? hit = t.find? hit := by simp [List.find?, hh2]
            have herase : (r :: t).eraseP hit = r :: t.eraseP hit := by
              simp [List.eraseP, hh2]
            have hmid : (linksOf (pre ++ r :: t)).next r = t.head? := nextOf_mid pre r t hn
            have hassoc : pre ++ r :: t = (pre ++ [r]) ++ t := by simp
            have := ih (pre ++ [r]) f (by rw [← hassoc]; exact hn)
              (fun k hk => by
                rcases List.mem_append.1 hk with h1 | h1
                · exact hpre k h1
                · rw [List.mem_singleton.1 h1]; exact hh2)
              (by simpa using hf)
            rw [hfind, herase, hmid, hassoc]
            rw [List.getLast?_append_cons, List.getLast?_singleton] at this
            rw [this]
            simp

/-- The loop of `grilio_queue_free` ends and leaves no link between the
requests of the list. -/
theorem free_links : ∀ (l : List Nat) (fuel : Nat) (p : ReqList), l.Nodup →
    (∀ k ∈ l, p.next k = nextOf l k) → l.length < fuel →
    ∃ p', grilio_queue_free_list fuel l.head? p = some p' ∧
      p'.first_req = p.first_req ∧ p'.last_req = p.last_req ∧
      ∀ k, p'.next k = if k ∈ l then none else p.next k := by
  intro l
  induction l with
  | nil =>
      intro fuel p _ _ hf
      cases fuel with
      | zero => simp at hf
      | succ f => exact ⟨p, rfl, rfl, rfl, fun k => by simp⟩
  | cons a l ih =>
      intro fuel p hn hp hf
      have hnd := List.nodup_cons.1 hn
      cases fuel with
      | zero => simp at hf
      | succ f =>
          have h1 : p.next a = l.head? := by
            rw [hp a (List.mem_cons_self _ _), nextOf_cons, if_pos rfl]
          obtain ⟨p', e1, e2, e3, e4⟩ := ih f (p.setNext a none) hnd.2 (fun k hk => by
            have hka : k ≠ a := fun hc => hnd.1 (hc ▸ hk)
            show (if k = a then none else p.next k) = _
            rw [if_neg hka, hp k (List.mem_cons_of_mem _ hk), nextOf_cons, if_neg hka])
            (by simpa using hf)
          refine ⟨p', ?_, e2, e3, fun k => ?_⟩
          · show grilio_queue_free_list f (p.next a) (p.setNext a none) = _
            rw [h1]; exact e1
          · rw [e4]
            by_cases hk : k ∈ l
            · rw [if_pos hk, if_pos (List.mem_cons_of_mem _ hk)]
            · rw [if_neg hk]
              show (if k = a then none else p.next k) = _
              by_cases hka : k = a
              · rw [if_pos hka, if_pos (by rw [hka]; exact List.mem_cons_self _ _)]
              · rw [if_neg hka, if_neg (by
                  intro hc
                  rcases List.mem_cons.1 hc with h2 | h2
                  · exact hka h2
                  · exact hk h2)]

theorem eraseP_of_find (hit : Nat → Bool) (l : List Nat) (r : Nat)
    (h : l.find? hit = some r) : l.eraseP hit = l.erase r := by
  induction l with
  | nil => cases h
  | cons a l ih =>
      by_cases ha : hit a = true
      · have : r = a := by
          simp [List.find?, ha] at h
          exact h.symm
        subst this
        simp [List.eraseP, ha]
      · have ha2 : hit a = false := by simpa using ha
        have h2 : l.find? hit = some r := by
          simpa [List.find?, ha2] using h
        have hra : a ≠ r := by
          intro hc
          have := List.find?_some h2
          rw [← hc] at this
          exact ha this
        rw [List.eraseP_cons_of_neg ha, ih h2, List.erase_cons_tail (by simpa using hra)]

theorem dequeue_request_fifo (x : World) :
    (grilio_channel_dequeue_request x).1 = x.chan.fifo.head? ∧
    (grilio_channel_dequeue_request x).2.chan.fifo = x.chan.fifo.tail := by
  unfold grilio_channel_dequeue_request
  cases hf : x.chan.fifo with
  | nil => exact ⟨rfl, hf⟩
  | cons r l => exact ⟨rfl, rfl⟩

/-- C33: in every state the channel can reach from its creation, if there is
a request in transmission (`send_req`), it is not in the send queue, it is
SENDING or CANCELLED, and `send_pos` is at most the length of its buffer
(header and payload); every request in the send queue is QUEUED. The send
queue is the list `fifo`; the linked list that stands for it has `last_req`
at the last request reached from `first_req` (the requests reached are those
of `fifo`, in order, and no more), both are null when the queue is empty,
and the list code of the channel keeps it so: linking a NEW request in
`grilio_channel_queue_request`, taking the first one in
`grilio_channel_dequeue_request` and in the loop of
`grilio_channel_cancel_all`, looking for an id and unlinking the request in
`grilio_channel_cancel_request` (which ends within as many rounds as there
are requests, and one more) give the linked list of the list that the
channel goes on with. -/
theorem sending_request_state (e : Endian) (sub : Option (List Nat)) (writes : List IoWrite)
    (now : Int) (w0 : World) (hs : World.start sub writes now = some w0) (ops : List Op) :
    (∀ s, (run e w0 ops).chan.send_req = some s →
      s ∉ (run e w0 ops).chan.fifo ∧
      (((run e w0 ops).req s).status = .SENDING ∨
        ((run e w0 ops).req s).status = .CANCELLED) ∧
      (run e w0 ops).chan.send_pos ≤ ((run e w0 ops).req s).bytes.length) ∧
    (∀ h ∈ (run e w0 ops).chan.fifo, ((run e w0 ops).req h).status = .QUEUED) ∧
    ((linksOf (run e w0 ops).chan.fifo).walk ((run e w0 ops).chan.fifo.length + 1)
        (linksOf (run e w0 ops).chan.fifo).first_req = (run e w0 ops).chan.fifo ∧
      (linksOf (run e w0 ops).chan.fifo).last_req
        = ((linksOf (run e w0 ops).chan.fifo).walk ((run e w0 ops).chan.fifo.length + 1)
            (linksOf (run e w0 ops).chan.fifo).first_req).getLast? ∧
      ((run e w0 ops).chan.fifo = [] →
        (linksOf (run e w0 ops).chan.fifo).first_req = none ∧
        (linksOf (run e w0 ops).chan.fifo).last_req = none)) ∧
    (∀ h, ((run e w0 ops).req h).status = .NEW →
      grilio_channel_queue_request_list (linksOf (run e w0 ops).chan.fifo) h
        = linksOf (grilio_channel_queue_request (run e w0 ops) h).chan.fifo) ∧
    grilio_channel_dequeue_request_list (linksOf (run e w0 ops).chan.fifo)
      = ((grilio_channel_dequeue_request (run e w0 ops)).1,
        linksOf (grilio_channel_dequeue_request (run e w0 ops)).2.chan.fifo) ∧
    (linksOf (run e w0 ops).chan.fifo).dropFirst = linksOf (run e w0 ops).chan.fifo.tail ∧
    ∀ id, grilio_channel_cancel_request_list (linksOf (run e w0 ops).chan.fifo)
        (fun h => ((run e w0 ops).req h).id) id ((run e w0 ops).chan.fifo.length + 1)
      = some ((run e w0 ops).chan.fifo.find? (fun h => ((run e w0 ops).req h).id = id),
        linksOf (match (run e w0 ops).chan.fifo.find?
            (fun h => ((run e w0 ops).req h).id = id) with
          | some req => (run e w0 ops).chan.fifo.erase req
          | none => (run e w0 ops).chan.fifo)) := by
  have hc0 := start_core sub writes now w0 hs
  have hl := run_links e ops w0 hc0.1 (start_links sub writes now w0 hs)
  have hc := run_core e ops w0 hc0.1
  revert hl hc
  generalize run e w0 ops = x
  intro hl hc
  have hw := walk_links (linksOf x.chan.fifo) x.chan.fifo hc.fifo (fun _ _ => rfl)
    (x.chan.fifo.length + 1) (Nat.le_succ _)
  have hfirst : (linksOf x.chan.fifo).first_req = x.chan.fifo.head? := rfl
  refine ⟨fun s hs2 => ⟨hc.send s hs2, hl.sending s hs2 (fun h => h)⟩, hl.queued,
    ⟨?_, ?_, ?_⟩, ?_, ?_, dropFirst_links _ hc.fifo, ?_⟩
  · rw [hfirst]; exact hw
  · rw [hfirst, hw]; rfl
  · intro hf
    rw [hf]
    exact ⟨rfl, rfl⟩
  · intro h hn
    have hnm : h ∉ x.chan.fifo := by
      intro hm
      have := hl.queued h hm
      rw [hn] at this
      cases this
    exact append_links x.chan.fifo hc.fifo h hnm
  · rw [(dequeue_request_fifo x).1, (dequeue_request_fifo x).2]
    exact dequeue_links _ hc.fifo
  · intro id
    have := unlink_links (fun h => decide ((x.req h).id = id)) x.chan.fifo [] _
      (by simpa using hc.fifo) (fun k hk => by cases hk) (Nat.lt_succ_self _)
    unfold grilio_channel_cancel_request_list
    rw [hfirst]
    refine this.trans ?_
    congr 2
    cases hf : x.chan.fifo.find? (fun h => decide ((x.req h).id = id)) with
    | none =>
        show linksOf ([] ++ x.chan.fifo.eraseP _) = linksOf x.chan.fifo
        rw [List.nil_append, List.eraseP_of_forall_not]
        intro a ha
        have := List.find?_eq_none.1 hf a ha
        simpa using this
    | some r =>
        show linksOf ([] ++ x.chan.fifo.eraseP _) = linksOf (x.chan.fifo.erase r)
        rw [List.nil_append, eraseP_of_find _ _ r hf]

/-- A channel with a request of which the socket has taken five bytes: it is
the request in transmission. -/
theorem sending_request_state_witness :
    World.start none [.written 5] 0 = some (World.init sampleChan [.written 5] 0) ∧
    (run .little (World.init sampleChan [.written 5] 0)
      [.request_new [7, 8, 9] (-1), .send (some 0) 10 true false,
        .readable { inbox := packet sampleHandshake, reads := [.avail 100, .avail 100] }]
      ).chan.send_req = some 0 ∧
    ∀ s, (run .little (World.init sampleChan [.written 5] 0)
      [.request_new [7, 8, 9] (-1), .send (some 0) 10 true false,
        .readable { inbox := packet sampleHandshake, reads := [.avail 100, .avail 100] }]
      ).chan.send_req = some s →
      s ∉ (run .little (World.init sampleChan [.written 5] 0)
        [.request_new [7, 8, 9] (-1), .send (some 0) 10 true false,
          .readable { inbox := packet sampleHandshake, reads := [.avail 100, .avail 100] }]
        ).chan.fifo ∧
      (((run .little (World.init sampleChan [.written 5] 0)
        [.request_new [7, 8, 9] (-1), .send (some 0) 10 true false,
          .readable { inbox := packet sampleHandshake, reads := [.avail 100, .avail 100] }]
        ).req s).status = .SENDING ∨
        ((run .little (World.init sampleChan [.written 5] 0)
        [.request_new [7, 8, 9] (-1), .send (some 0) 10 true false,
          .readable { inbox := packet sampleHandshake, reads := [.avail 100, .avail 100] }]
        ).req s).status = .CANCELLED) ∧
      (run .little (World.init sampleChan [.written 5] 0)
        [.request_new [7, 8, 9] (-1), .send (some 0) 10 true false,
          .readable { inbox := packet sampleHandshake, reads := [.avail 100, .avail 100] }]
        ).chan.send_pos ≤ ((run .little (World.init sampleChan [.written 5] 0)
        [.request_new [7, 8, 9] (-1), .send (some 0) 10 true false,
          .readable { inbox := packet sampleHandshake, reads := [.avail 100, .avail 100] }]
        ).req s).bytes.length :=
  ⟨rfl, by decide, (sending_request_state .little none [.written 5] 0 _ rfl _).1⟩

/-! ## The bounds of the receive path -/

theorem handle_packet_checked_eq (e : Endian) (w : World)
    (h : w.chan.read_len ≤ w.chan.read_buf.length) :
    grilio_channel_handle_packet_checked e w = some (grilio_channel_handle_packet e w) := by
  unfold grilio_channel_handle_packet_checked grilio_channel_handle_packet body_word
  dsimp only
  by_cases h8 : w.chan.read_len ≥ 8
  · rw [if_pos h8, if_pos h8, if_pos ⟨by omega, h⟩]
    dsimp only
    by_cases h0 : loadU32 e w.chan.read_buf 0 ≠ 0
    · rw [if_pos h0, if_pos h0, if_pos ⟨by omega, h⟩]
    · rw [if_neg h0, if_neg h0]
      by_cases h12 : w.chan.read_len ≥ 12
      · rw [if_pos h12, if_pos h12, if_pos ⟨by omega, h⟩, if_pos ⟨by omega, h⟩]
        dsimp only
        generalize g_hash_table_lookup w.chan.resp_table (loadU32 e w.chan.read_buf 4) = o
        cases o <;> rfl
      · rw [if_neg h12, if_neg h12]
  · rw [if_neg h8, if_neg h8]

theorem read_body_checked_eq (e : Endian) (w : World) (inp : Input) (hb : BodyOk w)
    (hbuf : w.chan.read_buf.length = w.chan.read_buf_alloc) :
    grilio_channel_read_body_checked e w inp = some (grilio_channel_read_body e w inp) := by
  unfold grilio_channel_read_body_checked grilio_channel_read_body
  rw [if_pos hb]
  by_cases hp : w.chan.read_buf_pos < w.chan.read_len
  · rw [if_pos hp, if_pos hp]
    rcases hrc : grilio_channel_read_chars w inp (w.chan.read_len - w.chan.read_buf_pos)
      with ⟨r, w1, inp1⟩
    cases r with
    | none => rfl
    | some bytes =>
        obtain ⟨e1, e2⟩ := read_chars_some _ _ _ _ _ _ hrc
        subst e1
        dsimp only
        have hfit : w1.chan.read_buf_pos + bytes.length ≤ w1.chan.read_buf_alloc := by
          have := hb.2.2
          omega
        rw [if_pos hfit]
        by_cases hm : w1.chan.read_buf_pos + bytes.length < w1.chan.read_len
        · rw [if_pos hm, if_pos hm]
        · rw [if_neg hm, if_neg hm]
          have hb2 : BodyOk { w1 with chan := { w1.chan with
              read_buf := poke w1.chan.read_buf w1.chan.read_buf_pos bytes
              read_buf_pos := w1.chan.read_buf_pos + bytes.length } } := by
            refine ⟨hb.1, ?_, hb.2.2⟩
            show w1.chan.read_buf_pos + bytes.length ≤ w1.chan.read_len
            omega
          rw [if_pos hb2, handle_packet_checked_eq]
          · rfl
          · show w1.chan.read_len ≤ (poke _ _ _).length
            rw [poke_length, hbuf]
            exact hb.2.2
  · rw [if_neg hp, if_neg hp, handle_packet_checked_eq]
    · rfl
    · show w.chan.read_len ≤ w.chan.read_buf.length
      rw [hbuf]; exact hb.2.2

theorem read_checked_eq (e : Endian) (w : World) (inp : Input) (hr : ReadOk w)
    (hw : w.chan.read_watch_id = true) :
    grilio_channel_read_checked e w inp = some (grilio_channel_read e w inp) := by
  unfold grilio_channel_read_checked grilio_channel_read
  rw [if_pos hr.1]
  by_cases hp : w.chan.read_len_pos < 4
  · rw [if_pos hp, if_pos hp]
    rcases hrc : grilio_channel_read_chars w inp (4 - w.chan.read_len_pos)
      with ⟨r, w1, inp1⟩
    cases r with
    | none => rfl
    | some bytes =>
        obtain ⟨e1, e2⟩ := read_chars_some _ _ _ _ _ _ hrc
        subst e1
        dsimp only
        have hfit : w1.chan.read_len_pos + bytes.length ≤ 4 := by omega
        rw [if_pos hfit]
        by_cases hm : w1.chan.read_len_pos + bytes.length < 4
        · rw [if_pos hm, if_pos hm]
        · rw [if_neg hm, if_neg hm]
          by_cases hmax : loadU32 .big (poke w1.chan.read_len_buf w1.chan.read_len_pos bytes) 0
              ≤ GRILIO_MAX_PACKET_LEN
          · rw [if_pos hmax, if_pos hmax]
            apply read_body_checked_eq
            · split
              · exact ⟨hmax, Nat.zero_le _, Nat.le_refl _⟩
              · rename_i ha
                exact ⟨hmax, Nat.zero_le _, Nat.le_of_not_lt ha⟩
            · split
              · show (List.replicate _ 0).length = _
                rw [List.length_replicate]
              · exact hr.2.2.1
          · rw [if_neg hmax, if_neg hmax]
  · rw [if_neg hp, if_neg hp]
    have h4 : w.chan.read_len_pos = 4 := by
      have := hr.1
      omega
    exact read_body_checked_eq e w inp (hr.2.2.2 hw h4) hr.2.2.1

/-- C40: the bounds of the receive buffers. A read of the socket gives at
most the number of bytes asked for (`grilio_channel_read_chars`). In every
state the channel can reach from its creation, `read_len_pos` is at most
four, and while the read watch exists and the length has been read, so that
the next bytes read are body bytes, `read_len` is at most 32768,
`read_buf_pos` is at most `read_len`, and `read_len` is at most
`read_buf_alloc`. A call of `grilio_channel_read` from such a state passes
every check on the way: the bytes read fit where they are put, and whenever
body bytes are read or a packet is dispatched the three bounds hold. For
every packet that lies within its buffer, `grilio_channel_handle_packet`
reads the words at the offsets 0 and 4 only when `read_len` is at least 8,
and the word at offset 8 only when it is at least 12: no word is read
outside the body. -/
theorem read_buffer_bounds (e : Endian) (sub : Option (List Nat)) (writes : List IoWrite)
    (now : Int) (w0 : World) (hs : World.start sub writes now = some w0) (ops : List Op) :
    (run e w0 ops).chan.read_len_pos ≤ 4 ∧
    ((run e w0 ops).chan.read_watch_id = true → (run e w0 ops).chan.read_len_pos = 4 →
      (run e w0 ops).chan.read_len ≤ 32768 ∧
      (run e w0 ops).chan.read_buf_pos ≤ (run e w0 ops).chan.read_len ∧
      (run e w0 ops).chan.read_len ≤ (run e w0 ops).chan.read_buf_alloc) ∧
    (∀ inp, (run e w0 ops).chan.read_watch_id = true →
      grilio_channel_read_checked e (run e w0 ops) inp
        = some (grilio_channel_read e (run e w0 ops) inp)) ∧
    (∀ w : World, w.chan.read_len ≤ w.chan.read_buf.length →
      grilio_channel_handle_packet_checked e w = some (grilio_channel_handle_packet e w)) := by
  have hc0 := start_core sub writes now w0 hs
  have hl := run_links e ops w0 hc0.1 (start_links sub writes now w0 hs)
  exact ⟨hl.read.1, hl.read.2.2.2, fun inp hw => read_checked_eq e _ inp hl.read hw,
    fun w h => handle_packet_checked_eq e w h⟩

/-- A new channel that has received the length of a packet and the first
two bytes of its body. -/
theorem read_buffer_bounds_witness :
    World.start none [] 0 = some (World.init sampleChan [] 0) ∧
    (run .little (World.init sampleChan [] 0)
      [.readable { inbox := (packet sampleHandshake).take 6, reads := [.avail 100, .avail 100] }]
      ).chan.read_len_pos = 4 ∧
    (run .little (World.init sampleChan [] 0)
      [.readable { inbox := (packet sampleHandshake).take 6, reads := [.avail 100, .avail 100] }]
      ).chan.read_buf_pos = 2 ∧
    (run .little (World.init sampleChan [] 0)
      [.readable { inbox := (packet sampleHandshake).take 6, reads := [.avail 100, .avail 100] }]
      ).chan.read_len ≤ (run .little (World.init sampleChan [] 0)
      [.readable { inbox := (packet sampleHandshake).take 6, reads := [.avail 100, .avail 100] }]
      ).chan.read_buf_alloc :=
  ⟨rfl, by decide, by decide,
    ((read_buffer_bounds .little none [] 0 _ rfl _).2.1 (by decide) (by decide)).2.2⟩

/-! ## Queue membership -/

theorem hash_insert_connected (x : World) (key value : Nat) :
    (g_hash_table_insert x key value).chan.connected = x.chan.connected := by
  unfold g_hash_table_insert
  split
  · simp
  · rfl

theorem submit_connected (x : World) (h id code : Nat) (response destroy : Bool) :
    (grilio_channel_queue_request (grilio_request_ref
      (if response = true then
        g_hash_table_insert (grilio_request_ref
          (x.setReq h { x.req h with
            id := id, code := code, response := response, destroy := destroy }) h)
          ((x.setReq h { x.req h with
            id := id, code := code, response := response, destroy := destroy }).req h).id h
      else x.setReq h { x.req h with
        id := id, code := code, response := response, destroy := destroy }) h)
          h).chan.connected = x.chan.connected := by
  unfold grilio_channel_queue_request
  dsimp only
  cases response
  · rfl
  · show (g_hash_table_insert _ _ _).chan.connected = _
    rw [hash_insert_connected]
    rfl

/-- A submission of a request made on the spot, on a channel that is not
connected: the request waits at the end of the send queue. -/
theorem send_unconnected (e : Endian) (w : World) (code : Nat) (response : Bool)
    (hc : Core w) (hcon : w.chan.connected = false) :
    (step e w (.send none code response false)).chan.connected = false ∧
    (step e w (.send none code response false)).chan.send_req = w.chan.send_req ∧
    (step e w (.send none code response false)).chan.fifo = w.chan.fifo ++ [w.reqs.length] ∧
    (step e w (.send none code response false)).queues = w.queues ∧
    (∀ k, k < w.reqs.length →
      ((step e w (.send none code response false)).req k).id = (w.req k).id) ∧
    (step e w (.send none code response false)).chan.last_req_id
      = w.chan.last_req_id % 4294967295 + 1 ∧
    (∀ kv ∈ (step e w (.send none code response false)).chan.resp_table,
      (kv = (w.chan.last_req_id % 4294967295 + 1, w.reqs.length) ∧ response = true) ∨
        kv ∈ w.chan.resp_table) ∧
    (response = true → (w.chan.last_req_id % 4294967295 + 1, w.reqs.length)
      ∈ (step e w (.send none code response false)).chan.resp_table) := by
  have hs : step e w (.send none code response false)
      = (grilio_channel_send_request_full e w true none code response false).2 := rfl
  rw [hs, ← next_id_closed _ hc.last]
  have hid := next_id_pos w.chan.last_req_id
  have hid2 := next_id_lt w.chan.last_req_id
  have h1 := G_set_last _ hid2 (good_refl hc)
  obtain ⟨id, hidv⟩ : ∃ id, id = (if (w.chan.last_req_id + 1) % 4294967296 = 0
      then ((w.chan.last_req_id + 1) % 4294967296 + 1) % 4294967296
      else (w.chan.last_req_id + 1) % 4294967296) := ⟨_, rfl⟩
  have hw : (grilio_channel_send_request_full e w true none code response false).2
      = grilio_request_unref (grilio_channel_schedule_write e (grilio_channel_queue_request (grilio_request_ref
      (if response = true then
        g_hash_table_insert (grilio_request_ref
          ((World.alloc { w with chan := { w.chan with last_req_id := id } }
            grilio_request_new).2.setReq (World.alloc
              { w with chan := { w.chan with last_req_id := id } } grilio_request_new).1
            { (World.alloc { w with chan := { w.chan with last_req_id := id } }
                grilio_request_new).2.req (World.alloc
                  { w with chan := { w.chan with last_req_id := id } } grilio_request_new).1 with
              id := id, code := code % 4294967296, response := response, destroy := false })
          (World.alloc { w with chan := { w.chan with last_req_id := id } }
            grilio_request_new).1)
          (((World.alloc { w with chan := { w.chan with last_req_id := id } }
            grilio_request_new).2.setReq (World.alloc
              { w with chan := { w.chan with last_req_id := id } } grilio_request_new).1
            { (World.alloc { w with chan := { w.chan with last_req_id := id } }
                grilio_request_new).2.req (World.alloc
                  { w with chan := { w.chan with last_req_id := id } } grilio_request_new).1 with
              id := id, code := code % 4294967296, response := response,
              destroy := false }).req (World.alloc
                { w with chan := { w.chan with last_req_id := id } } grilio_request_new).1).id
          (World.alloc { w with chan := { w.chan with last_req_id := id } }
            grilio_request_new).1
      else (World.alloc { w with chan := { w.chan with last_req_id := id } }
            grilio_request_new).2.setReq (World.alloc
              { w with chan := { w.chan with last_req_id := id } } grilio_request_new).1
            { (World.alloc { w with chan := { w.chan with last_req_id := id } }
                grilio_request_new).2.req (World.alloc
                  { w with chan := { w.chan with last_req_id := id } } grilio_request_new).1 with
              id := id, code := code % 4294967296, response := response, destroy := false })
        (World.alloc { w with chan := { w.chan with last_req_id := id } }
          grilio_request_new).1)
      (World.alloc { w with chan := { w.chan with last_req_id := id } }
        grilio_request_new).1))
        (World.alloc { w with chan := { w.chan with last_req_id := id } }
          grilio_request_new).1 := by
    rw [hidv]
    unfold grilio_channel_send_request_full
    rw [if_pos ⟨rfl, Or.inl rfl⟩]
  rw [hw, ← hidv]
  rw [← hidv] at hid hid2 h1
  clear hw hidv hs
  have h2 := G_alloc grilio_request_new h1 ⟨rfl, rfl, rfl⟩
  have hlt : (World.alloc { w with chan := { w.chan with last_req_id := id } }
      grilio_request_new).1 < (World.alloc
      { w with chan := { w.chan with last_req_id := id } } grilio_request_new).2.reqs.length := by
    simp [World.alloc]
  have hnew : ((World.alloc { w with chan := { w.chan with last_req_id := id } }
      grilio_request_new).2.req (World.alloc
      { w with chan := { w.chan with last_req_id := id } } grilio_request_new).1).status
        = .NEW := by
    rw [alloc_req]; rfl
  have hg := (G_submit _ id (code % 4294967296) response false h2 hlt hnew hid hid2).1
  have hf := submit_fields _ _ id (code % 4294967296) response false hlt _ rfl
  have hcn := submit_connected (World.alloc { w with chan := { w.chan with last_req_id := id } }
      grilio_request_new).2 (World.alloc { w with chan := { w.chan with last_req_id := id } }
      grilio_request_new).1 id (code % 4294967296) response false
  revert hg hf hcn
  generalize grilio_channel_queue_request (grilio_request_ref
      (if response = true then
        g_hash_table_insert (grilio_request_ref
          ((World.alloc { w with chan := { w.chan with last_req_id := id } }
            grilio_request_new).2.setReq (World.alloc
              { w with chan := { w.chan with last_req_id := id } } grilio_request_new).1
            { (World.alloc { w with chan := { w.chan with last_req_id := id } }
                grilio_request_new).2.req (World.alloc
                  { w with chan := { w.chan with last_req_id := id } } grilio_request_new).1 with
              id := id, code := code % 4294967296, response := response, destroy := false })
          (World.alloc { w with chan := { w.chan with last_req_id := id } }
            grilio_request_new).1)
          (((World.alloc { w with chan := { w.chan with last_req_id := id } }
            grilio_request_new).2.setReq (World.alloc
              { w with chan := { w.chan with last_req_id := id } } grilio_request_new).1
            { (World.alloc { w with chan := { w.chan with last_req_id := id } }
                grilio_request_new).2.req (World.alloc
                  { w with chan := { w.chan with last_req_id := id } } grilio_request_new).1 with
              id := id, code := code % 4294967296, response := response,
              destroy := false }).req (World.alloc
                { w with chan := { w.chan with last_req_id := id } } grilio_request_new).1).id
          (World.alloc { w with chan := { w.chan with last_req_id := id } }
            grilio_request_new).1
      else (World.alloc { w with chan := { w.chan with last_req_id := id } }
            grilio_request_new).2.setReq (World.alloc
              { w with chan := { w.chan with last_req_id := id } } grilio_request_new).1
            { (World.alloc { w with chan := { w.chan with last_req_id := id } }
                grilio_request_new).2.req (World.alloc
                  { w with chan := { w.chan with last_req_id := id } } grilio_request_new).1 with
              id := id, code := code % 4294967296, response := response, destroy := false })
        (World.alloc { w with chan := { w.chan with last_req_id := id } }
          grilio_request_new).1)
      (World.alloc { w with chan := { w.chan with last_req_id := id } }
        grilio_request_new).1 = Y
  intro hg hf hcn
  obtain ⟨f1, f2, f3, f4, f5, f6, f7, f8, f9, f10, f11⟩ := hf
  have hcY : Y.chan.connected = false := by rw [hcn]; exact hcon
  have hsw : grilio_channel_schedule_write e Y = Y := by
    unfold grilio_channel_schedule_write
    rw [if_neg (by rw [hcY]; simp)]
  rw [hsw]
  refine ⟨by rw [unref_chan]; exact hcY, by rw [unref_chan, f5]; rfl,
    by rw [unref_chan, f4]; rfl, by rw [unref_queues, f3]; rfl, fun k hk => ?_,
    by rw [unref_chan, hg.last], fun kv hm => ?_, fun hr => ?_⟩
  · have hne : k ≠ (World.alloc { w with chan := { w.chan with last_req_id := id } }
        grilio_request_new).1 := Nat.ne_of_lt hk
    rw [unref_id, (f1 k hne).2.1, alloc_req_eq, if_neg (Nat.ne_of_lt hk)]
    rfl
  · rw [unref_chan] at hm
    exact f9 kv hm
  · rw [unref_chan]
    exact f11 hr

theorem piled_length {L : Nat} {w : World} (h : Piled L w) : 0 < w.reqs.length := by
  by_contra hc
  have h0 := req_oob w 0 (Nat.le_of_not_lt hc)
  have h1 := h.2.2.2.2.2.1
  rw [h0] at h1
  cases h1

theorem pile_step (e : Endian) (w : World) (L : Nat) (h : Piled L w) (hlt : L < 4294967295) :
    Piled (L + 1) (step e w (.send none 10 false false)) := by
  obtain ⟨hc, hcon, hsend, hf, hq, hid, hL⟩ := h
  have hlen := piled_length ⟨hc, hcon, hsend, hf, hq, hid, hL⟩
  obtain ⟨s1, s2, s3, s4, s5, s6, _, _⟩ := send_unconnected e w 10 false hc hcon
  refine ⟨step_core e w _ hc, s1, by rw [s2, hsend], ?_, ?_, by rw [s5 0 hlen, hid], ?_⟩
  · rw [s3, List.mem_append, List.mem_singleton]
    rintro (h1 | h1)
    · exact hf h1
    · omega
  · rw [queue_of_eq s4]; exact hq
  · rw [s6, hL, Nat.mod_eq_of_lt hlt]

theorem pile_run (e : Endian) (n : Nat) : ∀ (w : World) (L : Nat), Piled L w →
    L + n ≤ 4294967295 →
    Piled (L + n) (run e w (List.replicate n (.send none 10 false false))) := by
  induction n with
  | zero => intro w L h _; exact h
  | succ n ih =>
      intro w L h hle
      have h1 := pile_step e w L h (by omega)
      have h2 := ih _ (L + 1) h1 (by omega)
      have he : L + 1 + n = L + (n + 1) := by omega
      rw [he] at h2
      exact h2

/-- The last submission of `sampleWrapOps` gets the id of the request 0
again and takes its place in the response table. -/
theorem pile_wrap (e : Endian) (w : World) (h : Piled 4294967295 w) :
    0 ∈ ((step e w (.send none 10 true false)).queue 0).reqs ∧
    (step e w (.send none 10 true false)).chan.send_req ≠ some 0 ∧
    0 ∉ (step e w (.send none 10 true false)).chan.fifo ∧
    ∀ kv ∈ (step e w (.send none 10 true false)).chan.resp_table, kv.2 ≠ 0 := by
  have hlen := piled_length h
  obtain ⟨hc, hcon, hsend, hf, hq, hid, hL⟩ := h
  obtain ⟨_, s2, s3, s4, s5, _, _, s8⟩ := send_unconnected e w 10 true hc hcon
  have hc1 := step_core e w (.send none 10 true false) hc
  have hkey : w.chan.last_req_id % 4294967295 + 1 = 1 := by rw [hL]
  rw [hkey] at s8
  refine ⟨by rw [queue_of_eq s4]; exact hq, by rw [s2, hsend]; simp, ?_, fun kv hm h0 => ?_⟩
  · rw [s3, List.mem_append, List.mem_singleton]
    rintro (h1 | h1)
    · exact hf h1
    · omega
  · have h1 := hc1.table.2 kv hm
    rw [h0, s5 0 hlen, hid] at h1
    have h2 := table_key_unique hc1.table.1 hm (s8 rfl) h1.symm
    rw [h2] at h0
    have h3 : w.reqs.length = 0 := h0
    omega

theorem find_self (l : List Nat) (h : Nat) (hm : h ∈ l) :
    l.find? (fun ptr => decide (ptr = h)) = some h := by
  induction l with
  | nil => cases hm
  | cons a l ih =>
      by_cases ha : a = h
      · simp [List.find?, ha]
      · have hl : h ∈ l := by
          rcases List.mem_cons.1 hm with h1 | h1
          · exact absurd h1.symm ha
          · exact h1
        simp only [List.find?, ha, decide_False]
        exact ih hl

/-- C39: in every state the channel can reach from its creation, a request
points back to the queue `q` exactly when it is a member of `q`, and no
request occurs twice in a queue. The members of a queue are the list `reqs`;
the linked list that stands for it has `last_req` at the last request reached
from `first_req` (the requests reached are the members, in order, and no
more), and the list code of the queue keeps it so: `grilio_queue_add` of a
request that is in no queue, `grilio_queue_remove` of a member (the loop ends
within as many rounds as there are members, and one more), a round of the
loop of `grilio_queue_cancel_all`; the loop of `grilio_queue_free` ends and
leaves no link. As long as fewer than 2^32 requests have been submitted to
the channel, every member of every queue is pending: it is the request in
transmission, in the send queue, or in the response table. -/
theorem queue_membership (e : Endian) (sub : Option (List Nat)) (writes : List IoWrite)
    (now : Int) (w0 : World) (hs : World.start sub writes now = some w0) (ops : List Op) :
    (∀ h q, ((run e w0 ops).req h).queue = some q ↔ h ∈ ((run e w0 ops).queue q).reqs) ∧
    (∀ q, ((run e w0 ops).queue q).reqs.Nodup) ∧
    (∀ q, (linksOf ((run e w0 ops).queue q).reqs).walk
          (((run e w0 ops).queue q).reqs.length + 1)
          (linksOf ((run e w0 ops).queue q).reqs).first_req = ((run e w0 ops).queue q).reqs ∧
        (linksOf ((run e w0 ops).queue q).reqs).last_req
          = ((linksOf ((run e w0 ops).queue q).reqs).walk
              (((run e w0 ops).queue q).reqs.length + 1)
              (linksOf ((run e w0 ops).queue q).reqs).first_req).getLast?) ∧
    (∀ q h, q < (run e w0 ops).queues.length → h < (run e w0 ops).reqs.length →
      ((run e w0 ops).req h).queue = none →
      grilio_queue_add_list (linksOf ((run e w0 ops).queue q).reqs) h
        = linksOf ((grilio_queue_add (run e w0 ops) q h).queue q).reqs) ∧
    (∀ q h, ((run e w0 ops).req h).queue = some q →
      grilio_queue_remove_list (linksOf ((run e w0 ops).queue q).reqs) h
          (((run e w0 ops).queue q).reqs.length + 1)
        = some (some h, linksOf ((grilio_queue_remove (run e w0 ops) h).queue q).reqs)) ∧
    (∀ q, (linksOf ((run e w0 ops).queue q).reqs).dropFirst
      = linksOf ((run e w0 ops).queue q).reqs.tail) ∧
    (∀ q, ∃ p, grilio_queue_free_list (((run e w0 ops).queue q).reqs.length + 1)
        (linksOf ((run e w0 ops).queue q).reqs).first_req
        (linksOf ((run e w0 ops).queue q).reqs) = some p ∧ ∀ k, p.next k = none) ∧
    ((results e w0 ops).length < 4294967296 →
      ∀ q, ∀ h ∈ ((run e w0 ops).queue q).reqs,
        (run e w0 ops).chan.send_req = some h ∨ h ∈ (run e w0 ops).chan.fifo ∨
          ∃ kv ∈ (run e w0 ops).chan.resp_table, kv.2 = h) := by
  have hc0 := start_core sub writes now w0 hs
  have hl0 := start_links sub writes now w0 hs
  have hu0 := start_unique sub writes now w0 hs
  have hl := run_links e ops w0 hc0.1 hl0
  have hun := run_unique e ops w0 hc0.1 hl0 (fun h => by rw [hu0.2 h]; exact Nat.zero_le _)
    (fun a b _ ha => absurd (hu0.2 a) ha)
  rw [hu0.1, Nat.zero_add] at hun
  revert hl hun
  generalize run e w0 ops = x
  intro hl hun
  have hnd := hl.linked.2.2
  refine ⟨fun h q => ⟨hl.linked.1 h q, hl.linked.2.1 h q⟩, hnd, fun q => ⟨?_, ?_⟩, ?_, ?_,
    fun q => dropFirst_links _ (hnd q), fun q => ?_, ?_⟩
  · exact walk_links (linksOf (x.queue q).reqs) (x.queue q).reqs (hnd q) (fun _ _ => rfl)
      ((x.queue q).reqs.length + 1) (Nat.le_succ _)
  · have hw := walk_links (linksOf (x.queue q).reqs) (x.queue q).reqs (hnd q) (fun _ _ => rfl)
      ((x.queue q).reqs.length + 1) (Nat.le_succ _)
    have hfirst : (linksOf (x.queue q).reqs).first_req = (x.queue q).reqs.head? := rfl
    rw [hfirst, hw]
    rfl
  · intro q h hq hlt hn
    have hnm : h ∉ (x.queue q).reqs := by
      intro hm
      have := hl.linked.2.1 h q hm
      rw [hn] at this
      cases this
    rw [queue_add_reqs x q h q hq, if_pos rfl]
    exact append_links (x.queue q).reqs (hnd q) h hnm
  · intro q h hq
    have hm := hl.linked.1 h q hq
    have := unlink_links (fun ptr => decide (ptr = h)) (x.queue q).reqs [] _
      (by simpa using hnd q) (fun k hk => by cases hk) (Nat.lt_succ_self _)
    unfold grilio_queue_remove_list
    have hfirst : (linksOf (x.queue q).reqs).first_req = (x.queue q).reqs.head? := rfl
    rw [hfirst]
    refine this.trans ?_
    have hfind := find_self (x.queue q).reqs h hm
    rw [hfind, queue_remove_reqs, if_pos hq, List.nil_append, eraseP_of_find _ _ h hfind]
  · obtain ⟨p, e1, _, _, e4⟩ := free_links (x.queue q).reqs ((x.queue q).reqs.length + 1)
      (linksOf (x.queue q).reqs) (hnd q) (fun _ _ => rfl) (Nat.lt_succ_self _)
    refine ⟨p, e1, fun k => ?_⟩
    rw [e4]
    split
    · rfl
    · rename_i hk
      exact nextOf_not_mem _ k hk
  · intro hn q h hm
    have hu := (hun hn).2.1
    rcases hl.members hu q h hm (fun h0 => h0) with ⟨kv, h1, h2⟩ | ⟨_, h1 | h1⟩
    · exact Or.inr (Or.inr ⟨kv, h1, h2⟩)
    · exact Or.inr (Or.inl h1)
    · exact Or.inl h1

/-- A request submitted through a queue with a response callback and
written to the socket: it is a member of the queue and waits in the response
table. -/
theorem queue_membership_witness :
    World.start (some [0, 0, 0, 0]) [.written 4, .written 100] 0 = some sampleWrapStart ∧
    ((run .little sampleWrapStart sampleWrapFirst).queue 0).reqs = [0] ∧
    (run .little sampleWrapStart sampleWrapFirst).chan.resp_table = [(1, 0)] ∧
    ∀ h q, ((run .little sampleWrapStart sampleWrapFirst).req h).queue = some q ↔
      h ∈ ((run .little sampleWrapStart sampleWrapFirst).queue q).reqs :=
  ⟨rfl, by decide, by decide,
    (queue_membership .little (some [0, 0, 0, 0]) [.written 4, .written 100] 0 _ rfl _).1⟩

/-- The run of `sampleWrapOps` with as many requests piled up as it takes
for the last id to be 4294967295. -/
theorem wrap_run (n : Nat) (hn : 1 + n = 4294967295) :
    0 ∈ ((run .little sampleWrapStart (sampleWrapOps n)).queue 0).reqs ∧
    (run .little sampleWrapStart (sampleWrapOps n)).chan.send_req ≠ some 0 ∧
    0 ∉ (run .little sampleWrapStart (sampleWrapOps n)).chan.fifo ∧
    ∀ kv ∈ (run .little sampleWrapStart (sampleWrapOps n)).chan.resp_table, kv.2 ≠ 0 := by
  unfold sampleWrapOps
  rw [run_append, run_append]
  have hc := run_core .little sampleWrapFirst sampleWrapStart
    (start_core (some [0, 0, 0, 0]) [.written 4, .written 100] 0 _ rfl).1
  have h0 : Piled 1 (run .little sampleWrapStart sampleWrapFirst) :=
    ⟨hc, by decide, by decide, by decide, by decide, by decide, by decide⟩
  have h1 := pile_run .little n _ 1 h0 (Nat.le_of_eq hn)
  rw [hn] at h1
  exact pile_wrap .little _ h1

/-- C39, counterexample: the request ids wrap around. The request 0 is
submitted through the queue 0 with a response callback, gets the id 1 and is
written to the socket: it waits for its response in the response table. After
4294967294 more submissions the last id is 4294967295, and the next
submission, the 4294967296th, gets the id 1 again: `g_hash_table_insert` puts
the new request in the place of the request 0. The request 0 is still a
member of the queue 0, but it is not the request in transmission, not in the
send queue and not in the response table. -/
theorem member_lost_after_wrap :
    World.start (some [0, 0, 0, 0]) [.written 4, .written 100] 0 = some sampleWrapStart ∧
    0 ∈ ((run .little sampleWrapStart (sampleWrapOps 4294967294)).queue 0).reqs ∧
    (run .little sampleWrapStart (sampleWrapOps 4294967294)).chan.send_req ≠ some 0 ∧
    0 ∉ (run .little sampleWrapStart (sampleWrapOps 4294967294)).chan.fifo ∧
    ∀ kv ∈ (run .little sampleWrapStart (sampleWrapOps 4294967294)).chan.resp_table,
      kv.2 ≠ 0 :=
  ⟨rfl, wrap_run 4294967294 (by norm_num)⟩

end Grilio
